import Mathlib

/-! TibiaCore: transfer engine, trade coordinator, decay wheel, creature
upkeep, money and house access.

A shallow embedding of the item transfer engine (`Game::internalMoveItem`,
`Game::internalAddItem`, `Game::internalRemoveItem`), of the two-party
trade coordinator (`Game::playerRequestTrade`, `Game::internalStartTrade`,
`Game::playerAcceptTrade`, `Game::internalCloseTrade`), of the decay wheel
(`Game::startDecay`, `Game::internalDecayItem`, `Game::checkDecay`,
`Game::cleanup`, with `Game::transformItem`), of the upkeep of the creatures
(`Game::addCreatureCheck`, `Game::removeCreatureCheck`,
`Game::checkCreatures`, `Game::ReleaseCreature`) and of the money functions
(`Game::addMoney`, `Game::removeMoney`) of `src/compiler/src/game.cpp`,
together with the item hooks and the access rules of
`src/compiler/src/house.cpp` (`Door::onRemoved`,
`HouseTransferItem::onTradeEvent`, `House::getHouseAccessLevel`,
`House::canEditAccessList`).

Pointers are natural numbers, nullable pointers are `Option`s, the game
state is an explicit `World` value passed through every operation, and the
virtual placement queries of the holders (whose implementations live in
files outside `src/`) are fields of an environment record `Env`.
-/

namespace TibiaCore

/-! ## Data model -/

/-- Outcome codes of the placement protocol that `game.cpp` names in the
functions embedded here; every other code of the enumeration is `other`. -/
inductive ReturnValue
  | RETURNVALUE_NOERROR
  | RETURNVALUE_NOTPOSSIBLE
  | RETURNVALUE_NOTENOUGHROOM
  | RETURNVALUE_NEEDEXCHANGE
  | RETURNVALUE_NOTENOUGHCAPACITY
  | RETURNVALUE_CONTAINERNOTENOUGHROOM
  | RETURNVALUE_YOUAREALREADYTRADING
  | RETURNVALUE_THISPLAYERISALREADYTRADING
  | RETURNVALUE_CREATUREISNOTREACHABLE
  | other (code : Nat)
  deriving DecidableEq, Repr

/-- Trade states of a player (`tradestate_t`). -/
inductive tradestate_t
  | TRADE_NONE
  | TRADE_INITIATED
  | TRADE_ACCEPT
  | TRADE_ACKNOWLEDGE
  | TRADE_TRANSFER
  deriving DecidableEq, Repr

/-- Events handed to `Item::onTradeEvent` (`TradeEvents_t`). -/
inductive TradeEvents_t
  | ON_TRADE_TRANSFER
  | ON_TRADE_CANCEL
  deriving DecidableEq, Repr

/-- Message classes used by the trade coordinator. -/
inductive MessageClasses
  | MESSAGE_STATUS_SMALL
  | MESSAGE_EVENT_ADVANCE
  | MESSAGE_INFO_DESCR
  deriving DecidableEq, Repr

/-- A holder of items (a `Cylinder*`): a map tile, a player, or the
container that is the item with the given pointer. -/
inductive Cylinder
  | tile (n : Nat)
  | player (p : Nat)
  | container (item : Nat)
  deriving DecidableEq, Repr

/-- The dynamic class of an item, as far as `house.cpp` overrides its hooks:
a `Door` (with its `house` pointer), a `HouseTransferItem` (with its `house`
pointer), or any other item. -/
inductive ItemKind
  | plain
  | door (house : Option Nat)
  | houseTransfer (house : Option Nat)
  deriving DecidableEq, Repr

/-- The attributes of an `Item` the embedded functions read or write. -/
structure Item where
  /-- Item type, `getID()`. -/
  id : Nat
  /-- Stack count, `getItemCount()`. -/
  count : Nat
  /-- Result of `isStackable()`. -/
  stackable : Bool
  /-- Current holder, `getParent()`. -/
  parent : Option Cylinder
  /-- Reference counter. -/
  referenceCounter : Int
  /-- Dynamic class. -/
  kind : ItemKind
  /-- Result of the virtual `canRemove()`. -/
  removable : Bool
  deriving DecidableEq, Repr

/-- The fields of a `Player` the trade coordinator reads or writes. -/
structure Player where
  /-- Creature id, `getID()`. -/
  id : Nat
  /-- Account-wide id, `getGUID()`. -/
  guid : Nat
  tradeState : tradestate_t
  tradePartner : Option Nat
  tradeItem : Option Nat
  /-- The tile the player stands on, which is the player's `getParent()`. -/
  tile : Option Nat
  deriving DecidableEq, Repr

/-- The fields of a `House` reached from the item hooks. -/
structure House where
  owner : Nat
  doorList : List Nat
  transferItem : Option Nat
  /-- The item pointer of the member `transfer_container`. -/
  transfer_container : Nat
  deriving DecidableEq, Repr

/-- The texts the trade coordinator sends, one constructor per literal. -/
inductive Text
  /-- "Trade cancelled." -/
  | tradeCancelled
  /-- "NAME wants to trade with you." -/
  | wantsToTrade (player : Nat)
  /-- "You do not have enough capacity to carry these objects." (plural) or
  "... this object.", followed by the weight description of the item. -/
  | notEnoughCapacity (several : Bool) (item : Nat)
  /-- "You do not have enough room to carry these objects." (plural) or
  "... this object." -/
  | notEnoughRoom (several : Bool)
  /-- "Trade could not be completed." -/
  | tradeNotCompleted
  deriving DecidableEq, Repr

/-- Observable calls on holders and players, in the order they are made. -/
inductive Event
  | postRemoveNotification (holder : Cylinder) (item : Nat) (newParent : Option Cylinder) (index : Int)
  | postAddNotification (holder : Cylinder) (item : Nat) (oldParent : Option Cylinder) (index : Int)
  | sendCancelMessage (player : Nat) (ret : ReturnValue)
  | sendTextMessage (player : Nat) (cls : MessageClasses) (text : Text)
  | sendTradeItemRequest (player : Nat) (trader : Nat) (item : Option Nat) (ack : Bool)
  | sendTradeClose (player : Nat)
  deriving DecidableEq, Repr

/-- The game state: the item heap, the content of every holder, the players,
the houses, the `tradeItems` registry (`std::map<Item*, uint32_t>`, kept as
an association list with unique keys), the deferred release queue
`ToReleaseItems`, and the log of notifications sent so far. -/
structure World where
  items : Nat → Item
  /-- Next unused item pointer, used by `Item::clone`. -/
  nextItem : Nat
  contents : Cylinder → List Nat
  players : Nat → Player
  /-- Lookup of an online player by id, `Game::getPlayerByID`. -/
  playerByID : Nat → Option Nat
  houses : Nat → House
  tradeItems : List (Nat × Nat)
  ToReleaseItems : List Nat
  log : List Event

/-- The value of `INDEX_WHEREEVER`. -/
def INDEX_WHEREEVER : Int := -1

/-- The virtual placement queries of the holders and the other collaborators
whose code is outside `src/`. Every query may read the whole game state.
`queryDestination` receives `index`, the occupant slot and `flags` by
reference, so it returns their new values next to the resolved holder. -/
structure Env where
  MAP_MAX_LAYERS : Nat
  FLAG_IGNOREAUTOSTACK : Nat
  FLAG_IGNORENOTMOVEABLE : Nat
  /-- Call `c->queryDestination(index, item, &toItem, flags)`. -/
  queryDestination : World → Cylinder → Int → Nat → Option Nat → Nat →
    Cylinder × Int × Option Nat × Nat
  /-- Call `c->queryAdd(index, item, count, flags, actor)`. -/
  queryAdd : World → Cylinder → Int → Nat → Nat → Nat → Option Nat → ReturnValue
  /-- Call `c->queryMaxCount(index, item, count, maxQueryCount, flags)` with
  `maxQueryCount` zero on entry; the second component is its value on exit. -/
  queryMaxCount : World → Cylinder → Int → Nat → Nat → Nat → ReturnValue × Nat
  /-- Call `c->queryRemove(item, count, flags)`. -/
  queryRemove : World → Cylinder → Nat → Nat → Nat → ReturnValue
  /-- Call `Game::canThrowObjectTo(from->getPosition(), to->getPosition())`
  for two players. -/
  canThrowObjectTo : World → Nat → Nat → Bool
  /-- Call `house->setOwner(guid)`, which goes through the database and the
  login data service. -/
  setOwner : World → Nat → Nat → World

/-! ## Holder primitives -/

/-- Modelled from the spec: `Cylinder::getItem()` of the holder classes
(missing from `src/`): a container is the item it is, a tile or a player is
no item. -/
def Cylinder.getItem : Cylinder → Option Nat
  | .container i => some i
  | _ => none

/-- Modelled from the spec: `Cylinder::getParent()` of the holder classes
(missing from `src/`): a container sits in the holder of its item, a player
on its tile, a tile is a root. -/
def getParent (w : World) : Cylinder → Option Cylinder
  | .container i => (w.items i).parent
  | .player p => ((w.players p).tile).map Cylinder.tile
  | .tile _ => none

/-- Modelled from the spec: `Cylinder::getThingIndex(item)` (missing from
`src/`): the position of the item in the holder's ordered sequence, or -1. -/
def getThingIndex (w : World) (c : Cylinder) (item : Nat) : Int :=
  if item ∈ w.contents c then ((w.contents c).indexOf item : Int) else -1

/-- Modelled from the spec: `Cylinder::removeThing(item, count)` (missing
from `src/`), an unchecked mutation primitive: part of a stack is taken off
its count, anything else is detached from the holder. -/
def removeThing (w : World) (c : Cylinder) (item : Nat) (count : Nat) : World :=
  if item ∈ w.contents c then
    if (w.items item).stackable = true ∧ count ≠ (w.items item).count then
      { w with items := Function.update w.items item
                 { w.items item with count := (w.items item).count - count } }
    else
      { w with items := Function.update w.items item { w.items item with parent := none },
               contents := Function.update w.contents c ((w.contents c).erase item) }
  else w

/-- Modelled from the spec: `Cylinder::addThing(index, item)` (missing from
`src/`), an unchecked mutation primitive: the item enters the holder's
sequence and the holder becomes its parent. -/
def addThing (w : World) (c : Cylinder) (_index : Int) (item : Nat) : World :=
  { w with items := Function.update w.items item { w.items item with parent := some c },
           contents := Function.update w.contents c (item :: w.contents c) }

/-- Modelled from the spec: `Cylinder::updateThing(item, itemId, count)`
(missing from `src/`), an unchecked mutation primitive: the item held by the
holder takes the given type and count. -/
def updateThing (w : World) (c : Cylinder) (item : Nat) (itemId : Nat) (count : Nat) : World :=
  if item ∈ w.contents c then
    { w with items := Function.update w.items item
               { w.items item with id := itemId, count := count } }
  else w

/-- Modelled from the spec: `Item::equals` (missing from `src/`): the other
item exists and is of the same type. -/
def Item.equals (w : World) (item : Nat) (other : Option Nat) : Bool :=
  match other with
  | none => false
  | some o => (w.items item).id == (w.items o).id

/-- Modelled from the spec: `Item::isRemoved` (missing from `src/`): the
item has no holder. -/
def Item.isRemoved (w : World) (item : Nat) : Bool :=
  (w.items item).parent.isNone

/-- Modelled from the spec: `Item::clone` followed by `setItemCount(count)`
(missing from `src/`): a fresh item of the same type with the given count,
no holder and one reference. Returns the new pointer and the new state. -/
def cloneWithCount (w : World) (item : Nat) (count : Nat) : Nat × World :=
  (w.nextItem,
   { w with items := Function.update w.items w.nextItem
              { w.items item with count := count, parent := none, referenceCounter := 1 },
            nextItem := w.nextItem + 1 })

/-- The body of `Game::ReleaseItem`: `ToReleaseItems.push_back(item)`. -/
def ReleaseItem (w : World) (item : Nat) : World :=
  { w with ToReleaseItems := w.ToReleaseItems ++ [item] }

/-- Append one event to the notification log. -/
def emit (w : World) (e : Event) : World :=
  { w with log := w.log ++ [e] }

/-- A notification that is sent only when the index it carries is not -1. -/
def emitIf (w : World) (index : Int) (e : Event) : World :=
  if index ≠ -1 then emit w e else w

/-! ## `Game::internalMoveItem` -/

/-- What `Game::internalMoveItem` hands back: the returned code, the state it
leaves, and the pointer it stores through `_moveItem` when it commits. -/
structure MoveResult where
  ret : ReturnValue
  world : World
  moved : Option Nat

/-- Conversion of a 32-bit unsigned value to `int32_t`. -/
def toInt32 (x : Nat) : Int :=
  if x % 4294967296 < 2147483648 then (x % 4294967296 : Nat) else (x % 4294967296 : Nat) - 4294967296

/-- The value of `std::min<uint32_t>(100 - toItem->getItemCount(), m)`: the
difference is converted to 32 unsigned bits before the comparison. -/
def mergeAmount (existing m : Nat) : Nat :=
  min (((100 : Int) - (existing : Int)) % 4294967296).toNat m

/-- The destination loop of `Game::internalMoveItem` (lines 993-1001).
`remaining` is the number of redirections still allowed before the
`++floorN >= MAP_MAX_LAYERS` test breaks out; after a redirection `flags`
is zero. Returns the holder, `index`, the occupant and `flags` on exit. -/
def resolveDestination (env : Env) (w : World) (item : Nat) :
    Nat → Cylinder → Int → Option Nat → Nat → Cylinder × Int × Option Nat × Nat
  | remaining, toCylinder, index, toItem, flags =>
    match env.queryDestination w toCylinder index item toItem flags with
    | (subCylinder, index1, toItem1, flags1) =>
      if subCylinder = toCylinder then (toCylinder, index1, toItem1, flags1)
      else
        match remaining with
        | 0 => (subCylinder, index1, toItem1, 0)
        | r + 1 => resolveDestination env w item r subCylinder index1 toItem1 0

/-- The `queryAdd` test of `Game::internalMoveItem` with the exchange of the
occupant (lines 1008-1040). Returns the state, the occupant pointer and the
value of `ret` (or of `retExchangeMaxCount` on the early return, which is not
`RETURNVALUE_NOERROR` there) on reaching line 1042; `none` when the occupant
pointer is null and dereferenced. -/
def exchangePhase (env : Env) (w : World) (fromCylinder toCylinder : Cylinder) (index : Int)
    (item count flags : Nat) (actor : Option Nat) (toItem : Option Nat) :
    Option (World × Option Nat × ReturnValue) :=
  let ret := env.queryAdd w toCylinder index item count flags actor
  if ret = .RETURNVALUE_NEEDEXCHANGE then
    match toItem with
    | none => none
    | some t =>
      let tc := (w.items t).count
      let ret1 := env.queryAdd w fromCylinder (getThingIndex w fromCylinder item) t tc 0 none
      if ret1 = .RETURNVALUE_NOERROR then
        let rm := env.queryMaxCount w fromCylinder INDEX_WHEREEVER t tc 0
        if rm.1 ≠ .RETURNVALUE_NOERROR ∧ rm.2 = 0 then some (w, some t, rm.1)
        else if env.queryRemove w toCylinder t tc flags = .RETURNVALUE_NOERROR then
          let oldToItemIndex := getThingIndex w toCylinder t
          let w1 := removeThing w toCylinder t tc
          let w2 := addThing w1 fromCylinder 0 t
          let w3 := emitIf w2 oldToItemIndex
            (.postRemoveNotification toCylinder t (some fromCylinder) oldToItemIndex)
          let newToItemIndex := getThingIndex w3 fromCylinder t
          let w4 := emitIf w3 newToItemIndex
            (.postAddNotification fromCylinder t (some toCylinder) newToItemIndex)
          some (w4, none, env.queryAdd w4 toCylinder index item count flags none)
        else some (w, some t, ret1)
      else some (w, some t, ret1)
  else some (w, toItem, ret)

/-- The trade safety test of `Game::internalMoveItem` on the parents of the
destination (lines 1073-1080): `some true` when a holder on the chain is the
reserved item, `some false` when the chain ends without one, `none` when the
chain is longer than `fuel` holders. -/
def reservedAbove (w : World) (tradeItem : Nat) : Nat → Option Cylinder → Option Bool
  | _, none => some false
  | 0, some _ => none
  | fuel + 1, some c =>
    if c.getItem = some tradeItem then some true
    else reservedAbove w tradeItem fuel (getParent w c)

/-- The whole trade safety test (lines 1068-1081). -/
def reservedCheck (w : World) (fuel : Nat) (toCylinder : Cylinder) :
    Option Nat → Option Bool
  | none => some false
  | some tradeItem =>
    if toCylinder.getItem = some tradeItem then some true
    else reservedAbove w tradeItem fuel (getParent w toCylinder)

/-- The merge into a compatible occupant (lines 1090-1098), after
`removeThing`: returns the state, the merged amount `n` and `updateItem`. -/
def mergeStep (w : World) (toCylinder : Cylinder) (item : Nat) (toItem : Option Nat) (m : Nat) :
    World × Nat × Option Nat :=
  match toItem with
  | some t =>
    if Item.equals w item (some t) = true then
      (updateThing w toCylinder t (w.items t).id
        ((w.items t).count + mergeAmount (w.items t).count m),
       mergeAmount (w.items t).count m, some t)
    else (w, 0, none)
  | none => (w, 0, none)

/-- The clone for the units left over (lines 1100-1106): returns the state
and `moveItem`. -/
def cloneStep (w : World) (item : Nat) (newCount : Int) : World × Option Nat :=
  if 0 < newCount then
    ((cloneWithCount w item newCount.toNat).2, some (cloneWithCount w item newCount.toNat).1)
  else (w, none)

/-- Lines 1108-1110: the moved item is queued for release once it has left
its holder. -/
def releaseIfRemoved (w : World) (item : Nat) : World :=
  if Item.isRemoved w item = true then ReleaseItem w item else w

/-- The stack update of the commit (lines 1089-1111) for a stackable item,
after `removeThing`: returns the state, `moveItem` and `updateItem`. -/
def stackUpdate (w : World) (toCylinder : Cylinder) (item : Nat) (toItem : Option Nat) (m : Nat) :
    World × Option Nat × Option Nat :=
  let r := mergeStep w toCylinder item toItem m
  let c := cloneStep r.1 item (toInt32 (m - r.2.1))
  (releaseIfRemoved c.1 item, c.2, r.2.2)

/-- The notifications of the commit (lines 1118-1134): `postRemoveNotification`
on the source, then `postAddNotification` on the destination for `moveItem`
and for `updateItem`, each with the index the item has at that moment and
each skipped when that index is -1. -/
def commitNotify (w : World) (fromCylinder toCylinder : Cylinder) (item : Nat) (itemIndex : Int)
    (moveItem updateItem : Option Nat) : World :=
  let w4 := emitIf w itemIndex
    (.postRemoveNotification fromCylinder item (some toCylinder) itemIndex)
  let w5 := match moveItem with
    | some mi => emitIf w4 (getThingIndex w4 toCylinder mi)
        (.postAddNotification toCylinder mi (some fromCylinder) (getThingIndex w4 toCylinder mi))
    | none => w4
  match updateItem with
  | some ui => emitIf w5 (getThingIndex w5 toCylinder ui)
      (.postAddNotification toCylinder ui (some fromCylinder) (getThingIndex w5 toCylinder ui))
  | none => w5

/-- The `addThing` of the commit (lines 1113-1116), skipped when `moveItem`
is null. -/
def addMoved (w : World) (toCylinder : Cylinder) (index : Int) : Option Nat → World
  | some mi => addThing w toCylinder index mi
  | none => w

/-- The commit of `Game::internalMoveItem` (lines 1083-1142), reached once
every query has passed: returns the state and the `_moveItem` value. -/
def commitMove (w : World) (fromCylinder toCylinder : Cylinder) (index : Int)
    (item : Nat) (toItem : Option Nat) (m : Nat) : World × Option Nat :=
  let itemIndex := getThingIndex w fromCylinder item
  let w1 := removeThing w fromCylinder item m
  let s : World × Option Nat × Option Nat :=
    if (w1.items item).stackable = true then stackUpdate w1 toCylinder item toItem m
    else (w1, some item, none)
  let w3 := addMoved s.1 toCylinder index s.2.1
  (commitNotify w3 fromCylinder toCylinder item itemIndex s.2.1 s.2.2, some (s.2.1.getD item))

/-- The clamped amount `m` of `Game::internalMoveItem` (lines 1053-1058). -/
def clampAmount (w : World) (item count maxQueryCount : Nat) : Nat :=
  if (w.items item).stackable = true then min count maxQueryCount else maxQueryCount

/-- Lines 1042-1148 of `Game::internalMoveItem`: the clamp through
`queryMaxCount`, `queryRemove` on the source, the trade safety test and the
commit, entered with the state, occupant and `ret` of line 1042. -/
def moveAfterAdd (env : Env) (fuel : Nat) (w : World) (fromCylinder toCylinder : Cylinder)
    (index : Int) (item count flags : Nat) (tradeItem : Option Nat) (toItem : Option Nat)
    (ret : ReturnValue) : Option MoveResult :=
  if ret ≠ .RETURNVALUE_NOERROR then some ⟨ret, w, none⟩
  else
    let rm := env.queryMaxCount w toCylinder index item count flags
    let retMaxCount := rm.1
    let maxQueryCount := rm.2
    if retMaxCount ≠ .RETURNVALUE_NOERROR ∧ maxQueryCount = 0 then some ⟨retMaxCount, w, none⟩
    else
      let m := clampAmount w item count maxQueryCount
      let ret2 := env.queryRemove w fromCylinder item m flags
      if ret2 ≠ .RETURNVALUE_NOERROR then some ⟨ret2, w, none⟩
      else
        match reservedCheck w fuel toCylinder tradeItem with
        | none => none
        | some true => some ⟨.RETURNVALUE_NOTENOUGHROOM, w, none⟩
        | some false =>
          let c := commitMove w fromCylinder toCylinder index item toItem m
          if (w.items item).stackable = true ∧ maxQueryCount < count then
            some ⟨retMaxCount, c.1, c.2⟩
          else some ⟨ret2, c.1, c.2⟩

/-- `Game::internalMoveItem(fromCylinder, toCylinder, index, item, count,
_moveItem, flags, actor, tradeItem)`. `fuel` bounds the walk over the
parents of the destination, the only unbounded loop of the function; the
result is `none` when that walk does not end within `fuel` holders or when a
null occupant is dereferenced. -/
def internalMoveItem (env : Env) (fuel : Nat) (w : World) (fromCylinder toCylinder : Cylinder)
    (index : Int) (item count flags : Nat) (actor : Option Nat) (tradeItem : Option Nat) :
    Option MoveResult :=
  match resolveDestination env w item (env.MAP_MAX_LAYERS - 1) toCylinder index none flags with
  | (toCyl, index1, toItem, flags1) =>
    if some item = toItem then some ⟨.RETURNVALUE_NOERROR, w, none⟩
    else
      match exchangePhase env w fromCylinder toCyl index1 item count flags1 actor toItem with
      | none => none
      | some (w1, toItem1, ret) =>
        moveAfterAdd env fuel w1 fromCylinder toCyl index1 item count flags1 tradeItem toItem1 ret

/-- The call `internalMoveItem(fromCylinder, toCylinder, index, item, count,
_, flags, actor, tradeItem)` passes every test and reaches its commit
(line 1083): the destination resolves to `toCyl` with index `index1` and
occupant `toItem`, the commit starts in state `w1` with occupant pointer
`toItem1` and clamped amount `m`. The state `w1` is the initial state and
`toItem1` is `toItem` unless the occupant was first exchanged into the
source, which clears the pointer. -/
def ReachesCommit (env : Env) (fuel : Nat) (w : World) (fromCylinder toCylinder : Cylinder)
    (index : Int) (item count flags : Nat) (actor tradeItem : Option Nat)
    (w1 : World) (toCyl : Cylinder) (index1 : Int) (toItem toItem1 : Option Nat) (m : Nat) :
    Prop :=
  ∃ flags1,
    resolveDestination env w item (env.MAP_MAX_LAYERS - 1) toCylinder index none flags
      = (toCyl, index1, toItem, flags1) ∧
    some item ≠ toItem ∧
    exchangePhase env w fromCylinder toCyl index1 item count flags1 actor toItem
      = some (w1, toItem1, .RETURNVALUE_NOERROR) ∧
    ¬ ((env.queryMaxCount w1 toCyl index1 item count flags1).1 ≠ .RETURNVALUE_NOERROR ∧
        (env.queryMaxCount w1 toCyl index1 item count flags1).2 = 0) ∧
    m = clampAmount w1 item count (env.queryMaxCount w1 toCyl index1 item count flags1).2 ∧
    env.queryRemove w1 fromCylinder item m flags1 = .RETURNVALUE_NOERROR ∧
    reservedCheck w1 fuel toCyl tradeItem = some false

/-! ## Measures on holders -/

/-- The number of units a holder has over all the items of its sequence. -/
def unitsIn (w : World) (c : Cylinder) : Nat :=
  ((w.contents c).map fun i => (w.items i).count).sum

/-- The number of units over a source and a destination holder, counted once
when they are the same holder. -/
def unitsOver (w : World) (a b : Cylinder) : Nat :=
  if a = b then unitsIn w a else unitsIn w a + unitsIn w b

/-- The units of one stack as far as holder `c` holds it: its count when it is
in the sequence of `c`, zero otherwise. -/
def heldUnits (w : World) (c : Cylinder) (item : Nat) : Nat :=
  if item ∈ w.contents c then (w.items item).count else 0

/-- The items of holder `c` in state `w1` that it did not hold in state `w`. -/
def newStacks (w w1 : World) (c : Cylinder) : List Nat :=
  (w1.contents c).filter fun i => decide (i ∉ w.contents c)

/-- Source and destination are well formed for a move: neither sequence
repeats an item, no item is in both, and every item they hold is below the
allocation pointer. -/
def HoldersOk (w : World) (a b : Cylinder) : Prop :=
  (w.contents a).Nodup ∧ (w.contents b).Nodup ∧
  (a ≠ b → ∀ i ∈ w.contents a, i ∉ w.contents b) ∧
  (∀ i ∈ w.contents a, i < w.nextItem) ∧ (∀ i ∈ w.contents b, i < w.nextItem)

/-- The number `n` of units the occupant takes in the commit of
`Game::internalMoveItem` (lines 1092-1098): `min(100 - e, m)` for a compatible
occupant holding `e` units, zero when there is no compatible occupant. -/
def mergedUnits (w : World) (item : Nat) (toItem : Option Nat) (m : Nat) : Nat :=
  match toItem with
  | some t => if Item.equals w item (some t) = true then mergeAmount (w.items t).count m else 0
  | none => 0

/-- The gain `n = min(100 - e, m)` of a compatible occupant holding `e` units
when `m` units arrive, zero when there is no compatible occupant. -/
def stackGain (w : World) (item : Nat) (toItem : Option Nat) (m : Nat) : Nat :=
  match toItem with
  | some t => if Item.equals w item (some t) = true then min (100 - (w.items t).count) m else 0
  | none => 0

/-! ## Item hooks of `house.cpp` -/

/-- Store a new value for one item. -/
def setItem (w : World) (i : Nat) (it : Item) : World :=
  { w with items := Function.update w.items i it }

/-- Store a new value for one house. -/
def setHouse (w : World) (h : Nat) (hs : House) : World :=
  { w with houses := Function.update w.houses h hs }

/-- Store a new value for one player. -/
def setPlayer (w : World) (p : Nat) (pl : Player) : World :=
  { w with players := Function.update w.players p pl }

/-- `House::removeDoor(door)` (house.cpp lines 285-292): a door found in
`doorList` loses one reference and leaves the list. -/
def removeDoor (w : World) (house door : Nat) : World :=
  if door ∈ (w.houses house).doorList then
    { w with items := Function.update w.items door
               { w.items door with referenceCounter := (w.items door).referenceCounter - 1 },
             houses := Function.update w.houses house
               { w.houses house with doorList := (w.houses house).doorList.erase door } }
  else w

/-- The virtual `Item::onRemoved()`. For a `Door` it is `Door::onRemoved`
(house.cpp lines 538-545): the base hook, then `house->removeDoor(this)` when
the door has a house. Modelled from the spec: the base `Item::onRemoved`
(missing from `src/`) touches no holder, player or house. -/
def onRemoved (w : World) (item : Nat) : World :=
  match (w.items item).kind with
  | .door (some house) => removeDoor w house item
  | _ => w

/-- `House::resetTransferItem()` (house.cpp lines 346-356). -/
def resetTransferItem (w : World) (house : Nat) : World :=
  match (w.houses house).transferItem with
  | some tmpItem =>
    let tc := (w.houses house).transfer_container
    let w1 : World := setHouse w house { w.houses house with transferItem := none }
    let w2 : World := setItem w1 tc { w1.items tc with parent := none }
    let w3 := removeThing w2 (.container tc) tmpItem (w2.items tmpItem).count
    ReleaseItem w3 tmpItem
  | none => w

/-- `House::executeTransfer(item, newOwner)` (house.cpp lines 383-392),
without its boolean result, which the caller drops. -/
def executeTransfer (env : Env) (w : World) (house item newOwner : Nat) : World :=
  if (w.houses house).transferItem ≠ some item then w
  else
    let w1 : World := env.setOwner w house (w.players newOwner).guid
    setHouse w1 house { w1.houses house with transferItem := none }

/-- Conversion of an `int32_t` to 32 unsigned bits. -/
def toUInt32 (x : Int) : Nat := (x % 4294967296).toNat

/-! ## `Game::internalRemoveItem` and `Game::internalAddItem` -/

/-- `Game::internalRemoveItem(item, count, test, flags)` (lines 1235-1271). -/
def internalRemoveItem (env : Env) (w : World) (item : Nat) (count : Int) (test : Bool)
    (flags : Nat) : ReturnValue × World :=
  match (w.items item).parent with
  | none => (.RETURNVALUE_NOTPOSSIBLE, w)
  | some cylinder =>
    let count1 : Int := if count = -1 then ((w.items item).count : Int) else count
    let ret := env.queryRemove w cylinder item (toUInt32 count1) (flags ||| env.FLAG_IGNORENOTMOVEABLE)
    if ret ≠ .RETURNVALUE_NOERROR then (ret, w)
    else if (w.items item).removable = false then (.RETURNVALUE_NOTPOSSIBLE, w)
    else
      let w1 :=
        if test = false then
          let index := getThingIndex w cylinder item
          let w2 := removeThing w cylinder item (toUInt32 count1)
          let w3 := releaseIfRemoved w2 item
          emit w3 (.postRemoveNotification cylinder item none index)
        else w
      (.RETURNVALUE_NOERROR, onRemoved w1 item)

/-- The unmerged add of `Game::internalAddItem` (lines 1206-1211 and
1224-1229): `addThing` and the notification with the index the item has. -/
def plainAdd (w : World) (toCylinder : Cylinder) (index : Int) (item : Nat) : World :=
  let w1 := addThing w toCylinder index item
  emitIf w1 (getThingIndex w1 toCylinder item)
    (.postAddNotification toCylinder item none (getThingIndex w1 toCylinder item))

/-- `Game::internalAddItem(toCylinder, item, index, flags, test,
remainderCount)` (lines 1158-1233). The result carries the returned code, the
state and the value left in `remainderCount` (zero on entry). `fuel` bounds
the depth of the recursion for the remainder of a merged stack; the result
is `none` only when that depth is exceeded. -/
def internalAddItem (env : Env) : Nat → World → Option Cylinder → Option Nat → Int → Nat → Bool →
    Option (ReturnValue × World × Nat)
  | fuel, w, toCylinder, item, index, flags, test =>
    match toCylinder, item with
    | some destCylinder, some item =>
      match env.queryDestination w destCylinder index item none flags with
      | (toCyl, index1, toItem, flags1) =>
        let ret := env.queryAdd w toCyl index1 item (w.items item).count flags1 none
        if ret ≠ .RETURNVALUE_NOERROR then some (ret, w, 0)
        else
          let rm := env.queryMaxCount w destCylinder INDEX_WHEREEVER item (w.items item).count flags1
          if rm.1 ≠ .RETURNVALUE_NOERROR then some (rm.1, w, 0)
          else if test = true then some (.RETURNVALUE_NOERROR, w, 0)
          else
            match toItem with
            | some t =>
              if (w.items item).stackable = true ∧ Item.equals w item (some t) = true then
                let m := min (w.items item).count rm.2
                let n := mergeAmount (w.items t).count m
                let w1 := updateThing w toCyl t (w.items t).id ((w.items t).count + n)
                let count := toInt32 (m - n)
                if 0 < count then
                  if ((w1.items item).count : Int) ≠ count then
                    let p := cloneWithCount w1 item count.toNat
                    match fuel with
                    | 0 => none
                    | f + 1 =>
                      match internalAddItem env f p.2 (some destCylinder) (some p.1)
                          INDEX_WHEREEVER flags1 false with
                      | none => none
                      | some (ret3, w3, _) =>
                        if ret3 ≠ .RETURNVALUE_NOERROR then
                          some (.RETURNVALUE_NOERROR, ReleaseItem w3 p.1, count.toNat)
                        else some (.RETURNVALUE_NOERROR, w3, 0)
                  else some (.RETURNVALUE_NOERROR, plainAdd w1 toCyl index1 item, 0)
                else
                  let w2 := ReleaseItem (onRemoved w1 item) item
                  some (.RETURNVALUE_NOERROR,
                    emitIf w2 (getThingIndex w2 toCyl t)
                      (.postAddNotification toCyl t none (getThingIndex w2 toCyl t)), 0)
              else some (.RETURNVALUE_NOERROR, plainAdd w toCyl index1 item, 0)
            | none => some (.RETURNVALUE_NOERROR, plainAdd w toCyl index1 item, 0)
    | _, _ => some (.RETURNVALUE_NOTPOSSIBLE, w, 0)

/-- The virtual `Item::onTradeEvent(event, owner)`. For a
`HouseTransferItem` it is `HouseTransferItem::onTradeEvent` (house.cpp lines
370-381): on a transfer the house changes owner and the document is removed
through `internalRemoveItem(this, 1)`; on a cancel the house withdraws the
document. Modelled from the spec: the base `Item::onTradeEvent` (missing from
`src/`) does nothing. -/
def onTradeEvent (env : Env) (w : World) (item : Nat) (event : TradeEvents_t) (owner : Nat) :
    World :=
  match (w.items item).kind with
  | .houseTransfer house =>
    match event with
    | .ON_TRADE_TRANSFER =>
      let w1 := match house with
        | some h => executeTransfer env w h item owner
        | none => w
      (internalRemoveItem env w1 item 1 false 0).2
    | .ON_TRADE_CANCEL =>
      match house with
      | some h => resetTransferItem w h
      | none => w
  | _ => w

/-! ## Trade coordinator -/

/-- `player->setTradeState(state)`. -/
def setTradeState (w : World) (p : Nat) (state : tradestate_t) : World :=
  setPlayer w p { w.players p with tradeState := state }

/-- The lookup `tradeItems.find(item) != tradeItems.end()`. -/
def tradeItemsContains (w : World) (item : Nat) : Bool :=
  w.tradeItems.any fun e => e.1 == item

/-- The assignment `tradeItems[item] = id`. -/
def tradeItemsAssign (w : World) (item id : Nat) : World :=
  { w with tradeItems := (item, id) :: w.tradeItems.filter fun e => e.1 != item }

/-- The block `it = tradeItems.find(item); if (it != tradeItems.end())
{ ReleaseItem(it->first); tradeItems.erase(it); }` for a possibly null
`item` (a null pointer is never a key of the registry). -/
def releaseTradeItem (w : World) : Option Nat → World
  | none => w
  | some item =>
    if tradeItemsContains w item = true then
      let w1 := ReleaseItem w item
      { w1 with tradeItems := w1.tradeItems.filter fun e => e.1 != item }
    else w

/-- `Game::internalStartTrade(player, tradePartner, tradeItem)` (lines
2324-2355): the result and the new state. -/
def internalStartTrade (w : World) (player tradePartner tradeItem : Nat) : Bool × World :=
  if (w.players player).tradeState ≠ .TRADE_NONE ∧
      ¬ ((w.players player).tradeState = .TRADE_ACKNOWLEDGE ∧
          (w.players player).tradePartner = some tradePartner) then
    (false, emit w (.sendCancelMessage player .RETURNVALUE_YOUAREALREADYTRADING))
  else if (w.players tradePartner).tradeState ≠ .TRADE_NONE ∧
      (w.players tradePartner).tradePartner ≠ some player then
    (false, emit w (.sendCancelMessage player .RETURNVALUE_THISPLAYERISALREADYTRADING))
  else
    let w1 := setPlayer w player
      { w.players player with
        tradePartner := some tradePartner, tradeItem := some tradeItem,
        tradeState := .TRADE_INITIATED }
    let w2 := setItem w1 tradeItem
      { w1.items tradeItem with referenceCounter := (w1.items tradeItem).referenceCounter + 1 }
    let w3 := tradeItemsAssign w2 tradeItem (w2.players player).id
    let w4 := emit w3 (.sendTradeItemRequest player player (some tradeItem) true)
    if (w4.players tradePartner).tradeState = .TRADE_NONE then
      let w5 := emit w4 (.sendTextMessage tradePartner .MESSAGE_EVENT_ADVANCE (.wantsToTrade player))
      (true, setPlayer w5 tradePartner
        { w5.players tradePartner with
          tradeState := .TRADE_ACKNOWLEDGE, tradePartner := some player })
    else
      let counterOfferItem := (w4.players tradePartner).tradeItem
      let w5 := emit w4 (.sendTradeItemRequest player tradePartner counterOfferItem false)
      (true, emit w5 (.sendTradeItemRequest tradePartner player (some tradeItem) false))

/-- `Game::getTradeErrorDescription(ret, item)` (lines 2453-2482). -/
def getTradeErrorDescription (w : World) (ret : ReturnValue) (item : Option Nat) : Text :=
  match item with
  | some i =>
    if ret = .RETURNVALUE_NOTENOUGHCAPACITY then
      .notEnoughCapacity ((w.items i).stackable && decide ((w.items i).count > 1)) i
    else if ret = .RETURNVALUE_NOTENOUGHROOM ∨ ret = .RETURNVALUE_CONTAINERNOTENOUGHROOM then
      .notEnoughRoom ((w.items i).stackable && decide ((w.items i).count > 1))
    else .tradeNotCompleted
  | none => .tradeNotCompleted

/-- The outcome of the validation and commit block of
`Game::playerAcceptTrade`: the state, `isSuccess`, `ret1` and `ret2`. -/
structure TransferOutcome where
  world : World
  isSuccess : Bool
  ret1 : ReturnValue
  ret2 : ReturnValue

/-- The two moves of the commit (lines 2407-2421), entered once the four
validation tests have passed. `none` when a pointer that the code
dereferences is null or a move does not return. -/
def tradeCommit (env : Env) (fuel : Nat) (w : World) (player tradePartner : Nat)
    (tradeItem1 tradeItem2 : Nat) (ret2 : ReturnValue) : Option TransferOutcome :=
  match (w.items tradeItem1).parent, (w.items tradeItem2).parent with
  | some cylinder1, some cylinder2 =>
    let count1 := (w.items tradeItem1).count
    let count2 := (w.items tradeItem2).count
    match internalMoveItem env fuel w cylinder1 (.player tradePartner) INDEX_WHEREEVER tradeItem1
        count1 env.FLAG_IGNOREAUTOSTACK none (some tradeItem2) with
    | none => none
    | some r1 =>
      if r1.ret = .RETURNVALUE_NOERROR then
        match internalMoveItem env fuel r1.world cylinder2 (.player player) INDEX_WHEREEVER
            tradeItem2 count2 env.FLAG_IGNOREAUTOSTACK none none with
        | none => none
        | some r2 =>
          let w1 := onTradeEvent env r2.world tradeItem1 .ON_TRADE_TRANSFER tradePartner
          let w2 := onTradeEvent env w1 tradeItem2 .ON_TRADE_TRANSFER player
          some ⟨w2, true, r1.ret, ret2⟩
      else some ⟨r1.world, false, r1.ret, ret2⟩
  | _, _ => none

/-- The outcome of the four validation tests of `Game::playerAcceptTrade`:
the state they leave, the values of `ret1` and `ret2`, and whether all four
passed. -/
structure ValidationOutcome where
  world : World
  ret1 : ReturnValue
  ret2 : ReturnValue
  passed : Bool

/-- The validation tests of `Game::playerAcceptTrade` (lines 2401-2406):
`internalAddItem` with `test = true` for each recipient and, when both pass,
`internalRemoveItem` with `test = true` for each source. -/
def tradeValidate (env : Env) (w : World) (player tradePartner : Nat)
    (tradeItem1 tradeItem2 : Option Nat) : Option ValidationOutcome :=
  match internalAddItem env 0 w (some (.player tradePartner)) tradeItem1 INDEX_WHEREEVER 0 true with
  | none => none
  | some (ret1, wa, _) =>
    match internalAddItem env 0 wa (some (.player player)) tradeItem2 INDEX_WHEREEVER 0 true with
    | none => none
    | some (ret2, wb, _) =>
      if ret1 = .RETURNVALUE_NOERROR ∧ ret2 = .RETURNVALUE_NOERROR then
        match tradeItem1, tradeItem2 with
        | some i1, some i2 =>
          let a := internalRemoveItem env wb i1 ((wb.items i1).count : Int) true 0
          let b := internalRemoveItem env a.2 i2 ((a.2.items i2).count : Int) true 0
          some ⟨b.2, a.1, b.1,
            decide (a.1 = .RETURNVALUE_NOERROR ∧ b.1 = .RETURNVALUE_NOERROR)⟩
        | _, _ => none
      else some ⟨wb, ret1, ret2, false⟩

/-- The validation and commit block of `Game::playerAcceptTrade` (lines
2399-2423). -/
def tradeTransfer (env : Env) (fuel : Nat) (w : World) (player tradePartner : Nat)
    (tradeItem1 tradeItem2 : Option Nat) : Option TransferOutcome :=
  match tradeValidate env w player tradePartner tradeItem1 tradeItem2 with
  | none => none
  | some v =>
    if v.passed = true then
      match tradeItem1, tradeItem2 with
      | some i1, some i2 => tradeCommit env fuel v.world player tradePartner i1 i2 v.ret2
      | _, _ => none
    else some ⟨v.world, false, v.ret1, v.ret2⟩

/-- The failure notices of `Game::playerAcceptTrade` (lines 2425-2439). -/
def tradeFailureNotices (env : Env) (w : World) (player tradePartner : Nat)
    (tradeItem1 tradeItem2 : Option Nat) (ret1 ret2 : ReturnValue) : World :=
  let w1 := match (w.players tradePartner).tradeItem with
    | some pi =>
      let wa := emit w (.sendTextMessage tradePartner .MESSAGE_EVENT_ADVANCE
        (getTradeErrorDescription w ret1 tradeItem1))
      onTradeEvent env wa pi .ON_TRADE_CANCEL tradePartner
    | none => w
  match (w1.players player).tradeItem with
  | some pi =>
    let wa := emit w1 (.sendTextMessage player .MESSAGE_EVENT_ADVANCE
      (getTradeErrorDescription w1 ret2 tradeItem2))
    onTradeEvent env wa pi .ON_TRADE_CANCEL player
  | none => w1

/-- The reset of one side at the end of a trade (lines 2441-2449):
`setTradeState(TRADE_NONE)`, no item, no partner, `sendTradeClose()`. -/
def resetTrade (w : World) (p : Nat) : World :=
  emit (setPlayer w p
    { w.players p with tradeState := .TRADE_NONE, tradeItem := none, tradePartner := none })
    (.sendTradeClose p)

/-- The start of the transfer in `Game::playerAcceptTrade` (lines
2384-2397): both sides enter `TRADE_TRANSFER` and both offered items leave
the registry, each queued for release when it was registered. -/
def beginTransfer (w : World) (player tradePartner : Nat) : World :=
  let tradeItem1 := (w.players player).tradeItem
  let tradeItem2 := (w.players tradePartner).tradeItem
  let w1 := setTradeState w player .TRADE_TRANSFER
  let w2 := setTradeState w1 tradePartner .TRADE_TRANSFER
  let w3 := releaseTradeItem w2 tradeItem1
  releaseTradeItem w3 tradeItem2

/-- The body of `Game::playerAcceptTrade` once both sides are in
`TRADE_ACCEPT` (lines 2381-2449). -/
def completeTrade (env : Env) (fuel : Nat) (w : World) (player tradePartner : Nat) :
    Option World :=
  let tradeItem1 := (w.players player).tradeItem
  let tradeItem2 := (w.players tradePartner).tradeItem
  match tradeTransfer env fuel (beginTransfer w player tradePartner) player tradePartner
      tradeItem1 tradeItem2 with
  | none => none
  | some o =>
    let w5 := if o.isSuccess = false then
        tradeFailureNotices env o.world player tradePartner tradeItem1 tradeItem2 o.ret1 o.ret2
      else o.world
    some (resetTrade (resetTrade w5 player) tradePartner)

/-- `Game::playerAcceptTrade(playerId)` (lines 2357-2451). -/
def playerAcceptTrade (env : Env) (fuel : Nat) (w : World) (playerId : Nat) : Option World :=
  match w.playerByID playerId with
  | none => some w
  | some player =>
    if ¬ ((w.players player).tradeState = .TRADE_ACKNOWLEDGE ∨
        (w.players player).tradeState = .TRADE_INITIATED) then some w
    else
      match (w.players player).tradePartner with
      | none => some w
      | some tradePartner =>
        if env.canThrowObjectTo w tradePartner player = false then
          some (emit w (.sendCancelMessage player .RETURNVALUE_CREATUREISNOTREACHABLE))
        else
          let w1 := setTradeState w player .TRADE_ACCEPT
          if (w1.players tradePartner).tradeState = .TRADE_ACCEPT then
            completeTrade env fuel w1 player tradePartner
          else some w1

/-- One side of `Game::internalCloseTrade` (lines 2561-2576 for the player,
2579-2594 for the partner): the offered item leaves the registry and gets
the cancel event, the trade fields are reset and the notices are sent. -/
def closeSide (env : Env) (w : World) (p : Nat) : World :=
  let w1 := match (w.players p).tradeItem with
    | some item =>
      let wa := releaseTradeItem w (some item)
      let wb := onTradeEvent env wa item .ON_TRADE_CANCEL p
      setPlayer wb p { wb.players p with tradeItem := none }
    | none => w
  let w2 := setPlayer w1 p { w1.players p with tradeState := .TRADE_NONE, tradePartner := none }
  let w3 := emit w2 (.sendTextMessage p .MESSAGE_STATUS_SMALL .tradeCancelled)
  emit w3 (.sendTradeClose p)

/-- The test `tradePartner && tradePartner->getTradeState() == TRADE_TRANSFER`. -/
def isTransferring (w : World) : Option Nat → Bool
  | some q => decide ((w.players q).tradeState = .TRADE_TRANSFER)
  | none => false

/-- `Game::internalCloseTrade(player)` (lines 2554-2596). -/
def internalCloseTrade (env : Env) (w : World) (player : Nat) : World :=
  let tradePartner := (w.players player).tradePartner
  if isTransferring w tradePartner = true ∨ (w.players player).tradeState = .TRADE_TRANSFER then w
  else
    let w1 := closeSide env w player
    match tradePartner with
    | some q => closeSide env w1 q
    | none => w1

/-- Whether an item is a `HouseTransferItem`. -/
def ItemKind.isDocument : ItemKind → Bool
  | .houseTransfer _ => true
  | _ => false

/-- Whether `i` is the item offered by the (possibly null) player `p`. -/
def offeredBy (w : World) (p : Option Nat) (i : Nat) : Bool :=
  match p with
  | some q => decide ((w.players q).tradeItem = some i)
  | none => false

/-- The trade fields of a player outside any trade: state `TRADE_NONE`, no
partner, no offered item. -/
def Player.idle (p : Player) : Prop :=
  p.tradeState = .TRADE_NONE ∧ p.tradePartner = none ∧ p.tradeItem = none

/-- The registry without the entry of a possibly null item. -/
def registryWithout (l : List (Nat × Nat)) : Option Nat → List (Nat × Nat)
  | none => l
  | some i => l.filter fun e => e.1 != i

/-- The releases made when a possibly null item leaves the registry: the
item itself when it has an entry, nothing otherwise. -/
def releasedFrom (l : List (Nat × Nat)) : Option Nat → List Nat
  | none => []
  | some i => if (l.any fun e => e.1 == i) = true then [i] else []

/-! ## The trade session invariant -/

/-- The failure notice a side receives when it has offered an item. -/
def failureNotice (w : World) (side : Nat) (ret : ReturnValue) (item : Option Nat) : List Event :=
  match (w.players side).tradeItem with
  | some _ => [.sendTextMessage side .MESSAGE_EVENT_ADVANCE (getTradeErrorDescription w ret item)]
  | none => []

/-- Whether an event is one of the failure notices of
`Game::getTradeErrorDescription`. -/
def Event.isFailureNotice : Event → Bool
  | .sendTextMessage _ _ (.notEnoughCapacity _ _) => true
  | .sendTextMessage _ _ (.notEnoughRoom _) => true
  | .sendTextMessage _ _ .tradeNotCompleted => true
  | _ => false

/-- The commit as the specification words it, for comparison with
`tradeCommit`: each of the two moves passes the other item as the reserved
item. It differs from `tradeCommit` only in the last argument of the second
move. -/
def tradeCommitReservingBoth (env : Env) (fuel : Nat) (w : World) (player tradePartner : Nat)
    (tradeItem1 tradeItem2 : Nat) (ret2 : ReturnValue) : Option TransferOutcome :=
  match (w.items tradeItem1).parent, (w.items tradeItem2).parent with
  | some cylinder1, some cylinder2 =>
    let count1 := (w.items tradeItem1).count
    let count2 := (w.items tradeItem2).count
    match internalMoveItem env fuel w cylinder1 (.player tradePartner) INDEX_WHEREEVER tradeItem1
        count1 env.FLAG_IGNOREAUTOSTACK none (some tradeItem2) with
    | none => none
    | some r1 =>
      if r1.ret = .RETURNVALUE_NOERROR then
        match internalMoveItem env fuel r1.world cylinder2 (.player player) INDEX_WHEREEVER
            tradeItem2 count2 env.FLAG_IGNOREAUTOSTACK none (some tradeItem1) with
        | none => none
        | some r2 =>
          let w1 := onTradeEvent env r2.world tradeItem1 .ON_TRADE_TRANSFER tradePartner
          let w2 := onTradeEvent env w1 tradeItem2 .ON_TRADE_TRANSFER player
          some ⟨w2, true, r1.ret, ret2⟩
      else some ⟨r1.world, false, r1.ret, ret2⟩
  | _, _ => none

/-- The state after the exchange of `Game::internalMoveItem` (lines
1023-1025), before its notifications: the occupant `t` leaves the
destination `b` and enters the source `a`. -/
def exchanged (w : World) (a b : Cylinder) (t : Nat) : World :=
  addThing (removeThing w b t (w.items t).count) a 0 t

/-! ## Further notions for the transfer engine -/

/-- The holder reached from `c` after `n` steps up the chain of parents
(`getParent`), when the chain is that long. -/
def ancestor (w : World) : Nat → Cylinder → Option Cylinder
  | 0, c => some c
  | n + 1, c => (getParent w c).bind (ancestor w n)

/-- Both queries of the test mode of `Game::internalAddItem` succeed: the
holder and the item are not null, `queryAdd` on the holder resolved through
`queryDestination` and `queryMaxCount` on the original holder both return
`RETURNVALUE_NOERROR`. -/
def addTestPasses (env : Env) (w : World) (toCylinder : Option Cylinder) (item : Option Nat)
    (index : Int) (flags : Nat) : Prop :=
  match toCylinder, item with
  | some destCylinder, some i =>
    env.queryAdd w (env.queryDestination w destCylinder index i none flags).1
        (env.queryDestination w destCylinder index i none flags).2.1 i (w.items i).count
        (env.queryDestination w destCylinder index i none flags).2.2.2 none
      = .RETURNVALUE_NOERROR ∧
    (env.queryMaxCount w destCylinder INDEX_WHEREEVER i (w.items i).count
        (env.queryDestination w destCylinder index i none flags).2.2.2).1
      = .RETURNVALUE_NOERROR
  | _, _ => False

/-- The items that the cancel hook of an offered item queues for release: for
a transfer document of a house, `House::resetTransferItem` queues the document
that the house has issued (house.cpp line 354), giving up the reference of the
document itself; the hook of any other item queues nothing. -/
def cancelQueue (w : World) : Option Nat → List Nat
  | none => []
  | some item =>
    match (w.items item).kind with
    | .houseTransfer house =>
      match house with
      | some h =>
        match (w.houses h).transferItem with
        | some tmpItem => [tmpItem]
        | none => []
      | none => []
    | _ => []

/-! ## Decay wheel -/

/-- Decay states of an item (`ItemDecayState_t`): the two values that
`game.cpp` names, and any other value of the enumeration. -/
inductive ItemDecayState_t
  | DECAYING_FALSE
  | DECAYING_TRUE
  | other (code : Nat)
  deriving DecidableEq, Repr

/-- The fields of an `ItemType`, an entry of the table `Item::items`, that
`Game::transformItem` and `Game::internalDecayItem` read. -/
structure ItemType where
  /-- Zero when the type does not exist. -/
  id : Nat
  alwaysOnTop : Bool
  type : Nat
  group : Nat
  decayTo : Int
  /-- Result of `hasSubType()`. -/
  hasSubType : Bool
  deriving DecidableEq, Repr

/-- The state of the `Game` object that the decay wheel works on: the game
state of the transfer engine, the decay attributes of every item, the list
`toDecayItems` of items waiting to enter the wheel, the buckets `decayItems`
and `lastBucket`. The last field is an observation and no part of the
program state: the items `Game::internalDecayItem` has been called on, in
the order of the calls. -/
structure Game where
  world : World
  /-- Result of `getDuration()` for every item. -/
  duration : Nat → Int
  /-- Result of `getDecaying()` for every item. -/
  decaying : Nat → ItemDecayState_t
  toDecayItems : List Nat
  decayItems : Nat → List Nat
  lastBucket : Nat
  decayLog : List Nat

/-- The environment of the decay wheel: the environment of the transfer
engine, the constants of `game.h`, the table `Item::items`, and the methods
of `Item` whose code is outside `src/`. Each method of an item acts on that
item alone. -/
structure DecayEnv extends Env where
  EVENT_DECAYINTERVAL : Nat
  EVENT_DECAY_BUCKETS : Nat
  /-- The table `Item::items`, indexed by type id. -/
  itemTypes : Nat → ItemType
  /-- Call `item->canDecay()`. -/
  canDecay : Game → Nat → Bool
  /-- Call `item->canTransform()`. -/
  canTransform : Game → Nat → Bool
  /-- Call `item->getSubType()`. -/
  getSubType : Game → Nat → Nat
  /-- Call `item->hasAttribute(ITEM_ATTRIBUTE_CHARGES)`. -/
  hasCharges : Game → Nat → Bool
  /-- Call `item->setID(newid)` on an item with the given attributes, duration
  and decay state: their values after the call. -/
  setID : Item → Int → ItemDecayState_t → Nat → Item × Int × ItemDecayState_t
  /-- Call `item->setSubType(n)`. -/
  setSubType : Item → Nat → Item
  /-- Call `item->setDefaultSubtype()`. -/
  setDefaultSubtype : Item → Item
  /-- Call `Item::CreateItem(type, count)`: the attributes, duration and decay
  state of the new item, or nothing when the call returns a null pointer. -/
  CreateItem : Nat → Nat → Option (Item × Int × ItemDecayState_t)

/-- Conversion of an `int32_t` to `uint16_t`. -/
def toUInt16 (x : Int) : Nat := (x % 65536).toNat

/-- Replace the state of the transfer engine. -/
def Game.withWorld (g : Game) (w : World) : Game := { g with world := w }

/-- The call `item->setID(newid)` on an item of the game. -/
def Game.setID (env : DecayEnv) (g : Game) (item newid : Nat) : Game :=
  let r := env.setID (g.world.items item) (g.duration item) (g.decaying item) newid
  { g with
    world := setItem g.world item r.1
    duration := Function.update g.duration item r.2.1
    decaying := Function.update g.decaying item r.2.2 }

/-- Modelled from the spec: `Cylinder::updateThing(item, itemId, count)`
(missing from `src/`) as `Game::transformItem` uses it, where the type may
change: the item gets the type through `Item::setID` and then the count. -/
def Game.updateThing (env : DecayEnv) (g : Game) (c : Cylinder) (item itemId count : Nat) : Game :=
  if item ∈ g.world.contents c then
    let g1 := g.setID env item itemId
    g1.withWorld (setItem g1.world item { g1.world.items item with count := count })
  else g

/-- Modelled from the spec: `Cylinder::replaceThing(index, newItem)` (missing
from `src/`), an unchecked mutation primitive: the new item takes the place
at `index` in the holder's sequence and the holder becomes its parent. -/
def replaceThing (w : World) (c : Cylinder) (index : Int) (newItem : Nat) : World :=
  { w with items := Function.update w.items newItem { w.items newItem with parent := some c },
           contents := Function.update w.contents c ((w.contents c).set index.toNat newItem) }

/-- A call of `Item::CreateItem` that does not return null: the new item
gets the next unused pointer. Returns the new pointer and the new state. -/
def Game.allocate (g : Game) (r : Item × Int × ItemDecayState_t) : Nat × Game :=
  (g.world.nextItem,
   { g with
     world := { g.world with items := Function.update g.world.items g.world.nextItem r.1,
                             nextItem := g.world.nextItem + 1 }
     duration := Function.update g.duration g.world.nextItem r.2.1
     decaying := Function.update g.decaying g.world.nextItem r.2.2 })

/-- The tail of `Game::transformItem` that swaps the item for a new one
(lines 1529-1538 and 1575-1585): `replaceThing`, the two notifications,
`setParent(nullptr)` and `ReleaseItem` on the old item. Returns the state and
the new item. -/
def replaceItem (g : Game) (cylinder : Cylinder) (itemIndex : Int) (item : Nat)
    (r : Item × Int × ItemDecayState_t) : Game × Option Nat :=
  let a := g.allocate r
  let w1 := replaceThing a.2.world cylinder itemIndex a.1
  let w2 := emit w1 (.postAddNotification cylinder a.1 (some cylinder) itemIndex)
  let w3 := setItem w2 item { w2.items item with parent := none }
  let w4 := emit w3 (.postRemoveNotification cylinder item (some cylinder) itemIndex)
  (a.2.withWorld (ReleaseItem w4 item), some a.1)

/-- The branch of `Game::transformItem` for a change of `alwaysOnTop` (lines
1489-1508): the item is taken out of its holder, retyped and added again. -/
def transformOnTop (env : DecayEnv) (g : Game) (cylinder : Cylinder) (itemIndex : Int)
    (item newId : Nat) (newCount : Int) : Game × Option Nat :=
  let w1 := removeThing g.world cylinder item (g.world.items item).count
  let w2 := emit w1 (.postRemoveNotification cylinder item (some cylinder) itemIndex)
  let g2 := (g.withWorld w2).setID env item newId
  let g3 := if newCount ≠ -1 then
      g2.withWorld (setItem g2.world item
        (env.setSubType (g2.world.items item) (toUInt16 newCount)))
    else g2
  let w4 := addThing g3.world cylinder 0 item
  match (w4.items item).parent with
  | none => (g3.withWorld (ReleaseItem w4 item), none)
  | some newParent =>
    (g3.withWorld (emit w4 (.postAddNotification newParent item (some cylinder)
      (getThingIndex w4 newParent item))), some item)

/-- The branch of `Game::transformItem` that changes id and subtype in place
(lines 1543-1563). -/
def transformInPlace (env : DecayEnv) (g : Game) (cylinder : Cylinder) (itemIndex : Int)
    (item newId : Nat) (newCount : Int) : Game × Option Nat :=
  let newType := env.itemTypes newId
  let curType := env.itemTypes (g.world.items item).id
  let w1 := emit g.world (.postRemoveNotification cylinder item (some cylinder) itemIndex)
  let count : Int := env.getSubType (g.withWorld w1) item
  let g2 := if curType.id ≠ newType.id ∧ newType.group ≠ curType.group then
      g.withWorld (setItem w1 item (env.setDefaultSubtype (w1.items item)))
    else g.withWorld w1
  let itemId := if curType.id ≠ newType.id then newId else (g.world.items item).id
  let count1 := if newCount ≠ -1 ∧ newType.hasSubType = true then newCount else count
  let g3 := g2.updateThing env cylinder item itemId (toUInt32 count1)
  (g3.withWorld (emit g3.world (.postAddNotification cylinder item (some cylinder) itemIndex)),
    some item)

/-- The call of `Item::CreateItem` and what follows it in
`Game::transformItem` (lines 1526-1538 and 1566-1585). -/
def transformReplace (env : DecayEnv) (g : Game) (cylinder : Cylinder) (itemIndex : Int)
    (item type count : Nat) : Game × Option Nat :=
  match env.CreateItem type count with
  | none => (g, none)
  | some r => replaceItem g cylinder itemIndex item r

/-- The branch of `Game::transformItem` for a new count of zero on a
stackable item or an item with charges (lines 1511-1542); `recur` is the
result of the recursive call of line 1540. -/
def transformSpent (env : DecayEnv) (recur : Nat → Option (Game × Option Nat)) (g : Game)
    (cylinder : Cylinder) (itemIndex : Int) (item newId : Nat) : Option (Game × Option Nat) :=
  let newType := env.itemTypes newId
  let curType := env.itemTypes (g.world.items item).id
  if (g.world.items item).stackable = true then
    some (g.withWorld (internalRemoveItem env.toEnv g.world item (-1) false 0).2, none)
  else
    let newItemId : Int := if curType.id = newType.id then curType.decayTo else newId
    if newItemId < 0 then
      some (g.withWorld (internalRemoveItem env.toEnv g.world item (-1) false 0).2, none)
    else if newItemId ≠ newId then
      some (transformReplace env g cylinder itemIndex item (toUInt16 newItemId) 1)
    else recur (toUInt16 newItemId)

/-- `Game::transformItem(item, newId, newCount)` (lines 1462-1586): the state
it leaves and the pointer it returns. `fuel` bounds the depth of the
recursion of line 1540, which is at most one call deep; the result is `none`
only when that depth is exceeded. -/
def transformItem (env : DecayEnv) : Nat → Game → Nat → Nat → Int → Option (Game × Option Nat)
  | fuel, g, item, newId, newCount =>
    if (g.world.items item).id = newId ∧
        (newCount = -1 ∨ (newCount = (env.getSubType g item : Int) ∧ newCount ≠ 0)) then
      some (g, some item)
    else
      match (g.world.items item).parent with
      | none => some (g, none)
      | some cylinder =>
        let itemIndex := getThingIndex g.world cylinder item
        if itemIndex = -1 then some (g, some item)
        else if env.canTransform g item = false then some (g, some item)
        else if (env.itemTypes newId).id = 0 then some (g, some item)
        else if (env.itemTypes (g.world.items item).id).alwaysOnTop
            ≠ (env.itemTypes newId).alwaysOnTop then
          some (transformOnTop env g cylinder itemIndex item newId newCount)
        else if (env.itemTypes (g.world.items item).id).type = (env.itemTypes newId).type then
          if newCount = 0 ∧
              ((g.world.items item).stackable = true ∨ env.hasCharges g item = true) then
            transformSpent env
              (fun newItemId =>
                match fuel with
                | 0 => none
                | f + 1 => transformItem env f g item newItemId (-1))
              g cylinder itemIndex item newId
          else some (transformInPlace env g cylinder itemIndex item newId newCount)
        else
          some (transformReplace env g cylinder itemIndex item newId
            (if newCount = -1 then 0 else toUInt16 newCount))

/-- The observation of a call of `Game::internalDecayItem` on `item`. -/
def Game.logDecay (g : Game) (item : Nat) : Game :=
  { g with decayLog := g.decayLog ++ [item] }

/-- `Game::internalDecayItem(item)` (lines 3710-3722), with the call of
`Game::startDecay` on the result of the transformation passed as `start`. -/
def internalDecayItemWith (env : DecayEnv) (start : Game → Option Nat → Option Game) (fuel : Nat)
    (g : Game) (item : Nat) : Option Game :=
  let g0 := g.logDecay item
  if (env.itemTypes (g0.world.items item).id).decayTo ≠ 0 then
    match transformItem env fuel g0 item
        (toUInt16 (env.itemTypes (g0.world.items item).id).decayTo) (-1) with
    | none => none
    | some (g1, newItem) => start g1 newItem
  else
    some (g0.withWorld (internalRemoveItem env.toEnv g0.world item (-1) false 0).2)

/-- The call `item->setDecaying(decayState)`. -/
def Game.setDecaying (g : Game) (item : Nat) (decayState : ItemDecayState_t) : Game :=
  { g with decaying := Function.update g.decaying item decayState }

/-- The registration of `Game::startDecay` (lines 3702-3704): the wheel takes
a reference to the item, flags it as decaying and puts it at the front of
`toDecayItems`. -/
def Game.register (g : Game) (item : Nat) : Game :=
  let g1 := g.withWorld (setItem g.world item
    { g.world.items item with referenceCounter := (g.world.items item).referenceCounter + 1 })
  { g1.setDecaying item .DECAYING_TRUE with toDecayItems := item :: g1.toDecayItems }

/-- `Game::startDecay(item)` (lines 3690-3708) for a possibly null item.
`fuel` bounds the depth of the mutual recursion with
`Game::internalDecayItem`; the result is `none` only when that depth is
exceeded. -/
def startDecay (env : DecayEnv) : Nat → Game → Option Nat → Option Game
  | _, g, none => some g
  | fuel, g, some item =>
    if env.canDecay g item = false then some g
    else if g.decaying item = .DECAYING_TRUE then some g
    else if 0 < g.duration item then some (g.register item)
    else
      match fuel with
      | 0 => none
      | f + 1 => internalDecayItemWith env (startDecay env f) f g item

/-- `Game::internalDecayItem(item)` (lines 3710-3722). -/
def internalDecayItem (env : DecayEnv) (fuel : Nat) (g : Game) (item : Nat) : Option Game :=
  internalDecayItemWith env (startDecay env fuel) fuel g item

/-- The loop of `Game::cleanup` over `ToReleaseItems` (lines 3872-3874):
every queued pointer loses one reference. -/
def releaseAll (w : World) : List Nat → World
  | [] => w
  | item :: rest =>
    releaseAll (setItem w item
      { w.items item with referenceCounter := (w.items item).referenceCounter - 1 }) rest

/-- The bucket `Game::cleanup` puts a waiting item into (lines 3878-3883),
from its duration converted to 32 unsigned bits. -/
def cleanupBucket (env : DecayEnv) (lastBucket : Nat) (duration : Int) : Nat :=
  if env.EVENT_DECAYINTERVAL * env.EVENT_DECAY_BUCKETS ≤ toUInt32 duration then lastBucket
  else (lastBucket + 1 + toUInt32 duration / 1000) % env.EVENT_DECAY_BUCKETS

/-- The statement `decayItems[bucket].push_back(item)`. -/
def Game.pushBack (g : Game) (bucket item : Nat) : Game :=
  { g with decayItems := Function.update g.decayItems bucket (g.decayItems bucket ++ [item]) }

/-- The loop of `Game::cleanup` over `toDecayItems` (lines 3877-3884). -/
def enterWheel (env : DecayEnv) (g : Game) : List Nat → Game
  | [] => g
  | item :: rest =>
    enterWheel env (g.pushBack (cleanupBucket env g.lastBucket (g.duration item)) item) rest

/-- `Game::cleanup()` (lines 3864-3885), without the creatures, which the
model does not hold. -/
def cleanup (env : DecayEnv) (g : Game) : Game :=
  let w1 := releaseAll g.world g.world.ToReleaseItems
  let g1 := g.withWorld { w1 with ToReleaseItems := [] }
  { enterWheel env g1 g1.toDecayItems with toDecayItems := [] }

/-- Modelled from the spec: `Item::decreaseDuration(time)` (missing from
`src/`): the duration of the item goes down by `time`. -/
def Game.decreaseDuration (g : Game) (item : Nat) (time : Int) : Game :=
  { g with duration := Function.update g.duration item (g.duration item - time) }

/-- The statement `it = decayItems[bucket].erase(it)` of `Game::checkDecay`:
the bucket keeps the items `done` left in place so far and the items `rest`
not yet visited. -/
def Game.eraseCurrent (g : Game) (bucket : Nat) (done rest : List Nat) : Game :=
  { g with decayItems := Function.update g.decayItems bucket (done ++ rest) }

/-- The calls `internalDecayItem(item); ReleaseItem(item);` of
`Game::checkDecay`. -/
def expire (env : DecayEnv) (fuel : Nat) (g : Game) (item : Nat) : Option Game :=
  match internalDecayItem env fuel g item with
  | none => none
  | some g1 => some (g1.withWorld (ReleaseItem g1.world item))

/-- One revolution of the wheel in milliseconds, the product
`EVENT_DECAYINTERVAL * EVENT_DECAY_BUCKETS`, as the `int32_t` that
`std::min<int32_t>` of `Game::checkDecay` takes (line 3741). -/
def revolution (env : DecayEnv) : Int :=
  toInt32 (env.EVENT_DECAYINTERVAL * env.EVENT_DECAY_BUCKETS)

/-- The local `decreaseTime` of `Game::checkDecay` (lines 3740-3741) for an
item whose `getDuration()` is `duration`: the duration is stored in an
`int32_t`, and `decreaseTime` is the smaller of one revolution and that
value. -/
def decreaseTime (env : DecayEnv) (duration : Int) : Int :=
  min (revolution env) (toInt32 (toUInt32 duration))

/-- The local `duration` of `Game::checkDecay` after `duration -=
decreaseTime` (lines 3740-3743), an `int32_t`, for an item whose
`getDuration()` is `duration`. -/
def durationLeft (env : DecayEnv) (duration : Int) : Int :=
  toInt32 (toUInt32 (toInt32 (toUInt32 duration) - decreaseTime env duration))

/-- One turn of the loop of `Game::checkDecay` (lines 3732-3761) for `item`,
found in `bucket` after the items `done` and before the items `rest`. The
result is the state and whether the item stays in the bucket. -/
def decayTurn (env : DecayEnv) (fuel : Nat) (bucket : Nat) (done rest : List Nat) (g : Game)
    (item : Nat) : Option (Game × Bool) :=
  if env.canDecay g item = false then
    let g1 := g.setDecaying item .DECAYING_FALSE
    let g2 := g1.withWorld (ReleaseItem g1.world item)
    some (g2.eraseCurrent bucket done rest, false)
  else
    let duration := durationLeft env (g.duration item)
    let g1 := g.decreaseDuration item (decreaseTime env (g.duration item))
    if duration ≤ 0 then
      (expire env fuel (g1.eraseCurrent bucket done rest) item).map fun g2 => (g2, false)
    else if duration < revolution env then
      let g2 := g1.eraseCurrent bucket done rest
      let newBucket := (bucket + ((duration + (env.EVENT_DECAYINTERVAL / 2 : Nat)) / 1000).toNat)
        % env.EVENT_DECAY_BUCKETS
      if newBucket = bucket then (expire env fuel g2 item).map fun g3 => (g3, false)
      else
        some (g2.pushBack newBucket item, false)
    else some (g1, true)

/-- The loop of `Game::checkDecay` over the bucket (lines 3730-3762): `done`
are the items left in place so far, the last argument the items still to
visit. -/
def decayBucket (env : DecayEnv) (fuel : Nat) (bucket : Nat) : List Nat → Game → List Nat →
    Option Game
  | _, g, [] => some g
  | done, g, item :: rest =>
    match decayTurn env fuel bucket done rest g item with
    | none => none
    | some (g1, stays) =>
      decayBucket env fuel bucket (if stays = true then done ++ [item] else done) g1 rest

/-- `Game::checkDecay()` (lines 3724-3766), without the scheduling of the
next call. `fuel` is handed to `Game::internalDecayItem`. -/
def checkDecay (env : DecayEnv) (fuel : Nat) (g : Game) : Option Game :=
  let bucket := (g.lastBucket + 1) % env.EVENT_DECAY_BUCKETS
  match decayBucket env fuel bucket [] g (g.decayItems bucket) with
  | none => none
  | some g1 => some (cleanup env { g1 with lastBucket := bucket })

/-! ## Notions for the decay wheel -/

/-- On the side of the decay wheel, `g1` differs from `g` at most in the
decay attributes of `item` and of items allocated since `g`. -/
def DecayFrame (g g1 : Game) (item : Nat) : Prop :=
  g1.toDecayItems = g.toDecayItems ∧ g1.decayItems = g.decayItems ∧
  g1.lastBucket = g.lastBucket ∧ g1.decayLog = g.decayLog ∧
  g.world.nextItem ≤ g1.world.nextItem ∧
  ∀ j, j ≠ item → j < g.world.nextItem →
    g1.decaying j = g.decaying j ∧ g1.duration j = g.duration j

/-- When an item that is flagged as decaying is transformed into the
successor of its type, the result, if it can decay and is not flagged as
decaying, has time left: `Game::startDecay` registers such a result and does
not decay it on the spot. -/
def DecayEnv.SuccessorHasTime (env : DecayEnv) : Prop :=
  ∀ (fuel : Nat) (g t : Game) (y n : Nat), g.decaying y = .DECAYING_TRUE →
    transformItem env fuel g y (toUInt16 (env.itemTypes (g.world.items y).id).decayTo) (-1)
      = some (t, some n) →
    env.canDecay t n = true → t.decaying n ≠ .DECAYING_TRUE → 0 < t.duration n

/-- Two values of an item that differ at most in the reference counter. -/
def SameItem (a b : Item) : Prop :=
  b.id = a.id ∧ b.count = a.count ∧ b.stackable = a.stackable ∧ b.parent = a.parent ∧
  b.kind = a.kind ∧ b.removable = a.removable

/-- The number of registrations of an item in the wheel: its occurrences in
`toDecayItems` and in the buckets. -/
def wheelCount (env : DecayEnv) (g : Game) (x : Nat) : Nat :=
  g.toDecayItems.count x
    + ((List.range env.EVENT_DECAY_BUCKETS).map fun b => (g.decayItems b).count x).sum

/-- The wheel is well formed: `lastBucket` is a bucket, no item is
registered twice, and every registered item is flagged as decaying and
allocated. -/
def WheelOk (env : DecayEnv) (g : Game) : Prop :=
  g.lastBucket < env.EVENT_DECAY_BUCKETS ∧
  ∀ x, wheelCount env g x ≤ 1 ∧
    (0 < wheelCount env g x → g.decaying x = .DECAYING_TRUE ∧ x < g.world.nextItem)

/-- The states reachable from a state with an empty wheel through
`startDecay` on allocated items, `cleanup` and `checkDecay`. -/
inductive DecayReachable (env : DecayEnv) : Game → Prop
  | init (g : Game) (hlast : g.lastBucket < env.EVENT_DECAY_BUCKETS)
      (hpending : g.toDecayItems = []) (hbuckets : ∀ b, g.decayItems b = []) :
      DecayReachable env g
  | start (g g1 : Game) (fuel item : Nat) (h : DecayReachable env g)
      (hitem : item < g.world.nextItem)
      (hstep : startDecay env fuel g (some item) = some g1) : DecayReachable env g1
  | clean (g : Game) (h : DecayReachable env g) : DecayReachable env (cleanup env g)
  | tick (g g1 : Game) (fuel : Nat) (h : DecayReachable env g)
      (hstep : checkDecay env fuel g = some g1) : DecayReachable env g1

/-- The state after `n` calls of `Game::checkDecay`. -/
def ticks (env : DecayEnv) (fuel : Nat) : Nat → Game → Option Game
  | 0, g => some g
  | n + 1, g => (checkDecay env fuel g).bind (ticks env fuel n)

/-- From `g` to `g1` nothing has happened to item `x` on the side of the
wheel, the bucket `bucket` apart: it is registered as often in
`toDecayItems` and in every other bucket, has the same duration and flag and
as many entries in the decay log, `lastBucket` is the same, and the item
itself is as it was but for its reference counter. -/
def WheelKeeps (x bucket : Nat) (g g1 : Game) : Prop :=
  g1.toDecayItems.count x = g.toDecayItems.count x ∧
  (∀ b, b ≠ bucket → (g1.decayItems b).count x = (g.decayItems b).count x) ∧
  g1.duration x = g.duration x ∧ g1.decaying x = g.decaying x ∧
  g.world.nextItem ≤ g1.world.nextItem ∧ g1.lastBucket = g.lastBucket ∧
  g1.decayLog.count x = g.decayLog.count x ∧
  SameItem (g.world.items x) (g1.world.items x)

/-- Item `x` sits in the wheel in bucket `b` and nowhere else, flagged as
decaying, with duration `d`. -/
def InWheel (env : DecayEnv) (g : Game) (x b : Nat) (d : Int) : Prop :=
  b < env.EVENT_DECAY_BUCKETS ∧ g.lastBucket < env.EVENT_DECAY_BUCKETS ∧
  (g.decayItems b).count x = 1 ∧
  (∀ b1, b1 < env.EVENT_DECAY_BUCKETS → b1 ≠ b → (g.decayItems b1).count x = 0) ∧
  g.toDecayItems.count x = 0 ∧
  g.duration x = d ∧ g.decaying x = .DECAYING_TRUE ∧ x < g.world.nextItem

/-- The number of the tick of `Game::checkDecay`, counted from the call of
`Game::cleanup` that moves the item into the wheel, on which an item that
enters the wheel with `D` milliseconds left is handed to
`Game::internalDecayItem`. An item with less than one revolution left waits
`D / 1000` buckets; a longer one is visited once per revolution and, when
less than a revolution is left, waits as many buckets as its rest rounded to
seconds. A duration of `2^31` milliseconds or more is negative as the
`int32_t` that `Game::checkDecay` reads, so the item is handed over on its
first visit, one revolution after it has entered the wheel. -/
def decayTick (env : DecayEnv) (D : Nat) : Nat :=
  if 2147483648 ≤ D then env.EVENT_DECAY_BUCKETS
  else if D < env.EVENT_DECAYINTERVAL * env.EVENT_DECAY_BUCKETS then
    1 + (D / 1000) % env.EVENT_DECAY_BUCKETS
  else
    D / (env.EVENT_DECAYINTERVAL * env.EVENT_DECAY_BUCKETS) * env.EVENT_DECAY_BUCKETS
      + (if D % (env.EVENT_DECAYINTERVAL * env.EVENT_DECAY_BUCKETS) = 0 then 0
         else ((D % (env.EVENT_DECAYINTERVAL * env.EVENT_DECAY_BUCKETS)
            + env.EVENT_DECAYINTERVAL / 2) / 1000) % env.EVENT_DECAY_BUCKETS)

/-! ## House access (`house.cpp`) -/

/-- The levels of `AccessHouseLevel_t`. -/
inductive AccessHouseLevel_t
  | HOUSE_NOT_INVITED
  | HOUSE_GUEST
  | HOUSE_SUBOWNER
  | HOUSE_OWNER
  deriving DecidableEq, Repr

/-- The fields of an `AccessList` that `AccessList::isInList` reads: the two
sets of ids and the flag `allowEveryone`. -/
structure AccessList where
  playerList : List Nat
  guildList : List Nat
  allowEveryone : Bool
  deriving DecidableEq, Repr

/-- A player as the access functions of a house see it: the player, the
result of `hasFlag(PlayerFlag_CanEditHouses)` and the id of the guild
`getGuild()` returns, if any. -/
structure Visitor where
  player : Player
  canEditHouses : Bool
  guild : Option Nat
  deriving DecidableEq, Repr

/-- A house with its two access lists. -/
structure HouseAccess where
  house : House
  subOwnerList : AccessList
  guestList : AccessList
  deriving DecidableEq, Repr

/-- `AccessList::isInList(player)` (house.cpp lines 457-470). -/
def AccessList.isInList (l : AccessList) (player : Visitor) : Bool :=
  if l.allowEveryone = true then true
  else if player.player.guid ∈ l.playerList then true
  else
    match player.guild with
    | some id => decide (id ∈ l.guildList)
    | none => false

/-- `House::getHouseAccessLevel(player)` (house.cpp lines 124-147) for a
possibly null player. -/
def getHouseAccessLevel (h : HouseAccess) : Option Visitor → AccessHouseLevel_t
  | none => .HOUSE_OWNER
  | some player =>
    if player.canEditHouses = true then .HOUSE_OWNER
    else if player.player.guid = h.house.owner then .HOUSE_OWNER
    else if h.subOwnerList.isInList player = true then .HOUSE_SUBOWNER
    else if h.guestList.isInList player = true then .HOUSE_GUEST
    else .HOUSE_NOT_INVITED

/-- `House::canEditAccessList(listId, player)` (house.cpp lines 320-332);
`GUEST_LIST` is the constant of `house.h`. -/
def canEditAccessList (GUEST_LIST : Nat) (h : HouseAccess) (listId : Nat)
    (player : Option Visitor) : Bool :=
  match getHouseAccessLevel h player with
  | .HOUSE_OWNER => true
  | .HOUSE_SUBOWNER => decide (listId = GUEST_LIST)
  | _ => false

/-! ## The destination loop of `Game::internalMoveItem`, observed -/

/-- The calls of `queryDestination` that the destination loop of
`Game::internalMoveItem` (lines 993-1001) makes, in order: for each call the
holder asked and the holder it answered. The arguments are those of
`resolveDestination`, whose loop this is. -/
def destinationCalls (env : Env) (w : World) (item : Nat) :
    Nat → Cylinder → Int → Option Nat → Nat → List (Cylinder × Cylinder)
  | remaining, toCylinder, index, toItem, flags =>
    match env.queryDestination w toCylinder index item toItem flags with
    | (subCylinder, index1, toItem1, _) =>
      if subCylinder = toCylinder then [(toCylinder, subCylinder)]
      else
        match remaining with
        | 0 => [(toCylinder, subCylinder)]
        | r + 1 =>
          (toCylinder, subCylinder) :: destinationCalls env w item r subCylinder index1 toItem1 0

/-- The number of redirections among the calls of the destination loop: the
calls whose answer is another holder than the one asked. -/
def redirections (calls : List (Cylinder × Cylinder)) : Nat :=
  (calls.filter fun c => decide (c.2 ≠ c.1)).length

/-- The `postAddNotification` the commit of `Game::internalMoveItem` sends
for `moveItem` or `updateItem` (lines 1122-1134): none for a null pointer or
an index of -1, otherwise one, on the destination, with the index the item
has there. -/
def addNotice (w : World) (fromCylinder toCylinder : Cylinder) : Option Nat → List Event
  | some i =>
    if getThingIndex w toCylinder i ≠ -1 then
      [.postAddNotification toCylinder i (some fromCylinder) (getThingIndex w toCylinder i)]
    else []
  | none => []

/-! ## `Game::playerRequestTrade` -/

/-- A map position. -/
structure Position where
  x : Nat
  y : Nat
  z : Nat
  deriving DecidableEq, Repr

/-- How a call of `Game::playerRequestTrade` ends: on one of its early
returns, named by what it sends to the player, or in the call of
`Game::internalStartTrade`, with the arguments and the result of that call. -/
inductive RequestOutcome
  /-- The requesting player is not online: nothing is sent. -/
  | noPlayer
  /-- "Sorry, not possible." -/
  | notPossible
  /-- "NAME tells you to move closer." -/
  | moveCloser
  /-- The cancel message `RETURNVALUE_CREATUREISNOTREACHABLE`. -/
  | notReachable
  /-- The cancel message `RETURNVALUE_NOTPOSSIBLE`, for want of a thing. -/
  | noThing
  /-- The cancel message `RETURNVALUE_NOTPOSSIBLE`, for an item that cannot be
  picked up or does not show the sprite named. -/
  | notTradeable
  /-- The cancel message `RETURNVALUE_FIRSTGOUPSTAIRS`. -/
  | firstGoUpstairs
  /-- The cancel message `RETURNVALUE_FIRSTGODOWNSTAIRS`. -/
  | firstGoDownstairs
  /-- The player is sent walking to the item and the request is scheduled
  again. -/
  | autoWalk
  /-- The cancel message `RETURNVALUE_THEREISNOWAY`. -/
  | thereIsNoWay
  /-- "This item is already being traded." -/
  | alreadyTraded
  /-- "You can not trade more than 100 items." -/
  | tooManyItems
  /-- The call `internalStartTrade(player, tradePartner, tradeItem)` and its
  result. -/
  | started (player tradePartner tradeItem : Nat) (result : Bool)
  deriving DecidableEq, Repr

/-- The collaborators of `Game::playerRequestTrade` whose code is outside
`src/`, next to those of the transfer engine. -/
structure RequestEnv extends Env where
  /-- Call `player->getPosition()`. -/
  playerPosition : World → Nat → Position
  /-- Call `item->getPosition()`. -/
  itemPosition : World → Nat → Position
  /-- Call `Position::areInRange<2, 2, 0>(a, b)`. -/
  areInRange2 : Position → Position → Bool
  /-- Call `Position::areInRange<1, 1>(a, b)`. -/
  areInRange1 : Position → Position → Bool
  /-- Call `internalGetThing(player, pos, stackPos, 0, STACKPOS_TOPDOWN_ITEM)`
  followed by `getItem()`: the item found, if any. -/
  internalGetThing : World → Nat → Position → Nat → Option Nat
  /-- Call `item->isPickupable()`. -/
  isPickupable : World → Nat → Bool
  /-- Call `item->isDisguised()`. -/
  isDisguised : World → Nat → Bool
  /-- Call `item->getDisguiseId()`. -/
  getDisguiseId : World → Nat → Nat
  /-- Call `player->getPathTo(pos, listDir, 0, 1, true, true)`. -/
  getPathTo : World → Nat → Position → Bool
  /-- Whether `item->getContainer()` is not null. -/
  getContainer : World → Nat → Bool
  /-- Call `container->isHoldingItem(item)`. -/
  isHoldingItem : World → Nat → Nat → Bool
  /-- Call `container->getItemHoldingCount()`. -/
  getItemHoldingCount : World → Nat → Nat

/-- The two loops of `Game::playerRequestTrade` over the registry `tradeItems`
(lines 2279-2310): whether one of them ends in "This item is already being
traded.". -/
def tradedAlready (env : RequestEnv) (w : World) (tradeItem : Nat) : List (Nat × Nat) → Bool
  | [] => false
  | e :: rest =>
    if env.getContainer w tradeItem = true then
      if tradeItem = e.1 then true
      else if env.isHoldingItem w tradeItem e.1 = true then true
      else if env.getContainer w e.1 = true ∧ env.isHoldingItem w e.1 tradeItem = true then true
      else tradedAlready env w tradeItem rest
    else
      if tradeItem = e.1 then true
      else if env.getContainer w e.1 = true ∧ env.isHoldingItem w e.1 tradeItem = true then true
      else tradedAlready env w tradeItem rest

/-- The part of `Game::playerRequestTrade` that follows the lookup of the
item (lines 2252-2321). -/
def requestTradeOf (env : RequestEnv) (w : World) (player tradePartner : Nat) (pos : Position)
    (spriteId tradeItem : Nat) : RequestOutcome × World :=
  if env.isPickupable w tradeItem = false ∨
      (env.isDisguised w tradeItem = true ∧ env.getDisguiseId w tradeItem ≠ spriteId) ∨
      (env.isDisguised w tradeItem = false ∧ (w.items tradeItem).id ≠ spriteId) then
    (.notTradeable, w)
  else if (env.playerPosition w player).z ≠ (env.itemPosition w tradeItem).z then
    (if (env.playerPosition w player).z > (env.itemPosition w tradeItem).z then .firstGoUpstairs
      else .firstGoDownstairs, w)
  else if env.areInRange1 (env.itemPosition w tradeItem) (env.playerPosition w player) = false then
    (if env.getPathTo w player pos = true then .autoWalk else .thereIsNoWay, w)
  else if tradedAlready env w tradeItem w.tradeItems = true then (.alreadyTraded, w)
  else if env.getContainer w tradeItem = true ∧ env.getItemHoldingCount w tradeItem + 1 > 100 then
    (.tooManyItems, w)
  else
    (.started player tradePartner tradeItem (internalStartTrade w player tradePartner tradeItem).1,
      (internalStartTrade w player tradePartner tradeItem).2)

/-- `Game::playerRequestTrade(playerId, pos, stackPos, tradePlayerId,
spriteId)` (lines 2218-2322): how the call ends and the state it leaves. The
messages to the player are part of the outcome. -/
def playerRequestTrade (env : RequestEnv) (w : World) (playerId : Nat) (pos : Position)
    (stackPos tradePlayerId spriteId : Nat) : RequestOutcome × World :=
  match w.playerByID playerId with
  | none => (.noPlayer, w)
  | some player =>
    match w.playerByID tradePlayerId with
    | none => (.notPossible, w)
    | some tradePartner =>
      if tradePartner = player then (.notPossible, w)
      else if env.areInRange2 (env.playerPosition w tradePartner) (env.playerPosition w player)
          = false then (.moveCloser, w)
      else if env.canThrowObjectTo w tradePartner player = false then (.notReachable, w)
      else
        match env.internalGetThing w player pos stackPos with
        | none => (.noThing, w)
        | some tradeItem => requestTradeOf env w player tradePartner pos spriteId tradeItem

/-- An item is tied up in a trade: it is registered in `tradeItems`, or a
registered container holds it, or it is a container and holds a registered
item. -/
def TiedUp (env : RequestEnv) (w : World) (t : Nat) : Prop :=
  (∃ e ∈ w.tradeItems, e.1 = t) ∨
  (∃ e ∈ w.tradeItems, env.getContainer w e.1 = true ∧ env.isHoldingItem w e.1 t = true) ∨
  (env.getContainer w t = true ∧ ∃ e ∈ w.tradeItems, env.isHoldingItem w t e.1 = true)

/-! ## Notions for `Game::transformItem` -/

/-- The ways a call `transformItem(item, newId, newCount)` can end, read off
its branches: it has changed nothing and returns the item or null; or the
item has a holder that lists it and the call ends in the branch for a change
of `alwaysOnTop`, in the update in place, in a replacement, or in the removal
of the item, each for the type `newId` or its conversion to `uint16_t`. -/
def TransformStep (env : DecayEnv) (g : Game) (item newId : Nat) (g1 : Game)
    (newItem : Option Nat) : Prop :=
  (g1 = g ∧ (newItem = some item ∨ newItem = none)) ∨
  ∃ cylinder, (g.world.items item).parent = some cylinder ∧ item ∈ g.world.contents cylinder ∧
    ((∃ id cnt, (id = newId ∨ id = toUInt16 (newId : Int)) ∧
        (env.itemTypes (g.world.items item).id).alwaysOnTop ≠ (env.itemTypes id).alwaysOnTop ∧
        (g1, newItem)
          = transformOnTop env g cylinder (getThingIndex g.world cylinder item) item id cnt) ∨
     (∃ id cnt, (g1, newItem)
          = transformInPlace env g cylinder (getThingIndex g.world cylinder item) item id cnt) ∨
     (∃ type count, (g1, newItem)
          = transformReplace env g cylinder (getThingIndex g.world cylinder item) item type
              count) ∨
     (g1 = g.withWorld (internalRemoveItem env.toEnv g.world item (-1) false 0).2 ∧
        newItem = none))

/-- The methods of `Item` that retype an item leave its holder, its class and
its reference counter alone. -/
def DecayEnv.RetypeKeepsHolder (env : DecayEnv) : Prop :=
  (∀ it d s n, (env.setID it d s n).1.parent = it.parent ∧
    (env.setID it d s n).1.kind = it.kind ∧
    (env.setID it d s n).1.referenceCounter = it.referenceCounter) ∧
  (∀ it n, (env.setSubType it n).parent = it.parent ∧ (env.setSubType it n).kind = it.kind ∧
    (env.setSubType it n).referenceCounter = it.referenceCounter) ∧
  (∀ it, (env.setDefaultSubtype it).parent = it.parent ∧
    (env.setDefaultSubtype it).kind = it.kind ∧
    (env.setDefaultSubtype it).referenceCounter = it.referenceCounter)

/-! ## Creature upkeep -/

/-- The fields of a `Creature` that the upkeep of the creatures reads or
writes. -/
structure Creature where
  creatureCheck : Bool
  inCheckCreaturesVector : Bool
  referenceCounter : Int
  /-- Result of `getHealth()`. -/
  health : Int
  deriving DecidableEq, Repr

/-- A call of one of the callbacks that `Game::checkCreatures` makes on a
creature. -/
inductive CreatureCall
  | onThink (creature : Nat)
  | onAttacking (creature : Nat)
  | executeConditions (creature : Nat)
  | onDeath (creature : Nat)
  deriving DecidableEq, Repr

/-- The creature a callback is called on. -/
def CreatureCall.creature : CreatureCall → Nat
  | .onThink c => c
  | .onAttacking c => c
  | .executeConditions c => c
  | .onDeath c => c

/-- The state of the `Game` object with its creatures: the state of the items
and of the decay wheel, the creatures, the partitions `checkCreatureLists` and
the deferred release queue `ToReleaseCreatures`. -/
structure Server where
  game : Game
  creatures : Nat → Creature
  checkCreatureLists : Nat → List Nat
  ToReleaseCreatures : List Nat

/-- The environment of the upkeep: that of the decay wheel, the number of
partitions, and the virtual callbacks of the creatures, whose code is outside
`src/`; each may read and change the whole state. -/
structure UpkeepEnv extends DecayEnv where
  EVENT_CREATURECOUNT : Nat
  /-- Call `creature->onThink(EVENT_CREATURE_THINK_INTERVAL)`. -/
  onThink : Server → Nat → Server
  /-- Call `creature->onAttacking(EVENT_CREATURE_THINK_INTERVAL)`. -/
  onAttacking : Server → Nat → Server
  /-- Call `creature->executeConditions(EVENT_CREATURE_THINK_INTERVAL)`. -/
  executeConditions : Server → Nat → Server
  /-- Call `creature->onDeath()`. -/
  onDeath : Server → Nat → Server

/-- Store a new value for one creature. -/
def Server.setCreature (s : Server) (c : Nat) (cr : Creature) : Server :=
  { s with creatures := Function.update s.creatures c cr }

/-- `Game::addCreatureCheck(creature)` (lines 3186-3198); `slot` is the value
of `uniform_random(0, EVENT_CREATURECOUNT - 1)`. -/
def addCreatureCheck (s : Server) (creature slot : Nat) : Server :=
  let s1 := s.setCreature creature { s.creatures creature with creatureCheck := true }
  if (s1.creatures creature).inCheckCreaturesVector = true then s1
  else
    let s2 := s1.setCreature creature { s1.creatures creature with inCheckCreaturesVector := true }
    let s3 : Server :=
      { s2 with checkCreatureLists :=
          Function.update s2.checkCreatureLists slot (s2.checkCreatureLists slot ++ [creature]) }
    s3.setCreature creature
      { s3.creatures creature with
        referenceCounter := (s3.creatures creature).referenceCounter + 1 }

/-- `Game::removeCreatureCheck(creature)` (lines 3200-3205). -/
def removeCreatureCheck (s : Server) (creature : Nat) : Server :=
  if (s.creatures creature).inCheckCreaturesVector = true then
    s.setCreature creature { s.creatures creature with creatureCheck := false }
  else s

/-- The body of `Game::ReleaseCreature`:
`ToReleaseCreatures.push_back(creature)`. -/
def ReleaseCreature (s : Server) (creature : Nat) : Server :=
  { s with ToReleaseCreatures := s.ToReleaseCreatures ++ [creature] }

/-- One turn of the loop of `Game::checkCreatures` (lines 3213-3229) for
`creature`, the element that the iterator `it` points at, at position `pos`
of the partition `checkCreatureLists[index]` as it is now. A creature whose flag
is on gets its callbacks, and the iterator moves on; a creature whose flag is
off is erased from the partition, where `erase` takes out this one node and
leaves the iterator on the next one, and is handed to `Game::ReleaseCreature`.
The result is the state, the position of the iterator, the callbacks called
and the creatures released by the turn. -/
def checkCreatureTurn (env : UpkeepEnv) (index pos : Nat) (s : Server) (creature : Nat) :
    Server × Nat × List CreatureCall × List Nat :=
  if (s.creatures creature).creatureCheck = true then
    if 0 < (s.creatures creature).health then
      let s1 := env.onThink s creature
      let s2 := env.onAttacking s1 creature
      let s3 := env.executeConditions s2 creature
      (s3, pos + 1, [.onThink creature, .onAttacking creature, .executeConditions creature], [])
    else (env.onDeath s creature, pos + 1, [.onDeath creature], [])
  else
    let s1 := s.setCreature creature { s.creatures creature with inCheckCreaturesVector := false }
    let s2 : Server :=
      { s1 with checkCreatureLists :=
          Function.update s1.checkCreatureLists index ((s1.checkCreatureLists index).eraseIdx pos) }
    (ReleaseCreature s2 creature, pos, [], [creature])

/-- The loop of `Game::checkCreatures` over the partition (lines 3211-3229),
with the iterator at position `pos`. The loop walks the list as it is at each
turn: a callback reaches the partitions through `Game::addCreatureCheck`,
which appends, and a creature appended during the loop is visited by it. The
loop ends when the iterator is at the end of the list. `fuel` bounds the
number of turns; the result is `none` only when that number is exceeded.
Returns the state, the callbacks called and the creatures released, in
order. -/
def checkCreatureList (env : UpkeepEnv) (index : Nat) :
    Nat → Nat → Server → Option (Server × List CreatureCall × List Nat)
  | 0, pos, s =>
    match (s.checkCreatureLists index)[pos]? with
    | none => some (s, [], [])
    | some _ => none
  | fuel + 1, pos, s =>
    match (s.checkCreatureLists index)[pos]? with
    | none => some (s, [], [])
    | some creature =>
      let t := checkCreatureTurn env index pos s creature
      match checkCreatureList env index fuel t.2.1 t.1 with
      | none => none
      | some r => some (r.1, t.2.2.1 ++ r.2.1, t.2.2.2 ++ r.2.2)

/-- The loop of `Game::cleanup` over `ToReleaseCreatures` (lines 3867-3869):
every queued pointer loses one reference. -/
def releaseCreatures (creatures : Nat → Creature) : List Nat → Nat → Creature
  | [] => creatures
  | c :: rest =>
    releaseCreatures
      (Function.update creatures c
        { creatures c with referenceCounter := (creatures c).referenceCounter - 1 }) rest

/-- `Game::cleanup()` (lines 3864-3885) on the state with the creatures: the
loop over `ToReleaseCreatures`, then the part on the items and the decay wheel,
which is `cleanup`. -/
def Server.cleanup (env : UpkeepEnv) (s : Server) : Server :=
  { s with
    creatures := releaseCreatures s.creatures s.ToReleaseCreatures
    ToReleaseCreatures := []
    game := TibiaCore.cleanup env.toDecayEnv s.game }

/-- `Game::checkCreatures(index)` (lines 3207-3232), without the scheduling of
the next call: the state it leaves, the callbacks it has called and the
creatures its loop has released. -/
def checkCreatures (env : UpkeepEnv) (fuel : Nat) (s : Server) (index : Nat) :
    Option (Server × List CreatureCall × List Nat) :=
  match checkCreatureList env index fuel 0 s with
  | none => none
  | some r => some (Server.cleanup env r.1, r.2.1, r.2.2)

/-- A run of calls of `Game::checkCreatures`, one for each index of the list,
in order. -/
def upkeepTurns (env : UpkeepEnv) (fuel : Nat) :
    List Nat → Server → Option (Server × List CreatureCall × List Nat)
  | [], s => some (s, [], [])
  | index :: rest, s =>
    match checkCreatures env fuel s index with
    | none => none
    | some r =>
      match upkeepTurns env fuel rest r.1 with
      | none => none
      | some r2 => some (r2.1, r.2.1 ++ r2.2.1, r.2.2 ++ r2.2.2)

/-- Whether an item is a `Door` that belongs to a house. -/
def ItemKind.isHouseDoor : ItemKind → Bool
  | .door (some _) => true
  | _ => false

/-- From `w` to `w1` no item that exists in `w` has changed its reference
counter; items may have been created. -/
def HoldsKept (w w1 : World) : Prop :=
  w.nextItem ≤ w1.nextItem ∧
  ∀ i, i < w.nextItem → (w1.items i).referenceCounter = (w.items i).referenceCounter

/-! ## Money -/

/-- The three types of coin that `Game::addMoney` creates. -/
inductive Coin
  | GOLD
  | PLATINUM
  | CRYSTAL
  deriving DecidableEq, Repr

/-- The worth of one coin. -/
def Coin.worth : Coin → Nat
  | .GOLD => 1
  | .PLATINUM => 100
  | .CRYSTAL => 10000

/-- The worth of a list of stacks, each given by its type of coin and its
count. -/
def stacksWorth (coins : List (Coin × Nat)) : Nat :=
  (coins.map fun s => s.1.worth * s.2).sum

/-- The constants and the calls of `Game::addMoney` and `Game::removeMoney`
whose code is outside `game.cpp`. -/
structure MoneyEnv extends DecayEnv where
  ITEM_GOLD_COIN : Nat
  ITEM_PLATINUM_COIN : Nat
  ITEM_CRYSTAL_COIN : Nat
  FLAG_NOLIMIT : Nat
  /-- Call `cylinder->getTile()`. -/
  getTile : World → Cylinder → Option Cylinder
  /-- Whether `item->getContainer()` is not null. -/
  getContainer : World → Nat → Bool

/-- The item type of a coin. -/
def MoneyEnv.coinId (env : MoneyEnv) : Coin → Nat
  | .GOLD => env.ITEM_GOLD_COIN
  | .PLATINUM => env.ITEM_PLATINUM_COIN
  | .CRYSTAL => env.ITEM_CRYSTAL_COIN

/-- The statements that `Game::addMoney` runs for each stack (lines 1430-1435,
1442-1447 and 1453-1458): `Item::CreateItem(type, count)`,
`internalAddItem(cylinder, item, INDEX_WHEREEVER, flags)` and, when that
fails, `internalAddItem(cylinder->getTile(), item, INDEX_WHEREEVER,
FLAG_NOLIMIT)`. `fuel` is for the calls of `internalAddItem`. -/
def addCoins (env : MoneyEnv) (fuel : Nat) (g : Game) (cylinder : Cylinder) (coin : Coin)
    (count flags : Nat) : Option Game :=
  let a : Option Nat × Game :=
    match env.CreateItem (env.coinId coin) count with
    | none => (none, g)
    | some r => (some (g.allocate r).1, (g.allocate r).2)
  match internalAddItem env.toEnv fuel a.2.world (some cylinder) a.1 INDEX_WHEREEVER flags
      false with
  | none => none
  | some (ret, w1, _) =>
    if ret ≠ .RETURNVALUE_NOERROR then
      match internalAddItem env.toEnv fuel w1 (env.getTile w1 cylinder) a.1 INDEX_WHEREEVER
          env.FLAG_NOLIMIT false with
      | none => none
      | some (_, w2, _) => some (a.2.withWorld w2)
    else some (a.2.withWorld w1)

/-- The loop `while (crystalCoins > 0)` of `Game::addMoney` (lines 1427-1438):
the state it leaves and the stacks it has asked `Item::CreateItem` for.
`steps` bounds the number of turns; the result is `none` only when the steps
or the fuel run out. -/
def crystalStacks (env : MoneyEnv) (fuel : Nat) (cylinder : Cylinder) (flags : Nat) :
    Nat → Nat → Game → Option (Game × List (Coin × Nat))
  | _, 0, g => some (g, [])
  | 0, _ + 1, _ => none
  | steps + 1, crystalCoins + 1, g =>
    let count := min 100 (crystalCoins + 1)
    match addCoins env fuel g cylinder .CRYSTAL count flags with
    | none => none
    | some g1 =>
      match crystalStacks env fuel cylinder flags steps (crystalCoins + 1 - count) g1 with
      | none => none
      | some (g2, coins) => some (g2, (.CRYSTAL, count) :: coins)

/-- `Game::addMoney(cylinder, money, flags)` (lines 1419-1460): the state it
leaves and the stacks it has asked `Item::CreateItem` for, in order, each with
the count passed. `crystalCoins` is a `uint32_t` and the product
`crystalCoins * 10000` is computed in 32 unsigned bits; `platinumCoins` and
the parameter `count` of `Item::CreateItem` are `uint16_t`; `money` is a
`uint64_t`. -/
def addMoney (env : MoneyEnv) (fuel : Nat) (g : Game) (cylinder : Cylinder) (money flags : Nat) :
    Option (Game × List (Coin × Nat)) :=
  if money = 0 then some (g, [])
  else
    let crystalCoins := money / 10000 % 4294967296
    let money1 := money - crystalCoins * 10000 % 4294967296
    match crystalStacks env fuel cylinder flags crystalCoins crystalCoins g with
    | none => none
    | some (g1, crystal) =>
      let platinumCoins := money1 / 100 % 65536
      let p : Option (Game × Nat × List (Coin × Nat)) :=
        if platinumCoins ≠ 0 then
          match addCoins env fuel g1 cylinder .PLATINUM platinumCoins flags with
          | none => none
          | some g2 => some (g2, money1 - platinumCoins * 100, [(.PLATINUM, platinumCoins)])
        else some (g1, money1, [])
      match p with
      | none => none
      | some (g2, money2, platinum) =>
        if money2 ≠ 0 then
          match addCoins env fuel g2 cylinder .GOLD (money2 % 65536) flags with
          | none => none
          | some g3 => some (g3, crystal ++ platinum ++ [(.GOLD, money2 % 65536)])
        else some (g2, crystal ++ platinum)

/-- The value of `crystalCoins` that `Game::addMoney` computes from `money`
(line 1425). -/
def crystalCoinsOf (money : Nat) : Nat := money / 10000 % 4294967296

/-- The value of `money` after the statement
`money -= crystalCoins * 10000` (line 1426). -/
def afterCrystal (money : Nat) : Nat := money - crystalCoinsOf money * 10000 % 4294967296

/-- The value of `platinumCoins` that `Game::addMoney` computes (line 1440). -/
def platinumCoinsOf (money : Nat) : Nat := afterCrystal money / 100 % 65536

/-- The value of `money` when `Game::addMoney` comes to the gold coins (line
1452). -/
def afterPlatinum (money : Nat) : Nat :=
  if platinumCoinsOf money ≠ 0 then afterCrystal money - platinumCoinsOf money * 100
  else afterCrystal money

/-- The items that `Item::CreateItem` returns for a count of 16 bits hold at
most `fuel` units. -/
def MoneyEnv.CreatesWithin (env : MoneyEnv) (fuel : Nat) : Prop :=
  ∀ type count r, count < 65536 → env.CreateItem type count = some r → r.1.count ≤ fuel

/-- Modelled from the spec: `Item::getWorth()` (missing from `src/`): the
worth of the coin type times the count, in 32 unsigned bits; an item that is
no coin is worth nothing. -/
def getWorth (env : MoneyEnv) (w : World) (item : Nat) : Nat :=
  if (w.items item).id = env.ITEM_GOLD_COIN then (w.items item).count % 4294967296
  else if (w.items item).id = env.ITEM_PLATINUM_COIN then
    (w.items item).count * 100 % 4294967296
  else if (w.items item).id = env.ITEM_CRYSTAL_COIN then
    (w.items item).count * 10000 % 4294967296
  else 0

/-- The statement `moneyMap.emplace(worth, item)` on the `std::multimap`,
kept as the list of its entries in order: the new entry goes behind the
entries whose key is not larger. -/
def moneyEmplace (worth item : Nat) : List (Nat × Nat) → List (Nat × Nat)
  | [] => [(worth, item)]
  | e :: rest =>
    if worth < e.1 then (worth, item) :: e :: rest else e :: moneyEmplace worth item rest

/-- The local variables `containers`, `moneyMap` and `moneyCount` of
`Game::removeMoney`. -/
structure MoneyScan where
  containers : List Nat
  moneyMap : List (Nat × Nat)
  moneyCount : Nat
  deriving DecidableEq, Repr

/-- One turn of either loop of `Game::removeMoney` over the items of a holder
(lines 1366-1375 and 1381-1390): a container is put on the list, any other
item that is worth something is counted and entered in the map. `moneyCount`
is a `uint64_t`. -/
def scanItem (env : MoneyEnv) (w : World) (s : MoneyScan) (item : Nat) : MoneyScan :=
  if env.getContainer w item = true then { s with containers := s.containers ++ [item] }
  else if getWorth env w item ≠ 0 then
    { s with
      moneyCount := (s.moneyCount + getWorth env w item) % 18446744073709551616
      moneyMap := moneyEmplace (getWorth env w item) item s.moneyMap }
  else s

/-- The loop `while (i < containers.size())` of `Game::removeMoney` (lines
1377-1392) from the position `i` on. `fuel` bounds the number of containers
visited; the result is `none` only when it runs out. -/
def scanContainers (env : MoneyEnv) (w : World) : Nat → Nat → MoneyScan → Option MoneyScan
  | 0, i, s => if i < s.containers.length then none else some s
  | fuel + 1, i, s =>
    match s.containers[i]? with
    | none => some s
    | some container =>
      scanContainers env w fuel (i + 1)
        ((w.contents (.container container)).foldl (scanItem env w) s)

/-- What `Game::removeMoney` takes out of the holder in one turn of its loop
over the map. -/
inductive Payment
  /-- The branches of lines 1400-1402 and 1409-1411: `internalRemoveItem(item)`
  on an entry of the given worth. -/
  | whole (item worth : Nat)
  /-- The branch of lines 1403-1408: `addMoney` hands back the stacks `change`,
  and `internalRemoveItem(item, removeCount)` takes `removeCount` coins of the
  worth `unit` each. -/
  | units (item unit removeCount : Nat) (change : List (Coin × Nat))
  deriving DecidableEq, Repr

/-- The worth that a turn takes out of the holder. -/
def Payment.paid : Payment → Nat
  | .whole _ worth => worth
  | .units _ unit removeCount _ => unit * removeCount

/-- The worth that a turn hands back. -/
def Payment.change : Payment → Nat
  | .whole _ _ => 0
  | .units _ _ _ change => stacksWorth change

/-- The loop of `Game::removeMoney` over the entries of the map (lines
1398-1413): the state it leaves and what each turn has taken. The result is
`none` when the fuel of `addMoney` runs out, and when the division of line
1404 or the quotient of line 1405 has a zero divisor, which C++ leaves
undefined. The quotient `money / static_cast<double>(worth)` is of two numbers
below 2^32 and `std::ceil` of it is the exact ceiling. -/
def payLoop (env : MoneyEnv) (fuel : Nat) (cylinder : Cylinder) (flags : Nat) :
    List (Nat × Nat) → Nat → Game → Option (Game × List Payment)
  | [], _, g => some (g, [])
  | (first, item) :: rest, money, g =>
    if first < money then
      let g1 := g.withWorld (internalRemoveItem env.toEnv g.world item (-1) false 0).2
      match payLoop env fuel cylinder flags rest (money - first) g1 with
      | none => none
      | some (g2, taken) => some (g2, .whole item first :: taken)
    else if money < first then
      if (g.world.items item).count = 0 then none
      else
        let worth := first / (g.world.items item).count
        if worth = 0 then none
        else
          let removeCount := (money + worth - 1) / worth % 4294967296
          match addMoney env fuel g cylinder
              ((worth * removeCount % 4294967296 + 18446744073709551616 - money)
                % 18446744073709551616) flags with
          | none => none
          | some (g1, change) =>
            some (g1.withWorld
                (internalRemoveItem env.toEnv g1.world item (toInt32 removeCount) false 0).2,
              [.units item worth removeCount change])
    else
      some (g.withWorld (internalRemoveItem env.toEnv g.world item (-1) false 0).2,
        [.whole item first])

/-- `Game::removeMoney(cylinder, money, flags)` (lines 1340-1417): the result,
the state it leaves and what it has taken out of the holder. -/
def removeMoney (env : MoneyEnv) (fuel : Nat) (g : Game) (cylinder : Option Cylinder)
    (money flags : Nat) : Option (Bool × Game × List Payment) :=
  match cylinder with
  | none => some (false, g, [])
  | some cylinder =>
    if money = 0 then some (true, g, [])
    else
      match scanContainers env g.world fuel 0
          ((g.world.contents cylinder).foldl (scanItem env g.world) ⟨[], [], 0⟩) with
      | none => none
      | some s =>
        if s.moneyCount < money then some (false, g, [])
        else
          match payLoop env fuel cylinder flags s.moneyMap money g with
          | none => none
          | some (g1, taken) => some (true, g1, taken)

/-- The total of the keys of the map, which is the worth of the money stacks
that the scan of `Game::removeMoney` has found. -/
def mapWorth (entries : List (Nat × Nat)) : Nat := (entries.map Prod.fst).sum

/-- What the scan of `Game::removeMoney` keeps true of its variables in the
world `w`: `moneyCount` is the total of the keys, in 64 unsigned bits, and
every entry has the worth of its item, which is not zero, as its key. -/
def ScanOk (env : MoneyEnv) (w : World) (s : MoneyScan) : Prop :=
  s.moneyCount = mapWorth s.moneyMap % 18446744073709551616 ∧
  ∀ e ∈ s.moneyMap, e.1 = getWorth env w e.2 ∧ e.1 ≠ 0

/-- What is right about a turn of the loop of `Game::removeMoney` in the world
`w` with the map `entries`: a turn that takes a whole item takes an entry of
the map at its key; a turn that takes units takes them from an entry whose key
is `unit` times the count of the stack, at least one and at most as many as
the stack has, and hands back less than `unit`, in stacks of 1 to 100 coins. -/
def Payment.Sound (w : World) (entries : List (Nat × Nat)) : Payment → Prop
  | .whole item worth => (worth, item) ∈ entries
  | .units item unit removeCount change =>
    (unit * (w.items item).count, item) ∈ entries ∧
    1 ≤ removeCount ∧ removeCount ≤ (w.items item).count ∧
    stacksWorth change < unit ∧ ∀ s ∈ change, 1 ≤ s.2 ∧ s.2 ≤ 100

/-- The item that a turn of the loop of `Game::removeMoney` hands to
`internalRemoveItem`. -/
def Payment.item : Payment → Nat
  | .whole item _ => item
  | .units item _ _ _ => item

/-- What a turn of the loop of `Game::removeMoney` has done to its item when
the call has gone from the world `w` to the world `w1`: an item taken whole
has no holder any more; a stackable item of which a part is taken has
`removeCount` units less and the holder it had; an item of which every unit is
taken, or that is not stackable, has no holder any more. -/
def Payment.Done (w w1 : World) : Payment → Prop
  | .whole item _ => (w1.items item).parent = none
  | .units item _ removeCount _ =>
    if (w.items item).stackable = true ∧ removeCount ≠ (w.items item).count then
      (w1.items item).count = (w.items item).count - removeCount ∧
      (w1.items item).parent = (w.items item).parent
    else (w1.items item).parent = none

/-- The holders let the stacks of the map go: `Item::canRemove` is true of
every stack, and `queryRemove` answers `RETURNVALUE_NOERROR` when it is asked
for a stack of the map that the holder holds and for a count from one to the
count of the stack. -/
def MoneyEnv.GrantsRemoval (env : MoneyEnv) (w : World) (entries : List (Nat × Nat)) : Prop :=
  ∀ e ∈ entries, (w.items e.2).removable = true ∧
    ∀ (v : World) (c : Cylinder) (n flags : Nat), e.2 ∈ v.contents c → 1 ≤ n →
      n ≤ (v.items e.2).count → env.queryRemove v c e.2 n flags = .RETURNVALUE_NOERROR

/-- The stacks of the map are held: no stack is entered twice, and each is an
item that exists and is in the sequence of the holder that is its parent. -/
def MoneyHeld (w : World) (entries : List (Nat × Nat)) : Prop :=
  (entries.map Prod.snd).Nodup ∧
  ∀ e ∈ entries, e.2 < w.nextItem ∧
    ∃ c, (w.items e.2).parent = some c ∧ e.2 ∈ w.contents c

/-- The types of the coins: `Item::CreateItem` returns an item of the type it
is asked for, and the three types of coin differ from each other. -/
def MoneyEnv.CoinsTyped (env : MoneyEnv) : Prop :=
  (∀ type count r, env.CreateItem type count = some r → r.1.id = type) ∧
  env.ITEM_GOLD_COIN ≠ env.ITEM_PLATINUM_COIN ∧ env.ITEM_GOLD_COIN ≠ env.ITEM_CRYSTAL_COIN ∧
  env.ITEM_PLATINUM_COIN ≠ env.ITEM_CRYSTAL_COIN

/-- What an addition of items keeps of the items that exist in `w`: each has
the holder it had and is in the sequences it was in, and it is the item it was
when its type is one that `P` holds of. -/
def AddKeeps (P : Nat → Prop) (w w1 : World) : Prop :=
  w.nextItem ≤ w1.nextItem ∧ ∀ i, i < w.nextItem →
    (w1.items i).parent = (w.items i).parent ∧
    (∀ c, i ∈ w.contents c → i ∈ w1.contents c) ∧
    (P (w.items i).id → w1.items i = w.items i)

/-! ## Concrete worlds -/

/-- An item record with every field at its default. -/
def blankItem : Item := ⟨0, 0, false, none, 0, .plain, true⟩

/-- A player outside any trade. -/
def idlePlayer (id : Nat) : Player := ⟨id, id, .TRADE_NONE, none, none, none⟩

/-- A house without doors and without a transfer document. -/
def blankHouse : House := ⟨0, [], none, 0⟩

/-- A stack of `n` gold coins held by `c`. -/
def goldStack (n : Nat) (c : Cylinder) : Item := ⟨2148, n, true, some c, 1, .plain, true⟩

/-- Tile 0 holds a stack of 80 gold coins (item 1), player 1 holds a stack of
50 gold coins (item 2). -/
def coinWorld : World :=
  { items := fun i =>
      if i = 1 then goldStack 80 (.tile 0) else if i = 2 then goldStack 50 (.player 1)
      else blankItem
    nextItem := 3
    contents := fun c => if c = .tile 0 then [1] else if c = .player 1 then [2] else []
    players := idlePlayer
    playerByID := fun _ => none
    houses := fun _ => blankHouse
    tradeItems := []
    ToReleaseItems := []
    log := [] }

/-- Holders that resolve to themselves with their first item as occupant and
accept every request in full. -/
def openEnv : Env :=
  { MAP_MAX_LAYERS := 16
    FLAG_IGNOREAUTOSTACK := 128
    FLAG_IGNORENOTMOVEABLE := 64
    queryDestination := fun w c i _ _ f => (c, i, (w.contents c).head?, f)
    queryAdd := fun _ _ _ _ _ _ _ => .RETURNVALUE_NOERROR
    queryMaxCount := fun _ _ _ _ n _ => (.RETURNVALUE_NOERROR, n)
    queryRemove := fun _ _ _ _ _ => .RETURNVALUE_NOERROR
    canThrowObjectTo := fun _ _ _ => true
    setOwner := fun w _ _ => w }

/-- Player 1 holds item 10, player 2 holds item 11, nobody trades. -/
def tradeWorld : World :=
  { items := fun i =>
      if i = 10 then ⟨100, 1, false, some (.player 1), 1, .plain, true⟩
      else if i = 11 then ⟨200, 1, false, some (.player 2), 1, .plain, true⟩ else blankItem
    nextItem := 12
    contents := fun c => if c = .player 1 then [10] else if c = .player 2 then [11] else []
    players := idlePlayer
    playerByID := fun n => some n
    houses := fun _ => blankHouse
    tradeItems := []
    ToReleaseItems := []
    log := [] }

/-- Player 1 has offered item 10 to player 2. -/
def offeredWorld : World := (internalStartTrade tradeWorld 1 2 10).2

/-- Player 1 has offered item 10, player 2 has answered with item 11. -/
def answeredWorld : World := (internalStartTrade offeredWorld 2 1 11).2

/-- As `openEnv`, but no player can throw to any other. -/
def blockedEnv : Env := { openEnv with canThrowObjectTo := fun _ _ _ => false }

/-- House 0 has issued its transfer document, item 20, which lies in the
house's transfer container, item 21; player 1 has offered the document to
player 2. -/
def deedWorld : World :=
  (internalStartTrade
    { tradeWorld with
      items := fun i =>
        if i = 20 then ⟨1968, 1, false, some (.container 21), 1, .houseTransfer (some 0), true⟩
        else if i = 21 then ⟨1987, 1, false, none, 1, .plain, true⟩
        else tradeWorld.items i
      nextItem := 22
      contents := fun c => if c = .container 21 then [20] else tradeWorld.contents c
      houses := fun h => if h = 0 then ⟨1, [], some 20, 21⟩ else blankHouse }
    1 2 20).2

/-- As `openEnv`, but player 1 cannot carry anything more. -/
def heavyEnv : Env :=
  { openEnv with
    queryAdd := fun _ c _ _ _ _ _ =>
      if c = .player 1 then .RETURNVALUE_NOTENOUGHCAPACITY else .RETURNVALUE_NOERROR }

/-- Player 1 has offered the transfer document of house 0 (item 20), player 2
has answered with item 11, and player 1 has accepted. -/
def deedAcceptedWorld : World :=
  setTradeState (internalStartTrade deedWorld 2 1 11).2 1 .TRADE_ACCEPT

/-- Player 1 has offered item 10, player 2 has answered with item 11, and
player 1 has accepted. -/
def acceptedWorld : World := setTradeState answeredWorld 1 .TRADE_ACCEPT

/-- Item 11 lies on tile 5 and has been offered by player 2, whose inventory
holds only a partial stack of coins (item 12); player 1 holds a stack of 10
coins (item 10), has offered it and has accepted. -/
def groundAcceptedWorld : World :=
  setTradeState
    (internalStartTrade
      (internalStartTrade
        { tradeWorld with
          items := fun i =>
            if i = 10 then goldStack 10 (.player 1)
            else if i = 11 then ⟨200, 1, false, some (.tile 5), 1, .plain, true⟩
            else if i = 12 then goldStack 50 (.player 2)
            else blankItem
          nextItem := 13
          contents := fun c =>
            if c = .player 1 then [10] else if c = .player 2 then [12]
            else if c = .tile 5 then [11] else [] }
        1 2 10).2
      2 1 11).2
    1 .TRADE_ACCEPT

/-- As `openEnv`, but player 2 has no free slot: an item can enter the
inventory of player 2 only by joining a stack, which the flag
`FLAG_IGNOREAUTOSTACK` rules out. -/
def noFreeSlotEnv : Env :=
  { openEnv with
    queryAdd := fun _ c _ _ _ flags _ =>
      if c = .player 2 ∧ flags &&& 128 ≠ 0 then .RETURNVALUE_NOTENOUGHROOM
      else .RETURNVALUE_NOERROR }

/-- Holders that accept every request; what is handed to player 2 is
redirected into item 11, taken as a bag. -/
def bagEnv : Env :=
  { openEnv with
    queryDestination := fun _ c i _ _ f =>
      if c = .player 2 then (.container 11, i, none, f) else (c, i, none, f) }
/-- As `bagEnv`, but the bag, item 11, is full. -/
def fullBagEnv : Env :=
  { bagEnv with
    queryAdd := fun _ c _ _ _ _ _ =>
      if c = .container 11 then .RETURNVALUE_CONTAINERNOTENOUGHROOM else .RETURNVALUE_NOERROR }

/-- Tile 0 holds item 1 and the inventory slot of player 1 holds item 2, both
not stackable and of different types. -/
def swapWorld : World :=
  { coinWorld with
    items := fun i =>
      if i = 1 then ⟨400, 1, false, some (.tile 0), 1, .plain, true⟩
      else if i = 2 then ⟨300, 1, false, some (.player 1), 1, .plain, true⟩ else blankItem }

/-- As `openEnv`, but the slot of player 1 asks for an exchange with its
occupant, and the occupant of that slot cannot be taken out. -/
def stuckEnv : Env :=
  { openEnv with
    queryAdd := fun _ c _ _ _ _ _ =>
      if c = .player 1 then .RETURNVALUE_NEEDEXCHANGE else .RETURNVALUE_NOERROR
    queryRemove := fun _ c _ _ _ =>
      if c = .player 1 then .RETURNVALUE_NOTPOSSIBLE else .RETURNVALUE_NOERROR }

/-- As `openEnv`, but the slot of player 1 asks for an exchange while it is
occupied and, once it is empty, refuses for lack of capacity. -/
def overloadEnv : Env :=
  { openEnv with
    queryAdd := fun w c _ _ _ _ _ =>
      if c = .player 1 then
        if w.contents c = [] then .RETURNVALUE_NOTENOUGHCAPACITY else .RETURNVALUE_NEEDEXCHANGE
      else .RETURNVALUE_NOERROR }

/-- As `openEnv`, but the slot of player 1 takes at most 50 units more and
says so with `RETURNVALUE_NOTENOUGHROOM`. -/
def slotEnv : Env :=
  { openEnv with
    queryMaxCount := fun _ c _ _ n _ =>
      if c = .player 1 ∧ 50 < n then (.RETURNVALUE_NOTENOUGHROOM, 50)
      else (.RETURNVALUE_NOERROR, n) }

/-- Item 30 is a door of house 0, which lists it; it stands on tile 0. -/
def doorWorld : World :=
  { coinWorld with
    items := fun i =>
      if i = 30 then ⟨1209, 1, false, some (.tile 0), 2, .door (some 0), true⟩ else blankItem
    nextItem := 31
    contents := fun c => if c = .tile 0 then [30] else []
    houses := fun h => if h = 0 then ⟨1, [30], none, 0⟩ else blankHouse }

/-- The duration in milliseconds that the example type table gives a new
item: ten seconds for type 2050, one second for type 2051, 900 milliseconds
for type 2052, none otherwise. -/
def exampleDuration (type : Nat) : Int :=
  if type = 2050 then 10000 else if type = 2051 then 1000 else if type = 2052 then 900 else 0

/-- An environment of the decay wheel over `openEnv` with the given tick
interval and number of buckets. Type 2050 decays to type 2051, every other
type decays to nothing; an item can decay when it has time left or is
flagged as decaying; a retyped or new item is not flagged and has the
duration of its type. -/
def wheelEnv (interval buckets : Nat) : DecayEnv :=
  { toEnv := openEnv
    EVENT_DECAYINTERVAL := interval
    EVENT_DECAY_BUCKETS := buckets
    itemTypes := fun t => ⟨t, false, 0, 0, if t = 2050 then 2051 else 0, false⟩
    canDecay := fun g i => decide (0 < g.duration i) || decide (g.decaying i = .DECAYING_TRUE)
    canTransform := fun _ _ => true
    getSubType := fun g i => (g.world.items i).count
    hasCharges := fun _ _ => false
    setID := fun it _ _ newid => ({ it with id := newid }, exampleDuration newid, .DECAYING_FALSE)
    setSubType := fun it n => { it with count := n }
    setDefaultSubtype := fun it => it
    CreateItem := fun t c =>
      some (⟨t, c, false, none, 1, .plain, true⟩, exampleDuration t, .DECAYING_FALSE) }

/-- Tile 0 holds item 1 of type `type`, with `d` milliseconds left and not
flagged as decaying; the wheel is empty and `lastBucket` is zero. -/
def wheelGame (type : Nat) (d : Int) : Game :=
  { world :=
      { coinWorld with
        items := fun i =>
          if i = 1 then ⟨type, 1, false, some (.tile 0), 1, .plain, true⟩ else blankItem
        nextItem := 2
        contents := fun c => if c = .tile 0 then [1] else [] }
    duration := fun i => if i = 1 then d else 0
    decaying := fun _ => .DECAYING_FALSE
    toDecayItems := []
    decayItems := fun _ => []
    lastBucket := 0
    decayLog := [] }

/-- Item 1 of `wheelGame`, registered and alone in bucket 1. -/
def turnGame (type : Nat) (d : Int) : Game :=
  { (wheelGame type d).register 1 with
    toDecayItems := []
    decayItems := fun b => if b = 1 then [1] else [] }

/-- As `wheelGame 2052 900`, but item 1 cannot be removed (`canRemove()` is
false). -/
def fixedGame : Game :=
  { wheelGame 2052 900 with
    world :=
      { (wheelGame 2052 900).world with
        items := fun i =>
          if i = 1 then ⟨2052, 1, false, some (.tile 0), 1, .plain, false⟩ else blankItem } }

/-- House 0 is owned by the player with guid 7; the player with guid 8 and
the guild 3 are on its list of sub-owners. -/
def accessHouse : HouseAccess :=
  { house := ⟨7, [], none, 0⟩
    subOwnerList := ⟨[8], [3], false⟩
    guestList := ⟨[9], [], false⟩ }

/-- A visitor with the given guid, no flag and no guild. -/
def plainVisitor (guid : Nat) : Visitor := ⟨idlePlayer guid, false, none⟩

/-- Holders that accept every request; tile `n` redirects to tile `n + 1`
as long as `n` is below `depth`. -/
def stairsEnv (depth : Nat) : Env :=
  { openEnv with
    queryDestination := fun _ c i _ _ f =>
      match c with
      | .tile n => if n < depth then (.tile (n + 1), i, none, f) else (c, i, none, f)
      | _ => (c, i, none, f) }

/-- The redirection graph of `stairsEnv`. -/
def stairsNext (depth : Nat) : Cylinder → Cylinder
  | .tile n => if n < depth then .tile (n + 1) else .tile n
  | c => c

/-- Player 1 has offered the transfer document of house 0 (item 20) to player
2 and has accepted; player 2 has offered nothing. -/
def deedWaitingWorld : World := setTradeState deedWorld 1 .TRADE_ACCEPT

/-- Player 1 has offered item 10 to player 2 and has accepted; player 2 has
offered nothing. -/
def waitingWorld : World := setTradeState offeredWorld 1 .TRADE_ACCEPT

/-- Collaborators of `Game::playerRequestTrade` that let every request
through: everybody stands at the origin, the stack position names the item,
every item can be picked up and shows its type, and item 11 is a container
that holds item 10. -/
def requestEnv : RequestEnv :=
  { toEnv := openEnv
    playerPosition := fun _ _ => ⟨0, 0, 7⟩
    itemPosition := fun _ _ => ⟨0, 0, 7⟩
    areInRange2 := fun _ _ => true
    areInRange1 := fun _ _ => true
    internalGetThing := fun _ _ _ stackPos => some stackPos
    isPickupable := fun _ _ => true
    isDisguised := fun _ _ => false
    getDisguiseId := fun _ _ => 0
    getPathTo := fun _ _ _ => true
    getContainer := fun _ i => decide (i = 11)
    isHoldingItem := fun _ c i => decide (c = 11 ∧ i = 10)
    getItemHoldingCount := fun _ _ => 1 }

/-- As `wheelEnv 250 4`, but the types with an odd id are of another kind
(`type`) than those with an even id. -/
def typedEnv : DecayEnv :=
  { wheelEnv 250 4 with itemTypes := fun t => ⟨t, false, t % 2, 0, 0, false⟩ }

/-- An environment of the upkeep over `wheelEnv 250 4` with two partitions:
thinking costs a creature ten points of health, the other callbacks do
nothing. -/
def upkeepEnv : UpkeepEnv :=
  { toDecayEnv := wheelEnv 250 4
    EVENT_CREATURECOUNT := 2
    onThink := fun s x =>
      s.setCreature x { s.creatures x with health := (s.creatures x).health - 10 }
    onAttacking := fun s _ => s
    executeConditions := fun s _ => s
    onDeath := fun s _ => s }

/-- Creature 1 is enrolled in partition 0; every other creature is enrolled
nowhere; nothing is queued for release. -/
def upkeepServer : Server :=
  { game := wheelGame 2052 900
    creatures := fun c => if c = 1 then ⟨true, true, 2, 100⟩ else ⟨false, false, 1, 100⟩
    checkCreatureLists := fun b => if b = 0 then [1] else []
    ToReleaseCreatures := [] }


/-- As `upkeepServer`, with item 1 queued once and creature 1 queued twice for
release. -/
def queuedServer : Server :=
  { upkeepServer with
    game := (wheelGame 2052 900).withWorld (ReleaseItem (wheelGame 2052 900).world 1)
    ToReleaseCreatures := [1, 1] }

/-- Holders that accept everything, as in `wheelEnv 250 4`; gold, platinum
and crystal coins have the types 2148, 2152 and 2160; a created item is
stackable and holds the count asked for; the tile of every holder is tile 0;
item 2 is a container. -/
def moneyEnv : MoneyEnv :=
  { toDecayEnv :=
      { wheelEnv 250 4 with
        CreateItem := fun t c => some (⟨t, c, true, none, 1, .plain, true⟩, 0, .DECAYING_FALSE) }
    ITEM_GOLD_COIN := 2148
    ITEM_PLATINUM_COIN := 2152
    ITEM_CRYSTAL_COIN := 2160
    FLAG_NOLIMIT := 1
    getTile := fun _ _ => some (.tile 0)
    getContainer := fun _ i => decide (i = 2) }

/-- As `moneyEnv`, but no holder lets an item go: `queryRemove` answers
`RETURNVALUE_NOTPOSSIBLE`. -/
def lockedEnv : MoneyEnv :=
  { moneyEnv with queryRemove := fun _ _ _ _ _ => .RETURNVALUE_NOTPOSSIBLE }

/-- Player 1 holds a stack of 3 platinum coins (item 1) and a bag (item 2);
the bag holds a stack of 50 gold coins (item 3). -/
def purseGame : Game :=
  { wheelGame 0 0 with
    world :=
      { coinWorld with
        items := fun i =>
          if i = 1 then ⟨2152, 3, true, some (.player 1), 1, .plain, true⟩
          else if i = 2 then ⟨1987, 1, false, some (.player 1), 1, .plain, true⟩
          else if i = 3 then ⟨2148, 50, true, some (.container 2), 1, .plain, true⟩
          else blankItem
        nextItem := 4
        contents := fun c =>
          if c = .player 1 then [1, 2] else if c = .container 2 then [3] else [] } }

/-- As `tradeWorld`, but item 10 lies in the bag that player 2 carries,
item 11. -/
def nestedWorld : World :=
  { tradeWorld with
    items := fun i =>
      if i = 10 then ⟨100, 1, false, some (.container 11), 1, .plain, true⟩
      else tradeWorld.items i
    contents := fun c =>
      if c = .container 11 then [10] else if c = .player 2 then [11] else [] }

/-- As `openEnv`, but the inventory of player 2 redirects into the bag it
carries, item 11, whose first item is reported as the occupant. -/
def slotBagEnv : Env :=
  { openEnv with
    queryDestination := fun w c i _ _ f =>
      if c = .player 2 then (.container 11, i, (w.contents (.container 11)).head?, f)
      else (c, i, (w.contents c).head?, f) }

/-- As `slotEnv`, but the slot of player 1 reports the 50 units it takes
together with `RETURNVALUE_NOERROR`. -/
def quietSlotEnv : Env :=
  { openEnv with
    queryMaxCount := fun _ c _ _ n _ =>
      if c = .player 1 ∧ 50 < n then (.RETURNVALUE_NOERROR, 50)
      else (.RETURNVALUE_NOERROR, n) }

/-- As `wheelEnv`, but whether an item can decay is read off the item itself,
as `Item::canDecay` does: the item has a holder and its type a duration. -/
def itemEnv (interval buckets : Nat) : DecayEnv :=
  { wheelEnv interval buckets with
    canDecay := fun g i =>
      (g.world.items i).parent.isSome && decide (0 < exampleDuration (g.world.items i).id) }

/-- As `upkeepEnv`, but a creature that thinks also calls creature 3 for help:
it enrols creature 3 in partition 0 through `Game::addCreatureCheck`. -/
def summonEnv : UpkeepEnv :=
  { upkeepEnv with
    onThink := fun s x =>
      addCreatureCheck
        (s.setCreature x { s.creatures x with health := (s.creatures x).health - 10 }) 3 0 }

/-! # Theorems -/

/-! ## Frame lemmas of the holder primitives -/

@[simp] theorem emit_items (w : World) (e : Event) : (emit w e).items = w.items := rfl
@[simp] theorem emit_contents (w : World) (e : Event) : (emit w e).contents = w.contents := rfl
@[simp] theorem emit_nextItem (w : World) (e : Event) : (emit w e).nextItem = w.nextItem := rfl
@[simp] theorem emit_players (w : World) (e : Event) : (emit w e).players = w.players := rfl
@[simp] theorem emit_playerByID (w : World) (e : Event) : (emit w e).playerByID = w.playerByID := rfl
@[simp] theorem emit_houses (w : World) (e : Event) : (emit w e).houses = w.houses := rfl
@[simp] theorem emit_tradeItems (w : World) (e : Event) : (emit w e).tradeItems = w.tradeItems := rfl
@[simp] theorem emit_ToReleaseItems (w : World) (e : Event) : (emit w e).ToReleaseItems = w.ToReleaseItems := rfl
@[simp] theorem ReleaseItem_items (w : World) (i : Nat) :
    (ReleaseItem w i).items = w.items := rfl
@[simp] theorem ReleaseItem_contents (w : World) (i : Nat) :
    (ReleaseItem w i).contents = w.contents := rfl
@[simp] theorem ReleaseItem_nextItem (w : World) (i : Nat) :
    (ReleaseItem w i).nextItem = w.nextItem := rfl
@[simp] theorem ReleaseItem_players (w : World) (i : Nat) :
    (ReleaseItem w i).players = w.players := rfl
@[simp] theorem ReleaseItem_playerByID (w : World) (i : Nat) :
    (ReleaseItem w i).playerByID = w.playerByID := rfl
@[simp] theorem ReleaseItem_houses (w : World) (i : Nat) :
    (ReleaseItem w i).houses = w.houses := rfl
@[simp] theorem ReleaseItem_tradeItems (w : World) (i : Nat) :
    (ReleaseItem w i).tradeItems = w.tradeItems := rfl
@[simp] theorem ReleaseItem_log (w : World) (i : Nat) :
    (ReleaseItem w i).log = w.log := rfl
@[simp] theorem emitIf_items (w : World) (i : Int) (e : Event) :
    (emitIf w i e).items = w.items := by
  unfold emitIf; split_ifs <;> rfl
@[simp] theorem emitIf_contents (w : World) (i : Int) (e : Event) :
    (emitIf w i e).contents = w.contents := by
  unfold emitIf; split_ifs <;> rfl
@[simp] theorem emitIf_nextItem (w : World) (i : Int) (e : Event) :
    (emitIf w i e).nextItem = w.nextItem := by
  unfold emitIf; split_ifs <;> rfl
@[simp] theorem emitIf_players (w : World) (i : Int) (e : Event) :
    (emitIf w i e).players = w.players := by
  unfold emitIf; split_ifs <;> rfl
@[simp] theorem emitIf_playerByID (w : World) (i : Int) (e : Event) :
    (emitIf w i e).playerByID = w.playerByID := by
  unfold emitIf; split_ifs <;> rfl
@[simp] theorem emitIf_houses (w : World) (i : Int) (e : Event) :
    (emitIf w i e).houses = w.houses := by
  unfold emitIf; split_ifs <;> rfl
@[simp] theorem emitIf_tradeItems (w : World) (i : Int) (e : Event) :
    (emitIf w i e).tradeItems = w.tradeItems := by
  unfold emitIf; split_ifs <;> rfl
@[simp] theorem emitIf_ToReleaseItems (w : World) (i : Int) (e : Event) :
    (emitIf w i e).ToReleaseItems = w.ToReleaseItems := by
  unfold emitIf; split_ifs <;> rfl
@[simp] theorem commitNotify_items (w : World) (a b : Cylinder) (item : Nat) (i : Int)
    (mv up : Option Nat) : (commitNotify w a b item i mv up).items = w.items := by
  unfold commitNotify; cases mv <;> cases up <;> simp
@[simp] theorem commitNotify_contents (w : World) (a b : Cylinder) (item : Nat) (i : Int)
    (mv up : Option Nat) : (commitNotify w a b item i mv up).contents = w.contents := by
  unfold commitNotify; cases mv <;> cases up <;> simp
@[simp] theorem commitNotify_nextItem (w : World) (a b : Cylinder) (item : Nat) (i : Int)
    (mv up : Option Nat) : (commitNotify w a b item i mv up).nextItem = w.nextItem := by
  unfold commitNotify; cases mv <;> cases up <;> simp
@[simp] theorem commitNotify_players (w : World) (a b : Cylinder) (item : Nat) (i : Int)
    (mv up : Option Nat) : (commitNotify w a b item i mv up).players = w.players := by
  unfold commitNotify; cases mv <;> cases up <;> simp
@[simp] theorem commitNotify_playerByID (w : World) (a b : Cylinder) (item : Nat) (i : Int)
    (mv up : Option Nat) : (commitNotify w a b item i mv up).playerByID = w.playerByID := by
  unfold commitNotify; cases mv <;> cases up <;> simp
@[simp] theorem commitNotify_houses (w : World) (a b : Cylinder) (item : Nat) (i : Int)
    (mv up : Option Nat) : (commitNotify w a b item i mv up).houses = w.houses := by
  unfold commitNotify; cases mv <;> cases up <;> simp
@[simp] theorem commitNotify_tradeItems (w : World) (a b : Cylinder) (item : Nat) (i : Int)
    (mv up : Option Nat) : (commitNotify w a b item i mv up).tradeItems = w.tradeItems := by
  unfold commitNotify; cases mv <;> cases up <;> simp
@[simp] theorem commitNotify_ToReleaseItems (w : World) (a b : Cylinder) (item : Nat) (i : Int)
    (mv up : Option Nat) : (commitNotify w a b item i mv up).ToReleaseItems = w.ToReleaseItems := by
  unfold commitNotify; cases mv <;> cases up <;> simp
@[simp] theorem releaseIfRemoved_items (w : World) (i : Nat) :
    (releaseIfRemoved w i).items = w.items := by
  unfold releaseIfRemoved; split_ifs <;> rfl
@[simp] theorem releaseIfRemoved_contents (w : World) (i : Nat) :
    (releaseIfRemoved w i).contents = w.contents := by
  unfold releaseIfRemoved; split_ifs <;> rfl
@[simp] theorem releaseIfRemoved_nextItem (w : World) (i : Nat) :
    (releaseIfRemoved w i).nextItem = w.nextItem := by
  unfold releaseIfRemoved; split_ifs <;> rfl
@[simp] theorem releaseIfRemoved_players (w : World) (i : Nat) :
    (releaseIfRemoved w i).players = w.players := by
  unfold releaseIfRemoved; split_ifs <;> rfl
@[simp] theorem releaseIfRemoved_playerByID (w : World) (i : Nat) :
    (releaseIfRemoved w i).playerByID = w.playerByID := by
  unfold releaseIfRemoved; split_ifs <;> rfl
@[simp] theorem releaseIfRemoved_houses (w : World) (i : Nat) :
    (releaseIfRemoved w i).houses = w.houses := by
  unfold releaseIfRemoved; split_ifs <;> rfl
@[simp] theorem releaseIfRemoved_tradeItems (w : World) (i : Nat) :
    (releaseIfRemoved w i).tradeItems = w.tradeItems := by
  unfold releaseIfRemoved; split_ifs <;> rfl
@[simp] theorem releaseIfRemoved_log (w : World) (i : Nat) :
    (releaseIfRemoved w i).log = w.log := by
  unfold releaseIfRemoved; split_ifs <;> rfl

theorem removeThing_items_of_ne (w : World) (c : Cylinder) (item n i : Nat) (h : i ≠ item) :
    (removeThing w c item n).items i = w.items i := by
  unfold removeThing
  split_ifs <;> simp [Function.update_noteq h]

theorem removeThing_nextItem (w : World) (c : Cylinder) (item n : Nat) :
    (removeThing w c item n).nextItem = w.nextItem := by
  unfold removeThing
  split_ifs <;> rfl

theorem removeThing_mem_of_ne (w : World) (c d : Cylinder) (item n t : Nat) (h : t ≠ item)
    (ht : t ∈ w.contents d) : t ∈ (removeThing w c item n).contents d := by
  unfold removeThing
  split_ifs
  · exact ht
  · by_cases hd : d = c
    · subst hd
      simp [(List.mem_erase_of_ne h).mpr ht]
    · simp [Function.update_noteq hd, ht]
  · exact ht

theorem removeThing_id (w : World) (c : Cylinder) (item n i : Nat) :
    ((removeThing w c item n).items i).id = (w.items i).id := by
  unfold removeThing
  split_ifs <;> by_cases hi : i = item <;> simp [hi, Function.update_apply]

theorem removeThing_stackable (w : World) (c : Cylinder) (item n i : Nat) :
    ((removeThing w c item n).items i).stackable = (w.items i).stackable := by
  unfold removeThing
  split_ifs <;> by_cases hi : i = item <;> simp [hi, Function.update_apply]

theorem mergeAmount_of_le (e m : Nat) (h : e ≤ 100) : mergeAmount e m = min (100 - e) m := by
  unfold mergeAmount
  have h1 : ((100 : Int) - (e : Int)) % 4294967296 = ((100 - e : Nat) : Int) := by
    rw [Int.emod_eq_of_lt] <;> omega
  rw [h1, Int.toNat_ofNat]

theorem add_mergeAmount (e m : Nat) (h : e ≤ 100) : e + mergeAmount e m = min (e + m) 100 := by
  rw [mergeAmount_of_le e m h]; omega

theorem updateThing_contents (w : World) (d : Cylinder) (t a k : Nat) :
    (updateThing w d t a k).contents = w.contents := by
  unfold updateThing; split_ifs <;> rfl

theorem updateThing_nextItem (w : World) (d : Cylinder) (t a k : Nat) :
    (updateThing w d t a k).nextItem = w.nextItem := by
  unfold updateThing; split_ifs <;> rfl

theorem updateThing_items_of_ne (w : World) (d : Cylinder) (t a k i : Nat) (h : i ≠ t) :
    (updateThing w d t a k).items i = w.items i := by
  unfold updateThing; split_ifs <;> simp [Function.update_noteq h]

theorem updateThing_count (w : World) (d : Cylinder) (t a k : Nat) (h : t ∈ w.contents d) :
    ((updateThing w d t a k).items t).count = k := by
  unfold updateThing; rw [if_pos h]; simp

theorem mergeStep_contents (w : World) (d : Cylinder) (item : Nat) (toItem : Option Nat)
    (m : Nat) : (mergeStep w d item toItem m).1.contents = w.contents := by
  unfold mergeStep
  cases toItem with
  | none => rfl
  | some t =>
    simp only []
    split_ifs
    · exact updateThing_contents _ _ _ _ _
    · rfl

theorem mergeStep_nextItem (w : World) (d : Cylinder) (item : Nat) (toItem : Option Nat)
    (m : Nat) : (mergeStep w d item toItem m).1.nextItem = w.nextItem := by
  unfold mergeStep
  cases toItem with
  | none => rfl
  | some t =>
    simp only []
    split_ifs
    · exact updateThing_nextItem _ _ _ _ _
    · rfl

theorem mergeStep_amount (w : World) (d : Cylinder) (item : Nat) (toItem : Option Nat)
    (m : Nat) : (mergeStep w d item toItem m).2.1 = mergedUnits w item toItem m := by
  unfold mergeStep mergedUnits
  cases toItem with
  | none => rfl
  | some t => simp only []; split_ifs <;> rfl

/-- The count of every item after the merge step: the occupant gains the
merged amount, every other count stays. -/
theorem mergeStep_count (w : World) (d : Cylinder) (item : Nat) (toItem : Option Nat) (m : Nat)
    (hocc : ∀ t, toItem = some t → t ∈ w.contents d) (i : Nat) :
    ((mergeStep w d item toItem m).1.items i).count
      = (w.items i).count + (if toItem = some i then mergedUnits w item toItem m else 0) := by
  unfold mergeStep mergedUnits
  cases toItem with
  | none => simp
  | some t =>
    simp only []
    by_cases heq : Item.equals w item (some t) = true
    · simp only [heq, if_true]
      by_cases hi : i = t
      · subst hi
        rw [updateThing_count _ _ _ _ _ (hocc i rfl)]
        simp
      · rw [updateThing_items_of_ne _ _ _ _ _ _ hi]
        have : ¬ (some t = some i) := fun h => hi (Option.some.inj h).symm
        simp [this]
    · simp [heq]

theorem cloneStep_contents (w : World) (item : Nat) (k : Int) :
    (cloneStep w item k).1.contents = w.contents := by
  unfold cloneStep cloneWithCount; split_ifs <;> rfl

theorem cloneStep_moveItem (w : World) (item : Nat) (k : Int) :
    (cloneStep w item k).2 = if 0 < k then some w.nextItem else none := by
  unfold cloneStep cloneWithCount; split_ifs <;> rfl

theorem cloneStep_items_of_ne (w : World) (item : Nat) (k : Int) (i : Nat)
    (h : i ≠ w.nextItem) : (cloneStep w item k).1.items i = w.items i := by
  unfold cloneStep cloneWithCount; split_ifs <;> simp [Function.update_noteq h]

theorem cloneStep_count (w : World) (item : Nat) (k : Int) (h : 0 < k) :
    ((cloneStep w item k).1.items w.nextItem).count = k.toNat := by
  unfold cloneStep cloneWithCount; rw [if_pos h]; simp

theorem stackUpdate_moveItem (w : World) (toCylinder : Cylinder) (item : Nat)
    (toItem : Option Nat) (m : Nat) :
    (stackUpdate w toCylinder item toItem m).2.1 = none ∨
      (stackUpdate w toCylinder item toItem m).2.1 = some w.nextItem := by
  simp only [stackUpdate, cloneStep_moveItem, mergeStep_nextItem]
  split_ifs <;> simp

/-- The occupant's count after the stack update. -/
theorem stackUpdate_occupant_count (w : World) (toCylinder : Cylinder) (item t m : Nat)
    (heq : Item.equals w item (some t) = true) (hocc : t ∈ w.contents toCylinder)
    (halloc : t < w.nextItem) :
    ((stackUpdate w toCylinder item (some t) m).1.items t).count
      = (w.items t).count + mergeAmount (w.items t).count m := by
  have hne : t ≠ (mergeStep w toCylinder item (some t) m).1.nextItem := by
    rw [mergeStep_nextItem]; exact Nat.ne_of_lt halloc
  simp only [stackUpdate, releaseIfRemoved_items]
  rw [cloneStep_items_of_ne _ _ _ _ hne,
    mergeStep_count w toCylinder item (some t) m (fun u hu => by cases hu; exact hocc) t]
  simp [mergedUnits, heq]

/-- The occupant's count after the commit. -/
theorem commitMove_occupant_count (w : World) (fromCylinder toCylinder : Cylinder) (index : Int)
    (item t m : Nat) (hne : t ≠ item) (hstack : (w.items item).stackable = true)
    (heq : Item.equals w item (some t) = true) (hocc : t ∈ w.contents toCylinder)
    (halloc : t < w.nextItem) :
    ((commitMove w fromCylinder toCylinder index item (some t) m).1.items t).count
      = (w.items t).count + mergeAmount (w.items t).count m := by
  have hw1t : (removeThing w fromCylinder item m).items t = w.items t :=
    removeThing_items_of_ne w fromCylinder item m t hne
  have hst : ((removeThing w fromCylinder item m).items item).stackable = true := by
    rw [removeThing_stackable]; exact hstack
  have heq1 : Item.equals (removeThing w fromCylinder item m) item (some t) = true := by
    simpa [Item.equals, removeThing_id] using heq
  have hocc1 : t ∈ (removeThing w fromCylinder item m).contents toCylinder :=
    removeThing_mem_of_ne w fromCylinder toCylinder item m t hne hocc
  have hal1 : t < (removeThing w fromCylinder item m).nextItem := by
    rw [removeThing_nextItem]; exact halloc
  have key := stackUpdate_occupant_count (removeThing w fromCylinder item m) toCylinder item t m
    heq1 hocc1 hal1
  rw [hw1t] at key
  have hmv := stackUpdate_moveItem (removeThing w fromCylinder item m) toCylinder item (some t) m
  simp only [commitMove, hst, if_true, commitNotify_items]
  rcases hmv with h | h
  · rw [h]; simpa [addMoved] using key
  · rw [h]
    have hne2 : t ≠ (removeThing w fromCylinder item m).nextItem := Nat.ne_of_lt hal1
    simpa [addMoved, addThing, Function.update_noteq hne2] using key

/-- A call that reaches its commit returns, and leaves the state of the
commit. -/
theorem internalMoveItem_of_reachesCommit (env : Env) (fuel : Nat) (w : World)
    (fromCylinder toCylinder : Cylinder) (index : Int) (item count flags : Nat)
    (actor tradeItem : Option Nat) (w1 : World) (toCyl : Cylinder) (index1 : Int)
    (toItem toItem1 : Option Nat) (m : Nat)
    (h : ReachesCommit env fuel w fromCylinder toCylinder index item count flags actor tradeItem
      w1 toCyl index1 toItem toItem1 m) :
    ∃ r, internalMoveItem env fuel w fromCylinder toCylinder index item count flags actor tradeItem
        = some r ∧
      r.world = (commitMove w1 fromCylinder toCyl index1 item toItem1 m).1 ∧
      r.moved = (commitMove w1 fromCylinder toCyl index1 item toItem1 m).2 := by
  obtain ⟨flags1, hres, hself, hex, hmax, hm, hrem, hsafe⟩ := h
  subst hm
  simp only [internalMoveItem, hres, hself, if_false, hex, moveAfterAdd, ne_eq, not_true_eq_false,
    hmax, hrem, hsafe]
  split_ifs <;> exact ⟨_, rfl, rfl, rfl⟩

/-- An exchange phase that leaves a non-null occupant has changed nothing. -/
theorem exchangePhase_occupant (env : Env) (w : World) (fromCylinder toCylinder : Cylinder)
    (index : Int) (item count flags : Nat) (actor toItem : Option Nat) (w1 : World) (t : Nat)
    (ret : ReturnValue)
    (h : exchangePhase env w fromCylinder toCylinder index item count flags actor toItem
      = some (w1, some t, ret)) : w1 = w ∧ toItem = some t := by
  unfold exchangePhase at h
  cases toItem with
  | none =>
    simp only [] at h
    split_ifs at h
    simp at h
  | some u =>
    simp only [] at h
    split_ifs at h <;> simp at h <;> simp [h]

/-- Claim C1. In `Game::internalMoveItem`, when a stackable item is moved with
clamped amount `m` and the call reaches its commit with an occupant `t` that
the resolved destination holds (an allocated item, `t < nextItem`) and that
is a compatible stack (`item->equals(toItem)`) of `e <= 100` units, the call
returns and the occupant's count after the commit is `min (e + m) 100`. This
holds for every `m`, in particular for `m >= 1`. -/
theorem internalMoveItem_merge_count (env : Env) (fuel : Nat) (w : World)
    (fromCylinder toCylinder : Cylinder) (index : Int) (item count flags : Nat)
    (actor tradeItem : Option Nat) (w1 : World) (toCyl : Cylinder) (index1 : Int)
    (t m e : Nat)
    (hcommit : ReachesCommit env fuel w fromCylinder toCylinder index item count flags actor
      tradeItem w1 toCyl index1 (some t) (some t) m)
    (hstack : (w.items item).stackable = true)
    (heq : Item.equals w item (some t) = true)
    (hocc : t ∈ w.contents toCyl)
    (halloc : t < w.nextItem)
    (he : (w.items t).count = e) (hcap : e ≤ 100) :
    ∃ r, internalMoveItem env fuel w fromCylinder toCylinder index item count flags actor tradeItem
        = some r ∧ (r.world.items t).count = min (e + m) 100 := by
  obtain ⟨r, hr, hw, -⟩ := internalMoveItem_of_reachesCommit env fuel w fromCylinder toCylinder
    index item count flags actor tradeItem w1 toCyl index1 (some t) (some t) m hcommit
  obtain ⟨flags1, -, hself, hex, -⟩ := hcommit
  obtain ⟨hw1, -⟩ := exchangePhase_occupant env w fromCylinder toCyl index1 item count flags1
    actor (some t) w1 t _ hex
  subst hw1
  have hne : t ≠ item := fun h => hself (by rw [h])
  refine ⟨r, hr, ?_⟩
  rw [hw, commitMove_occupant_count w1 fromCylinder toCyl index1 item t m hne hstack heq hocc
    halloc, he]
  exact add_mergeAmount e m hcap

/-- Witness of C1: 60 of the 80 coins on the tile are moved onto the player's
stack of 50, which ends at 100. -/
theorem internalMoveItem_merge_count_witness :
    ∃ r, internalMoveItem openEnv 4 coinWorld (.tile 0) (.player 1) INDEX_WHEREEVER 1 60 0 none none
        = some r ∧ (r.world.items 2).count = min (50 + 60) 100 :=
  internalMoveItem_merge_count openEnv 4 coinWorld (.tile 0) (.player 1) INDEX_WHEREEVER 1 60 0
    none none coinWorld (.player 1) INDEX_WHEREEVER 2 60 50
    ⟨0, rfl, by decide, rfl, by decide, by decide, rfl, rfl⟩
    rfl rfl (by decide) (by decide) rfl (by decide)

/-! ## Unit counts under the holder primitives -/

theorem sum_map_congr_of_mem (l : List Nat) (f g : Nat → Nat) (h : ∀ i ∈ l, f i = g i) :
    (l.map f).sum = (l.map g).sum := by
  rw [List.map_congr_left h]

theorem sum_map_erase_add (l : List Nat) (f : Nat → Nat) (x : Nat) (h : x ∈ l) :
    ((l.erase x).map f).sum + f x = (l.map f).sum := by
  rw [← List.sum_map_erase f h]; omega

/-- Changing the value at one point of a duplicate-free list moves the sum by
the difference at that point. -/
theorem sum_map_point (l : List Nat) (f g : Nat → Nat) (x : Nat) (hx : x ∈ l) (hl : l.Nodup)
    (h : ∀ i, i ≠ x → g i = f i) : (l.map g).sum + f x = (l.map f).sum + g x := by
  have h1 := sum_map_erase_add l f x hx
  have h2 := sum_map_erase_add l g x hx
  have h3 : ((l.erase x).map g).sum = ((l.erase x).map f).sum := by
    apply sum_map_congr_of_mem
    intro i hi
    exact h i (fun e => by subst e; exact (List.Nodup.not_mem_erase hl) hi)
  omega

theorem unitsIn_congr (w w1 : World) (c : Cylinder) (hc : w1.contents c = w.contents c)
    (hi : ∀ i ∈ w.contents c, (w1.items i).count = (w.items i).count) :
    unitsIn w1 c = unitsIn w c := by
  unfold unitsIn
  rw [hc]
  exact sum_map_congr_of_mem _ _ _ hi

theorem removeThing_contents_of_ne (w : World) (c d : Cylinder) (item m : Nat) (h : d ≠ c) :
    (removeThing w c item m).contents d = w.contents d := by
  unfold removeThing
  split_ifs <;> simp [Function.update_noteq h]

theorem removeThing_detach_contents (w : World) (c : Cylinder) (item m : Nat)
    (hin : item ∈ w.contents c)
    (h : ¬ ((w.items item).stackable = true ∧ m ≠ (w.items item).count)) :
    (removeThing w c item m).contents c = (w.contents c).erase item := by
  unfold removeThing
  rw [if_pos hin, if_neg h]
  simp

theorem removeThing_detach_count (w : World) (c : Cylinder) (item m : Nat)
    (h : ¬ ((w.items item).stackable = true ∧ m ≠ (w.items item).count)) (i : Nat) :
    ((removeThing w c item m).items i).count = (w.items i).count := by
  unfold removeThing
  split_ifs
  · by_cases hi : i = item <;> simp [hi, Function.update_apply]
  · rfl

theorem removeThing_part_contents (w : World) (c : Cylinder) (item m : Nat)
    (h : (w.items item).stackable = true ∧ m ≠ (w.items item).count) :
    (removeThing w c item m).contents = w.contents := by
  unfold removeThing
  split_ifs <;> rfl

theorem removeThing_part_count (w : World) (c : Cylinder) (item m : Nat)
    (hin : item ∈ w.contents c)
    (h : (w.items item).stackable = true ∧ m ≠ (w.items item).count) :
    ((removeThing w c item m).items item).count = (w.items item).count - m := by
  unfold removeThing
  rw [if_pos hin, if_pos h]
  simp

/-- Taking `m` units of a stackable item off its holder lowers the units of
the holder by `m`. -/
theorem removeThing_unitsIn_source (w : World) (c : Cylinder) (item m : Nat)
    (hin : item ∈ w.contents c) (hl : (w.contents c).Nodup)
    (hst : (w.items item).stackable = true) (hm : m ≤ (w.items item).count) :
    unitsIn (removeThing w c item m) c + m = unitsIn w c := by
  unfold unitsIn
  by_cases hmc : m = (w.items item).count
  · have hd : ¬ ((w.items item).stackable = true ∧ m ≠ (w.items item).count) := by simp [hmc]
    rw [removeThing_detach_contents w c item m hin hd]
    have h1 := sum_map_erase_add (w.contents c) (fun i => (w.items i).count) item hin
    have h2 : ((w.contents c).erase item).map
        (fun i => ((removeThing w c item m).items i).count)
        = ((w.contents c).erase item).map (fun i => (w.items i).count) :=
      List.map_congr_left (fun i _ => removeThing_detach_count w c item m hd i)
    rw [h2]
    simp only [] at h1
    omega
  · have hp : (w.items item).stackable = true ∧ m ≠ (w.items item).count := ⟨hst, hmc⟩
    rw [removeThing_part_contents w c item m hp]
    have h := sum_map_point (w.contents c) (fun i => (w.items i).count)
      (fun i => ((removeThing w c item m).items i).count) item hin hl
      (fun i hi => by simp only []; rw [removeThing_items_of_ne w c item m i hi])
    simp only [] at h
    rw [removeThing_part_count w c item m hin hp] at h
    omega

theorem removeThing_unitsIn_other (w : World) (c d : Cylinder) (item m : Nat) (h : d ≠ c)
    (hnot : item ∉ w.contents d) : unitsIn (removeThing w c item m) d = unitsIn w d := by
  apply unitsIn_congr _ _ _ (removeThing_contents_of_ne w c d item m h)
  intro i hi
  rw [removeThing_items_of_ne]
  intro e; subst e; exact hnot hi

theorem removeThing_heldUnits (w : World) (c : Cylinder) (item m : Nat)
    (hin : item ∈ w.contents c) (hl : (w.contents c).Nodup)
    (hst : (w.items item).stackable = true) (hm : m ≤ (w.items item).count) :
    heldUnits (removeThing w c item m) c item + m = heldUnits w c item := by
  unfold heldUnits
  by_cases hmc : m = (w.items item).count
  · have hd : ¬ ((w.items item).stackable = true ∧ m ≠ (w.items item).count) := by simp [hmc]
    rw [removeThing_detach_contents w c item m hin hd, if_neg (List.Nodup.not_mem_erase hl),
      if_pos hin]
    omega
  · have hp : (w.items item).stackable = true ∧ m ≠ (w.items item).count := ⟨hst, hmc⟩
    rw [removeThing_part_contents w c item m hp, if_pos hin, if_pos hin,
      removeThing_part_count w c item m hin hp]
    omega

theorem toInt32_of_lt (x : Nat) (h : x < 2147483648) : toInt32 x = (x : Int) := by
  unfold toInt32
  have h1 : x % 4294967296 = x := Nat.mod_eq_of_lt (by omega)
  rw [h1, if_pos h]

theorem mergeAmount_le (e m : Nat) : mergeAmount e m ≤ m := by
  unfold mergeAmount; exact Nat.min_le_right _ _

theorem mergedUnits_le (w : World) (item : Nat) (toItem : Option Nat) (m : Nat) :
    mergedUnits w item toItem m ≤ m := by
  unfold mergedUnits
  cases toItem with
  | none => simp
  | some t => simp only []; split_ifs
              · exact mergeAmount_le _ _
              · exact Nat.zero_le _


theorem addMoved_contents (w : World) (d : Cylinder) (index : Int) (mv : Option Nat)
    (x : Cylinder) :
    (addMoved w d index mv).contents x
      = (match mv with
         | some i => if x = d then [i] else []
         | none => []) ++ w.contents x := by
  cases mv with
  | none => simp [addMoved]
  | some i =>
    by_cases hx : x = d
    · subst hx; simp [addMoved, addThing]
    · simp [addMoved, addThing, Function.update_noteq hx, hx]

theorem addMoved_count (w : World) (d : Cylinder) (index : Int) (mv : Option Nat) (i : Nat) :
    ((addMoved w d index mv).items i).count = (w.items i).count := by
  cases mv with
  | none => rfl
  | some j => by_cases h : i = j <;> simp [addMoved, addThing, h, Function.update_apply]

/-- The holder sequences after the commit of a stackable item: the sequences
left by `removeThing`, with the fresh clone in front of the destination when
units are left over. -/
theorem commitMove_contents (w : World) (fromCylinder toCylinder : Cylinder) (index : Int)
    (item : Nat) (toItem : Option Nat) (m : Nat) (hst : (w.items item).stackable = true)
    (hm : m < 2147483648) (x : Cylinder) :
    (commitMove w fromCylinder toCylinder index item toItem m).1.contents x
      = (if x = toCylinder ∧
            mergedUnits (removeThing w fromCylinder item m) item toItem m < m
          then [w.nextItem] else [])
        ++ (removeThing w fromCylinder item m).contents x := by
  have hst2 : ((removeThing w fromCylinder item m).items item).stackable = true := by
    rw [removeThing_stackable]; exact hst
  have hle := mergedUnits_le (removeThing w fromCylinder item m) item toItem m
  simp only [commitMove, hst2, if_true, commitNotify_contents, addMoved_contents, stackUpdate,
    cloneStep_moveItem, releaseIfRemoved_contents, cloneStep_contents, mergeStep_contents,
    mergeStep_amount, mergeStep_nextItem, removeThing_nextItem]
  rw [toInt32_of_lt _ (by omega)]
  by_cases hn : mergedUnits (removeThing w fromCylinder item m) item toItem m < m
  · have : (0 : Int) < ((m - mergedUnits (removeThing w fromCylinder item m) item toItem m : Nat)
        : Int) := by omega
    simp only [this, if_true, hn, and_true]
  · have : ¬ (0 : Int) < ((m - mergedUnits (removeThing w fromCylinder item m) item toItem m : Nat)
        : Int) := by omega
    simp [this, hn]

/-- The counts after the commit of a stackable item: the fresh clone holds the
units left over, the occupant has gained the merged units, and every other
count is as `removeThing` left it. -/
theorem commitMove_count (w : World) (fromCylinder toCylinder : Cylinder) (index : Int)
    (item : Nat) (toItem : Option Nat) (m : Nat) (hst : (w.items item).stackable = true)
    (hm : m < 2147483648)
    (hocc : ∀ t, toItem = some t → t ∈ (removeThing w fromCylinder item m).contents toCylinder)
    (i : Nat) :
    ((commitMove w fromCylinder toCylinder index item toItem m).1.items i).count
      = if i = w.nextItem ∧ mergedUnits (removeThing w fromCylinder item m) item toItem m < m
        then m - mergedUnits (removeThing w fromCylinder item m) item toItem m
        else ((removeThing w fromCylinder item m).items i).count
          + (if toItem = some i
              then mergedUnits (removeThing w fromCylinder item m) item toItem m else 0) := by
  have hst2 : ((removeThing w fromCylinder item m).items item).stackable = true := by
    rw [removeThing_stackable]; exact hst
  have hle := mergedUnits_le (removeThing w fromCylinder item m) item toItem m
  simp only [commitMove, hst2, if_true, commitNotify_items, addMoved_count, stackUpdate,
    releaseIfRemoved_items, mergeStep_amount]
  rw [toInt32_of_lt _ (by omega)]
  have hnx : (mergeStep (removeThing w fromCylinder item m) toCylinder item toItem m).1.nextItem
      = w.nextItem := by rw [mergeStep_nextItem, removeThing_nextItem]
  by_cases hi : i = w.nextItem
  · by_cases hn : mergedUnits (removeThing w fromCylinder item m) item toItem m < m
    · have hpos : (0 : Int) < ((m - mergedUnits (removeThing w fromCylinder item m) item toItem m
          : Nat) : Int) := by omega
      have := cloneStep_count (mergeStep (removeThing w fromCylinder item m) toCylinder item
        toItem m).1 item _ hpos
      rw [hnx] at this
      simp only [hi, hn, and_self, if_true]
      rw [this]; simp
    · have hnp : ¬ (0 : Int) < ((m - mergedUnits (removeThing w fromCylinder item m) item toItem m
          : Nat) : Int) := by omega
      simp only [hn, and_false, if_false]
      unfold cloneStep
      rw [if_neg hnp]
      exact mergeStep_count _ _ _ _ _ hocc i
  · have hi2 : i ≠ (mergeStep (removeThing w fromCylinder item m) toCylinder item toItem
        m).1.nextItem := by rw [hnx]; exact hi
    rw [cloneStep_items_of_ne _ _ _ _ hi2]
    simp only [hi, false_and, if_false]
    exact mergeStep_count _ _ _ _ _ hocc i

theorem removeThing_contents_sublist (w : World) (c x : Cylinder) (item m : Nat) :
    ((removeThing w c item m).contents x).Sublist (w.contents x) := by
  unfold removeThing
  split_ifs
  · exact List.Sublist.refl _
  · by_cases hx : x = c
    · subst hx; simp [List.erase_sublist]
    · simp [Function.update_noteq hx]
  · exact List.Sublist.refl _

theorem removeThing_count_of_ne (w : World) (c : Cylinder) (item m i : Nat) (h : i ≠ item) :
    ((removeThing w c item m).items i).count = (w.items i).count := by
  rw [removeThing_items_of_ne w c item m i h]

/-- The merged amount of the model agrees with the stated gain when the
occupant respects the stack cap. -/
theorem mergedUnits_removeThing (w : World) (c : Cylinder) (item : Nat) (toItem : Option Nat)
    (m : Nat) (hself : toItem ≠ some item)
    (hcap : ∀ t, toItem = some t → (w.items t).count ≤ 100) :
    mergedUnits (removeThing w c item m) item toItem m = stackGain w item toItem m := by
  unfold mergedUnits stackGain
  cases toItem with
  | none => rfl
  | some t =>
    have hne : t ≠ item := fun h => hself (by rw [h])
    have he : Item.equals (removeThing w c item m) item (some t) = Item.equals w item (some t) := by
      simp [Item.equals, removeThing_id]
    simp only [he, removeThing_count_of_ne w c item m t hne]
    split_ifs
    · exact mergeAmount_of_le _ _ (hcap t rfl)
    · rfl

theorem sum_map_indicator (l : List Nat) (f : Nat → Nat) (t n : Nat) (hl : l.Nodup)
    (ht : t ∈ l) : (l.map (fun i => f i + if i = t then n else 0)).sum = (l.map f).sum + n := by
  have h := sum_map_point l f (fun i => f i + if i = t then n else 0) t ht hl
    (fun i hi => by simp [hi])
  simp only [if_true] at h
  omega

/-- Units of a holder after the commit, for the part of its sequence that
`removeThing` left: the units left by `removeThing`, plus the merged units
when the occupant is in that holder. -/
theorem commit_units_old (w : World) (fromCylinder toCylinder : Cylinder) (index : Int)
    (item : Nat) (toItem : Option Nat) (m : Nat) (hst : (w.items item).stackable = true)
    (hm : m < 2147483648)
    (hocc : ∀ t, toItem = some t → t ∈ (removeThing w fromCylinder item m).contents toCylinder)
    (x : Cylinder) (hl : ((removeThing w fromCylinder item m).contents x).Nodup)
    (hal : ∀ i ∈ (removeThing w fromCylinder item m).contents x, i < w.nextItem) :
    (((removeThing w fromCylinder item m).contents x).map fun i =>
        ((commitMove w fromCylinder toCylinder index item toItem m).1.items i).count).sum
      = unitsIn (removeThing w fromCylinder item m) x
        + (if ∃ t ∈ (removeThing w fromCylinder item m).contents x, toItem = some t
            then mergedUnits (removeThing w fromCylinder item m) item toItem m else 0) := by
  have hc : ∀ i ∈ (removeThing w fromCylinder item m).contents x,
      ((commitMove w fromCylinder toCylinder index item toItem m).1.items i).count
        = ((removeThing w fromCylinder item m).items i).count
          + (if toItem = some i
              then mergedUnits (removeThing w fromCylinder item m) item toItem m else 0) := by
    intro i hi
    rw [commitMove_count w fromCylinder toCylinder index item toItem m hst hm hocc i]
    have : i ≠ w.nextItem := Nat.ne_of_lt (hal i hi)
    simp [this]
  rw [sum_map_congr_of_mem _ _ _ hc]
  unfold unitsIn
  cases toItem with
  | none => simp
  | some t =>
    by_cases ht : t ∈ (removeThing w fromCylinder item m).contents x
    · rw [if_pos ⟨t, ht, rfl⟩]
      have := sum_map_indicator _ (fun i => ((removeThing w fromCylinder item m).items i).count)
        t (mergedUnits (removeThing w fromCylinder item m) item (some t) m) hl ht
      rw [← this]
      apply sum_map_congr_of_mem
      intro i _
      by_cases hi : i = t
      · subst hi; simp
      · have : ¬ (some t = some i) := fun h => hi (Option.some.inj h).symm
        simp [hi, this]
    · rw [if_neg (fun ⟨u, hu, he⟩ => ht (by cases he; exact hu))]
      have : ∀ i ∈ (removeThing w fromCylinder item m).contents x,
          ((removeThing w fromCylinder item m).items i).count
            + (if some t = some i
                then mergedUnits (removeThing w fromCylinder item m) item (some t) m else 0)
          = ((removeThing w fromCylinder item m).items i).count := by
        intro i hi
        have : ¬ (some t = some i) := fun h => ht (by cases h; exact hi)
        simp [this]
      rw [sum_map_congr_of_mem _ _ _ this]
      simp

/-- Conservation at the commit of `Game::internalMoveItem` for a stackable
item held by the source: the source stack loses `m` units, the occupant gains
`n`, the units left over form one fresh stack, and the units over source and
destination stay the same. -/
theorem commitMove_conserves (w : World) (fromCylinder toCylinder : Cylinder) (index : Int)
    (item : Nat) (toItem : Option Nat) (m : Nat)
    (hst : (w.items item).stackable = true) (hin : item ∈ w.contents fromCylinder)
    (hmc : m ≤ (w.items item).count) (hcap : (w.items item).count ≤ 100)
    (hok : HoldersOk w fromCylinder toCylinder) (hself : toItem ≠ some item)
    (hocc : ∀ t, toItem = some t → t ∈ w.contents toCylinder ∧ (w.items t).count ≤ 100) :
    heldUnits (commitMove w fromCylinder toCylinder index item toItem m).1 fromCylinder item + m
        = heldUnits w fromCylinder item ∧
    (∀ t, toItem = some t →
      ((commitMove w fromCylinder toCylinder index item toItem m).1.items t).count
        = (w.items t).count + stackGain w item toItem m) ∧
    newStacks w (commitMove w fromCylinder toCylinder index item toItem m).1 toCylinder
        = (if stackGain w item toItem m < m then [w.nextItem] else []) ∧
    (stackGain w item toItem m < m →
      ((commitMove w fromCylinder toCylinder index item toItem m).1.items w.nextItem).count
        = m - stackGain w item toItem m) ∧
    unitsOver (commitMove w fromCylinder toCylinder index item toItem m).1 fromCylinder toCylinder
        = unitsOver w fromCylinder toCylinder := by
  obtain ⟨hnf, hnt, hdis, haf, hat⟩ := hok
  have hm : m < 2147483648 := by omega
  have hn : mergedUnits (removeThing w fromCylinder item m) item toItem m
      = stackGain w item toItem m :=
    mergedUnits_removeThing w fromCylinder item toItem m hself (fun t ht => (hocc t ht).2)
  have hnle : stackGain w item toItem m ≤ m := by rw [← hn]; exact mergedUnits_le _ _ _ _
  have htne : ∀ t, toItem = some t → t ≠ item := fun t ht h => hself (by rw [ht, h])
  have hoccR : ∀ t, toItem = some t →
      t ∈ (removeThing w fromCylinder item m).contents toCylinder := fun t ht =>
    removeThing_mem_of_ne w fromCylinder toCylinder item m t (htne t ht) (hocc t ht).1
  have hitem_lt : item < w.nextItem := haf item hin
  have hcont := commitMove_contents w fromCylinder toCylinder index item toItem m hst hm
  have hcnt := commitMove_count w fromCylinder toCylinder index item toItem m hst hm hoccR
  rw [hn] at hcont hcnt
  have hsubF := removeThing_contents_sublist w fromCylinder fromCylinder item m
  have hsubT := removeThing_contents_sublist w fromCylinder toCylinder item m
  have hold := commit_units_old w fromCylinder toCylinder index item toItem m hst hm hoccR
  rw [hn] at hold
  refine ⟨?_, ?_, ?_, ?_, ?_⟩
  · -- the source stack
    rw [← removeThing_heldUnits w fromCylinder item m hin hnf hst hmc]
    unfold heldUnits
    have hc : ((commitMove w fromCylinder toCylinder index item toItem m).1.items item).count
        = ((removeThing w fromCylinder item m).items item).count := by
      rw [hcnt item]
      have h1 : item ≠ w.nextItem := Nat.ne_of_lt hitem_lt
      have h2 : ¬ toItem = some item := hself
      simp [h1, h2]
    have hmem : item ∈ (commitMove w fromCylinder toCylinder index item toItem m).1.contents
          fromCylinder ↔ item ∈ (removeThing w fromCylinder item m).contents fromCylinder := by
      rw [hcont fromCylinder]
      have h1 : item ≠ w.nextItem := Nat.ne_of_lt hitem_lt
      split_ifs <;> simp [h1]
    simp only [hmem, hc]
  · -- the occupant
    intro t ht
    rw [hcnt t]
    have h1 : t ≠ w.nextItem := Nat.ne_of_lt (hat t (hocc t ht).1)
    simp [h1, ht, removeThing_count_of_ne w fromCylinder item m t (htne t ht)]
  · -- the new stacks of the destination
    unfold newStacks
    rw [hcont toCylinder, List.filter_append]
    have hold0 : ((removeThing w fromCylinder item m).contents toCylinder).filter
        (fun i => decide (i ∉ w.contents toCylinder)) = [] := by
      rw [List.filter_eq_nil_iff]
      intro i hi
      simp [hsubT.subset hi]
    have hfresh : w.nextItem ∉ w.contents toCylinder := fun h => Nat.lt_irrefl _ (hat _ h)
    rw [hold0]
    by_cases hlt : stackGain w item toItem m < m
    · simp [hlt, hfresh]
    · simp [hlt]
  · -- the stack left over
    intro hlt
    rw [hcnt w.nextItem]
    simp [hlt]
  · -- the total
    have hsrc := removeThing_unitsIn_source w fromCylinder item m hin hnf hst hmc
    have hpre : ∀ x, unitsIn (commitMove w fromCylinder toCylinder index item toItem m).1 x
        = (if x = toCylinder then m - stackGain w item toItem m else 0)
          + (((removeThing w fromCylinder item m).contents x).map fun i =>
              ((commitMove w fromCylinder toCylinder index item toItem m).1.items i).count).sum := by
      intro x
      unfold unitsIn
      rw [hcont x, List.map_append, List.sum_append]
      congr 1
      by_cases hx : x = toCylinder
      · by_cases hlt : stackGain w item toItem m < m
        · have := hcnt w.nextItem
          simp only [hlt, and_self, if_true] at this
          simp [hx, hlt, this]
        · have : m - stackGain w item toItem m = 0 := by omega
          simp [hx, hlt, this]
      · simp [hx]
    unfold unitsOver
    by_cases hft : fromCylinder = toCylinder
    · subst hft
      simp only [if_true]
      rw [hpre fromCylinder, hold fromCylinder (hsubF.nodup hnf)
        (fun i hi => haf i (hsubF.subset hi))]
      simp only [if_true]
      cases toItem with
      | none => simp [stackGain] at hnle ⊢; omega
      | some t =>
        rw [if_pos ⟨t, hoccR t rfl, rfl⟩]
        omega
    · simp only [if_neg hft]
      rw [hpre fromCylinder, hpre toCylinder,
        hold fromCylinder (hsubF.nodup hnf) (fun i hi => haf i (hsubF.subset hi)),
        hold toCylinder (hsubT.nodup hnt) (fun i hi => hat i (hsubT.subset hi))]
      have hto : unitsIn (removeThing w fromCylinder item m) toCylinder = unitsIn w toCylinder :=
        removeThing_unitsIn_other w fromCylinder toCylinder item m (Ne.symm hft)
          (hdis hft item hin)
      simp only [if_neg hft, if_true, hto]
      cases toItem with
      | none => simp [stackGain] at hnle ⊢; omega
      | some t =>
        have htF : t ∉ (removeThing w fromCylinder item m).contents fromCylinder := fun h =>
          hdis hft t (hsubF.subset h) (hocc t rfl).1
        rw [if_neg (fun ⟨u, hu, he⟩ => htF (by cases he; exact hu)), if_pos ⟨t, hoccR t rfl, rfl⟩]
        omega

/-- The exchange phase either keeps the occupant pointer or clears it. -/
theorem exchangePhase_occupant_cases (env : Env) (w : World) (fromCylinder toCylinder : Cylinder)
    (index : Int) (item count flags : Nat) (actor toItem : Option Nat) (w1 : World)
    (toItem1 : Option Nat) (ret : ReturnValue)
    (h : exchangePhase env w fromCylinder toCylinder index item count flags actor toItem
      = some (w1, toItem1, ret)) : toItem1 = toItem ∨ toItem1 = none := by
  unfold exchangePhase at h
  cases toItem with
  | none =>
    simp only [] at h
    split_ifs at h
    simp only [Option.some.injEq, Prod.mk.injEq] at h
    exact Or.inl h.2.1.symm
  | some u =>
    simp only [] at h
    split_ifs at h <;> simp only [Option.some.injEq, Prod.mk.injEq] at h
    all_goals first
      | exact Or.inl h.2.1.symm
      | exact Or.inr h.2.1.symm

/-! ## Trade coordinator: starting a trade -/

@[simp] theorem setPlayer_players_same (w : World) (p : Nat) (pl : Player) :
    (setPlayer w p pl).players p = pl := by simp [setPlayer]

theorem setPlayer_players_of_ne (w : World) (p q : Nat) (pl : Player) (h : q ≠ p) :
    (setPlayer w p pl).players q = w.players q := by simp [setPlayer, Function.update_noteq h]

/-- Counterexample to C6 as stated: player 1 is in state `TRADE_INITIATED`
with pending partner 2, and offering again to player 2 is refused. -/
theorem internalStartTrade_initiated_refused :
    (offeredWorld.players 1).tradeState = .TRADE_INITIATED ∧
    (offeredWorld.players 1).tradePartner = some 2 ∧
    (internalStartTrade offeredWorld 1 2 10).1 = false := by decide

/-- Claim C6, amended. `Game::internalStartTrade` lets the acknowledging side
offer to its pending partner: for every player in state `TRADE_ACKNOWLEDGE`
with pending partner `P` (who is idle or has the player as partner), the call
returns true and makes `item` the player's offered item; for a player in
state `TRADE_INITIATED` the same call returns false. -/
theorem internalStartTrade_reoffer (w : World) (player partner item : Nat)
    (hpartner : (w.players player).tradePartner = some partner)
    (hsym : (w.players partner).tradeState = .TRADE_NONE ∨
      (w.players partner).tradePartner = some player) :
    ((w.players player).tradeState = .TRADE_ACKNOWLEDGE →
      (internalStartTrade w player partner item).1 = true ∧
      ((internalStartTrade w player partner item).2.players player).tradeItem = some item) ∧
    ((w.players player).tradeState = .TRADE_INITIATED →
      (internalStartTrade w player partner item).1 = false) := by
  constructor
  · intro hack
    have h1 : ¬ ((w.players player).tradeState ≠ .TRADE_NONE ∧
        ¬ ((w.players player).tradeState = .TRADE_ACKNOWLEDGE ∧
            (w.players player).tradePartner = some partner)) := by
      simp [hack, hpartner]
    have h2 : ¬ ((w.players partner).tradeState ≠ .TRADE_NONE ∧
        (w.players partner).tradePartner ≠ some player) := by
      rcases hsym with h | h <;> simp [h]
    unfold internalStartTrade
    rw [if_neg h1, if_neg h2]
    by_cases hpq : partner = player
    · subst hpq
      simp [setPlayer, setItem, tradeItemsAssign, emit]
    · simp only [emit, tradeItemsAssign, setItem, setPlayer]
      split_ifs <;> simp [Function.update_noteq (Ne.symm hpq)]
  · intro hini
    unfold internalStartTrade
    simp [hini]

/-- Witness of C6 (amended): player 2, acknowledged by player 1's offer,
answers with item 11. -/
theorem internalStartTrade_reoffer_witness :
    ((offeredWorld.players 2).tradeState = .TRADE_ACKNOWLEDGE →
      (internalStartTrade offeredWorld 2 1 11).1 = true ∧
      ((internalStartTrade offeredWorld 2 1 11).2.players 2).tradeItem = some 11) ∧
    ((offeredWorld.players 2).tradeState = .TRADE_INITIATED →
      (internalStartTrade offeredWorld 2 1 11).1 = false) :=
  internalStartTrade_reoffer offeredWorld 2 1 11 (by decide) (Or.inr (by decide))

/-- Claim C7. `Game::internalStartTrade` rejects an offer to a third party:
when the player is trading (state not `TRADE_NONE`) and the requested
partner is not the player's current partner, or when the requested partner
is trading with someone other than the player, the call returns false and
leaves the trade fields of every player, the `tradeItems` registry and every
item (its reference count included) unchanged. -/
theorem internalStartTrade_third_party (w : World) (player partner item : Nat)
    (h : ((w.players player).tradeState ≠ .TRADE_NONE ∧
          (w.players player).tradePartner ≠ some partner) ∨
        ((w.players partner).tradeState ≠ .TRADE_NONE ∧
          (w.players partner).tradePartner ≠ some player)) :
    (internalStartTrade w player partner item).1 = false ∧
    (internalStartTrade w player partner item).2.players = w.players ∧
    (internalStartTrade w player partner item).2.tradeItems = w.tradeItems ∧
    (internalStartTrade w player partner item).2.items = w.items := by
  unfold internalStartTrade
  by_cases h1 : (w.players player).tradeState ≠ .TRADE_NONE ∧
      ¬ ((w.players player).tradeState = .TRADE_ACKNOWLEDGE ∧
          (w.players player).tradePartner = some partner)
  · rw [if_pos h1]; simp
  · rw [if_neg h1]
    have h2 : (w.players partner).tradeState ≠ .TRADE_NONE ∧
        (w.players partner).tradePartner ≠ some player := by
      rcases h with h | h
      · exact absurd ⟨h.1, fun hc => h.2 hc.2⟩ h1
      · exact h
    rw [if_pos h2]; simp

/-- Witness of C7: player 3 asks player 1, who is already trading with
player 2. -/
theorem internalStartTrade_third_party_witness :
    (internalStartTrade offeredWorld 3 1 11).1 = false ∧
    (internalStartTrade offeredWorld 3 1 11).2.players = offeredWorld.players ∧
    (internalStartTrade offeredWorld 3 1 11).2.tradeItems = offeredWorld.tradeItems ∧
    (internalStartTrade offeredWorld 3 1 11).2.items = offeredWorld.items :=
  internalStartTrade_third_party offeredWorld 3 1 11 (Or.inr (by decide))

/-! ## Trade coordinator: accepting -/

/-- Counterexample to C5 as stated: player 1 is in state `TRADE_INITIATED`,
its partner 2 is not in state `TRADE_ACCEPT`, but the partner cannot be
reached, and the call leaves player 1 in state `TRADE_INITIATED`. -/
theorem playerAcceptTrade_unreachable_keeps_state :
    (offeredWorld.players 1).tradeState = .TRADE_INITIATED ∧
    (offeredWorld.players 1).tradePartner = some 2 ∧
    (offeredWorld.players 2).tradeState ≠ .TRADE_ACCEPT ∧
    ((playerAcceptTrade blockedEnv 0 offeredWorld 1).map fun w => (w.players 1).tradeState)
      = some .TRADE_INITIATED := by decide

/-- Claim C5, amended. `Game::playerAcceptTrade` completes a trade only when
both sides are in `TRADE_ACCEPT`. For a player in state `TRADE_INITIATED` or
`TRADE_ACKNOWLEDGE` whose partner is another player not in state
`TRADE_ACCEPT`: when the partner can be reached (`canThrowObjectTo`) the
call only sets the player's trade state to `TRADE_ACCEPT`, so no item
changes holder and the registry, the release queue, the notifications and
every other player stay as they are; when the partner cannot be reached the
call only sends the player the cancel message. A call by a player in any
other state changes nothing. -/
theorem playerAcceptTrade_single_accept (env : Env) (fuel : Nat) (w : World)
    (playerId player : Nat) (hp : w.playerByID playerId = some player) :
    (∀ partner,
      ((w.players player).tradeState = .TRADE_ACKNOWLEDGE ∨
        (w.players player).tradeState = .TRADE_INITIATED) →
      (w.players player).tradePartner = some partner → partner ≠ player →
      (w.players partner).tradeState ≠ .TRADE_ACCEPT →
      (env.canThrowObjectTo w partner player = true →
        ∃ w1, playerAcceptTrade env fuel w playerId = some w1 ∧
          w1.players player = { w.players player with tradeState := .TRADE_ACCEPT } ∧
          (∀ q, q ≠ player → w1.players q = w.players q) ∧
          w1.items = w.items ∧ w1.contents = w.contents ∧ w1.tradeItems = w.tradeItems ∧
          w1.ToReleaseItems = w.ToReleaseItems ∧ w1.houses = w.houses ∧ w1.log = w.log) ∧
      (env.canThrowObjectTo w partner player = false →
        playerAcceptTrade env fuel w playerId
          = some (emit w (.sendCancelMessage player .RETURNVALUE_CREATUREISNOTREACHABLE)))) ∧
    (¬ ((w.players player).tradeState = .TRADE_ACKNOWLEDGE ∨
        (w.players player).tradeState = .TRADE_INITIATED) →
      playerAcceptTrade env fuel w playerId = some w) := by
  constructor
  · intro partner hst hpartner hne hnacc
    constructor
    · intro hthrow
      have hq : ((setTradeState w player .TRADE_ACCEPT).players partner).tradeState
          ≠ .TRADE_ACCEPT := by
        rw [setTradeState, setPlayer_players_of_ne _ _ _ _ hne]; exact hnacc
      refine ⟨setTradeState w player .TRADE_ACCEPT, ?_, ?_, ?_, rfl, rfl, rfl, rfl, rfl, rfl⟩
      · simp only [playerAcceptTrade, hp, hst, not_true_eq_false, if_false, hpartner, hthrow,
          Bool.true_eq_false, hq]
      · simp [setTradeState]
      · intro q hqp
        rw [setTradeState, setPlayer_players_of_ne _ _ _ _ hqp]
    · intro hthrow
      simp only [playerAcceptTrade, hp, hst, not_true_eq_false, if_false, hpartner, hthrow,
        if_true]
  · intro hst
    simp only [playerAcceptTrade, hp, hst, not_false_eq_true, if_true]

/-- Witness of C5 (amended): player 1 accepts while player 2 has not. -/
theorem playerAcceptTrade_single_accept_witness :
    ∃ w1, playerAcceptTrade openEnv 0 answeredWorld 1 = some w1 ∧
      w1.players 1 = { answeredWorld.players 1 with tradeState := .TRADE_ACCEPT } ∧
      (∀ q, q ≠ 1 → w1.players q = answeredWorld.players q) ∧
      w1.items = answeredWorld.items ∧ w1.contents = answeredWorld.contents ∧
      w1.tradeItems = answeredWorld.tradeItems ∧
      w1.ToReleaseItems = answeredWorld.ToReleaseItems ∧ w1.houses = answeredWorld.houses ∧
      w1.log = answeredWorld.log :=
  ((playerAcceptTrade_single_accept openEnv 0 answeredWorld 1 1 rfl).1 2
    (Or.inr (by decide)) (by decide) (by decide) (by decide)).1 rfl

/-! ## Trade coordinator: cancelling -/

theorem onTradeEvent_of_not_document (env : Env) (w : World) (item : Nat) (ev : TradeEvents_t)
    (owner : Nat) (h : (w.items item).kind.isDocument = false) :
    onTradeEvent env w item ev owner = w := by
  unfold onTradeEvent
  cases hk : (w.items item).kind with
  | plain => rfl
  | door _ => rfl
  | houseTransfer _ => rw [hk] at h; simp [ItemKind.isDocument] at h

theorem releaseTradeItem_some (w : World) (i : Nat) :
    releaseTradeItem w (some i) =
      if tradeItemsContains w i = true then
        { ReleaseItem w i with
          tradeItems := (ReleaseItem w i).tradeItems.filter fun e => e.1 != i }
      else w := rfl

theorem releaseTradeItem_tradeItems (w : World) (i : Nat) :
    (releaseTradeItem w (some i)).tradeItems = w.tradeItems.filter fun e => e.1 != i := by
  rw [releaseTradeItem_some]
  split_ifs with h
  · rfl
  · symm
    rw [List.filter_eq_self]
    intro e he
    simp only [tradeItemsContains, List.any_eq_true, not_exists, not_and] at h
    have := h e he
    simpa using this

theorem releaseTradeItem_release (w : World) (i : Nat) :
    (releaseTradeItem w (some i)).ToReleaseItems
      = w.ToReleaseItems ++ (if tradeItemsContains w i = true then [i] else []) := by
  rw [releaseTradeItem_some]
  split_ifs <;> simp [ReleaseItem]

@[simp] theorem releaseTradeItem_items (w : World) (o : Option Nat) :
    (releaseTradeItem w o).items = w.items := by
  cases o with
  | none => rfl
  | some i => rw [releaseTradeItem_some]; split_ifs <;> rfl

@[simp] theorem releaseTradeItem_contents (w : World) (o : Option Nat) :
    (releaseTradeItem w o).contents = w.contents := by
  cases o with
  | none => rfl
  | some i => rw [releaseTradeItem_some]; split_ifs <;> rfl

@[simp] theorem releaseTradeItem_players (w : World) (o : Option Nat) :
    (releaseTradeItem w o).players = w.players := by
  cases o with
  | none => rfl
  | some i => rw [releaseTradeItem_some]; split_ifs <;> rfl

@[simp] theorem releaseTradeItem_houses (w : World) (o : Option Nat) :
    (releaseTradeItem w o).houses = w.houses := by
  cases o with
  | none => rfl
  | some i => rw [releaseTradeItem_some]; split_ifs <;> rfl

@[simp] theorem releaseTradeItem_log (w : World) (o : Option Nat) :
    (releaseTradeItem w o).log = w.log := by
  cases o with
  | none => rfl
  | some i => rw [releaseTradeItem_some]; split_ifs <;> rfl

@[simp] theorem releaseTradeItem_nextItem (w : World) (o : Option Nat) :
    (releaseTradeItem w o).nextItem = w.nextItem := by
  cases o with
  | none => rfl
  | some i => rw [releaseTradeItem_some]; split_ifs <;> rfl

@[simp] theorem releaseTradeItem_playerByID (w : World) (o : Option Nat) :
    (releaseTradeItem w o).playerByID = w.playerByID := by
  cases o with
  | none => rfl
  | some i => rw [releaseTradeItem_some]; split_ifs <;> rfl

/-- The effect of one side of a cancellation when the offered item, if any,
is no house transfer document. -/
theorem closeSide_eq (env : Env) (w : World) (p : Nat)
    (hplain : ∀ i, (w.players p).tradeItem = some i → (w.items i).kind.isDocument = false) :
    closeSide env w p =
      { releaseTradeItem w (w.players p).tradeItem with
        players := Function.update w.players p
          { w.players p with tradeState := .TRADE_NONE, tradePartner := none, tradeItem := none }
        log := w.log ++ [.sendTextMessage p .MESSAGE_STATUS_SMALL .tradeCancelled,
          .sendTradeClose p] } := by
  unfold closeSide
  cases hi : (w.players p).tradeItem with
  | none => simp [setPlayer, emit, releaseTradeItem, hi]
  | some i =>
    have hk : ((releaseTradeItem w (some i)).items i).kind.isDocument = false := by
      rw [releaseTradeItem_items]; exact hplain i hi
    simp only [onTradeEvent_of_not_document env _ i _ p hk]
    simp [setPlayer, emit, hi]

theorem any_key_filter (l : List (Nat × Nat)) (i j : Nat) :
    ((l.filter fun e => e.1 != i).any fun e => e.1 == j) = true ↔
      (l.any fun e => e.1 == j) = true ∧ j ≠ i := by
  simp only [List.any_eq_true, List.mem_filter, beq_iff_eq, bne_iff_ne, ne_eq]
  constructor
  · rintro ⟨e, ⟨he, hne⟩, rfl⟩; exact ⟨⟨e, he, rfl⟩, hne⟩
  · rintro ⟨⟨e, he, rfl⟩, hne⟩; exact ⟨e, ⟨he, hne⟩, rfl⟩

theorem releaseTradeItem_tradeItems_eq (w : World) (o : Option Nat) :
    (releaseTradeItem w o).tradeItems = registryWithout w.tradeItems o := by
  cases o with
  | none => rfl
  | some i => exact releaseTradeItem_tradeItems w i

theorem releaseTradeItem_release_eq (w : World) (o : Option Nat) :
    (releaseTradeItem w o).ToReleaseItems = w.ToReleaseItems ++ releasedFrom w.tradeItems o := by
  cases o with
  | none => simp [releaseTradeItem, releasedFrom]
  | some i => exact releaseTradeItem_release w i

theorem closeSide_players (env : Env) (w : World) (p : Nat)
    (hplain : ∀ i, (w.players p).tradeItem = some i → (w.items i).kind.isDocument = false) :
    (closeSide env w p).players = Function.update w.players p
      { w.players p with tradeState := .TRADE_NONE, tradePartner := none, tradeItem := none } := by
  rw [closeSide_eq env w p hplain]

theorem closeSide_tradeItems (env : Env) (w : World) (p : Nat)
    (hplain : ∀ i, (w.players p).tradeItem = some i → (w.items i).kind.isDocument = false) :
    (closeSide env w p).tradeItems = registryWithout w.tradeItems (w.players p).tradeItem := by
  rw [closeSide_eq env w p hplain]
  exact releaseTradeItem_tradeItems_eq w _

theorem closeSide_release (env : Env) (w : World) (p : Nat)
    (hplain : ∀ i, (w.players p).tradeItem = some i → (w.items i).kind.isDocument = false) :
    (closeSide env w p).ToReleaseItems
      = w.ToReleaseItems ++ releasedFrom w.tradeItems (w.players p).tradeItem := by
  rw [closeSide_eq env w p hplain]
  exact releaseTradeItem_release_eq w _

theorem closeSide_items (env : Env) (w : World) (p : Nat)
    (hplain : ∀ i, (w.players p).tradeItem = some i → (w.items i).kind.isDocument = false) :
    (closeSide env w p).items = w.items := by
  rw [closeSide_eq env w p hplain]
  exact releaseTradeItem_items w _

theorem closeSide_contents (env : Env) (w : World) (p : Nat)
    (hplain : ∀ i, (w.players p).tradeItem = some i → (w.items i).kind.isDocument = false) :
    (closeSide env w p).contents = w.contents := by
  rw [closeSide_eq env w p hplain]
  exact releaseTradeItem_contents w _

theorem closeSide_log (env : Env) (w : World) (p : Nat)
    (hplain : ∀ i, (w.players p).tradeItem = some i → (w.items i).kind.isDocument = false) :
    (closeSide env w p).log = w.log ++
      [.sendTextMessage p .MESSAGE_STATUS_SMALL .tradeCancelled, .sendTradeClose p] := by
  rw [closeSide_eq env w p hplain]

/-- After two removals nothing that was removed has an entry. -/
theorem registryWithout_twice_not_mem (l : List (Nat × Nat)) (o1 o2 : Option Nat) (i : Nat)
    (h : o1 = some i ∨ o2 = some i) :
    ((registryWithout (registryWithout l o1) o2).any fun e => e.1 == i) = false := by
  rw [Bool.eq_false_iff]
  intro hc
  cases o1 with
  | none =>
    cases o2 with
    | none => simp at h
    | some b =>
      have hb : b = i := by simpa using h
      subst hb
      exact ((any_key_filter _ _ _).mp hc).2 rfl
  | some a =>
    cases o2 with
    | none =>
      have ha : a = i := by simpa using h
      subst ha
      exact ((any_key_filter _ _ _).mp hc).2 rfl
    | some b =>
      have h1 := (any_key_filter _ _ _).mp hc
      have h2 := (any_key_filter _ _ _).mp h1.1
      rcases h with h | h
      · exact h2.2 (Option.some.inj h).symm
      · exact h1.2 (Option.some.inj h).symm

/-- The two removals release every removed item that had an entry exactly
once and nothing else. -/
theorem releasedFrom_twice_count (l : List (Nat × Nat)) (o1 o2 : Option Nat) (i : Nat) :
    (releasedFrom l o1 ++ releasedFrom (registryWithout l o1) o2).count i
      = if (o1 = some i ∨ o2 = some i) ∧ (l.any fun e => e.1 == i) = true then 1 else 0 := by
  rw [List.count_append]
  cases o1 with
  | none =>
    cases o2 with
    | none => simp [releasedFrom]
    | some b =>
      simp only [releasedFrom, registryWithout, List.count_nil, zero_add, false_or,
        Option.some.injEq, reduceCtorEq]
      by_cases hb : b = i
      · subst hb
        by_cases hl : (l.any fun e => e.1 == b) = true <;> simp [hl, List.count_cons]
      · by_cases hl : (l.any fun e => e.1 == b) = true <;> simp [hl, hb, List.count_cons]
  | some a =>
    cases o2 with
    | none =>
      simp only [releasedFrom, registryWithout, List.count_nil, add_zero, or_false,
        Option.some.injEq, reduceCtorEq]
      by_cases ha : a = i
      · subst ha
        by_cases hl : (l.any fun e => e.1 == a) = true <;> simp [hl, List.count_cons]
      · by_cases hl : (l.any fun e => e.1 == a) = true <;> simp [hl, ha, List.count_cons]
    | some b =>
      simp only [releasedFrom, registryWithout, Option.some.injEq]
      have key := any_key_filter l a b
      by_cases hla : (l.any fun e => e.1 == a) = true <;>
      by_cases hlb : (l.any fun e => e.1 == b) = true <;>
      by_cases hab : b = a <;> by_cases ha : a = i <;> by_cases hb : b = i <;>
        simp_all [List.count_cons]

/-- Example: player 1 has offered the transfer document (item 20) of house 0;
closing the trade queues the document for release twice, once for the hold of
the `tradeItems` registry and once when the cancel hook has the house give up
the document it has issued (house.cpp line 354). -/
theorem internalCloseTrade_document_released_twice :
    (deedWorld.players 1).tradeState = .TRADE_INITIATED ∧
    (deedWorld.players 1).tradeItem = some 20 ∧
    (deedWorld.players 2).tradeState = .TRADE_ACKNOWLEDGE ∧
    tradeItemsContains deedWorld 20 = true ∧
    deedWorld.ToReleaseItems = [] ∧
    (internalCloseTrade openEnv deedWorld 1).ToReleaseItems = [20, 20] := by decide

/-- Cancellation through `Game::internalCloseTrade` when no offered item is a
house transfer document. When neither side is in state
`TRADE_TRANSFER`, the call resets the player and the partner to state
`TRADE_NONE` with no partner and no offered item, leaves no offered item in
the `tradeItems` registry, queues every offered item that had a registry
entry for release exactly once and queues nothing else, sends "Trade
cancelled." and the trade close to both parties, and moves no item. When
either side is in state `TRADE_TRANSFER` the call changes nothing. -/
theorem internalCloseTrade_cancels (env : Env) (w : World) (player : Nat)
    (hplain : ∀ p i, (p = player ∨ (w.players player).tradePartner = some p) →
      (w.players p).tradeItem = some i → (w.items i).kind.isDocument = false) :
    ((isTransferring w (w.players player).tradePartner = false ∧
        (w.players player).tradeState ≠ .TRADE_TRANSFER) →
      ((internalCloseTrade env w player).players player).idle ∧
      (∀ q, (w.players player).tradePartner = some q →
        ((internalCloseTrade env w player).players q).idle) ∧
      (∀ i, (offeredBy w (some player) i || offeredBy w (w.players player).tradePartner i) = true →
        tradeItemsContains (internalCloseTrade env w player) i = false) ∧
      (∀ i, (internalCloseTrade env w player).ToReleaseItems.count i
        = w.ToReleaseItems.count i
          + (if ((offeredBy w (some player) i || offeredBy w (w.players player).tradePartner i)
                && tradeItemsContains w i) = true then 1 else 0)) ∧
      (Event.sendTextMessage player .MESSAGE_STATUS_SMALL .tradeCancelled
          ∈ (internalCloseTrade env w player).log ∧
        Event.sendTradeClose player ∈ (internalCloseTrade env w player).log) ∧
      (∀ q, (w.players player).tradePartner = some q →
        Event.sendTextMessage q .MESSAGE_STATUS_SMALL .tradeCancelled
            ∈ (internalCloseTrade env w player).log ∧
          Event.sendTradeClose q ∈ (internalCloseTrade env w player).log) ∧
      (internalCloseTrade env w player).items = w.items ∧
      (internalCloseTrade env w player).contents = w.contents) ∧
    ((isTransferring w (w.players player).tradePartner = true ∨
        (w.players player).tradeState = .TRADE_TRANSFER) →
      internalCloseTrade env w player = w) := by
  have hp : ∀ i, (w.players player).tradeItem = some i → (w.items i).kind.isDocument = false :=
    fun i hi => hplain player i (Or.inl rfl) hi
  constructor
  · rintro ⟨hnt, hns⟩
    have hcond : ¬ (isTransferring w (w.players player).tradePartner = true ∨
        (w.players player).tradeState = .TRADE_TRANSFER) := by
      simp [hnt, hns]
    unfold internalCloseTrade
    simp only [hcond, if_false]
    cases hpart : (w.players player).tradePartner with
    | none =>
      simp only []
      refine ⟨?_, ?_, ?_, ?_, ?_, ?_, ?_, ?_⟩
      · rw [closeSide_players env w player hp]; simp [Player.idle]
      · intro q hq; cases hq
      · intro i hi
        simp only [offeredBy, Bool.or_false, decide_eq_true_eq] at hi
        rw [tradeItemsContains, closeSide_tradeItems env w player hp]
        exact registryWithout_twice_not_mem w.tradeItems _ none i (Or.inl hi)
      · intro i
        rw [closeSide_release env w player hp, List.count_append]
        have := releasedFrom_twice_count w.tradeItems (w.players player).tradeItem none i
        have e : releasedFrom (registryWithout w.tradeItems (w.players player).tradeItem) none
            = [] := rfl
        rw [e, List.append_nil] at this
        rw [this]
        congr 1
        refine if_congr ?_ rfl rfl
        simp [offeredBy, tradeItemsContains]
      · rw [closeSide_log env w player hp]; simp
      · intro q hq; cases hq
      · exact closeSide_items env w player hp
      · exact closeSide_contents env w player hp
    | some q =>
      simp only []
      have hq : ∀ i, ((closeSide env w player).players q).tradeItem = some i →
          ((closeSide env w player).items i).kind.isDocument = false := by
        intro i hi
        rw [closeSide_items env w player hp]
        rw [closeSide_players env w player hp] at hi
        by_cases hqp : q = player
        · subst hqp; simp at hi
        · rw [Function.update_noteq hqp] at hi
          exact hplain q i (Or.inr hpart) hi
      have hitem2 : ∀ i, ((w.players player).tradeItem = some i ∨
            ((closeSide env w player).players q).tradeItem = some i) ↔
          ((w.players player).tradeItem = some i ∨ (w.players q).tradeItem = some i) := by
        intro i
        rw [closeSide_players env w player hp]
        by_cases hqp : q = player
        · subst hqp; simp
        · rw [Function.update_noteq hqp]
      refine ⟨?_, ?_, ?_, ?_, ?_, ?_, ?_, ?_⟩
      · rw [closeSide_players env _ q hq, closeSide_players env w player hp]
        by_cases hqp : player = q
        · subst hqp; simp [Player.idle]
        · simp [Player.idle, Function.update_noteq hqp]
      · intro q1 hq1
        cases hq1
        rw [closeSide_players env _ q hq]; simp [Player.idle]
      · intro i hi
        simp only [offeredBy, Bool.or_eq_true, decide_eq_true_eq] at hi
        rw [tradeItemsContains, closeSide_tradeItems env _ q hq,
          closeSide_tradeItems env w player hp]
        exact registryWithout_twice_not_mem w.tradeItems _ _ i ((hitem2 i).mpr hi)
      · intro i
        rw [closeSide_release env _ q hq, closeSide_release env w player hp,
          closeSide_tradeItems env w player hp, List.append_assoc, List.count_append,
          releasedFrom_twice_count]
        simp only [hitem2 i]
        congr 1
        refine if_congr ?_ rfl rfl
        simp [offeredBy, tradeItemsContains]
      · rw [closeSide_log env _ q hq, closeSide_log env w player hp]; simp
      · intro q1 hq1
        cases hq1
        rw [closeSide_log env _ q hq]; simp
      · rw [closeSide_items env _ q hq, closeSide_items env w player hp]
      · rw [closeSide_contents env _ q hq, closeSide_contents env w player hp]
  · intro h
    unfold internalCloseTrade
    simp only [h, if_true]

/-! ## The trade fields through the transfer engine -/

@[simp] theorem removeThing_players (w : World) (c : Cylinder) (i n : Nat) :
    (removeThing w c i n).players = w.players := by
  unfold removeThing; split_ifs <;> rfl

@[simp] theorem addThing_players (w : World) (c : Cylinder) (k : Int) (i : Nat) :
    (addThing w c k i).players = w.players := rfl

@[simp] theorem updateThing_players (w : World) (c : Cylinder) (t a k : Nat) :
    (updateThing w c t a k).players = w.players := by
  unfold updateThing; split_ifs <;> rfl

@[simp] theorem mergeStep_players (w : World) (d : Cylinder) (item : Nat) (toItem : Option Nat)
    (m : Nat) : (mergeStep w d item toItem m).1.players = w.players := by
  unfold mergeStep
  cases toItem with
  | none => rfl
  | some t => simp only []; split_ifs <;> simp

@[simp] theorem cloneStep_players (w : World) (item : Nat) (k : Int) :
    (cloneStep w item k).1.players = w.players := by
  unfold cloneStep cloneWithCount; split_ifs <;> rfl

@[simp] theorem stackUpdate_players (w : World) (d : Cylinder) (item : Nat)
    (toItem : Option Nat) (m : Nat) : (stackUpdate w d item toItem m).1.players = w.players := by
  simp [stackUpdate]

@[simp] theorem addMoved_players (w : World) (d : Cylinder) (k : Int) (mv : Option Nat) :
    (addMoved w d k mv).players = w.players := by
  cases mv <;> rfl

@[simp] theorem commitMove_players (w : World) (a b : Cylinder) (k : Int) (item : Nat)
    (toItem : Option Nat) (m : Nat) :
    (commitMove w a b k item toItem m).1.players = w.players := by
  unfold commitMove
  simp only [commitNotify_players, addMoved_players]
  split_ifs <;> simp

@[simp] theorem removeDoor_players (w : World) (h d : Nat) :
    (removeDoor w h d).players = w.players := by
  unfold removeDoor; split_ifs <;> rfl

@[simp] theorem onRemoved_players (w : World) (i : Nat) : (onRemoved w i).players = w.players := by
  unfold onRemoved
  split <;> simp

@[simp] theorem internalRemoveItem_players (env : Env) (w : World) (item : Nat) (count : Int)
    (test : Bool) (flags : Nat) :
    (internalRemoveItem env w item count test flags).2.players = w.players := by
  unfold internalRemoveItem
  split
  · rfl
  · simp only []
    split_ifs <;> simp

/-- `Game::internalAddItem` with `test = true` returns and changes nothing. -/
theorem internalAddItem_test (env : Env) (fuel : Nat) (w : World) (toCylinder : Option Cylinder)
    (item : Option Nat) (index : Int) (flags : Nat) :
    ∃ ret, internalAddItem env fuel w toCylinder item index flags true = some (ret, w, 0) := by
  unfold internalAddItem
  cases toCylinder with
  | none => exact ⟨_, rfl⟩
  | some d =>
    cases item with
    | none => exact ⟨_, rfl⟩
    | some i =>
      simp only []
      split_ifs
      · exact ⟨_, rfl⟩
      · exact ⟨_, rfl⟩
      · exact ⟨_, rfl⟩

@[simp] theorem setItem_players (w : World) (i : Nat) (it : Item) :
    (setItem w i it).players = w.players := rfl

@[simp] theorem setHouse_players (w : World) (h : Nat) (hs : House) :
    (setHouse w h hs).players = w.players := rfl

@[simp] theorem resetTransferItem_players (w : World) (h : Nat) :
    (resetTransferItem w h).players = w.players := by
  unfold resetTransferItem
  split <;> simp

@[simp] theorem resetTrade_players_same (w : World) (p : Nat) :
    ((resetTrade w p).players p).idle := by
  simp [resetTrade, setPlayer, emit, Player.idle]

theorem resetTrade_players_of_ne (w : World) (p r : Nat) (h : r ≠ p) :
    (resetTrade w p).players r = w.players r := by
  simp [resetTrade, setPlayer, emit, Function.update_noteq h]

theorem onRemoved_contents (w : World) (i : Nat) : (onRemoved w i).contents = w.contents := by
  unfold onRemoved removeDoor
  split
  · split_ifs <;> rfl
  · rfl

theorem onRemoved_log (w : World) (i : Nat) : (onRemoved w i).log = w.log := by
  unfold onRemoved removeDoor
  split
  · split_ifs <;> rfl
  · rfl

theorem onRemoved_parent (w : World) (i j : Nat) :
    ((onRemoved w i).items j).parent = (w.items j).parent := by
  unfold onRemoved removeDoor
  split
  · split_ifs
    · by_cases h : j = i <;> simp [h, Function.update_apply]
    · rfl
  · rfl

theorem onRemoved_kind (w : World) (i j : Nat) :
    ((onRemoved w i).items j).kind = (w.items j).kind := by
  unfold onRemoved removeDoor
  split
  · split_ifs
    · by_cases h : j = i <;> simp [h, Function.update_apply]
    · rfl
  · rfl

/-- `Game::internalRemoveItem` with `test = true` leaves the state to the
removal hook of the item. -/
theorem internalRemoveItem_test (env : Env) (w : World) (item : Nat) (count : Int) (flags : Nat) :
    (internalRemoveItem env w item count true flags).2 = w ∨
    (internalRemoveItem env w item count true flags).2 = onRemoved w item := by
  unfold internalRemoveItem
  split
  · exact Or.inl rfl
  · simp only [Bool.true_eq_false, if_false]
    split_ifs <;> first | exact Or.inl rfl | exact Or.inr rfl

theorem internalRemoveItem_test_frame (env : Env) (w : World) (item : Nat) (count : Int)
    (flags : Nat) :
    (internalRemoveItem env w item count true flags).2.contents = w.contents ∧
    (internalRemoveItem env w item count true flags).2.log = w.log ∧
    ∀ j, ((internalRemoveItem env w item count true flags).2.items j).parent = (w.items j).parent ∧
      ((internalRemoveItem env w item count true flags).2.items j).kind = (w.items j).kind := by
  rcases internalRemoveItem_test env w item count flags with h | h <;> rw [h]
  · exact ⟨rfl, rfl, fun _ => ⟨rfl, rfl⟩⟩
  · exact ⟨onRemoved_contents w item, onRemoved_log w item,
      fun j => ⟨onRemoved_parent w item j, onRemoved_kind w item j⟩⟩

/-- The validation tests always return, and they move nothing: every holder
keeps its sequence, every item its holder and class, and nothing is sent. -/
theorem tradeValidate_frame (env : Env) (w : World) (p q : Nat) (i1 i2 : Option Nat) :
    ∃ v, tradeValidate env w p q i1 i2 = some v ∧ v.world.contents = w.contents ∧
      v.world.log = w.log ∧ v.world.players = w.players ∧
      ∀ j, (v.world.items j).parent = (w.items j).parent ∧
        (v.world.items j).kind = (w.items j).kind := by
  unfold tradeValidate
  obtain ⟨r1, h1⟩ := internalAddItem_test env 0 w (some (.player q)) i1 INDEX_WHEREEVER 0
  obtain ⟨r2, h2⟩ := internalAddItem_test env 0 w (some (.player p)) i2 INDEX_WHEREEVER 0
  rw [h1]
  simp only []
  rw [h2]
  simp only []
  by_cases hok : r1 = .RETURNVALUE_NOERROR ∧ r2 = .RETURNVALUE_NOERROR
  · rw [if_pos hok]
    cases i1 with
    | none =>
      -- a null item never passes the add test
      exfalso
      have : internalAddItem env 0 w (some (.player q)) none INDEX_WHEREEVER 0 true
          = some (.RETURNVALUE_NOTPOSSIBLE, w, 0) := by
        unfold internalAddItem; rfl
      rw [this] at h1
      simp only [Option.some.injEq, Prod.mk.injEq] at h1
      rw [← h1.1] at hok
      exact absurd hok.1 (by decide)
    | some a =>
      cases i2 with
      | none =>
        exfalso
        have : internalAddItem env 0 w (some (.player p)) none INDEX_WHEREEVER 0 true
            = some (.RETURNVALUE_NOTPOSSIBLE, w, 0) := by
          unfold internalAddItem; rfl
        rw [this] at h2
        simp only [Option.some.injEq, Prod.mk.injEq] at h2
        rw [← h2.1] at hok
        exact absurd hok.2 (by decide)
      | some b =>
        simp only []
        obtain ⟨ha1, ha2, ha3⟩ := internalRemoveItem_test_frame env w a ((w.items a).count : Int) 0
        obtain ⟨hb1, hb2, hb3⟩ := internalRemoveItem_test_frame env
          (internalRemoveItem env w a ((w.items a).count : Int) true 0).2 b
          (((internalRemoveItem env w a ((w.items a).count : Int) true 0).2.items b).count : Int) 0
        refine ⟨_, rfl, ?_, ?_, ?_, ?_⟩
        · simp only []; rw [hb1, ha1]
        · simp only []; rw [hb2, ha2]
        · simp
        · intro j
          simp only []
          exact ⟨((hb3 j).1).trans (ha3 j).1, ((hb3 j).2).trans (ha3 j).2⟩
  · rw [if_neg hok]
    exact ⟨_, rfl, rfl, rfl, rfl, fun _ => ⟨rfl, rfl⟩⟩

theorem getTradeErrorDescription_congr (w w1 : World) (ret : ReturnValue) (item : Option Nat)
    (h : w1.items = w.items) :
    getTradeErrorDescription w1 ret item = getTradeErrorDescription w ret item := by
  unfold getTradeErrorDescription
  rw [h]

/-- The failure notices when no offered item is a house transfer document:
nothing but the two messages. -/
theorem tradeFailureNotices_plain (env : Env) (w : World) (p q : Nat) (i1 i2 : Option Nat)
    (r1 r2 : ReturnValue)
    (hp : ∀ i, (w.players p).tradeItem = some i → (w.items i).kind.isDocument = false)
    (hq : ∀ i, (w.players q).tradeItem = some i → (w.items i).kind.isDocument = false) :
    (tradeFailureNotices env w p q i1 i2 r1 r2).items = w.items ∧
    (tradeFailureNotices env w p q i1 i2 r1 r2).contents = w.contents ∧
    (tradeFailureNotices env w p q i1 i2 r1 r2).log
      = w.log ++ failureNotice w q r1 i1 ++ failureNotice w p r2 i2 := by
  unfold tradeFailureNotices failureNotice
  cases hqi : (w.players q).tradeItem with
  | none =>
    simp only []
    cases hpi : (w.players p).tradeItem with
    | none => simp
    | some b =>
      simp only []
      rw [onTradeEvent_of_not_document env _ b _ p (by simpa using hp b hpi)]
      simp [emit]
  | some a =>
    simp only []
    rw [onTradeEvent_of_not_document env _ a _ q (by simpa using hq a hqi)]
    simp only [emit_players]
    cases hpi : (w.players p).tradeItem with
    | none => simp [emit]
    | some b =>
      simp only []
      rw [onTradeEvent_of_not_document env _ b _ p (by simpa using hp b hpi)]
      simp [emit, getTradeErrorDescription_congr _ w r2 i2 rfl]
      rfl

@[simp] theorem setTradeState_items (w : World) (p : Nat) (s : tradestate_t) :
    (setTradeState w p s).items = w.items := rfl
@[simp] theorem setTradeState_contents (w : World) (p : Nat) (s : tradestate_t) :
    (setTradeState w p s).contents = w.contents := rfl
@[simp] theorem setTradeState_log (w : World) (p : Nat) (s : tradestate_t) :
    (setTradeState w p s).log = w.log := rfl
@[simp] theorem setTradeState_tradeItem (w : World) (p r : Nat) (s : tradestate_t) :
    ((setTradeState w p s).players r).tradeItem = (w.players r).tradeItem := by
  by_cases h : r = p
  · subst h; simp [setTradeState]
  · simp [setTradeState, setPlayer, Function.update_noteq h]

@[simp] theorem beginTransfer_items (w : World) (p q : Nat) :
    (beginTransfer w p q).items = w.items := by simp [beginTransfer]
@[simp] theorem beginTransfer_contents (w : World) (p q : Nat) :
    (beginTransfer w p q).contents = w.contents := by simp [beginTransfer]
@[simp] theorem beginTransfer_log (w : World) (p q : Nat) :
    (beginTransfer w p q).log = w.log := by simp [beginTransfer]
@[simp] theorem beginTransfer_tradeItem (w : World) (p q r : Nat) :
    ((beginTransfer w p q).players r).tradeItem = (w.players r).tradeItem := by
  simp [beginTransfer]

@[simp] theorem resetTrade_items (w : World) (p : Nat) : (resetTrade w p).items = w.items := rfl
@[simp] theorem resetTrade_contents (w : World) (p : Nat) :
    (resetTrade w p).contents = w.contents := rfl
@[simp] theorem resetTrade_log (w : World) (p : Nat) :
    (resetTrade w p).log = w.log ++ [.sendTradeClose p] := rfl

/-- Counterexample to C3 as stated: player 1 has offered the transfer
document of house 0 (item 20, lying in the house's transfer container, item
21) and has accepted; player 2 accepts; player 1 cannot carry item 11, so the
validation fails; and the document has left its holder. -/
theorem playerAcceptTrade_document_withdrawn :
    (deedAcceptedWorld.players 1).tradeState = .TRADE_ACCEPT ∧
    (deedAcceptedWorld.players 1).tradeItem = some 20 ∧
    (deedAcceptedWorld.players 2).tradeItem = some 11 ∧
    (deedAcceptedWorld.items 20).parent = some (.container 21) ∧
    ((tradeValidate heavyEnv
        (beginTransfer (setTradeState deedAcceptedWorld 2 .TRADE_ACCEPT) 2 1) 2 1
        (some 11) (some 20)).map fun v => v.passed) = some false ∧
    ((playerAcceptTrade heavyEnv 4 deedAcceptedWorld 2).map fun w => (w.items 20).parent)
      = some none := by decide

/-- Claim C3, amended. In `Game::playerAcceptTrade`, once both players have
accepted, if any of the validation tests (`internalAddItem` with `test =
true` for each recipient, `internalRemoveItem` with `test = true` for each
source) fails and no offered item is a house transfer document, the call
returns, every item keeps its holder and every holder its sequence (so each
offered item stays with its owner, the contents of an offered container
included), and each player who has offered an item receives a failure
notification. -/
theorem playerAcceptTrade_failed_validation (env : Env) (fuel : Nat) (w : World)
    (playerId player partner : Nat) (v : ValidationOutcome)
    (hp : w.playerByID playerId = some player)
    (hst : (w.players player).tradeState = .TRADE_ACKNOWLEDGE ∨
      (w.players player).tradeState = .TRADE_INITIATED)
    (hq : (w.players player).tradePartner = some partner)
    (hthrow : env.canThrowObjectTo w partner player = true)
    (hacc : (w.players partner).tradeState = .TRADE_ACCEPT)
    (hv : tradeValidate env (beginTransfer (setTradeState w player .TRADE_ACCEPT) player partner)
      player partner (w.players player).tradeItem (w.players partner).tradeItem = some v)
    (hfail : v.passed = false)
    (hplain : ∀ side i, (side = player ∨ side = partner) → (w.players side).tradeItem = some i →
      (w.items i).kind.isDocument = false) :
    ∃ w1, playerAcceptTrade env fuel w playerId = some w1 ∧
      (∀ i, (w1.items i).parent = (w.items i).parent) ∧ w1.contents = w.contents ∧
      ∃ news, w1.log = w.log ++ news ∧
        (∀ i, (w.players partner).tradeItem = some i →
          ∃ t, Event.sendTextMessage partner .MESSAGE_EVENT_ADVANCE t ∈ news) ∧
        (∀ i, (w.players player).tradeItem = some i →
          ∃ t, Event.sendTextMessage player .MESSAGE_EVENT_ADVANCE t ∈ news) := by
  have hne : partner ≠ player := by
    intro e; subst e
    rcases hst with h | h <;> rw [h] at hacc <;> cases hacc
  have hacc1 : ((setTradeState w player .TRADE_ACCEPT).players partner).tradeState
      = .TRADE_ACCEPT := by
    rw [setTradeState, setPlayer_players_of_ne _ _ _ _ hne]; exact hacc
  obtain ⟨v1, hv1, hc, hl, hpl, hit⟩ := tradeValidate_frame env
    (beginTransfer (setTradeState w player .TRADE_ACCEPT) player partner) player partner
    (w.players player).tradeItem (w.players partner).tradeItem
  rw [hv] at hv1
  cases hv1
  have hti : ∀ r, (v.world.players r).tradeItem = (w.players r).tradeItem := by
    intro r; rw [hpl]; simp
  have hpp : ∀ i, (v.world.players player).tradeItem = some i →
      (v.world.items i).kind.isDocument = false := by
    intro i hi
    rw [hti] at hi
    rw [(hit i).2]
    simpa using hplain player i (Or.inl rfl) hi
  have hpq : ∀ i, (v.world.players partner).tradeItem = some i →
      (v.world.items i).kind.isDocument = false := by
    intro i hi
    rw [hti] at hi
    rw [(hit i).2]
    simpa using hplain partner i (Or.inr rfl) hi
  obtain ⟨hn1, hn2, hn3⟩ := tradeFailureNotices_plain env v.world player partner
    (w.players player).tradeItem (w.players partner).tradeItem v.ret1 v.ret2 hpp hpq
  have hstep : playerAcceptTrade env fuel w playerId
      = some (resetTrade (resetTrade (tradeFailureNotices env v.world player partner
          (w.players player).tradeItem (w.players partner).tradeItem v.ret1 v.ret2) player)
          partner) := by
    simp only [playerAcceptTrade, hp, hst, not_true_eq_false, if_false, hq, hthrow,
      Bool.true_eq_false, hacc1, if_true, completeTrade, setTradeState_tradeItem, tradeTransfer,
      hv, hfail, Bool.false_eq_true]
  refine ⟨_, hstep, ?_, ?_, ?_⟩
  · intro i
    simp only [resetTrade_items, hn1]
    simpa using (hit i).1
  · simp only [resetTrade_contents, hn2, hc]
    simp
  · refine ⟨failureNotice v.world partner v.ret1 (w.players player).tradeItem
        ++ failureNotice v.world player v.ret2 (w.players partner).tradeItem
        ++ [.sendTradeClose player, .sendTradeClose partner], ?_, ?_, ?_⟩
    · simp only [resetTrade_log, hn3, hl]
      simp
    · intro i hi
      refine ⟨getTradeErrorDescription v.world v.ret1 (w.players player).tradeItem, ?_⟩
      simp [failureNotice, hti, hi]
    · intro i hi
      refine ⟨getTradeErrorDescription v.world v.ret2 (w.players partner).tradeItem, ?_⟩
      simp [failureNotice, hti, hi]

/-- Witness of C3 (amended): player 2 accepts after player 1, who cannot
carry item 11; both items stay where they are and both players are told. -/
theorem playerAcceptTrade_failed_validation_witness :
    ∃ w1, playerAcceptTrade heavyEnv 4 acceptedWorld 2 = some w1 ∧
      (∀ i, (w1.items i).parent = (acceptedWorld.items i).parent) ∧
      w1.contents = acceptedWorld.contents ∧
      ∃ news, w1.log = acceptedWorld.log ++ news ∧
        (∀ i, (acceptedWorld.players 1).tradeItem = some i →
          ∃ t, Event.sendTextMessage 1 .MESSAGE_EVENT_ADVANCE t ∈ news) ∧
        (∀ i, (acceptedWorld.players 2).tradeItem = some i →
          ∃ t, Event.sendTextMessage 2 .MESSAGE_EVENT_ADVANCE t ∈ news) :=
  playerAcceptTrade_failed_validation heavyEnv 4 acceptedWorld 2 2 1
    ⟨beginTransfer (setTradeState acceptedWorld 2 .TRADE_ACCEPT) 2 1,
      .RETURNVALUE_NOTENOUGHCAPACITY, .RETURNVALUE_NOERROR, false⟩
    rfl (Or.inr (by decide)) (by decide) rfl (by decide) rfl rfl
    (by
      intro side i hs hi
      have h1 : (acceptedWorld.players 1).tradeItem = some 10 := by decide
      have h2 : (acceptedWorld.players 2).tradeItem = some 11 := by decide
      rcases hs with hs | hs
      · subst hs; rw [h2] at hi; cases hi; decide
      · subst hs; rw [h1] at hi; cases hi; decide)

/-! ## Trade coordinator: the commit -/

/-- Claim C4, the code at a failing input: player 2 accepts after player 1. All
four validation tests pass, the move of item 11 to player 1 succeeds, the
move of item 10 to player 2 is refused (its result is dropped), and the call
ends as a success: player 1 holds both items, nobody is told of a failure,
and both sides are back in `TRADE_NONE`. -/
theorem playerAcceptTrade_second_leg_dropped :
    ((tradeValidate noFreeSlotEnv
        (beginTransfer (setTradeState groundAcceptedWorld 2 .TRADE_ACCEPT) 2 1) 2 1
        (some 11) (some 10)).map fun v => v.passed) = some true ∧
    (groundAcceptedWorld.items 11).parent = some (.tile 5) ∧
    (groundAcceptedWorld.items 10).parent = some (.player 1) ∧
    ((playerAcceptTrade noFreeSlotEnv 4 groundAcceptedWorld 2).map fun w => (w.items 11).parent)
      = some (some (.player 1)) ∧
    ((playerAcceptTrade noFreeSlotEnv 4 groundAcceptedWorld 2).map fun w => (w.items 10).parent)
      = some (some (.player 1)) ∧
    ((playerAcceptTrade noFreeSlotEnv 4 groundAcceptedWorld 2).map fun w => w.contents (.player 1))
      = some [11, 10] ∧
    ((playerAcceptTrade noFreeSlotEnv 4 groundAcceptedWorld 2).map fun w => w.contents (.player 2))
      = some [12] ∧
    ((playerAcceptTrade noFreeSlotEnv 4 groundAcceptedWorld 2).map fun w =>
        w.log.filter Event.isFailureNotice) = some [] ∧
    ((playerAcceptTrade noFreeSlotEnv 4 groundAcceptedWorld 2).map fun w =>
        ((w.players 1).tradeState, (w.players 2).tradeState))
      = some (.TRADE_NONE, .TRADE_NONE) := by
  refine ⟨by decide, by decide, by decide, by decide, by decide, by decide, by decide, by decide,
    by decide⟩

/-- Counterexample to C10 as stated: item 11 of player 2, a bag, goes to player 1
and item 10 of player 1 is then handed to player 2, whose holder redirects it
into the bag 11. With the first item reserved in the second move, as the
claim has it, that move is refused and item 10 stays with player 1; the code
reserves nothing there and puts item 10 into the bag. -/
theorem tradeCommit_second_move_unreserved :
    ((tradeCommitReservingBoth bagEnv 4 tradeWorld 2 1 11 10 .RETURNVALUE_NOERROR).map fun o =>
        (o.world.items 10).parent) = some (some (.player 1)) ∧
    ((tradeCommit bagEnv 4 tradeWorld 2 1 11 10 .RETURNVALUE_NOERROR).map fun o =>
        (o.world.items 10).parent) = some (some (.container 11)) := by
  refine ⟨by decide, by decide⟩

/-- Claim C10, amended. The commit in `Game::playerAcceptTrade` reserves the
second item in the move of the first item and reserves nothing in the move of
the second item. With `cylinder1` and `cylinder2` the holders of the two
items: the commit does not return when the first move
`internalMoveItem(cylinder1, tradePartner, INDEX_WHEREEVER, tradeItem1,
count1, nullptr, FLAG_IGNOREAUTOSTACK, nullptr, tradeItem2)` does not; it
stops without success on the code of that move when the code is not
`RETURNVALUE_NOERROR`; and otherwise its outcome is that of the second move
`internalMoveItem(cylinder2, player, INDEX_WHEREEVER, tradeItem2, count2,
nullptr, FLAG_IGNOREAUTOSTACK)` in the state the first move left, followed by
the two transfer events. -/
theorem tradeCommit_reservation (env : Env) (fuel : Nat) (w : World) (player tradePartner : Nat)
    (tradeItem1 tradeItem2 : Nat) (ret2 : ReturnValue) (cylinder1 cylinder2 : Cylinder)
    (h1 : (w.items tradeItem1).parent = some cylinder1)
    (h2 : (w.items tradeItem2).parent = some cylinder2) :
    (internalMoveItem env fuel w cylinder1 (.player tradePartner) INDEX_WHEREEVER tradeItem1
        (w.items tradeItem1).count env.FLAG_IGNOREAUTOSTACK none (some tradeItem2) = none →
      tradeCommit env fuel w player tradePartner tradeItem1 tradeItem2 ret2 = none) ∧
    (∀ r1, internalMoveItem env fuel w cylinder1 (.player tradePartner) INDEX_WHEREEVER tradeItem1
        (w.items tradeItem1).count env.FLAG_IGNOREAUTOSTACK none (some tradeItem2) = some r1 →
      (r1.ret ≠ .RETURNVALUE_NOERROR →
        tradeCommit env fuel w player tradePartner tradeItem1 tradeItem2 ret2
          = some ⟨r1.world, false, r1.ret, ret2⟩) ∧
      (r1.ret = .RETURNVALUE_NOERROR →
        tradeCommit env fuel w player tradePartner tradeItem1 tradeItem2 ret2
          = (internalMoveItem env fuel r1.world cylinder2 (.player player) INDEX_WHEREEVER
              tradeItem2 (w.items tradeItem2).count env.FLAG_IGNOREAUTOSTACK none none).map
            fun r2 =>
              ⟨onTradeEvent env
                  (onTradeEvent env r2.world tradeItem1 .ON_TRADE_TRANSFER tradePartner)
                  tradeItem2 .ON_TRADE_TRANSFER player,
                true, r1.ret, ret2⟩)) := by
  refine ⟨?_, ?_⟩
  · intro hm
    simp only [tradeCommit, h1, h2, hm]
  · intro r1 hm
    refine ⟨?_, ?_⟩
    · intro hr
      simp only [tradeCommit, h1, h2, hm, hr, if_false]
    · intro hr
      simp only [tradeCommit, h1, h2, hm, hr, if_true]
      cases internalMoveItem env fuel r1.world cylinder2 (.player player) INDEX_WHEREEVER
        tradeItem2 (w.items tradeItem2).count env.FLAG_IGNOREAUTOSTACK none none <;> rfl

/-- Witness of C10 (amended): the trade of item 11 of player 2 against item
10 of player 1. -/
theorem tradeCommit_reservation_witness :
    (internalMoveItem bagEnv 4 tradeWorld (.player 2) (.player 1) INDEX_WHEREEVER 11
        (tradeWorld.items 11).count bagEnv.FLAG_IGNOREAUTOSTACK none (some 10) = none →
      tradeCommit bagEnv 4 tradeWorld 2 1 11 10 .RETURNVALUE_NOERROR = none) ∧
    (∀ r1, internalMoveItem bagEnv 4 tradeWorld (.player 2) (.player 1) INDEX_WHEREEVER 11
        (tradeWorld.items 11).count bagEnv.FLAG_IGNOREAUTOSTACK none (some 10) = some r1 →
      (r1.ret ≠ .RETURNVALUE_NOERROR →
        tradeCommit bagEnv 4 tradeWorld 2 1 11 10 .RETURNVALUE_NOERROR
          = some ⟨r1.world, false, r1.ret, .RETURNVALUE_NOERROR⟩) ∧
      (r1.ret = .RETURNVALUE_NOERROR →
        tradeCommit bagEnv 4 tradeWorld 2 1 11 10 .RETURNVALUE_NOERROR
          = (internalMoveItem bagEnv 4 r1.world (.player 1) (.player 2) INDEX_WHEREEVER
              10 (tradeWorld.items 10).count bagEnv.FLAG_IGNOREAUTOSTACK none none).map
            fun r2 =>
              ⟨onTradeEvent bagEnv
                  (onTradeEvent bagEnv r2.world 11 .ON_TRADE_TRANSFER 1)
                  10 .ON_TRADE_TRANSFER 2,
                true, r1.ret, .RETURNVALUE_NOERROR⟩)) :=
  tradeCommit_reservation bagEnv 4 tradeWorld 2 1 11 10 .RETURNVALUE_NOERROR
    (.player 2) (.player 1) rfl rfl

/-! ## Unit counts through the exchange of the occupant -/

/-- The exchange phase either changes nothing and keeps the occupant
pointer, or moves the occupant to the source and clears the pointer. -/
theorem exchangePhase_shape (env : Env) (w : World) (a b : Cylinder) (index : Int)
    (item count flags : Nat) (actor toItem : Option Nat) (w1 : World) (toItem1 : Option Nat)
    (ret : ReturnValue)
    (h : exchangePhase env w a b index item count flags actor toItem = some (w1, toItem1, ret)) :
    (w1 = w ∧ toItem1 = toItem) ∨
    (∃ t, toItem = some t ∧ toItem1 = none ∧ w1.items = (exchanged w a b t).items ∧
      w1.contents = (exchanged w a b t).contents ∧ w1.nextItem = (exchanged w a b t).nextItem) := by
  unfold exchangePhase at h
  cases toItem with
  | none =>
    simp only [] at h
    split_ifs at h
    simp only [Option.some.injEq, Prod.mk.injEq] at h
    exact Or.inl ⟨h.1.symm, h.2.1.symm⟩
  | some u =>
    simp only [] at h
    split_ifs at h <;> simp only [Option.some.injEq, Prod.mk.injEq] at h
    all_goals first
      | exact Or.inl ⟨h.1.symm, h.2.1.symm⟩
      | (right
         refine ⟨u, rfl, h.2.1.symm, ?_, ?_, ?_⟩ <;> rw [← h.1] <;> simp [exchanged])

theorem exchanged_nextItem (w : World) (a b : Cylinder) (t : Nat) :
    (exchanged w a b t).nextItem = w.nextItem := by
  unfold exchanged addThing
  exact removeThing_nextItem w b t _

theorem exchanged_count (w : World) (a b : Cylinder) (t i : Nat) :
    ((exchanged w a b t).items i).count = (w.items i).count := by
  unfold exchanged addThing
  have h : ¬ ((w.items t).stackable = true ∧ (w.items t).count ≠ (w.items t).count) := by simp
  by_cases hi : i = t
  · subst hi; simp [removeThing_detach_count w b i _ h]
  · simp [Function.update_noteq hi, removeThing_detach_count w b t _ h]

theorem exchanged_stackable (w : World) (a b : Cylinder) (t i : Nat) :
    ((exchanged w a b t).items i).stackable = (w.items i).stackable := by
  unfold exchanged addThing
  by_cases hi : i = t
  · subst hi; simp [removeThing_stackable]
  · simp [Function.update_noteq hi, removeThing_stackable]

theorem exchanged_contents (w : World) (a b : Cylinder) (t : Nat) (ht : t ∈ w.contents b)
    (x : Cylinder) :
    (exchanged w a b t).contents x
      = (if x = a then [t] else []) ++ (if x = b then (w.contents b).erase t else w.contents x) := by
  have h : ¬ ((w.items t).stackable = true ∧ (w.items t).count ≠ (w.items t).count) := by simp
  have hb := removeThing_detach_contents w b t _ ht h
  unfold exchanged addThing
  by_cases hxa : x = a
  · subst hxa
    by_cases hxb : x = b
    · subst hxb; simp [hb]
    · simp [hxb, removeThing_contents_of_ne w b x t _ hxb]
  · by_cases hxb : x = b
    · subst hxb; simp [hxa, Function.update_noteq hxa, hb]
    · simp [hxa, hxb, Function.update_noteq hxa, removeThing_contents_of_ne w b x t _ hxb]

/-- Source and destination stay well formed through the exchange. -/
theorem exchanged_holdersOk (w : World) (a b : Cylinder) (t : Nat) (ht : t ∈ w.contents b)
    (hok : HoldersOk w a b) : HoldersOk (exchanged w a b t) a b := by
  obtain ⟨hna, hnb, hdis, haa, hab⟩ := hok
  have hca := exchanged_contents w a b t ht a
  have hcb := exchanged_contents w a b t ht b
  have hte : t ∉ (w.contents b).erase t := List.Nodup.not_mem_erase hnb
  by_cases hab' : a = b
  · subst hab'
    simp only [if_true] at hca
    have hnd : ([t] ++ (w.contents a).erase t).Nodup := by
      simp [hte, List.Nodup.erase t hna]
    refine ⟨by rw [hca]; exact hnd, by rw [hca]; exact hnd, fun h => absurd rfl h, ?_, ?_⟩ <;>
    · intro i hi
      rw [hca] at hi
      rw [exchanged_nextItem]
      simp only [List.singleton_append, List.mem_cons] at hi
      rcases hi with hi | hi
      · rw [hi]; exact haa t ht
      · exact haa i (List.mem_of_mem_erase hi)
  · have hba : ¬ b = a := fun e => hab' e.symm
    simp only [if_true, if_neg hab'] at hca
    simp only [if_true, if_neg hba, List.nil_append] at hcb
    have hta : t ∉ w.contents a := fun h => hdis hab' t h ht
    refine ⟨?_, ?_, ?_, ?_, ?_⟩
    · rw [hca]; simp [hta, hna]
    · rw [hcb]; exact List.Nodup.erase t hnb
    · intro _ i hi
      rw [hca] at hi
      rw [hcb]
      simp only [List.singleton_append, List.mem_cons] at hi
      rcases hi with hi | hi
      · rw [hi]; exact hte
      · exact fun h => hdis hab' i hi (List.mem_of_mem_erase h)
    · intro i hi
      rw [hca] at hi
      rw [exchanged_nextItem]
      simp only [List.singleton_append, List.mem_cons] at hi
      rcases hi with hi | hi
      · rw [hi]; exact hab t ht
      · exact haa i hi
    · intro i hi
      rw [hcb] at hi
      rw [exchanged_nextItem]
      exact hab i (List.mem_of_mem_erase hi)

/-- The exchange keeps the units over source and destination. -/
theorem exchanged_unitsOver (w : World) (a b : Cylinder) (t : Nat) (ht : t ∈ w.contents b)
    (hok : HoldersOk w a b) : unitsOver (exchanged w a b t) a b = unitsOver w a b := by
  obtain ⟨hna, hnb, hdis, haa, hab⟩ := hok
  have hca := exchanged_contents w a b t ht a
  have hcb := exchanged_contents w a b t ht b
  have hcnt : (fun i => ((exchanged w a b t).items i).count) = fun i => (w.items i).count := by
    funext i; exact exchanged_count w a b t i
  have herase := sum_map_erase_add (w.contents b) (fun i => (w.items i).count) t ht
  unfold unitsOver unitsIn
  rw [hcnt]
  by_cases hab' : a = b
  · subst hab'
    simp only [if_true] at hca ⊢
    rw [hca]
    simp only [List.singleton_append, List.map_cons, List.sum_cons]
    simp only [] at herase
    omega
  · have hba : ¬ b = a := fun e => hab' e.symm
    simp only [if_true, if_neg hab'] at hca
    simp only [if_true, if_neg hba, List.nil_append] at hcb
    simp only [if_neg hab']
    rw [hca, hcb]
    simp only [List.singleton_append, List.map_cons, List.sum_cons]
    simp only [] at herase
    omega

theorem unitsOver_congr (w w1 : World) (a b : Cylinder) (hi : w1.items = w.items)
    (hc : w1.contents = w.contents) : unitsOver w1 a b = unitsOver w a b := by
  unfold unitsOver unitsIn; rw [hi, hc]

theorem heldUnits_congr (w w1 : World) (a : Cylinder) (i : Nat) (hi : w1.items = w.items)
    (hc : w1.contents = w.contents) : heldUnits w1 a i = heldUnits w a i := by
  unfold heldUnits; rw [hi, hc]

theorem HoldersOk_congr (w w1 : World) (a b : Cylinder) (hc : w1.contents = w.contents)
    (hn : w1.nextItem = w.nextItem) (h : HoldersOk w a b) : HoldersOk w1 a b := by
  unfold HoldersOk at h ⊢; rw [hc, hn]; exact h

theorem newStacks_congr (w w1 f : World) (b : Cylinder)
    (h : ∀ i ∈ f.contents b, (i ∈ w.contents b ↔ i ∈ w1.contents b)) :
    newStacks w f b = newStacks w1 f b := by
  unfold newStacks
  apply List.filter_congr
  intro i hi
  simp [h i hi]

/-- Claim C2. `Game::internalMoveItem` neither loses nor duplicates units of
a stackable item. Take a call that reaches its commit with clamped amount
`m`, where the item is a stack of at most 100 units held by the source with
at least `m` units, the resolved occupant (if any) is held by the destination
with at most 100 units, and source and destination are well formed. Then the
call returns; the source stack has lost exactly `m` units; the occupant the
commit merges into (`toItem1`, null after an exchange) has gained
`n = stackGain` units, which is `min (100 - e) m` for a compatible occupant
and 0 otherwise; the items new at the destination are one fresh stack of
exactly `m - n` units when `n < m` and none when `m = n`; and the number of
units over source and destination is the same after the call as before. -/
theorem internalMoveItem_conserves_units (env : Env) (fuel : Nat) (w : World)
    (fromCylinder toCylinder : Cylinder) (index : Int) (item count flags : Nat)
    (actor tradeItem : Option Nat) (w1 : World) (toCyl : Cylinder) (index1 : Int)
    (toItem toItem1 : Option Nat) (m : Nat)
    (hcommit : ReachesCommit env fuel w fromCylinder toCylinder index item count flags actor
      tradeItem w1 toCyl index1 toItem toItem1 m)
    (hst : (w.items item).stackable = true) (hin : item ∈ w.contents fromCylinder)
    (hmc : m ≤ (w.items item).count) (hcap : (w.items item).count ≤ 100)
    (hok : HoldersOk w fromCylinder toCyl)
    (hocc : ∀ t, toItem = some t → t ∈ w.contents toCyl ∧ (w.items t).count ≤ 100) :
    ∃ r, internalMoveItem env fuel w fromCylinder toCylinder index item count flags actor tradeItem
        = some r ∧
      heldUnits r.world fromCylinder item + m = heldUnits w fromCylinder item ∧
      (∀ t, toItem1 = some t →
        (r.world.items t).count = (w.items t).count + stackGain w item toItem1 m) ∧
      newStacks w r.world toCyl = (if stackGain w item toItem1 m < m then [w.nextItem] else []) ∧
      (stackGain w item toItem1 m < m →
        (r.world.items w.nextItem).count = m - stackGain w item toItem1 m) ∧
      unitsOver r.world fromCylinder toCyl = unitsOver w fromCylinder toCyl := by
  obtain ⟨r, hr, hw, -⟩ := internalMoveItem_of_reachesCommit env fuel w fromCylinder toCylinder
    index item count flags actor tradeItem w1 toCyl index1 toItem toItem1 m hcommit
  obtain ⟨flags1, -, hself, hex, -⟩ := hcommit
  refine ⟨r, hr, ?_⟩
  rw [hw]
  rcases exchangePhase_shape env w fromCylinder toCyl index1 item count flags1 actor toItem w1
    toItem1 _ hex with ⟨h1, h2⟩ | ⟨t, ht, h2, hi, hc, hn⟩
  · -- no exchange
    subst h1 h2
    exact commitMove_conserves w1 fromCylinder toCyl index1 item toItem1 m hst hin hmc hcap hok
      (fun e => hself e.symm) hocc
  · -- the occupant was exchanged into the source
    subst h2
    have htin : t ∈ w.contents toCyl := (hocc t ht).1
    have hti : t ≠ item := fun e => hself (by rw [ht, e])
    have hcnt : ∀ i, (w1.items i).count = (w.items i).count := fun i => by
      rw [hi]; exact exchanged_count w fromCylinder toCyl t i
    have hst1 : (w1.items item).stackable = true := by
      rw [hi, exchanged_stackable]; exact hst
    have hmem : ∀ x i, i ≠ t → (i ∈ w1.contents x ↔ i ∈ w.contents x) := by
      intro x i hit
      rw [hc, exchanged_contents w fromCylinder toCyl t htin x]
      by_cases hxa : x = fromCylinder
      · by_cases hxb : x = toCyl
        · subst hxa; subst hxb
          simp [hit, List.mem_erase_of_ne hit]
        · subst hxa
          simp [hxb, hit]
      · by_cases hxb : x = toCyl
        · subst hxb
          simp [hxa, List.mem_erase_of_ne hit]
        · simp [hxa, hxb]
    have hsub : ∀ i ∈ w1.contents toCyl, i ∈ w.contents toCyl := by
      intro i hi1
      by_cases hit : i = t
      · rw [hit]; exact htin
      · exact (hmem toCyl i hit).mp hi1
    have hin1 : item ∈ w1.contents fromCylinder := (hmem fromCylinder item (Ne.symm hti)).mpr hin
    have hok1 : HoldersOk w1 fromCylinder toCyl :=
      HoldersOk_congr _ w1 fromCylinder toCyl hc hn
        (exchanged_holdersOk w fromCylinder toCyl t htin hok)
    have hnx : w1.nextItem = w.nextItem := by rw [hn, exchanged_nextItem]
    have hm : m < 2147483648 := by omega
    obtain ⟨c1, -, c3, c4, c5⟩ := commitMove_conserves w1 fromCylinder toCyl index1 item none m
      hst1 hin1 (by rw [hcnt]; exact hmc) (by rw [hcnt]; exact hcap) hok1
      (fun e => by cases e) (fun u hu => by cases hu)
    have hg : stackGain w1 item none m = stackGain w item none m := rfl
    rw [hg, hnx] at c3 c4
    refine ⟨?_, fun u hu => (by cases hu), ?_, c4, ?_⟩
    · rw [c1]
      unfold heldUnits
      rw [hcnt item]
      simp only [hin1, hin, if_true]
    · rw [← c3]
      apply newStacks_congr
      intro i hi1
      rw [commitMove_contents w1 fromCylinder toCyl index1 item none m hst1 hm toCyl] at hi1
      rw [List.mem_append] at hi1
      rcases hi1 with h | h
      · have hfresh : i = w.nextItem := by
          split_ifs at h
          · rw [← hnx]; simpa using h
          · simp at h
        have h1 : i ∉ w.contents toCyl := by
          rw [hfresh]; exact fun hh => Nat.lt_irrefl _ (hok.2.2.2.2 _ hh)
        have h2 : i ∉ w1.contents toCyl := fun hh => h1 (hsub i hh)
        simp [h1, h2]
      · have hi2 : i ∈ w1.contents toCyl :=
          (removeThing_contents_sublist w1 fromCylinder toCyl item m).subset h
        simp [hi2, hsub i hi2]
    · rw [c5, unitsOver_congr _ w1 fromCylinder toCyl hi hc]
      exact exchanged_unitsOver w fromCylinder toCyl t htin hok

/-- Witness of C2: 80 coins leave the tile for the player's stack of 50; the
stack takes 50 and a fresh stack of 30 is placed next to it. -/
theorem internalMoveItem_conserves_units_witness :
    ∃ r, internalMoveItem openEnv 4 coinWorld (.tile 0) (.player 1) INDEX_WHEREEVER 1 80 0 none none
        = some r ∧
      heldUnits r.world (.tile 0) 1 + 80 = heldUnits coinWorld (.tile 0) 1 ∧
      (∀ t, some 2 = some t →
        (r.world.items t).count = (coinWorld.items t).count + stackGain coinWorld 1 (some 2) 80) ∧
      newStacks coinWorld r.world (.player 1)
        = (if stackGain coinWorld 1 (some 2) 80 < 80 then [coinWorld.nextItem] else []) ∧
      (stackGain coinWorld 1 (some 2) 80 < 80 →
        (r.world.items coinWorld.nextItem).count = 80 - stackGain coinWorld 1 (some 2) 80) ∧
      unitsOver r.world (.tile 0) (.player 1) = unitsOver coinWorld (.tile 0) (.player 1) :=
  internalMoveItem_conserves_units openEnv 4 coinWorld (.tile 0) (.player 1) INDEX_WHEREEVER 1 80 0
    none none coinWorld (.player 1) INDEX_WHEREEVER (some 2) (some 2) 80
    ⟨0, rfl, by decide, rfl, by decide, by decide, rfl, rfl⟩
    rfl (by decide) (by decide) (by decide)
    ⟨by decide, by decide, by decide, by decide, by decide⟩
    (fun t ht => by cases ht; exact ⟨by decide, by decide⟩)

/-! ## Transfer engine: refusals and the test modes -/

theorem reservedAbove_of_ancestor (w : World) (reserved : Nat) (c : Cylinder)
    (hc : c.getItem = some reserved) :
    ∀ (n fuel : Nat) (c0 : Cylinder), ancestor w n c0 = some c → n < fuel →
      reservedAbove w reserved fuel (some c0) = some true := by
  intro n
  induction n with
  | zero =>
    intro fuel c0 h hf
    cases fuel with
    | zero => omega
    | succ f =>
      simp only [ancestor, Option.some.injEq] at h
      subst h
      simp [reservedAbove, hc]
  | succ n ih =>
    intro fuel c0 h hf
    cases fuel with
    | zero => omega
    | succ f =>
      simp only [ancestor] at h
      cases hp : getParent w c0 with
      | none => rw [hp] at h; cases h
      | some p =>
        rw [hp] at h
        simp only [Option.some_bind] at h
        simp only [reservedAbove, hp]
        split_ifs
        · rfl
        · exact ih f p h (by omega)

/-- The walk of the trade safety test finds a reserved item that is the
destination or one of its first `fuel` parents. -/
theorem reservedCheck_of_ancestor (w : World) (reserved : Nat) (c toCyl : Cylinder) (n fuel : Nat)
    (h : ancestor w n toCyl = some c) (hc : c.getItem = some reserved) (hf : n ≤ fuel) :
    reservedCheck w fuel toCyl (some reserved) = some true := by
  simp only [reservedCheck]
  split_ifs with h0
  · rfl
  · cases n with
    | zero =>
      simp only [ancestor, Option.some.injEq] at h
      subst h
      exact absurd hc h0
    | succ n =>
      simp only [ancestor] at h
      cases hp : getParent w toCyl with
      | none => rw [hp] at h; cases h
      | some p =>
        rw [hp] at h
        simp only [Option.some_bind] at h
        exact reservedAbove_of_ancestor w reserved c hc n fuel p h (by omega)

/-- The exchange phase keeps every item other than the occupant where it is
and as it is. -/
theorem exchangePhase_keeps_item (env : Env) (w : World) (a b : Cylinder) (index : Int)
    (item count flags : Nat) (actor toItem : Option Nat) (w1 : World) (toItem1 : Option Nat)
    (ret : ReturnValue) (hself : some item ≠ toItem)
    (h : exchangePhase env w a b index item count flags actor toItem = some (w1, toItem1, ret)) :
    w1.items item = w.items item ∧ ∀ x, item ∈ w1.contents x ↔ item ∈ w.contents x := by
  rcases exchangePhase_shape env w a b index item count flags actor toItem w1 toItem1 ret h with
    ⟨h1, -⟩ | ⟨t, ht, -, hi, hc, -⟩
  · subst h1; exact ⟨rfl, fun _ => Iff.rfl⟩
  · have hne : item ≠ t := fun e => hself (by rw [ht, e])
    have hit : ∀ (v : World) (c : Cylinder) (k : Nat), (removeThing v c t k).items item = v.items item :=
      fun v c k => removeThing_items_of_ne v c t k item hne
    refine ⟨?_, fun x => ?_⟩
    · rw [hi]
      simp only [exchanged, addThing, Function.update_noteq hne]
      exact hit w b _
    · rw [hc]
      simp only [exchanged, addThing]
      by_cases hx : x = a
      · subst hx
        simp only [Function.update_same, List.mem_cons, hne, false_or]
        exact ⟨fun hh => (removeThing_contents_sublist w b x t _).subset hh,
          fun hh => removeThing_mem_of_ne w b x t _ item hne hh⟩
      · simp only [Function.update_noteq hx]
        exact ⟨fun hh => (removeThing_contents_sublist w b x t _).subset hh,
          fun hh => removeThing_mem_of_ne w b x t _ item hne hh⟩

/-- Counterexample to C11 as stated. Player 2 carries the reserved item 11, a
bag into which its inventory redirects, so the resolved destination is the
reserved item. When the bag is full, the move of item 10 is refused by
`queryAdd`, which comes before the trade safety test, with
`RETURNVALUE_CONTAINERNOTENOUGHROOM`. When item 10 lies in the bag and is
reported as the occupant, the call returns `RETURNVALUE_NOERROR` at once. In
neither case the code is `RETURNVALUE_NOTENOUGHROOM`; item 10 stays where it
is. -/
theorem internalMoveItem_reserved_other_codes :
    (resolveDestination fullBagEnv tradeWorld 10 (fullBagEnv.MAP_MAX_LAYERS - 1) (.player 2)
        INDEX_WHEREEVER none 0 = (.container 11, INDEX_WHEREEVER, none, 0) ∧
      (Cylinder.container 11).getItem = some 11 ∧
      (internalMoveItem fullBagEnv 4 tradeWorld (.player 1) (.player 2) INDEX_WHEREEVER 10 1 0
          none (some 11)).map (fun r => (r.ret, r.moved, r.world.contents (.player 1)))
        = some (.RETURNVALUE_CONTAINERNOTENOUGHROOM, none, [10])) ∧
    (resolveDestination slotBagEnv nestedWorld 10 (slotBagEnv.MAP_MAX_LAYERS - 1) (.player 2)
        INDEX_WHEREEVER none 0 = (.container 11, INDEX_WHEREEVER, some 10, 0) ∧
      (internalMoveItem slotBagEnv 4 nestedWorld (.container 11) (.player 2) INDEX_WHEREEVER 10 1
          0 none (some 11)).map (fun r => (r.ret, r.moved, r.world.contents (.container 11)))
        = some (.RETURNVALUE_NOERROR, none, [10])) := by
  refine ⟨⟨by decide, by decide, by decide⟩, by decide, by decide⟩

/-- Claim C11, amended. Take a call of `Game::internalMoveItem` with a reserved
item whose destination resolves to `toCyl` with the occupant `toItem`. When the
occupant is the moved item itself, the call returns `RETURNVALUE_NOERROR` at
once and changes nothing. Otherwise, when the exchange phase is defined and
leaves the state `w1`, and the resolved destination is the reserved item or a
holder `n <= fuel` steps up its chain of parents is, the call never commits:
it stores nothing through `_moveItem`, returns the state `w1`, and the moved
item is as it was and in the holders it was in. Its code is never
`RETURNVALUE_NOERROR`: it is the code of `queryAdd`, of `queryMaxCount` (with
no unit granted) or of `queryRemove`, whichever fails first, and
`RETURNVALUE_NOTENOUGHROOM` when all three have passed. -/
theorem internalMoveItem_reserved_refused (env : Env) (fuel : Nat) (w : World)
    (fromCylinder toCylinder : Cylinder) (index : Int) (item count flags : Nat)
    (actor : Option Nat) (reserved : Nat) (toCyl : Cylinder) (index1 : Int)
    (toItem : Option Nat) (flags1 : Nat)
    (hres : resolveDestination env w item (env.MAP_MAX_LAYERS - 1) toCylinder index none flags
      = (toCyl, index1, toItem, flags1)) :
    (some item = toItem →
      internalMoveItem env fuel w fromCylinder toCylinder index item count flags actor
        (some reserved) = some ⟨.RETURNVALUE_NOERROR, w, none⟩) ∧
    (some item ≠ toItem →
      ∀ (w1 : World) (toItem1 : Option Nat) (ret : ReturnValue) (c : Cylinder) (n : Nat),
        exchangePhase env w fromCylinder toCyl index1 item count flags1 actor toItem
          = some (w1, toItem1, ret) →
        ancestor w1 n toCyl = some c → c.getItem = some reserved → n ≤ fuel →
        ∃ r, internalMoveItem env fuel w fromCylinder toCylinder index item count flags actor
            (some reserved) = some r ∧
          r.moved = none ∧ r.world = w1 ∧ r.ret ≠ .RETURNVALUE_NOERROR ∧
          r.ret = (if ret ≠ .RETURNVALUE_NOERROR then ret
            else if (env.queryMaxCount w1 toCyl index1 item count flags1).1
                  ≠ .RETURNVALUE_NOERROR ∧
                (env.queryMaxCount w1 toCyl index1 item count flags1).2 = 0 then
              (env.queryMaxCount w1 toCyl index1 item count flags1).1
            else if env.queryRemove w1 fromCylinder item
                (clampAmount w1 item count
                  (env.queryMaxCount w1 toCyl index1 item count flags1).2) flags1
                ≠ .RETURNVALUE_NOERROR then
              env.queryRemove w1 fromCylinder item
                (clampAmount w1 item count
                  (env.queryMaxCount w1 toCyl index1 item count flags1).2) flags1
            else .RETURNVALUE_NOTENOUGHROOM) ∧
          r.world.items item = w.items item ∧
          ∀ x, item ∈ r.world.contents x ↔ item ∈ w.contents x) := by
  constructor
  · intro hself
    simp only [internalMoveItem, hres, hself, if_true]
  · intro hself w1 toItem1 ret c n hex hheld hc hfuel
    have hsafe := reservedCheck_of_ancestor w1 reserved c toCyl n fuel hheld hc hfuel
    have hkeep := exchangePhase_keeps_item env w fromCylinder toCyl index1 item count flags1
      actor toItem w1 toItem1 ret hself hex
    simp only [internalMoveItem, hres, hself, if_false, hex, moveAfterAdd]
    by_cases h1 : ret ≠ .RETURNVALUE_NOERROR
    · rw [if_pos h1, if_pos h1]
      exact ⟨_, rfl, rfl, rfl, h1, rfl, hkeep.1, hkeep.2⟩
    · rw [if_neg h1, if_neg h1]
      by_cases h2 : (env.queryMaxCount w1 toCyl index1 item count flags1).1
            ≠ .RETURNVALUE_NOERROR ∧
          (env.queryMaxCount w1 toCyl index1 item count flags1).2 = 0
      · rw [if_pos h2, if_pos h2]
        exact ⟨_, rfl, rfl, rfl, h2.1, rfl, hkeep.1, hkeep.2⟩
      · rw [if_neg h2, if_neg h2]
        by_cases h3 : env.queryRemove w1 fromCylinder item
            (clampAmount w1 item count (env.queryMaxCount w1 toCyl index1 item count flags1).2)
            flags1 ≠ .RETURNVALUE_NOERROR
        · rw [if_pos h3, if_pos h3]
          exact ⟨_, rfl, rfl, rfl, h3, rfl, hkeep.1, hkeep.2⟩
        · rw [if_neg h3, if_neg h3, hsafe]
          exact ⟨_, rfl, rfl, rfl, fun h => ReturnValue.noConfusion h, rfl, hkeep.1, hkeep.2⟩

/-- Witness of C11 (amended): the inventory of player 2 redirects into the bag
it carries, item 11, which is the reserved item; every query passes and the
move of item 10 is refused with `RETURNVALUE_NOTENOUGHROOM`. -/
theorem internalMoveItem_reserved_refused_witness :
    ∃ r, internalMoveItem bagEnv 4 tradeWorld (.player 1) (.player 2) INDEX_WHEREEVER 10 1 0 none
        (some 11) = some r ∧
      r.moved = none ∧ r.world = tradeWorld ∧ r.ret ≠ .RETURNVALUE_NOERROR ∧
      r.ret = .RETURNVALUE_NOTENOUGHROOM ∧
      r.world.items 10 = tradeWorld.items 10 ∧
      ∀ x, 10 ∈ r.world.contents x ↔ 10 ∈ tradeWorld.contents x :=
  (internalMoveItem_reserved_refused bagEnv 4 tradeWorld (.player 1) (.player 2) INDEX_WHEREEVER
    10 1 0 none 11 (.container 11) INDEX_WHEREEVER none 0 rfl).2 (by decide) tradeWorld none
    .RETURNVALUE_NOERROR (.container 11) 0 rfl rfl rfl (Nat.zero_le _)

/-- Counterexample to C12 as stated: a stack of 80 coins is moved from tile 0
to tile 0 with no occupant reported. The resolved destination is the source
holder, every query passes, and the call does not stop at the test of line
1004: it detaches the stack, puts a fresh clone in its place, queues the
original for release and notifies the tile twice. -/
theorem internalMoveItem_same_holder_mutates :
    resolveDestination bagEnv coinWorld 1 (bagEnv.MAP_MAX_LAYERS - 1) (.tile 0) INDEX_WHEREEVER
        none 0 = (.tile 0, INDEX_WHEREEVER, none, 0) ∧
    coinWorld.contents (.tile 0) = [1] ∧
    ∃ r, internalMoveItem bagEnv 4 coinWorld (.tile 0) (.tile 0) INDEX_WHEREEVER 1 80 0 none none
        = some r ∧
      r.ret = .RETURNVALUE_NOERROR ∧ r.world.contents (.tile 0) = [3] ∧
      (r.world.items 1).parent = none ∧ r.world.ToReleaseItems = [1] ∧
      r.world.log = [.postRemoveNotification (.tile 0) 1 (some (.tile 0)) 0,
        .postAddNotification (.tile 0) 3 (some (.tile 0)) 0] := by
  refine ⟨by decide, by decide, _, rfl, by decide, by decide, by decide, by decide, by decide⟩

/-- Claim C12, amended. `Game::internalMoveItem` returns
`RETURNVALUE_NOERROR` and changes nothing whenever the occupant resolved
through `queryDestination` is the moved item itself (the test `item ==
toItem` of line 1004), whatever the resolved holder is. -/
theorem internalMoveItem_onto_itself (env : Env) (fuel : Nat) (w : World)
    (fromCylinder toCylinder : Cylinder) (index : Int) (item count flags : Nat)
    (actor tradeItem : Option Nat) (toCyl : Cylinder) (index1 : Int) (flags1 : Nat)
    (hres : resolveDestination env w item (env.MAP_MAX_LAYERS - 1) toCylinder index none flags
      = (toCyl, index1, some item, flags1)) :
    internalMoveItem env fuel w fromCylinder toCylinder index item count flags actor tradeItem
      = some ⟨.RETURNVALUE_NOERROR, w, none⟩ := by
  simp [internalMoveItem, hres]

/-- Witness of C12: the stack of the player is moved onto itself. -/
theorem internalMoveItem_onto_itself_witness :
    internalMoveItem openEnv 4 coinWorld (.player 1) (.player 1) INDEX_WHEREEVER 2 50 0 none none
      = some ⟨.RETURNVALUE_NOERROR, coinWorld, none⟩ :=
  internalMoveItem_onto_itself openEnv 4 coinWorld (.player 1) (.player 1) INDEX_WHEREEVER 2 50 0
    none none (.player 1) INDEX_WHEREEVER 0 (by decide)

/-- Claim C13. The slot of player 1 answers `RETURNVALUE_NEEDEXCHANGE` for
item 1, the source tile accepts the occupant, item 2, but the occupant cannot
be removed from the slot (`queryRemove` fails). `Game::internalMoveItem` does
not abort: `ret` holds the `RETURNVALUE_NOERROR` of the source's `queryAdd`,
the call goes on and commits, item 1 enters the occupied slot and the call
returns `RETURNVALUE_NOERROR`. -/
theorem internalMoveItem_failed_swap_commits :
    stuckEnv.queryAdd swapWorld (.player 1) INDEX_WHEREEVER 1 1 0 none
      = .RETURNVALUE_NEEDEXCHANGE ∧
    stuckEnv.queryRemove swapWorld (.player 1) 2 1 0 ≠ .RETURNVALUE_NOERROR ∧
    ∃ r, internalMoveItem stuckEnv 4 swapWorld (.tile 0) (.player 1) INDEX_WHEREEVER 1 1 0 none none
        = some r ∧
      r.ret = .RETURNVALUE_NOERROR ∧ r.moved = some 1 ∧
      r.world.contents (.player 1) = [1, 2] ∧ r.world.contents (.tile 0) = [] ∧
      (r.world.items 1).parent = some (.player 1) := by
  refine ⟨by decide, by decide, _, rfl, by decide, by decide, by decide, by decide, by decide⟩

/-- Claim C15. `Game::internalAddItem` with `test = true` returns for every
input, with the state it was given (no holder sequence, item, release queue
or notification log differs) and a zero remainder; the code is
`RETURNVALUE_NOERROR` exactly when holder and item are not null and both
`queryAdd` on the resolved holder and `queryMaxCount` on the original holder
return `RETURNVALUE_NOERROR`. -/
theorem internalAddItem_test_pure (env : Env) (fuel : Nat) (w : World)
    (toCylinder : Option Cylinder) (item : Option Nat) (index : Int) (flags : Nat) :
    ∃ ret, internalAddItem env fuel w toCylinder item index flags true = some (ret, w, 0) ∧
      (ret = .RETURNVALUE_NOERROR ↔ addTestPasses env w toCylinder item index flags) := by
  unfold internalAddItem addTestPasses
  cases toCylinder with
  | none => exact ⟨_, rfl, by simp⟩
  | some d =>
    cases item with
    | none => exact ⟨_, rfl, by simp⟩
    | some i =>
      simp only []
      by_cases h1 : env.queryAdd w (env.queryDestination w d index i none flags).1
          (env.queryDestination w d index i none flags).2.1 i (w.items i).count
          (env.queryDestination w d index i none flags).2.2.2 none = .RETURNVALUE_NOERROR
      · by_cases h2 : (env.queryMaxCount w d INDEX_WHEREEVER i (w.items i).count
            (env.queryDestination w d index i none flags).2.2.2).1 = .RETURNVALUE_NOERROR
        · exact ⟨.RETURNVALUE_NOERROR, by simp [h1, h2], by simp [h1, h2]⟩
        · refine ⟨(env.queryMaxCount w d INDEX_WHEREEVER i (w.items i).count
            (env.queryDestination w d index i none flags).2.2.2).1, ?_, ?_⟩
          · simp only [h1, h2, ne_eq, not_true_eq_false, not_false_eq_true, if_true, if_false]
          · simp [h2]
      · refine ⟨env.queryAdd w (env.queryDestination w d index i none flags).1
          (env.queryDestination w d index i none flags).2.1 i (w.items i).count
          (env.queryDestination w d index i none flags).2.2.2 none, ?_, ?_⟩
        · simp only [h1, ne_eq, not_false_eq_true, if_true]
        · simp [h1]

/-- Claim C16. Item 30 is a removable door of house 0, listed by the house
and standing on tile 0. `Game::internalRemoveItem` with `test = true` returns
`RETURNVALUE_NOERROR` and leaves the door on its tile, yet it has run
`Door::onRemoved` (line 1269 is outside `if (!test)`): the house has lost the
door from its list and the door one reference. -/
theorem internalRemoveItem_test_runs_hook :
    (doorWorld.houses 0).doorList = [30] ∧ (doorWorld.items 30).referenceCounter = 2 ∧
    (internalRemoveItem openEnv doorWorld 30 (-1) true 0).1 = .RETURNVALUE_NOERROR ∧
    (internalRemoveItem openEnv doorWorld 30 (-1) true 0).2.contents (.tile 0) = [30] ∧
    ((internalRemoveItem openEnv doorWorld 30 (-1) true 0).2.houses 0).doorList = [] ∧
    ((internalRemoveItem openEnv doorWorld 30 (-1) true 0).2.items 30).referenceCounter = 1 := by
  refine ⟨by decide, by decide, by decide, by decide, by decide, by decide⟩

/-- Claim C17. The slot of player 1 holds item 2 and answers
`RETURNVALUE_NEEDEXCHANGE` for item 1; once it is empty it refuses item 1 for
lack of capacity. `Game::internalMoveItem` first moves the occupant to the
source tile, then fails on the repeated `queryAdd` and returns
`RETURNVALUE_NOTENOUGHCAPACITY` without moving item 1. The occupant stays on
the tile: the call has failed and two holders have changed. -/
theorem internalMoveItem_failure_keeps_swap :
    swapWorld.contents (.player 1) = [2] ∧ swapWorld.contents (.tile 0) = [1] ∧
    ∃ r, internalMoveItem overloadEnv 4 swapWorld (.tile 0) (.player 1) INDEX_WHEREEVER 1 1 0 none
        none = some r ∧
      r.ret = .RETURNVALUE_NOTENOUGHCAPACITY ∧ r.moved = none ∧
      r.world.contents (.player 1) = [] ∧ r.world.contents (.tile 0) = [2, 1] ∧
      (r.world.items 2).parent = some (.tile 0) ∧
      r.world.log = [.postRemoveNotification (.player 1) 2 (some (.tile 0)) 0,
        .postAddNotification (.tile 0) 2 (some (.player 1)) 0] := by
  refine ⟨by decide, by decide, _, rfl, by decide, by decide, by decide, by decide, by decide,
    by decide⟩

/-- Conservation at the commit that follows the exchange phase, relative to
the state before the call: the source stack loses `m` units, the occupant the
commit merges into gains `stackGain`, the units left over form one fresh
stack, and the units over source and destination stay the same. -/
theorem commit_after_exchange_conserves (env : Env) (w : World) (fromCylinder toCyl : Cylinder)
    (index1 : Int) (item count flags1 : Nat) (actor toItem : Option Nat) (w1 : World)
    (toItem1 : Option Nat) (ret : ReturnValue) (m : Nat)
    (hself : some item ≠ toItem)
    (hex : exchangePhase env w fromCylinder toCyl index1 item count flags1 actor toItem
      = some (w1, toItem1, ret))
    (hst : (w.items item).stackable = true) (hin : item ∈ w.contents fromCylinder)
    (hmc : m ≤ (w.items item).count) (hcap : (w.items item).count ≤ 100)
    (hok : HoldersOk w fromCylinder toCyl)
    (hocc : ∀ t, toItem = some t → t ∈ w.contents toCyl ∧ (w.items t).count ≤ 100) :
    heldUnits (commitMove w1 fromCylinder toCyl index1 item toItem1 m).1 fromCylinder item + m
        = heldUnits w fromCylinder item ∧
    (∀ t, toItem1 = some t →
      ((commitMove w1 fromCylinder toCyl index1 item toItem1 m).1.items t).count
        = (w.items t).count + stackGain w item toItem1 m) ∧
    newStacks w (commitMove w1 fromCylinder toCyl index1 item toItem1 m).1 toCyl
        = (if stackGain w item toItem1 m < m then [w.nextItem] else []) ∧
    (stackGain w item toItem1 m < m →
      ((commitMove w1 fromCylinder toCyl index1 item toItem1 m).1.items w.nextItem).count
        = m - stackGain w item toItem1 m) ∧
    unitsOver (commitMove w1 fromCylinder toCyl index1 item toItem1 m).1 fromCylinder toCyl
        = unitsOver w fromCylinder toCyl := by
  rcases exchangePhase_shape env w fromCylinder toCyl index1 item count flags1 actor toItem w1
    toItem1 _ hex with ⟨h1, h2⟩ | ⟨t, ht, h2, hi, hc, hn⟩
  · subst h1 h2
    exact commitMove_conserves w1 fromCylinder toCyl index1 item toItem1 m hst hin hmc hcap hok
      (fun e => hself e.symm) hocc
  · subst h2
    have htin : t ∈ w.contents toCyl := (hocc t ht).1
    have hti : t ≠ item := fun e => hself (by rw [ht, e])
    have hcnt : ∀ i, (w1.items i).count = (w.items i).count := fun i => by
      rw [hi]; exact exchanged_count w fromCylinder toCyl t i
    have hst1 : (w1.items item).stackable = true := by
      rw [hi, exchanged_stackable]; exact hst
    have hmem : ∀ x i, i ≠ t → (i ∈ w1.contents x ↔ i ∈ w.contents x) := by
      intro x i hit
      rw [hc, exchanged_contents w fromCylinder toCyl t htin x]
      by_cases hxa : x = fromCylinder
      · by_cases hxb : x = toCyl
        · subst hxa; subst hxb
          simp [hit, List.mem_erase_of_ne hit]
        · subst hxa
          simp [hxb, hit]
      · by_cases hxb : x = toCyl
        · subst hxb
          simp [hxa, List.mem_erase_of_ne hit]
        · simp [hxa, hxb]
    have hsub : ∀ i ∈ w1.contents toCyl, i ∈ w.contents toCyl := by
      intro i hi1
      by_cases hit : i = t
      · rw [hit]; exact htin
      · exact (hmem toCyl i hit).mp hi1
    have hin1 : item ∈ w1.contents fromCylinder := (hmem fromCylinder item (Ne.symm hti)).mpr hin
    have hok1 : HoldersOk w1 fromCylinder toCyl :=
      HoldersOk_congr _ w1 fromCylinder toCyl hc hn
        (exchanged_holdersOk w fromCylinder toCyl t htin hok)
    have hnx : w1.nextItem = w.nextItem := by rw [hn, exchanged_nextItem]
    have hm : m < 2147483648 := by omega
    obtain ⟨c1, -, c3, c4, c5⟩ := commitMove_conserves w1 fromCylinder toCyl index1 item none m
      hst1 hin1 (by rw [hcnt]; exact hmc) (by rw [hcnt]; exact hcap) hok1
      (fun e => by cases e) (fun u hu => by cases hu)
    have hg : stackGain w1 item none m = stackGain w item none m := rfl
    rw [hg, hnx] at c3 c4
    refine ⟨?_, fun u hu => (by cases hu), ?_, c4, ?_⟩
    · rw [c1]
      unfold heldUnits
      rw [hcnt item]
      simp only [hin1, hin, if_true]
    · rw [← c3]
      apply newStacks_congr
      intro i hi1
      rw [commitMove_contents w1 fromCylinder toCyl index1 item none m hst1 hm toCyl] at hi1
      rw [List.mem_append] at hi1
      rcases hi1 with h | h
      · have hfresh : i = w.nextItem := by
          split_ifs at h
          · rw [← hnx]; simpa using h
          · simp at h
        have h1 : i ∉ w.contents toCyl := by
          rw [hfresh]; exact fun hh => Nat.lt_irrefl _ (hok.2.2.2.2 _ hh)
        have h2 : i ∉ w1.contents toCyl := fun hh => h1 (hsub i hh)
        simp [h1, h2]
      · have hi2 : i ∈ w1.contents toCyl :=
          (removeThing_contents_sublist w1 fromCylinder toCyl item m).subset h
        simp [hi2, hsub i hi2]
    · rw [c5, unitsOver_congr _ w1 fromCylinder toCyl hi hc]
      exact exchanged_unitsOver w fromCylinder toCyl t htin hok

/-- Counterexample to C14 as stated. 60 coins are asked to move from the
stack of 80 on tile 0 onto the slot of player 1, whose `queryMaxCount` reports
that 50 units can be accepted and gives `RETURNVALUE_NOERROR` as its code. 50
coins move, and the call returns the code of `queryMaxCount`, which is
`RETURNVALUE_NOERROR`: the outcome is that of plain success. -/
theorem internalMoveItem_clamp_reports_success :
    quietSlotEnv.queryMaxCount coinWorld (.player 1) INDEX_WHEREEVER 1 60 0
      = (.RETURNVALUE_NOERROR, 50) ∧
    ((internalMoveItem quietSlotEnv 4 coinWorld (.tile 0) (.player 1) INDEX_WHEREEVER 1 60 0 none
        none).map fun r =>
        (r.ret, (r.world.items 2).count, (r.world.items 1).count, r.world.contents (.player 1),
          r.world.contents (.tile 0)))
      = some (.RETURNVALUE_NOERROR, 100, 30, [2], [1]) := by
  refine ⟨by decide, by decide⟩

/-- Claim C14, amended. Take a call of `Game::internalMoveItem` for a stackable
item with requested count `count` in which `queryMaxCount` on the resolved
destination reports `k` units with `0 < k < count` together with the code
`code`, and in which the other tests pass. For a stack of at most 100 units
held by the source with at least `k` units and well-formed holders, the call
returns `code`, whatever it is: the outcome differs from plain success exactly
when `queryMaxCount` has not reported `RETURNVALUE_NOERROR`. Exactly `k` units
move: the source stack loses `k` and keeps the rest, the occupant gains
`n = stackGain`, the units left over form one fresh stack of `k - n` at the
destination, and the units over both holders are conserved. -/
theorem internalMoveItem_clamp_code (env : Env) (fuel : Nat) (w : World)
    (fromCylinder toCylinder : Cylinder) (index : Int) (item count flags : Nat)
    (actor tradeItem : Option Nat) (toCyl : Cylinder) (index1 : Int) (toItem : Option Nat)
    (flags1 : Nat) (w1 : World) (toItem1 : Option Nat) (code : ReturnValue) (k : Nat)
    (hres : resolveDestination env w item (env.MAP_MAX_LAYERS - 1) toCylinder index none flags
      = (toCyl, index1, toItem, flags1))
    (hself : some item ≠ toItem)
    (hex : exchangePhase env w fromCylinder toCyl index1 item count flags1 actor toItem
      = some (w1, toItem1, .RETURNVALUE_NOERROR))
    (hmax : env.queryMaxCount w1 toCyl index1 item count flags1 = (code, k))
    (hk : 0 < k) (hkc : k < count)
    (hrem : env.queryRemove w1 fromCylinder item k flags1 = .RETURNVALUE_NOERROR)
    (hsafe : reservedCheck w1 fuel toCyl tradeItem = some false)
    (hst : (w.items item).stackable = true) (hin : item ∈ w.contents fromCylinder)
    (hmc : k ≤ (w.items item).count) (hcap : (w.items item).count ≤ 100)
    (hok : HoldersOk w fromCylinder toCyl)
    (hocc : ∀ t, toItem = some t → t ∈ w.contents toCyl ∧ (w.items t).count ≤ 100) :
    ∃ r, internalMoveItem env fuel w fromCylinder toCylinder index item count flags actor tradeItem
        = some r ∧
      r.ret = code ∧ (r.ret ≠ .RETURNVALUE_NOERROR ↔ code ≠ .RETURNVALUE_NOERROR) ∧
      heldUnits r.world fromCylinder item + k = heldUnits w fromCylinder item ∧
      (∀ t, toItem1 = some t →
        (r.world.items t).count = (w.items t).count + stackGain w item toItem1 k) ∧
      newStacks w r.world toCyl = (if stackGain w item toItem1 k < k then [w.nextItem] else []) ∧
      (stackGain w item toItem1 k < k →
        (r.world.items w.nextItem).count = k - stackGain w item toItem1 k) ∧
      unitsOver r.world fromCylinder toCyl = unitsOver w fromCylinder toCyl := by
  have hst1 : (w1.items item).stackable = true := by
    rw [(exchangePhase_keeps_item env w fromCylinder toCyl index1 item count flags1 actor toItem
      w1 toItem1 _ hself hex).1]
    exact hst
  have hclamp : clampAmount w1 item count k = k := by
    simp only [clampAmount, hst1, if_true]
    omega
  have hcons := commit_after_exchange_conserves env w fromCylinder toCyl index1 item count flags1
    actor toItem w1 toItem1 _ k hself hex hst hin hmc hcap hok hocc
  refine ⟨⟨code, (commitMove w1 fromCylinder toCyl index1 item toItem1 k).1,
    (commitMove w1 fromCylinder toCyl index1 item toItem1 k).2⟩, ?_, rfl, Iff.rfl, hcons⟩
  have hk0 : ¬ (code ≠ .RETURNVALUE_NOERROR ∧ k = 0) := fun h => by omega
  simp only [internalMoveItem, hres, hself, if_false, hex, moveAfterAdd, ne_eq, not_true_eq_false,
    hmax, hk0, hclamp, hrem, hsafe, hst1, hkc, and_self, if_true]

/-- Witness of C14 (amended): 60 coins are asked to move from the stack of 80
on tile 0 onto the slot of player 1, which holds 50 coins, takes 50 more and
says so with `RETURNVALUE_NOTENOUGHROOM`. The call returns that code, 50 coins
move, the slot is at 100 and the stack on the tile keeps 30. -/
theorem internalMoveItem_clamp_code_witness :
    ∃ r, internalMoveItem slotEnv 4 coinWorld (.tile 0) (.player 1) INDEX_WHEREEVER 1 60 0 none none
        = some r ∧
      r.ret = .RETURNVALUE_NOTENOUGHROOM ∧
      (r.ret ≠ .RETURNVALUE_NOERROR ↔
        ReturnValue.RETURNVALUE_NOTENOUGHROOM ≠ .RETURNVALUE_NOERROR) ∧
      heldUnits r.world (.tile 0) 1 + 50 = heldUnits coinWorld (.tile 0) 1 ∧
      (∀ t, some 2 = some t →
        (r.world.items t).count = (coinWorld.items t).count + stackGain coinWorld 1 (some 2) 50) ∧
      newStacks coinWorld r.world (.player 1)
        = (if stackGain coinWorld 1 (some 2) 50 < 50 then [coinWorld.nextItem] else []) ∧
      (stackGain coinWorld 1 (some 2) 50 < 50 →
        (r.world.items coinWorld.nextItem).count = 50 - stackGain coinWorld 1 (some 2) 50) ∧
      unitsOver r.world (.tile 0) (.player 1) = unitsOver coinWorld (.tile 0) (.player 1) :=
  internalMoveItem_clamp_code slotEnv 4 coinWorld (.tile 0) (.player 1) INDEX_WHEREEVER 1 60 0
    none none (.player 1) INDEX_WHEREEVER (some 2) 0 coinWorld (some 2) .RETURNVALUE_NOTENOUGHROOM 50
    (by decide) (by decide) rfl rfl (by decide) (by decide) rfl rfl
    rfl (by decide) (by decide) (by decide)
    ⟨by decide, by decide, by decide, by decide, by decide⟩
    (fun t ht => by cases ht; exact ⟨by decide, by decide⟩)

/-- The example of C14, evaluated: of the 60 coins asked for, 50 move; the
slot of player 1 is at 100 and the stack on tile 0 keeps 30. -/
theorem clamped_move_example :
    ((internalMoveItem slotEnv 4 coinWorld (.tile 0) (.player 1) INDEX_WHEREEVER 1 60 0 none
        none).map fun r =>
        (r.ret, (r.world.items 2).count, (r.world.items 1).count, r.world.contents (.player 1),
          r.world.contents (.tile 0)))
      = some (.RETURNVALUE_NOTENOUGHROOM, 100, 30, [2], [1]) := by
  decide

/-! ## Decay wheel: what the transformation of an item leaves alone -/

@[simp] theorem setItem_nextItem (w : World) (i : Nat) (it : Item) :
    (setItem w i it).nextItem = w.nextItem := rfl

@[simp] theorem addThing_nextItem (w : World) (c : Cylinder) (k : Int) (i : Nat) :
    (addThing w c k i).nextItem = w.nextItem := rfl

@[simp] theorem replaceThing_nextItem (w : World) (c : Cylinder) (k : Int) (i : Nat) :
    (replaceThing w c k i).nextItem = w.nextItem := rfl

@[simp] theorem removeDoor_nextItem (w : World) (h d : Nat) :
    (removeDoor w h d).nextItem = w.nextItem := by
  unfold removeDoor; split_ifs <;> rfl

@[simp] theorem onRemoved_nextItem (w : World) (i : Nat) :
    (onRemoved w i).nextItem = w.nextItem := by
  unfold onRemoved
  split <;> simp

@[simp] theorem internalRemoveItem_nextItem (env : Env) (w : World) (item : Nat) (count : Int)
    (test : Bool) (flags : Nat) :
    (internalRemoveItem env w item count test flags).2.nextItem = w.nextItem := by
  unfold internalRemoveItem
  split
  · rfl
  · simp only []
    split_ifs <;> simp [removeThing_nextItem]

theorem DecayFrame_refl (g : Game) (item : Nat) : DecayFrame g g item :=
  ⟨rfl, rfl, rfl, rfl, Nat.le_refl _, fun _ _ _ => ⟨rfl, rfl⟩⟩

theorem DecayFrame.frame_trans {g g1 g2 : Game} {item : Nat} (h1 : DecayFrame g g1 item)
    (h2 : DecayFrame g1 g2 item) : DecayFrame g g2 item := by
  obtain ⟨a1, a2, a3, a4, a5, a6⟩ := h1
  obtain ⟨b1, b2, b3, b4, b5, b6⟩ := h2
  refine ⟨b1.trans a1, b2.trans a2, b3.trans a3, b4.trans a4, Nat.le_trans a5 b5, fun j hj hlt => ?_⟩
  have h := b6 j hj (Nat.lt_of_lt_of_le hlt a5)
  have h' := a6 j hj hlt
  exact ⟨h.1.trans h'.1, h.2.trans h'.2⟩

theorem DecayFrame_withWorld (g : Game) (w : World) (item : Nat)
    (h : g.world.nextItem ≤ w.nextItem) : DecayFrame g (g.withWorld w) item :=
  ⟨rfl, rfl, rfl, rfl, h, fun _ _ _ => ⟨rfl, rfl⟩⟩

theorem DecayFrame_setID (env : DecayEnv) (g : Game) (item newid : Nat) :
    DecayFrame g (g.setID env item newid) item := by
  refine ⟨rfl, rfl, rfl, rfl, Nat.le_refl _, fun j hj _ => ?_⟩
  simp [Game.setID, Function.update_noteq hj]

theorem DecayFrame_updateThing (env : DecayEnv) (g : Game) (c : Cylinder) (item itemId count : Nat) :
    DecayFrame g (g.updateThing env c item itemId count) item := by
  unfold Game.updateThing
  split_ifs
  · exact (DecayFrame_setID env g item itemId).frame_trans (DecayFrame_withWorld _ _ _ (Nat.le_refl _))
  · exact DecayFrame_refl g item

theorem DecayFrame_allocate (g : Game) (r : Item × Int × ItemDecayState_t) (item : Nat) :
    DecayFrame g (g.allocate r).2 item := by
  refine ⟨rfl, rfl, rfl, rfl, Nat.le_succ _, fun j _ hlt => ?_⟩
  have hne : j ≠ g.world.nextItem := Nat.ne_of_lt hlt
  simp [Game.allocate, Function.update_noteq hne]

theorem replaceItem_frame (g : Game) (cylinder : Cylinder) (itemIndex : Int) (item : Nat)
    (r : Item × Int × ItemDecayState_t) :
    DecayFrame g (replaceItem g cylinder itemIndex item r).1 item ∧
    (replaceItem g cylinder itemIndex item r).2 = some g.world.nextItem ∧
    g.world.nextItem < (replaceItem g cylinder itemIndex item r).1.world.nextItem := by
  refine ⟨?_, rfl, ?_⟩
  · exact (DecayFrame_allocate g r item).frame_trans
      (DecayFrame_withWorld _ _ _ (by simp [Game.allocate]))
  · simp [replaceItem, Game.withWorld, Game.allocate]

theorem some_pair_inj {α β : Type} {x : α × β} {a : α} {b : β} (h : some x = some (a, b)) :
    a = x.1 ∧ b = x.2 := by
  cases x
  simp only [Option.some.injEq, Prod.mk.injEq] at h
  exact ⟨h.1.symm, h.2.symm⟩

theorem transformOnTop_frame (env : DecayEnv) (g : Game) (cylinder : Cylinder) (itemIndex : Int)
    (item newId : Nat) (newCount : Int) :
    DecayFrame g (transformOnTop env g cylinder itemIndex item newId newCount).1 item ∧
    ∀ n, (transformOnTop env g cylinder itemIndex item newId newCount).2 = some n → n = item := by
  unfold transformOnTop
  simp only []
  have h1 : DecayFrame g ((g.withWorld (emit (removeThing g.world cylinder item
      (g.world.items item).count) (.postRemoveNotification cylinder item (some cylinder)
      itemIndex))).setID env item newId) item :=
    (DecayFrame_withWorld g _ item (by simp [removeThing_nextItem])).frame_trans
      (DecayFrame_setID env _ item newId)
  have h2 : DecayFrame g (if newCount ≠ -1 then
      ((g.withWorld (emit (removeThing g.world cylinder item
        (g.world.items item).count) (.postRemoveNotification cylinder item (some cylinder)
        itemIndex))).setID env item newId).withWorld (setItem ((g.withWorld (emit (removeThing
        g.world cylinder item (g.world.items item).count) (.postRemoveNotification cylinder item
        (some cylinder) itemIndex))).setID env item newId).world item
        (env.setSubType (((g.withWorld (emit (removeThing g.world cylinder item
        (g.world.items item).count) (.postRemoveNotification cylinder item (some cylinder)
        itemIndex))).setID env item newId).world.items item) (toUInt16 newCount)))
      else (g.withWorld (emit (removeThing g.world cylinder item
        (g.world.items item).count) (.postRemoveNotification cylinder item (some cylinder)
        itemIndex))).setID env item newId) item := by
    split_ifs
    · exact h1.frame_trans (DecayFrame_withWorld _ _ item (Nat.le_refl _))
    · exact h1
  split
  · exact ⟨h2.frame_trans (DecayFrame_withWorld _ _ item (Nat.le_refl _)), fun n hn => by cases hn⟩
  · exact ⟨h2.frame_trans (DecayFrame_withWorld _ _ item (Nat.le_refl _)),
      fun n hn => by cases hn; rfl⟩

theorem transformInPlace_frame (env : DecayEnv) (g : Game) (cylinder : Cylinder) (itemIndex : Int)
    (item newId : Nat) (newCount : Int) :
    DecayFrame g (transformInPlace env g cylinder itemIndex item newId newCount).1 item ∧
    ∀ n, (transformInPlace env g cylinder itemIndex item newId newCount).2 = some n →
      n = item := by
  unfold transformInPlace
  simp only []
  refine ⟨?_, fun n hn => by cases hn; rfl⟩
  refine DecayFrame.frame_trans (DecayFrame.frame_trans ?_ (DecayFrame_updateThing env _ cylinder item _ _))
    (DecayFrame_withWorld _ _ item (Nat.le_refl _))
  split_ifs
  · exact DecayFrame_withWorld g _ item (Nat.le_refl _)
  · exact DecayFrame_withWorld g _ item (Nat.le_refl _)

theorem transformReplace_frame (env : DecayEnv) (g : Game) (cylinder : Cylinder) (itemIndex : Int)
    (item type count : Nat) :
    DecayFrame g (transformReplace env g cylinder itemIndex item type count).1 item ∧
    ∀ n, (transformReplace env g cylinder itemIndex item type count).2 = some n →
      g.world.nextItem ≤ n ∧
        n < (transformReplace env g cylinder itemIndex item type count).1.world.nextItem := by
  unfold transformReplace
  cases env.CreateItem type count with
  | none => exact ⟨DecayFrame_refl g item, fun n hn => by cases hn⟩
  | some r =>
    simp only []
    obtain ⟨h1, h2, h3⟩ := replaceItem_frame g cylinder itemIndex item r
    refine ⟨h1, fun n hn => ?_⟩
    rw [h2] at hn
    cases hn
    exact ⟨Nat.le_refl _, h3⟩

theorem transformSpent_frame (env : DecayEnv) (recur : Nat → Option (Game × Option Nat))
    (g : Game) (cylinder : Cylinder) (itemIndex : Int) (item newId : Nat) (g1 : Game)
    (newItem : Option Nat)
    (hrec : ∀ k g2 n2, recur k = some (g2, n2) → DecayFrame g g2 item ∧
      ∀ n, n2 = some n → n = item ∨ (g.world.nextItem ≤ n ∧ n < g2.world.nextItem))
    (h : transformSpent env recur g cylinder itemIndex item newId = some (g1, newItem)) :
    DecayFrame g g1 item ∧
      ∀ n, newItem = some n → n = item ∨ (g.world.nextItem ≤ n ∧ n < g1.world.nextItem) := by
  unfold transformSpent at h
  simp only [] at h
  by_cases c1 : (g.world.items item).stackable = true
  · rw [if_pos c1] at h
    cases h
    exact ⟨DecayFrame_withWorld g _ item (by simp), fun n hn => by cases hn⟩
  · rw [if_neg c1] at h
    by_cases c2 : (if (env.itemTypes (g.world.items item).id).id = (env.itemTypes newId).id
        then (env.itemTypes (g.world.items item).id).decayTo else (newId : Int)) < 0
    · rw [if_pos c2] at h
      cases h
      exact ⟨DecayFrame_withWorld g _ item (by simp), fun n hn => by cases hn⟩
    · rw [if_neg c2] at h
      by_cases c3 : (if (env.itemTypes (g.world.items item).id).id = (env.itemTypes newId).id
          then (env.itemTypes (g.world.items item).id).decayTo else (newId : Int)) ≠ newId
      · rw [if_pos c3] at h
        obtain ⟨rfl, rfl⟩ := some_pair_inj h
        obtain ⟨k1, k2⟩ := transformReplace_frame env g cylinder itemIndex item
          (toUInt16 (if (env.itemTypes (g.world.items item).id).id = (env.itemTypes newId).id
            then (env.itemTypes (g.world.items item).id).decayTo else (newId : Int))) 1
        exact ⟨k1, fun n hn => Or.inr (k2 n hn)⟩
      · rw [if_neg c3] at h
        exact hrec _ g1 newItem h

/-- `Game::transformItem` leaves the wheel alone and touches the decay
attributes of no item but the transformed one and the one it creates; the
pointer it returns is null, the item, or the item it has created. -/
theorem transformItem_frame (env : DecayEnv) :
    ∀ (fuel : Nat) (g : Game) (item newId : Nat) (newCount : Int) (g1 : Game)
      (newItem : Option Nat),
      transformItem env fuel g item newId newCount = some (g1, newItem) →
      DecayFrame g g1 item ∧
      ∀ n, newItem = some n → n = item ∨ (g.world.nextItem ≤ n ∧ n < g1.world.nextItem) := by
  intro fuel
  induction fuel with
  | zero =>
    intro g item newId newCount g1 newItem h
    rw [transformItem] at h
    by_cases c0 : (g.world.items item).id = newId ∧
        (newCount = -1 ∨ (newCount = (env.getSubType g item : Int) ∧ newCount ≠ 0))
    · rw [if_pos c0] at h
      cases h
      exact ⟨DecayFrame_refl g item, fun n hn => by cases hn; exact Or.inl rfl⟩
    · rw [if_neg c0] at h
      cases hp : (g.world.items item).parent with
      | none =>
        rw [hp] at h
        cases h
        exact ⟨DecayFrame_refl g item, fun n hn => by cases hn⟩
      | some cylinder =>
        rw [hp] at h
        simp only [] at h
        by_cases c1 : getThingIndex g.world cylinder item = -1
        · rw [if_pos c1] at h
          cases h
          exact ⟨DecayFrame_refl g item, fun n hn => by cases hn; exact Or.inl rfl⟩
        · rw [if_neg c1] at h
          by_cases c2 : env.canTransform g item = false
          · rw [if_pos c2] at h
            cases h
            exact ⟨DecayFrame_refl g item, fun n hn => by cases hn; exact Or.inl rfl⟩
          · rw [if_neg c2] at h
            by_cases c3 : (env.itemTypes newId).id = 0
            · rw [if_pos c3] at h
              cases h
              exact ⟨DecayFrame_refl g item, fun n hn => by cases hn; exact Or.inl rfl⟩
            · rw [if_neg c3] at h
              by_cases c4 : (env.itemTypes (g.world.items item).id).alwaysOnTop
                  ≠ (env.itemTypes newId).alwaysOnTop
              · rw [if_pos c4] at h
                obtain ⟨rfl, rfl⟩ := some_pair_inj h
                obtain ⟨k1, k2⟩ := transformOnTop_frame env g cylinder
                  (getThingIndex g.world cylinder item) item newId newCount
                exact ⟨k1, fun n hn => Or.inl (k2 n hn)⟩
              · rw [if_neg c4] at h
                by_cases c5 : (env.itemTypes (g.world.items item).id).type
                    = (env.itemTypes newId).type
                · rw [if_pos c5] at h
                  by_cases c6 : newCount = 0 ∧
                      ((g.world.items item).stackable = true ∨ env.hasCharges g item = true)
                  · rw [if_pos c6] at h
                    exact transformSpent_frame env _ g cylinder _ item newId g1 newItem (fun k g2 n2 hk => by cases hk) h
                  · rw [if_neg c6] at h
                    obtain ⟨rfl, rfl⟩ := some_pair_inj h
                    obtain ⟨k1, k2⟩ := transformInPlace_frame env g cylinder
                      (getThingIndex g.world cylinder item) item newId newCount
                    exact ⟨k1, fun n hn => Or.inl (k2 n hn)⟩
                · rw [if_neg c5] at h
                  obtain ⟨rfl, rfl⟩ := some_pair_inj h
                  obtain ⟨k1, k2⟩ := transformReplace_frame env g cylinder
                    (getThingIndex g.world cylinder item) item newId
                    (if newCount = -1 then 0 else toUInt16 newCount)
                  exact ⟨k1, fun n hn => Or.inr (k2 n hn)⟩
  | succ f ih =>
    intro g item newId newCount g1 newItem h
    rw [transformItem] at h
    by_cases c0 : (g.world.items item).id = newId ∧
        (newCount = -1 ∨ (newCount = (env.getSubType g item : Int) ∧ newCount ≠ 0))
    · rw [if_pos c0] at h
      cases h
      exact ⟨DecayFrame_refl g item, fun n hn => by cases hn; exact Or.inl rfl⟩
    · rw [if_neg c0] at h
      cases hp : (g.world.items item).parent with
      | none =>
        rw [hp] at h
        cases h
        exact ⟨DecayFrame_refl g item, fun n hn => by cases hn⟩
      | some cylinder =>
        rw [hp] at h
        simp only [] at h
        by_cases c1 : getThingIndex g.world cylinder item = -1
        · rw [if_pos c1] at h
          cases h
          exact ⟨DecayFrame_refl g item, fun n hn => by cases hn; exact Or.inl rfl⟩
        · rw [if_neg c1] at h
          by_cases c2 : env.canTransform g item = false
          · rw [if_pos c2] at h
            cases h
            exact ⟨DecayFrame_refl g item, fun n hn => by cases hn; exact Or.inl rfl⟩
          · rw [if_neg c2] at h
            by_cases c3 : (env.itemTypes newId).id = 0
            · rw [if_pos c3] at h
              cases h
              exact ⟨DecayFrame_refl g item, fun n hn => by cases hn; exact Or.inl rfl⟩
            · rw [if_neg c3] at h
              by_cases c4 : (env.itemTypes (g.world.items item).id).alwaysOnTop
                  ≠ (env.itemTypes newId).alwaysOnTop
              · rw [if_pos c4] at h
                obtain ⟨rfl, rfl⟩ := some_pair_inj h
                obtain ⟨k1, k2⟩ := transformOnTop_frame env g cylinder
                  (getThingIndex g.world cylinder item) item newId newCount
                exact ⟨k1, fun n hn => Or.inl (k2 n hn)⟩
              · rw [if_neg c4] at h
                by_cases c5 : (env.itemTypes (g.world.items item).id).type
                    = (env.itemTypes newId).type
                · rw [if_pos c5] at h
                  by_cases c6 : newCount = 0 ∧
                      ((g.world.items item).stackable = true ∨ env.hasCharges g item = true)
                  · rw [if_pos c6] at h
                    exact transformSpent_frame env _ g cylinder _ item newId g1 newItem (fun k g2 n2 hk => ih g item k (-1) g2 n2 hk) h
                  · rw [if_neg c6] at h
                    obtain ⟨rfl, rfl⟩ := some_pair_inj h
                    obtain ⟨k1, k2⟩ := transformInPlace_frame env g cylinder
                      (getThingIndex g.world cylinder item) item newId newCount
                    exact ⟨k1, fun n hn => Or.inl (k2 n hn)⟩
                · rw [if_neg c5] at h
                  obtain ⟨rfl, rfl⟩ := some_pair_inj h
                  obtain ⟨k1, k2⟩ := transformReplace_frame env g cylinder
                    (getThingIndex g.world cylinder item) item newId
                    (if newCount = -1 then 0 else toUInt16 newCount)
                  exact ⟨k1, fun n hn => Or.inr (k2 n hn)⟩

/-! ## Decay wheel: basic facts -/

/-- With the default count `Game::transformItem` never recurses, so it
returns whatever the fuel. -/
theorem transformItem_returns (env : DecayEnv) (fuel : Nat) (g : Game) (item newId : Nat) :
    ∃ r, transformItem env fuel g item newId (-1) = some r := by
  rw [transformItem]
  have h0 : ¬ ((-1 : Int) = 0 ∧
      ((g.world.items item).stackable = true ∨ env.hasCharges g item = true)) :=
    fun h => absurd h.1 (by decide)
  by_cases c0 : (g.world.items item).id = newId ∧
      ((-1 : Int) = -1 ∨ ((-1 : Int) = (env.getSubType g item : Int) ∧ (-1 : Int) ≠ 0))
  · rw [if_pos c0]; exact ⟨_, rfl⟩
  · rw [if_neg c0]
    cases (g.world.items item).parent with
    | none => exact ⟨_, rfl⟩
    | some cylinder =>
      simp only []
      by_cases c1 : getThingIndex g.world cylinder item = -1
      · rw [if_pos c1]; exact ⟨_, rfl⟩
      · rw [if_neg c1]
        by_cases c2 : env.canTransform g item = false
        · rw [if_pos c2]; exact ⟨_, rfl⟩
        · rw [if_neg c2]
          by_cases c3 : (env.itemTypes newId).id = 0
          · rw [if_pos c3]; exact ⟨_, rfl⟩
          · rw [if_neg c3]
            by_cases c4 : (env.itemTypes (g.world.items item).id).alwaysOnTop
                ≠ (env.itemTypes newId).alwaysOnTop
            · rw [if_pos c4]; exact ⟨_, rfl⟩
            · rw [if_neg c4]
              by_cases c5 : (env.itemTypes (g.world.items item).id).type
                  = (env.itemTypes newId).type
              · rw [if_pos c5, if_neg h0]; exact ⟨_, rfl⟩
              · rw [if_neg c5]; exact ⟨_, rfl⟩

@[simp] theorem register_decayItems (g : Game) (item : Nat) :
    (g.register item).decayItems = g.decayItems := rfl

@[simp] theorem register_lastBucket (g : Game) (item : Nat) :
    (g.register item).lastBucket = g.lastBucket := rfl

@[simp] theorem register_decayLog (g : Game) (item : Nat) :
    (g.register item).decayLog = g.decayLog := rfl

@[simp] theorem register_toDecayItems (g : Game) (item : Nat) :
    (g.register item).toDecayItems = item :: g.toDecayItems := rfl

@[simp] theorem register_nextItem (g : Game) (item : Nat) :
    (g.register item).world.nextItem = g.world.nextItem := rfl

@[simp] theorem register_duration (g : Game) (item : Nat) :
    (g.register item).duration = g.duration := rfl

theorem register_decaying_of_ne (g : Game) (item j : Nat) (h : j ≠ item) :
    (g.register item).decaying j = g.decaying j := by
  show Function.update g.decaying item _ j = _
  exact Function.update_noteq h _ _

@[simp] theorem register_decaying_self (g : Game) (item : Nat) :
    (g.register item).decaying item = .DECAYING_TRUE := by
  show Function.update g.decaying item _ item = _
  exact Function.update_same _ _ _

@[simp] theorem eraseCurrent_same (g : Game) (bucket : Nat) (done rest : List Nat) :
    (g.eraseCurrent bucket done rest).decayItems bucket = done ++ rest :=
  Function.update_same _ _ _

@[simp] theorem eraseCurrent_nextItem (g : Game) (bucket : Nat) (done rest : List Nat) :
    (g.eraseCurrent bucket done rest).world.nextItem = g.world.nextItem := rfl

@[simp] theorem decreaseDuration_nextItem (g : Game) (y : Nat) (t : Int) :
    (g.decreaseDuration y t).world.nextItem = g.world.nextItem := rfl

@[simp] theorem decreaseDuration_decayItems (g : Game) (y : Nat) (t : Int) :
    (g.decreaseDuration y t).decayItems = g.decayItems := rfl

theorem pushBack_other (g : Game) (b y bucket : Nat) (h : bucket ≠ b) :
    (g.pushBack b y).decayItems bucket = g.decayItems bucket :=
  Function.update_noteq h _ _

@[simp] theorem pushBack_same (g : Game) (b y : Nat) :
    (g.pushBack b y).decayItems b = g.decayItems b ++ [y] :=
  Function.update_same _ _ _

theorem releaseAll_nextItem (l : List Nat) : ∀ w : World, (releaseAll w l).nextItem = w.nextItem := by
  induction l with
  | nil => intro w; rfl
  | cons a l ih => intro w; simp only [releaseAll]; rw [ih]; rfl

/-- What the loop of `Game::cleanup` over `toDecayItems` does to the
registrations of one item. -/
theorem enterWheel_count (env : DecayEnv) (x : Nat) :
    ∀ (l : List Nat) (g : Game),
      (∀ b, ((enterWheel env g l).decayItems b).count x = (g.decayItems b).count x
        + (if b = cleanupBucket env g.lastBucket (g.duration x) then l.count x else 0)) ∧
      (enterWheel env g l).duration = g.duration ∧ (enterWheel env g l).decaying = g.decaying ∧
      (enterWheel env g l).lastBucket = g.lastBucket ∧ (enterWheel env g l).world = g.world ∧
      (enterWheel env g l).decayLog = g.decayLog := by
  intro l
  induction l with
  | nil => intro g; exact ⟨fun b => by simp [enterWheel], rfl, rfl, rfl, rfl, rfl⟩
  | cons y l ih =>
    intro g
    obtain ⟨h1, h2, h3, h4, h5, h6⟩ := ih (g.pushBack (cleanupBucket env g.lastBucket (g.duration y)) y)
    refine ⟨fun b => ?_, h2, h3, h4, h5, h6⟩
    simp only [enterWheel]
    rw [h1 b]
    have e1 : (g.pushBack (cleanupBucket env g.lastBucket (g.duration y)) y).lastBucket
        = g.lastBucket := rfl
    have e2 : (g.pushBack (cleanupBucket env g.lastBucket (g.duration y)) y).duration
        = g.duration := rfl
    rw [e1, e2]
    by_cases hy : y = x
    · subst hy
      by_cases hb : b = cleanupBucket env g.lastBucket (g.duration y)
      · subst hb
        simp [List.count_cons]
        omega
      · rw [pushBack_other _ _ _ _ hb]
        simp [hb]
    · by_cases hb : b = cleanupBucket env g.lastBucket (g.duration y)
      · subst hb
        simp [List.count_cons, hy]
      · rw [pushBack_other _ _ _ _ hb]
        simp [List.count_cons, hy]

/-- What `Game::cleanup` does to the registrations of one item: each of its
entries in `toDecayItems` moves to the bucket of its duration. -/
theorem cleanup_count (env : DecayEnv) (g : Game) (x : Nat) :
    (∀ b, ((cleanup env g).decayItems b).count x = (g.decayItems b).count x
      + (if b = cleanupBucket env g.lastBucket (g.duration x) then g.toDecayItems.count x
          else 0)) ∧
    (cleanup env g).toDecayItems = [] ∧
    (cleanup env g).duration = g.duration ∧ (cleanup env g).decaying = g.decaying ∧
    (cleanup env g).lastBucket = g.lastBucket ∧
    (cleanup env g).world.nextItem = g.world.nextItem ∧
    (cleanup env g).decayLog = g.decayLog := by
  obtain ⟨h1, h2, h3, h4, h5, h6⟩ := enterWheel_count env x g.toDecayItems
    (g.withWorld { releaseAll g.world g.world.ToReleaseItems with ToReleaseItems := [] })
  refine ⟨fun b => h1 b, rfl, h2, h3, h4, ?_, h6⟩
  exact (congrArg World.nextItem h5).trans (releaseAll_nextItem _ _)

theorem split_of_count_one (x : Nat) (l : List Nat) (h : l.count x = 1) :
    ∃ pre post, l = pre ++ x :: post ∧ x ∉ pre ∧ x ∉ post := by
  have hm : x ∈ l := List.count_pos_iff.mp (by omega)
  obtain ⟨pre, post, e⟩ := List.append_of_mem hm
  refine ⟨pre, post, e, ?_, ?_⟩
  · intro hp
    have := List.count_pos_iff.mpr hp
    rw [e, List.count_append, List.count_cons_self] at h
    omega
  · intro hp
    have := List.count_pos_iff.mpr hp
    rw [e, List.count_append, List.count_cons_self] at h
    omega

theorem checkDecay_eq_map (env : DecayEnv) (fuel : Nat) (g : Game) :
    checkDecay env fuel g
      = (decayBucket env fuel ((g.lastBucket + 1) % env.EVENT_DECAY_BUCKETS) [] g
          (g.decayItems ((g.lastBucket + 1) % env.EVENT_DECAY_BUCKETS))).map
        fun g1 => cleanup env
          { g1 with lastBucket := (g.lastBucket + 1) % env.EVENT_DECAY_BUCKETS } := by
  unfold checkDecay
  simp only []
  cases decayBucket env fuel ((g.lastBucket + 1) % env.EVENT_DECAY_BUCKETS) [] g
    (g.decayItems ((g.lastBucket + 1) % env.EVENT_DECAY_BUCKETS)) <;> rfl

theorem ticks_add (env : DecayEnv) (fuel : Nat) :
    ∀ (m n : Nat) (g : Game), ticks env fuel (m + n) g = (ticks env fuel m g).bind (ticks env fuel n) := by
  intro m
  induction m with
  | zero => intro n g; simp [ticks]
  | succ m ih =>
    intro n g
    rw [Nat.succ_add]
    simp only [ticks]
    cases checkDecay env fuel g with
    | none => rfl
    | some g1 => simp only [Option.some_bind]; exact ih n g1

theorem add_mod_ne (a k B : Nat) (hk : 0 < k) (hkB : k < B) : (a + k) % B ≠ a % B := by
  intro h
  have h1 : (a + k) ≡ (a + 0) [MOD B] := by simpa [Nat.ModEq] using h
  have h2 : k ≡ 0 [MOD B] := Nat.ModEq.add_left_cancel' a h1
  have h3 : k % B = 0 := by simpa [Nat.ModEq] using h2
  rw [Nat.mod_eq_of_lt hkB] at h3
  omega

theorem add_mod_eq_self (b k B : Nat) (hb : b < B) : (b + k) % B = b ↔ k % B = 0 := by
  constructor
  · intro h
    have h1 : (b + k) ≡ (b + 0) [MOD B] := by
      simp only [Nat.ModEq, Nat.add_zero, h, Nat.mod_eq_of_lt hb]
    have h2 : k ≡ 0 [MOD B] := Nat.ModEq.add_left_cancel' b h1
    simpa [Nat.ModEq] using h2
  · intro h
    rw [Nat.add_mod, h, Nat.add_zero, Nat.mod_mod, Nat.mod_eq_of_lt hb]

theorem offset_cast (D R h : Nat) (hRD : R ≤ D) :
    (((D : Int) - (R : Int) + (h : Int)) / 1000).toNat = (D - R + h) / 1000 := by
  have e : ((D : Int) - R + h) = ((D - R + h : Nat) : Int) := by
    push_cast [Nat.cast_sub hRD]; ring
  rw [e]
  norm_cast

theorem toUInt32_natCast (D : Nat) (h : D < 4294967296) : toUInt32 (D : Int) = D := by
  unfold toUInt32
  have : ((D : Int) % 4294967296) = (D : Int) := Int.emod_eq_of_lt (by omega) (by omega)
  rw [this]
  simp

theorem enterWheel_world (env : DecayEnv) (l : List Nat) :
    ∀ g : Game, (enterWheel env g l).world = g.world := by
  induction l with
  | nil => intro g; rfl
  | cons a t ih => intro g; unfold enterWheel; rw [ih]; rfl

/-! ## Decay wheel: registrations -/

theorem sum_range_update (f : Nat → Nat) (b v : Nat) :
    ∀ n, ((List.range n).map (Function.update f b v)).sum + (if b < n then f b else 0)
      = ((List.range n).map f).sum + (if b < n then v else 0) := by
  intro n
  induction n with
  | zero => simp
  | succ n ih =>
    rw [List.range_succ, List.map_append, List.map_append, List.sum_append, List.sum_append]
    simp only [List.map_cons, List.map_nil, List.sum_cons, List.sum_nil, Nat.add_zero]
    by_cases h1 : b < n
    · have h2 : b < n + 1 := by omega
      have h3 : n ≠ b := by omega
      rw [if_pos h1, if_pos h1] at ih
      rw [if_pos h2, if_pos h2, Function.update_noteq h3]
      omega
    · rw [if_neg h1, if_neg h1] at ih
      by_cases h2 : b = n
      · subst h2
        rw [if_pos (Nat.lt_succ_self _), if_pos (Nat.lt_succ_self _), Function.update_same]
        omega
      · have h3 : ¬ b < n + 1 := by omega
        have h4 : n ≠ b := fun e => h2 e.symm
        rw [if_neg h3, if_neg h3, Function.update_noteq h4]
        omega

theorem wheelCount_congr (env : DecayEnv) (g g1 : Game) (x : Nat)
    (h1 : g1.toDecayItems = g.toDecayItems) (h2 : g1.decayItems = g.decayItems) :
    wheelCount env g1 x = wheelCount env g x := by
  unfold wheelCount
  rw [h1, h2]

theorem wheelCount_update (env : DecayEnv) (g : Game) (b : Nat) (l : List Nat) (x : Nat)
    (hb : b < env.EVENT_DECAY_BUCKETS) :
    wheelCount env { g with decayItems := Function.update g.decayItems b l } x
        + (g.decayItems b).count x
      = wheelCount env g x + l.count x := by
  unfold wheelCount
  have h := sum_range_update (fun i => (g.decayItems i).count x) b (l.count x)
    env.EVENT_DECAY_BUCKETS
  rw [if_pos hb, if_pos hb] at h
  have e : (fun i => (Function.update g.decayItems b l i).count x)
      = Function.update (fun i => (g.decayItems i).count x) b (l.count x) := by
    funext i
    by_cases hi : i = b
    · subst hi; simp
    · simp [Function.update_noteq hi]
  simp only [e]
  omega

theorem wheelCount_eraseCurrent (env : DecayEnv) (g : Game) (bucket y x : Nat)
    (done rest : List Nat) (hb : bucket < env.EVENT_DECAY_BUCKETS)
    (hc : g.decayItems bucket = done ++ y :: rest) :
    wheelCount env (g.eraseCurrent bucket done rest) x + (if y = x then 1 else 0)
      = wheelCount env g x := by
  have h := wheelCount_update env g bucket (done ++ rest) x hb
  rw [hc] at h
  simp only [List.count_append, List.count_cons] at h
  unfold Game.eraseCurrent
  by_cases hy : y = x
  · simp only [hy, if_true, beq_self_eq_true] at h ⊢; omega
  · have : (y == x) = false := by simpa using hy
    simp only [hy, if_false, this] at h ⊢
    simp only [Bool.false_eq_true, if_false] at h
    omega

theorem wheelCount_pushBack (env : DecayEnv) (g : Game) (b y x : Nat)
    (hb : b < env.EVENT_DECAY_BUCKETS) :
    wheelCount env (g.pushBack b y) x = wheelCount env g x + (if y = x then 1 else 0) := by
  have h := wheelCount_update env g b (g.decayItems b ++ [y]) x hb
  simp only [List.count_append, List.count_cons, List.count_nil] at h
  unfold Game.pushBack
  by_cases hy : y = x
  · simp only [hy, if_true, beq_self_eq_true] at h ⊢; omega
  · have : (y == x) = false := by simpa using hy
    simp only [hy, if_false, this] at h ⊢
    simp only [Bool.false_eq_true, if_false] at h
    omega

theorem wheelCount_register (env : DecayEnv) (g : Game) (y x : Nat) :
    wheelCount env (g.register y) x = wheelCount env g x + (if y = x then 1 else 0) := by
  unfold wheelCount
  rw [register_toDecayItems, register_decayItems, List.count_cons]
  by_cases hy : y = x
  · simp only [hy, if_true, beq_self_eq_true]; omega
  · have : (y == x) = false := by simpa using hy
    simp only [hy, if_false, this, Bool.false_eq_true]
    omega

theorem cleanupBucket_lt (env : DecayEnv) (last : Nat) (d : Int)
    (h : last < env.EVENT_DECAY_BUCKETS) : cleanupBucket env last d < env.EVENT_DECAY_BUCKETS := by
  unfold cleanupBucket
  split_ifs
  · exact h
  · exact Nat.mod_lt _ (by omega)

theorem enterWheel_wheelCount (env : DecayEnv) (x : Nat) :
    ∀ (l : List Nat) (g : Game), g.lastBucket < env.EVENT_DECAY_BUCKETS →
      wheelCount env (enterWheel env g l) x = wheelCount env g x + l.count x ∧
      (enterWheel env g l).toDecayItems = g.toDecayItems := by
  intro l
  induction l with
  | nil => intro g _; exact ⟨by simp [enterWheel], rfl⟩
  | cons y l ih =>
    intro g hl
    obtain ⟨h1, h2⟩ := ih (g.pushBack (cleanupBucket env g.lastBucket (g.duration y)) y) hl
    refine ⟨?_, h2⟩
    simp only [enterWheel]
    rw [h1, wheelCount_pushBack env g _ y x (cleanupBucket_lt env _ _ hl), List.count_cons]
    by_cases hy : y = x
    · simp only [hy, if_true, beq_self_eq_true]; omega
    · have : (y == x) = false := by simpa using hy
      simp only [hy, if_false, this, Bool.false_eq_true]
      omega

/-- `Game::cleanup` moves registrations from `toDecayItems` to the buckets
and neither adds nor drops one. -/
theorem cleanup_wheelCount (env : DecayEnv) (g : Game) (x : Nat)
    (hl : g.lastBucket < env.EVENT_DECAY_BUCKETS) :
    wheelCount env (cleanup env g) x = wheelCount env g x := by
  obtain ⟨h1, h2⟩ := enterWheel_wheelCount env x g.toDecayItems
    (g.withWorld { releaseAll g.world g.world.ToReleaseItems with ToReleaseItems := [] }) hl
  have e1 : wheelCount env (cleanup env g) x + g.toDecayItems.count x
      = wheelCount env (enterWheel env
          (g.withWorld { releaseAll g.world g.world.ToReleaseItems with ToReleaseItems := [] })
          g.toDecayItems) x := by
    unfold wheelCount
    rw [h2]
    show List.count x [] + _ + _ = List.count x g.toDecayItems + _
    simp only [List.count_nil, Nat.zero_add]
    rw [Nat.add_comm]
    rfl
  have e2 : wheelCount env
      (g.withWorld { releaseAll g.world g.world.ToReleaseItems with ToReleaseItems := [] }) x
      = wheelCount env g x := rfl
  omega

/-- `Game::cleanup` keeps the wheel well formed. -/
theorem cleanup_ok (env : DecayEnv) (g : Game) (h : WheelOk env g) : WheelOk env (cleanup env g) := by
  obtain ⟨hl, hx⟩ := h
  obtain ⟨-, -, q3, q4, q5, q6, -⟩ := cleanup_count env g 0
  refine ⟨by rw [q5]; exact hl, fun x => ?_⟩
  rw [cleanup_wheelCount env g x hl, q4, q6]
  exact hx x

theorem WheelOk_of_frame (env : DecayEnv) (g g1 : Game) (y : Nat) (h : WheelOk env g)
    (hf : DecayFrame g g1 y) (hy : wheelCount env g y = 0) : WheelOk env g1 := by
  obtain ⟨f1, f2, f3, -, f5, f6⟩ := hf
  obtain ⟨hl, hx⟩ := h
  refine ⟨by rw [f3]; exact hl, fun x => ?_⟩
  rw [wheelCount_congr env g g1 x f1 f2]
  refine ⟨(hx x).1, fun hpos => ?_⟩
  obtain ⟨a, b⟩ := (hx x).2 hpos
  have hne : x ≠ y := fun e => by rw [e, hy] at hpos; exact Nat.lt_irrefl _ hpos
  exact ⟨(f6 x hne b).1.trans a, Nat.lt_of_lt_of_le b f5⟩

theorem WheelOk_withWorld (env : DecayEnv) (g : Game) (w : World) (h : WheelOk env g)
    (hw : g.world.nextItem ≤ w.nextItem) : WheelOk env (g.withWorld w) :=
  ⟨h.1, fun x => ⟨(h.2 x).1, fun hpos =>
    ⟨((h.2 x).2 hpos).1, Nat.lt_of_lt_of_le ((h.2 x).2 hpos).2 hw⟩⟩⟩

theorem WheelOk_register (env : DecayEnv) (g : Game) (y : Nat) (h : WheelOk env g)
    (hy : wheelCount env g y = 0) (hal : y < g.world.nextItem) : WheelOk env (g.register y) := by
  obtain ⟨hl, hx⟩ := h
  refine ⟨hl, fun x => ?_⟩
  rw [wheelCount_register]
  by_cases hyx : y = x
  · subst hyx
    simp only [if_true, hy]
    exact ⟨Nat.le_refl _, fun _ => ⟨register_decaying_self g y, hal⟩⟩
  · simp only [hyx, if_false, Nat.add_zero]
    refine ⟨(hx x).1, fun hpos => ?_⟩
    obtain ⟨a, b⟩ := (hx x).2 hpos
    exact ⟨(register_decaying_of_ne g y x (Ne.symm hyx)).trans a, b⟩

/-- An item that is not flagged as decaying is registered nowhere in a well
formed wheel. -/
theorem WheelOk_count_of_not_flagged (env : DecayEnv) (g : Game) (y : Nat) (h : WheelOk env g)
    (hf : g.decaying y ≠ .DECAYING_TRUE) : wheelCount env g y = 0 := by
  by_contra hc
  exact hf ((h.2 y).2 (Nat.pos_of_ne_zero hc)).1

/-- `Game::internalDecayItem` on an allocated item that is registered nowhere
keeps the wheel well formed, when the call of `Game::startDecay` it ends with
does. -/
theorem internalDecayItemWith_ok (env : DecayEnv) (start : Game → Option Nat → Option Game)
    (fuel : Nat)
    (hstart : ∀ (g : Game) (item : Option Nat) (g1 : Game), WheelOk env g →
      (∀ i, item = some i → i < g.world.nextItem) → start g item = some g1 →
      WheelOk env g1 ∧ g.world.nextItem ≤ g1.world.nextItem ∧ g1.decayItems = g.decayItems)
    (g g1 : Game) (y : Nat) (h : WheelOk env g) (hy : wheelCount env g y = 0)
    (hal : y < g.world.nextItem) (hr : internalDecayItemWith env start fuel g y = some g1) :
    WheelOk env g1 ∧ g.world.nextItem ≤ g1.world.nextItem ∧ g1.decayItems = g.decayItems := by
  unfold internalDecayItemWith at hr
  simp only [] at hr
  have hlog : WheelOk env (g.logDecay y) := h
  by_cases hd : (env.itemTypes ((g.logDecay y).world.items y).id).decayTo ≠ 0
  · rw [if_pos hd] at hr
    cases ht : transformItem env fuel (g.logDecay y) y
        (toUInt16 (env.itemTypes ((g.logDecay y).world.items y).id).decayTo) (-1) with
    | none => rw [ht] at hr; cases hr
    | some r =>
      obtain ⟨t, n⟩ := r
      rw [ht] at hr
      simp only [] at hr
      obtain ⟨fr, hn⟩ := transformItem_frame env fuel _ y _ _ t n ht
      have hokt : WheelOk env t := WheelOk_of_frame env _ t y hlog fr hy
      have hmono : g.world.nextItem ≤ t.world.nextItem := fr.2.2.2.2.1
      obtain ⟨a, b, c⟩ := hstart t n g1 hokt (fun i hi => by
        rcases hn i hi with e | ⟨-, e⟩
        · rw [e]; exact Nat.lt_of_lt_of_le hal hmono
        · exact e) hr
      exact ⟨a, Nat.le_trans hmono b, c.trans fr.2.1⟩
  · rw [if_neg hd] at hr
    simp only [Option.some.injEq] at hr
    subst hr
    exact ⟨WheelOk_withWorld env _ _ hlog (by simp [Game.logDecay]),
      by simp [Game.withWorld, Game.logDecay], rfl⟩

/-- `Game::startDecay` on a null or allocated item keeps the wheel well
formed. -/
theorem startDecay_ok (env : DecayEnv) :
    ∀ (fuel : Nat) (g : Game) (item : Option Nat) (g1 : Game), WheelOk env g →
      (∀ i, item = some i → i < g.world.nextItem) → startDecay env fuel g item = some g1 →
      WheelOk env g1 ∧ g.world.nextItem ≤ g1.world.nextItem ∧ g1.decayItems = g.decayItems := by
  intro fuel
  induction fuel with
  | zero =>
    intro g item g1 h hal hr
    cases item with
    | none =>
      simp only [startDecay, Option.some.injEq] at hr
      subst hr; exact ⟨h, Nat.le_refl _, rfl⟩
    | some i =>
      simp only [startDecay] at hr
      split_ifs at hr with c1 c2 c3
      · simp only [Option.some.injEq] at hr; subst hr; exact ⟨h, Nat.le_refl _, rfl⟩
      · simp only [Option.some.injEq] at hr; subst hr; exact ⟨h, Nat.le_refl _, rfl⟩
      · simp only [Option.some.injEq] at hr; subst hr
        exact ⟨WheelOk_register env g i h (WheelOk_count_of_not_flagged env g i h c2)
          (hal i rfl), Nat.le_refl _, rfl⟩
  | succ f ih =>
    intro g item g1 h hal hr
    cases item with
    | none =>
      simp only [startDecay, Option.some.injEq] at hr
      subst hr; exact ⟨h, Nat.le_refl _, rfl⟩
    | some i =>
      simp only [startDecay] at hr
      split_ifs at hr with c1 c2 c3
      · simp only [Option.some.injEq] at hr; subst hr; exact ⟨h, Nat.le_refl _, rfl⟩
      · simp only [Option.some.injEq] at hr; subst hr; exact ⟨h, Nat.le_refl _, rfl⟩
      · simp only [Option.some.injEq] at hr; subst hr
        exact ⟨WheelOk_register env g i h (WheelOk_count_of_not_flagged env g i h c2)
          (hal i rfl), Nat.le_refl _, rfl⟩
      · exact internalDecayItemWith_ok env (startDecay env f) f ih g g1 i h
          (WheelOk_count_of_not_flagged env g i h c2) (hal i rfl) hr

/-- `Game::internalDecayItem` on an allocated item that is registered nowhere
keeps the wheel well formed. -/
theorem internalDecayItem_ok (env : DecayEnv) (fuel : Nat) (g g1 : Game) (y : Nat)
    (h : WheelOk env g) (hy : wheelCount env g y = 0) (hal : y < g.world.nextItem)
    (hr : internalDecayItem env fuel g y = some g1) :
    WheelOk env g1 ∧ g.world.nextItem ≤ g1.world.nextItem ∧ g1.decayItems = g.decayItems :=
  internalDecayItemWith_ok env (startDecay env fuel) fuel (startDecay_ok env fuel) g g1 y h hy
    hal hr

theorem WheelOk_mono (env : DecayEnv) (g g1 : Game) (h : WheelOk env g)
    (hl : g1.lastBucket = g.lastBucket)
    (hc : ∀ x, wheelCount env g1 x ≤ wheelCount env g x)
    (hf : ∀ x, 0 < wheelCount env g1 x → g1.decaying x = g.decaying x)
    (hn : g.world.nextItem ≤ g1.world.nextItem) : WheelOk env g1 := by
  refine ⟨by rw [hl]; exact h.1, fun x => ⟨Nat.le_trans (hc x) (h.2 x).1, fun hpos => ?_⟩⟩
  obtain ⟨a, b⟩ := (h.2 x).2 (Nat.lt_of_lt_of_le hpos (hc x))
  exact ⟨(hf x hpos).trans a, Nat.lt_of_lt_of_le b hn⟩

/-- One turn of the loop of `Game::checkDecay` keeps the wheel well formed;
afterwards the bucket holds the items left in place and the items still to
visit. -/
theorem decayTurn_ok (env : DecayEnv) (fuel bucket : Nat) (done rest : List Nat) (g g1 : Game)
    (y : Nat) (stays : Bool) (h : WheelOk env g) (hb : bucket < env.EVENT_DECAY_BUCKETS)
    (hc : g.decayItems bucket = done ++ y :: rest)
    (hr : decayTurn env fuel bucket done rest g y = some (g1, stays)) :
    WheelOk env g1 ∧
      g1.decayItems bucket = (if stays = true then done ++ [y] else done) ++ rest := by
  have hpos : 0 < wheelCount env g y := by
    have := wheelCount_eraseCurrent env g bucket y y done rest hb hc
    simp only [if_true] at this
    omega
  obtain ⟨hflag, hal⟩ := (h.2 y).2 hpos
  have hone : wheelCount env g y = 1 := Nat.le_antisymm (h.2 y).1 hpos
  -- the state after `erase`, for any change of duration before it
  have herase : ∀ t : Int, WheelOk env ((g.decreaseDuration y t).eraseCurrent bucket done rest) ∧
      wheelCount env ((g.decreaseDuration y t).eraseCurrent bucket done rest) y = 0 := by
    intro t
    have hcnt : ∀ x, wheelCount env ((g.decreaseDuration y t).eraseCurrent bucket done rest) x
        + (if y = x then 1 else 0) = wheelCount env g x :=
      fun x => wheelCount_eraseCurrent env (g.decreaseDuration y t) bucket y x done rest hb hc
    refine ⟨WheelOk_mono env g _ h rfl (fun x => by have := hcnt x; omega) (fun _ _ => rfl)
      (Nat.le_refl _), ?_⟩
    have := hcnt y
    simp only [if_true] at this
    omega
  unfold decayTurn at hr
  by_cases h1 : env.canDecay g y = false
  · rw [if_pos h1] at hr
    simp only [Option.some.injEq, Prod.mk.injEq] at hr
    obtain ⟨rfl, rfl⟩ := hr
    refine ⟨?_, by simp⟩
    have hcnt : ∀ x, wheelCount env (((g.setDecaying y .DECAYING_FALSE).withWorld
        (ReleaseItem (g.setDecaying y .DECAYING_FALSE).world y)).eraseCurrent bucket done rest) x
        + (if y = x then 1 else 0) = wheelCount env g x :=
      fun x => wheelCount_eraseCurrent env ((g.setDecaying y .DECAYING_FALSE).withWorld
        (ReleaseItem (g.setDecaying y .DECAYING_FALSE).world y)) bucket y x done rest hb hc
    refine WheelOk_mono env g _ h rfl (fun x => by have := hcnt x; omega) (fun x hx => ?_)
      (Nat.le_refl _)
    have hne : x ≠ y := by
      intro e
      have := hcnt x
      rw [e] at this hx
      simp only [if_true] at this
      omega
    exact Function.update_noteq hne _ _
  · rw [if_neg h1] at hr
    simp only [] at hr
    obtain ⟨ok2, c2⟩ := herase (decreaseTime env (g.duration y))
    have hexp : ∀ g1 : Game, (expire env fuel ((g.decreaseDuration y
        (decreaseTime env (g.duration y))).eraseCurrent bucket done rest) y).map (fun g2 => (g2, false))
        = some (g1, stays) →
        WheelOk env g1 ∧
          g1.decayItems bucket = (if stays = true then done ++ [y] else done) ++ rest := by
      intro g1 he
      unfold expire at he
      cases hi : internalDecayItem env fuel ((g.decreaseDuration y
          (decreaseTime env (g.duration y))).eraseCurrent bucket done rest) y with
      | none => rw [hi] at he; cases he
      | some g2 =>
        rw [hi] at he
        simp only [Option.map_some', Option.some.injEq, Prod.mk.injEq] at he
        obtain ⟨rfl, rfl⟩ := he
        obtain ⟨a, -, hd⟩ := internalDecayItem_ok env fuel _ g2 y ok2 c2 (by exact hal) hi
        refine ⟨WheelOk_withWorld env g2 _ a (by simp), ?_⟩
        show g2.decayItems bucket = _
        rw [hd]
        simp
    by_cases h2 : durationLeft env (g.duration y) ≤ 0
    · rw [if_pos h2] at hr
      exact hexp g1 hr
    · rw [if_neg h2] at hr
      by_cases h3 : durationLeft env (g.duration y) < revolution env
      · rw [if_pos h3] at hr
        split_ifs at hr with h4
        · exact hexp g1 hr
        · simp only [Option.some.injEq, Prod.mk.injEq] at hr
          obtain ⟨rfl, rfl⟩ := hr
          have hB : 0 < env.EVENT_DECAY_BUCKETS := by omega
          refine ⟨?_, ?_⟩
          · refine WheelOk_mono env g _ h rfl (fun x => ?_) (fun _ _ => rfl) (Nat.le_refl _)
            rw [wheelCount_pushBack env _ _ y x (Nat.mod_lt _ hB)]
            have := wheelCount_eraseCurrent env (g.decreaseDuration y
              (decreaseTime env (g.duration y))) bucket y x done rest hb hc
            have e : wheelCount env (g.decreaseDuration y
              (decreaseTime env (g.duration y))) x = wheelCount env g x := rfl
            omega
          · rw [pushBack_other _ _ _ _ (Ne.symm h4)]
            simp
      · rw [if_neg h3] at hr
        simp only [Option.some.injEq, Prod.mk.injEq] at hr
        obtain ⟨rfl, rfl⟩ := hr
        exact ⟨WheelOk_mono env g _ h rfl (fun _ => Nat.le_refl _) (fun _ _ => rfl)
          (Nat.le_refl _), by simp [hc]⟩

/-- The loop of `Game::checkDecay` keeps the wheel well formed. -/
theorem decayBucket_ok (env : DecayEnv) (fuel bucket : Nat)
    (hb : bucket < env.EVENT_DECAY_BUCKETS) :
    ∀ (items done : List Nat) (g g1 : Game), WheelOk env g →
      g.decayItems bucket = done ++ items →
      decayBucket env fuel bucket done g items = some g1 → WheelOk env g1 := by
  intro items
  induction items with
  | nil =>
    intro done g g1 h _ hr
    simp only [decayBucket, Option.some.injEq] at hr
    subst hr; exact h
  | cons y rest ih =>
    intro done g g1 h hc hr
    rw [decayBucket] at hr
    cases ht : decayTurn env fuel bucket done rest g y with
    | none => rw [ht] at hr; cases hr
    | some r =>
      obtain ⟨g2, stays⟩ := r
      rw [ht] at hr
      simp only [] at hr
      obtain ⟨a, b⟩ := decayTurn_ok env fuel bucket done rest g g2 y stays h hb hc ht
      exact ih _ g2 g1 a b hr

/-- `Game::checkDecay` keeps the wheel well formed. -/
theorem checkDecay_ok (env : DecayEnv) (fuel : Nat) (g g1 : Game) (h : WheelOk env g)
    (hr : checkDecay env fuel g = some g1) : WheelOk env g1 := by
  have hB : 0 < env.EVENT_DECAY_BUCKETS := Nat.lt_of_le_of_lt (Nat.zero_le _) h.1
  have hb : (g.lastBucket + 1) % env.EVENT_DECAY_BUCKETS < env.EVENT_DECAY_BUCKETS :=
    Nat.mod_lt _ hB
  rw [checkDecay_eq_map] at hr
  cases hd : decayBucket env fuel ((g.lastBucket + 1) % env.EVENT_DECAY_BUCKETS) [] g
      (g.decayItems ((g.lastBucket + 1) % env.EVENT_DECAY_BUCKETS)) with
  | none => rw [hd] at hr; cases hr
  | some g2 =>
    rw [hd] at hr
    simp only [Option.map_some', Option.some.injEq] at hr
    subst hr
    have h2 := decayBucket_ok env fuel _ hb _ [] g g2 h (by simp) hd
    exact cleanup_ok env _ ⟨hb, h2.2⟩

/-- Every state reachable through `startDecay`, `cleanup` and `checkDecay` has
a well formed wheel. -/
theorem DecayReachable_wheelOk (env : DecayEnv) (g : Game) (h : DecayReachable env g) :
    WheelOk env g := by
  induction h with
  | init g hlast hpending hbuckets =>
    refine ⟨hlast, fun x => ?_⟩
    have : wheelCount env g x = 0 := by
      unfold wheelCount
      rw [hpending]
      simp [hbuckets]
    rw [this]
    exact ⟨Nat.zero_le _, fun h0 => absurd h0 (Nat.lt_irrefl _)⟩
  | start g g1 fuel item _ hitem hstep ih =>
    exact (startDecay_ok env fuel g (some item) g1 ih
      (fun i hi => by cases hi; exact hitem) hstep).1
  | clean g _ ih => exact cleanup_ok env g ih
  | tick g g1 fuel _ hstep ih => exact checkDecay_ok env fuel g g1 ih hstep

/-- Counterexample to C20 as stated. Item 1 can decay and has 900
milliseconds left; `Game::startDecay` flags it as decaying and puts it into
`toDecayItems`: the state is reachable, the flag is `DECAYING_TRUE`, and the
item is in no bucket until the next `Game::cleanup`. When the item cannot be
removed (`canRemove()` fails) and its type has no successor, the tick on which
it expires takes it out of the wheel for good and leaves it on its tile with
the flag `DECAYING_TRUE`. -/
theorem startDecay_flagged_outside_buckets :
    DecayReachable (wheelEnv 250 4) (wheelGame 2052 900) ∧
    (∃ g, startDecay (wheelEnv 250 4) 0 (wheelGame 2052 900) (some 1) = some g ∧
      DecayReachable (wheelEnv 250 4) g ∧
      g.decaying 1 = .DECAYING_TRUE ∧ g.toDecayItems = [1] ∧
      g.decayItems 0 = [] ∧ g.decayItems 1 = [] ∧ g.decayItems 2 = [] ∧ g.decayItems 3 = []) ∧
    ∃ g, checkDecay (wheelEnv 250 4) 0 (cleanup (wheelEnv 250 4) (fixedGame.register 1)) = some g ∧
      DecayReachable (wheelEnv 250 4) g ∧
      g.decaying 1 = .DECAYING_TRUE ∧ g.world.contents (.tile 0) = [1] ∧ g.toDecayItems = [] ∧
      g.decayItems 0 = [] ∧ g.decayItems 1 = [] ∧ g.decayItems 2 = [] ∧ g.decayItems 3 = [] := by
  have h0 : DecayReachable (wheelEnv 250 4) (wheelGame 2052 900) :=
    DecayReachable.init _ (by decide) rfl (fun _ => rfl)
  have h1 : DecayReachable (wheelEnv 250 4) fixedGame :=
    DecayReachable.init _ (by decide) rfl (fun _ => rfl)
  refine ⟨h0, ⟨_, rfl, DecayReachable.start _ _ 0 1 h0 (by decide) rfl, by decide, by decide,
    by decide, by decide, by decide, by decide⟩, ?_⟩
  refine ⟨_, rfl, ?_, by decide, by decide, by decide, by decide, by decide, by decide,
    by decide⟩
  exact DecayReachable.tick _ _ 0
    (DecayReachable.clean _ (DecayReachable.start fixedGame _ 0 1 h1 (by decide) rfl)) rfl

/-- Claim C20, amended. In every state reachable from an empty wheel through
`Game::startDecay` on allocated items, `Game::cleanup` and `Game::checkDecay`,
no item is registered twice over the list `toDecayItems` and the buckets, and
every registered item is flagged `DECAYING_TRUE`; `Game::startDecay` on an item
flagged `DECAYING_TRUE` returns the state as it is, so it registers nothing
and takes no reference. -/
theorem decay_registered_once (env : DecayEnv) (g : Game) (h : DecayReachable env g) :
    (∀ x, wheelCount env g x ≤ 1 ∧
      (0 < wheelCount env g x → g.decaying x = .DECAYING_TRUE)) ∧
    ∀ fuel x, g.decaying x = .DECAYING_TRUE → startDecay env fuel g (some x) = some g := by
  have hok := DecayReachable_wheelOk env g h
  refine ⟨fun x => ⟨(hok.2 x).1, fun hpos => ((hok.2 x).2 hpos).1⟩, fun fuel x hx => ?_⟩
  cases fuel <;>
  · simp only [startDecay, hx, if_true]
    split_ifs <;> rfl

/-- Witness of C20: item 1 has been registered and `cleanup` has put it into
bucket 1. -/
theorem decay_registered_once_witness :
    (∀ x, wheelCount (wheelEnv 250 4)
        (cleanup (wheelEnv 250 4) ((wheelGame 2052 900).register 1)) x ≤ 1 ∧
      (0 < wheelCount (wheelEnv 250 4)
          (cleanup (wheelEnv 250 4) ((wheelGame 2052 900).register 1)) x →
        (cleanup (wheelEnv 250 4) ((wheelGame 2052 900).register 1)).decaying x
          = .DECAYING_TRUE)) ∧
    ∀ fuel x,
      (cleanup (wheelEnv 250 4) ((wheelGame 2052 900).register 1)).decaying x = .DECAYING_TRUE →
      startDecay (wheelEnv 250 4) fuel
          (cleanup (wheelEnv 250 4) ((wheelGame 2052 900).register 1)) (some x)
        = some (cleanup (wheelEnv 250 4) ((wheelGame 2052 900).register 1)) :=
  decay_registered_once (wheelEnv 250 4) _
    (DecayReachable.clean _
      (DecayReachable.start (wheelGame 2052 900) _ 0 1
        (DecayReachable.init _ (by decide) rfl (fun _ => rfl)) (by decide) rfl))

/-! ## House access -/

/-- Claim C30. For a player who is not null, has not the flag
`PlayerFlag_CanEditHouses` and whose guid is not the owner of the house,
`House::canEditAccessList(listId, player)` is true exactly when
`subOwnerList.isInList(player)` holds and `listId` is `GUEST_LIST`; for a null
player, a player with the flag or the owner it is true whatever `listId`. -/
theorem canEditAccessList_privilege (GUEST_LIST : Nat) (h : HouseAccess) (listId : Nat)
    (player : Option Visitor) :
    (∀ p, player = some p → p.canEditHouses = false → p.player.guid ≠ h.house.owner →
      (canEditAccessList GUEST_LIST h listId player = true ↔
        (h.subOwnerList.isInList p = true ∧ listId = GUEST_LIST))) ∧
    ((player = none ∨ ∃ p, player = some p ∧
        (p.canEditHouses = true ∨ p.player.guid = h.house.owner)) →
      canEditAccessList GUEST_LIST h listId player = true) := by
  constructor
  · intro p hp hflag howner
    subst hp
    unfold canEditAccessList getHouseAccessLevel
    simp only [hflag, Bool.false_eq_true, if_false, howner]
    by_cases hs : h.subOwnerList.isInList p = true
    · simp [hs]
    · by_cases hg : h.guestList.isInList p = true <;> simp [hs, hg]
  · intro hpriv
    rcases hpriv with rfl | ⟨p, rfl, hp⟩
    · rfl
    · unfold canEditAccessList getHouseAccessLevel
      rcases hp with hp | hp
      · simp [hp]
      · by_cases hf : p.canEditHouses = true
        · simp [hf]
        · simp [hf, hp]

/-- Witness of C30: the player with guid 8, a sub-owner of the house, may edit
the guest list (list `256`) and no other list; the owner may edit any. -/
theorem canEditAccessList_privilege_witness :
    (∀ p, some (plainVisitor 8) = some p → p.canEditHouses = false →
      p.player.guid ≠ accessHouse.house.owner →
      (canEditAccessList 256 accessHouse 256 (some (plainVisitor 8)) = true ↔
        (accessHouse.subOwnerList.isInList p = true ∧ 256 = 256))) ∧
    ((some (plainVisitor 8) = none ∨ ∃ p, some (plainVisitor 8) = some p ∧
        (p.canEditHouses = true ∨ p.player.guid = accessHouse.house.owner)) →
      canEditAccessList 256 accessHouse 256 (some (plainVisitor 8)) = true) :=
  canEditAccessList_privilege 256 accessHouse 256 (some (plainVisitor 8))

/-- The example of C30, evaluated: a sub-owner edits the guest list and not
the list of sub-owners, a guest edits nothing, the owner and a null player edit
both. -/
theorem access_list_example :
    canEditAccessList 256 accessHouse 256 (some (plainVisitor 8)) = true ∧
    canEditAccessList 256 accessHouse 257 (some (plainVisitor 8)) = false ∧
    canEditAccessList 256 accessHouse 256 (some (plainVisitor 9)) = false ∧
    canEditAccessList 256 accessHouse 257 (some (plainVisitor 7)) = true ∧
    canEditAccessList 256 accessHouse 257 none = true := by
  decide

/-! ## The destination loop -/

theorem redirections_cons (c : Cylinder × Cylinder) (l : List (Cylinder × Cylinder)) :
    redirections (c :: l) = (if c.2 ≠ c.1 then 1 else 0) + redirections l := by
  unfold redirections
  by_cases h : c.2 ≠ c.1
  · simp [List.filter_cons, h, Nat.add_comm]
  · simp [List.filter_cons, h]

theorem getLast_cons_of_ne {α : Type} (a : α) (l : List α) (h : l ≠ []) :
    (a :: l).getLast? = l.getLast? := by
  cases l with
  | nil => exact absurd rfl h
  | cons b t => simp [List.getLast?_cons_cons]

/-- The calls of the destination loop: there are at most `remaining + 1` of
them, the holder the loop resolves is the answer of the last call, and when
at most `remaining` of them are redirections the last call asked the resolved
holder and got it back. -/
theorem destinationCalls_spec (env : Env) (w : World) (item : Nat) :
    ∀ (remaining : Nat) (c : Cylinder) (index : Int) (toItem : Option Nat) (flags : Nat),
      (destinationCalls env w item remaining c index toItem flags).length ≤ remaining + 1 ∧
      destinationCalls env w item remaining c index toItem flags ≠ [] ∧
      (destinationCalls env w item remaining c index toItem flags).head?.map Prod.fst = some c ∧
      (destinationCalls env w item remaining c index toItem flags).getLast?.map Prod.snd
        = some (resolveDestination env w item remaining c index toItem flags).1 ∧
      (redirections (destinationCalls env w item remaining c index toItem flags) ≤ remaining →
        (destinationCalls env w item remaining c index toItem flags).getLast?
          = some ((resolveDestination env w item remaining c index toItem flags).1,
              (resolveDestination env w item remaining c index toItem flags).1)) := by
  intro remaining
  induction remaining with
  | zero =>
    intro c index toItem flags
    unfold destinationCalls resolveDestination
    by_cases h : (env.queryDestination w c index item toItem flags).1 = c
    · simp [h]
    · simp [h, redirections]
  | succ r ih =>
    intro c index toItem flags
    unfold destinationCalls resolveDestination
    by_cases h : (env.queryDestination w c index item toItem flags).1 = c
    · simp [h]
    · obtain ⟨h1, h2, h3, h4, h5⟩ := ih (env.queryDestination w c index item toItem flags).1
        (env.queryDestination w c index item toItem flags).2.1
        (env.queryDestination w c index item toItem flags).2.2.1 0
      simp only [h, if_false]
      refine ⟨by simpa using h1, by simp, by simp, ?_, ?_⟩
      · rw [getLast_cons_of_ne _ _ h2]
        exact h4
      · intro hred
        rw [redirections_cons, if_pos (show _ ≠ _ from h)] at hred
        rw [getLast_cons_of_ne _ _ h2]
        have key : ∀ x : Nat, 1 + x ≤ r + 1 → x ≤ r := fun x hx => by omega
        exact h5 (key _ hred)

/-- In a placement graph, where the holder `queryDestination` answers depends
on the holder asked alone, a start whose chain of redirections reaches a fixed
point within `remaining` steps resolves to a fixed point. -/
theorem resolveDestination_fixed (env : Env) (w : World) (item : Nat) (next : Cylinder → Cylinder)
    (hgraph : ∀ c i t f, (env.queryDestination w c i item t f).1 = next c) :
    ∀ (remaining : Nat) (c : Cylinder) (index : Int) (toItem : Option Nat) (flags k : Nat),
      k ≤ remaining → next (next^[k] c) = next^[k] c →
      next (resolveDestination env w item remaining c index toItem flags).1
        = (resolveDestination env w item remaining c index toItem flags).1 := by
  intro remaining
  induction remaining with
  | zero =>
    intro c index toItem flags k hk hfix
    have hk0 : k = 0 := by omega
    subst hk0
    simp only [Function.iterate_zero, id_eq] at hfix
    unfold resolveDestination
    have h := hgraph c index toItem flags
    rw [hfix] at h
    simp [h, hfix]
  | succ r ih =>
    intro c index toItem flags k hk hfix
    unfold resolveDestination
    by_cases h : (env.queryDestination w c index item toItem flags).1 = c
    · simp only [h, if_true]
      rw [← hgraph c index toItem flags]
      exact h
    · simp only [h, if_false]
      cases k with
      | zero =>
        exfalso
        simp only [Function.iterate_zero, id_eq] at hfix
        exact h ((hgraph c index toItem flags).trans hfix)
      | succ k1 =>
        rw [Function.iterate_succ_apply, ← hgraph c index toItem flags] at hfix
        exact ih _ _ _ 0 k1 (by omega) hfix

/-- Claim C25. With a positive cap `MAP_MAX_LAYERS`, the destination loop of
`Game::internalMoveItem` calls `queryDestination` at most `MAP_MAX_LAYERS`
times, whatever the holders answer (a cycle of redirections included); the
holder it resolves is the answer of its last call. When fewer than
`MAP_MAX_LAYERS` of the calls are redirections, the last call asked the
resolved holder and got that same holder back. In a placement graph, where the
answer depends on the holder asked alone, every start whose chain of
redirections reaches a fixed point in fewer than `MAP_MAX_LAYERS` steps
resolves to a holder that `queryDestination` answers with itself, whatever the
other arguments. -/
theorem resolveDestination_capped (env : Env) (w : World) (item : Nat) (toCylinder : Cylinder)
    (index : Int) (flags : Nat) (hM : 0 < env.MAP_MAX_LAYERS) :
    (destinationCalls env w item (env.MAP_MAX_LAYERS - 1) toCylinder index none flags).length
      ≤ env.MAP_MAX_LAYERS ∧
    (destinationCalls env w item (env.MAP_MAX_LAYERS - 1) toCylinder index none flags).getLast?.map
        Prod.snd
      = some (resolveDestination env w item (env.MAP_MAX_LAYERS - 1) toCylinder index none flags).1 ∧
    (redirections (destinationCalls env w item (env.MAP_MAX_LAYERS - 1) toCylinder index none flags)
        < env.MAP_MAX_LAYERS →
      (destinationCalls env w item (env.MAP_MAX_LAYERS - 1) toCylinder index none flags).getLast?
        = some ((resolveDestination env w item (env.MAP_MAX_LAYERS - 1) toCylinder index none
              flags).1,
            (resolveDestination env w item (env.MAP_MAX_LAYERS - 1) toCylinder index none
              flags).1)) ∧
    ∀ next : Cylinder → Cylinder,
      (∀ c i t f, (env.queryDestination w c i item t f).1 = next c) →
      ∀ k, k < env.MAP_MAX_LAYERS → next (next^[k] toCylinder) = next^[k] toCylinder →
        ∀ i t f,
          (env.queryDestination w
            (resolveDestination env w item (env.MAP_MAX_LAYERS - 1) toCylinder index none flags).1
            i item t f).1
          = (resolveDestination env w item (env.MAP_MAX_LAYERS - 1) toCylinder index none flags).1 := by
  obtain ⟨h1, _, _, h4, h5⟩ := destinationCalls_spec env w item (env.MAP_MAX_LAYERS - 1) toCylinder
    index none flags
  refine ⟨by omega, h4, fun hred => h5 (by omega), ?_⟩
  intro next hgraph k hk hfix i t f
  rw [hgraph]
  exact resolveDestination_fixed env w item next hgraph _ toCylinder index none flags k
    (by omega) hfix

/-- Witness of C25: with sixteen layers, the stairs of depth three resolve tile
0 to tile 3 in four calls. -/
theorem resolveDestination_capped_witness :
    (destinationCalls (stairsEnv 3) coinWorld 1 ((stairsEnv 3).MAP_MAX_LAYERS - 1) (.tile 0)
        INDEX_WHEREEVER none 0).length ≤ (stairsEnv 3).MAP_MAX_LAYERS ∧
    (destinationCalls (stairsEnv 3) coinWorld 1 ((stairsEnv 3).MAP_MAX_LAYERS - 1) (.tile 0)
        INDEX_WHEREEVER none 0).getLast?.map Prod.snd
      = some (resolveDestination (stairsEnv 3) coinWorld 1 ((stairsEnv 3).MAP_MAX_LAYERS - 1)
          (.tile 0) INDEX_WHEREEVER none 0).1 ∧
    (redirections (destinationCalls (stairsEnv 3) coinWorld 1 ((stairsEnv 3).MAP_MAX_LAYERS - 1)
        (.tile 0) INDEX_WHEREEVER none 0) < (stairsEnv 3).MAP_MAX_LAYERS →
      (destinationCalls (stairsEnv 3) coinWorld 1 ((stairsEnv 3).MAP_MAX_LAYERS - 1) (.tile 0)
          INDEX_WHEREEVER none 0).getLast?
        = some ((resolveDestination (stairsEnv 3) coinWorld 1 ((stairsEnv 3).MAP_MAX_LAYERS - 1)
              (.tile 0) INDEX_WHEREEVER none 0).1,
            (resolveDestination (stairsEnv 3) coinWorld 1 ((stairsEnv 3).MAP_MAX_LAYERS - 1)
              (.tile 0) INDEX_WHEREEVER none 0).1)) ∧
    ∀ next : Cylinder → Cylinder,
      (∀ c i t f, ((stairsEnv 3).queryDestination coinWorld c i 1 t f).1 = next c) →
      ∀ k, k < (stairsEnv 3).MAP_MAX_LAYERS → next (next^[k] (.tile 0)) = next^[k] (.tile 0) →
        ∀ i t f,
          ((stairsEnv 3).queryDestination coinWorld
            (resolveDestination (stairsEnv 3) coinWorld 1 ((stairsEnv 3).MAP_MAX_LAYERS - 1)
              (.tile 0) INDEX_WHEREEVER none 0).1
            i 1 t f).1
          = (resolveDestination (stairsEnv 3) coinWorld 1 ((stairsEnv 3).MAP_MAX_LAYERS - 1)
              (.tile 0) INDEX_WHEREEVER none 0).1 :=
  resolveDestination_capped (stairsEnv 3) coinWorld 1 (.tile 0) INDEX_WHEREEVER 0 (by decide)

/-- The loop of C25, evaluated. Stairs of depth three: four calls, the last
one on tile 3, which answers with itself. Stairs without end: the loop stops
after sixteen calls on tile 16, which is no fixed point. -/
theorem destination_loop_example :
    destinationCalls (stairsEnv 3) coinWorld 1 15 (.tile 0) INDEX_WHEREEVER none 0
      = [(.tile 0, .tile 1), (.tile 1, .tile 2), (.tile 2, .tile 3), (.tile 3, .tile 3)] ∧
    (resolveDestination (stairsEnv 3) coinWorld 1 15 (.tile 0) INDEX_WHEREEVER none 0).1 = .tile 3 ∧
    (destinationCalls (stairsEnv 100) coinWorld 1 15 (.tile 0) INDEX_WHEREEVER none 0).length = 16 ∧
    (resolveDestination (stairsEnv 100) coinWorld 1 15 (.tile 0) INDEX_WHEREEVER none 0).1
      = .tile 16 ∧
    ((stairsEnv 100).queryDestination coinWorld (.tile 16) INDEX_WHEREEVER 1 none 0).1
      = .tile 17 := by
  decide

/-! ## Transfer engine: the notifications of the commit -/

@[simp] theorem removeThing_log (w : World) (c : Cylinder) (i n : Nat) :
    (removeThing w c i n).log = w.log := by
  unfold removeThing
  split_ifs <;> rfl

@[simp] theorem addThing_log (w : World) (c : Cylinder) (k : Int) (i : Nat) :
    (addThing w c k i).log = w.log := rfl

@[simp] theorem updateThing_log (w : World) (c : Cylinder) (i a b : Nat) :
    (updateThing w c i a b).log = w.log := by
  unfold updateThing
  split_ifs <;> rfl

@[simp] theorem mergeStep_log (w : World) (c : Cylinder) (item : Nat) (t : Option Nat) (m : Nat) :
    (mergeStep w c item t m).1.log = w.log := by
  unfold mergeStep
  cases t with
  | none => rfl
  | some u =>
    simp only []
    split_ifs
    · simp
    · rfl

@[simp] theorem cloneStep_log (w : World) (item : Nat) (k : Int) :
    (cloneStep w item k).1.log = w.log := by
  unfold cloneStep cloneWithCount
  split_ifs <;> rfl

@[simp] theorem stackUpdate_log (w : World) (c : Cylinder) (item : Nat) (t : Option Nat)
    (m : Nat) : (stackUpdate w c item t m).1.log = w.log := by
  simp [stackUpdate]

@[simp] theorem addMoved_log (w : World) (c : Cylinder) (k : Int) (o : Option Nat) :
    (addMoved w c k o).log = w.log := by
  cases o <;> rfl

theorem getThingIndex_congr (w w1 : World) (c : Cylinder) (i : Nat)
    (h : w1.contents = w.contents) : getThingIndex w1 c i = getThingIndex w c i := by
  unfold getThingIndex
  rw [h]

theorem getThingIndex_ne_of_mem (w : World) (c : Cylinder) (i : Nat) (h : i ∈ w.contents c) :
    getThingIndex w c i ≠ -1 := by
  unfold getThingIndex
  rw [if_pos h]
  omega

theorem getThingIndex_mem (w : World) (c : Cylinder) (i : Nat) (h : getThingIndex w c i ≠ -1) :
    i ∈ w.contents c := by
  unfold getThingIndex at h
  by_contra hn
  rw [if_neg hn] at h
  exact h rfl

/-- The log after the notifications of the commit: the notice of the removal,
if the item had an index in its source, then the notices of the additions. -/
theorem commitNotify_log (w : World) (fromCylinder toCylinder : Cylinder) (item : Nat)
    (itemIndex : Int) (moveItem updateItem : Option Nat) :
    (commitNotify w fromCylinder toCylinder item itemIndex moveItem updateItem).log
      = w.log
        ++ (if itemIndex ≠ -1 then
              [.postRemoveNotification fromCylinder item (some toCylinder) itemIndex]
            else [])
        ++ addNotice w fromCylinder toCylinder moveItem
        ++ addNotice w fromCylinder toCylinder updateItem := by
  unfold commitNotify addNotice
  have e1 : ∀ (v : World) (k : Int) (e : Event),
      (emitIf v k e).log = v.log ++ (if k ≠ -1 then [e] else []) := by
    intro v k e
    unfold emitIf emit
    split_ifs <;> simp
  have e2 : ∀ (v : World) (k : Int) (e : Event) (c : Cylinder) (i : Nat),
      getThingIndex (emitIf v k e) c i = getThingIndex v c i :=
    fun v k e c i => getThingIndex_congr v _ c i (by simp)
  cases moveItem <;> cases updateItem <;> simp only [e1, e2, List.append_nil, List.append_assoc]

/-- Every notice of an addition names an item of the destination and the index
it has there. -/
theorem addNotice_spec (w : World) (fromCylinder toCylinder : Cylinder) (o : Option Nat) :
    ∀ e ∈ addNotice w fromCylinder toCylinder o, ∃ i, o = some i ∧ i ∈ w.contents toCylinder ∧
      e = .postAddNotification toCylinder i (some fromCylinder) (getThingIndex w toCylinder i) := by
  intro e he
  cases o with
  | none => simp [addNotice] at he
  | some i =>
    simp only [addNotice] at he
    by_cases h : getThingIndex w toCylinder i ≠ -1
    · rw [if_pos h] at he
      simp only [List.mem_singleton] at he
      exact ⟨i, rfl, getThingIndex_mem w toCylinder i h, he⟩
    · rw [if_neg h] at he
      simp at he

theorem addNotice_congr (w w1 : World) (a b : Cylinder) (o : Option Nat)
    (h : w1.contents = w.contents) : addNotice w1 a b o = addNotice w a b o := by
  cases o with
  | none => rfl
  | some i => simp only [addNotice, getThingIndex_congr w w1 b i h]

theorem addNotice_commitNotify (w : World) (a b : Cylinder) (item : Nat) (k : Int)
    (mi ui o : Option Nat) :
    addNotice (commitNotify w a b item k mi ui) a b o = addNotice w a b o :=
  addNotice_congr w _ a b o (commitNotify_contents _ _ _ _ _ _ _)

/-- Claim C26. In a call of `Game::internalMoveItem` that reaches its commit for
an item held by its source, the commit first sends the source's
`postRemoveNotification` for the moved item, with the index it had in the
source, and then at most two `postAddNotification`s, all on the destination:
one for the item placed there (`moveItem`), if any, and one for the occupant the
units were merged into (`updateItem`), if any, each carrying the index that item
has in the destination when the call returns. Nothing else is sent by the
commit. -/
theorem internalMoveItem_notifies_in_order (env : Env) (fuel : Nat) (w : World)
    (fromCylinder toCylinder : Cylinder) (index : Int) (item count flags : Nat)
    (actor tradeItem : Option Nat) (w1 : World) (toCyl : Cylinder) (index1 : Int)
    (toItem toItem1 : Option Nat) (m : Nat)
    (h : ReachesCommit env fuel w fromCylinder toCylinder index item count flags actor tradeItem
      w1 toCyl index1 toItem toItem1 m)
    (hin : item ∈ w.contents fromCylinder) :
    ∃ r moveItem updateItem,
      internalMoveItem env fuel w fromCylinder toCylinder index item count flags actor tradeItem
        = some r ∧
      r.world.log = w1.log
        ++ .postRemoveNotification fromCylinder item (some toCyl)
            (getThingIndex w1 fromCylinder item)
          :: (addNotice r.world fromCylinder toCyl moveItem
              ++ addNotice r.world fromCylinder toCyl updateItem) ∧
      r.moved = some (moveItem.getD item) ∧
      ∀ e ∈ addNotice r.world fromCylinder toCyl moveItem
            ++ addNotice r.world fromCylinder toCyl updateItem,
        ∃ i, i ∈ r.world.contents toCyl ∧
          e = .postAddNotification toCyl i (some fromCylinder) (getThingIndex r.world toCyl i) := by
  obtain ⟨r, hr, hw, hm⟩ := internalMoveItem_of_reachesCommit env fuel w fromCylinder toCylinder
    index item count flags actor tradeItem w1 toCyl index1 toItem toItem1 m h
  obtain ⟨flags1, hres, hself, hex, -⟩ := h
  have hin1 : item ∈ w1.contents fromCylinder :=
    ((exchangePhase_keeps_item env w fromCylinder toCyl index1 item count flags1 actor toItem w1
      toItem1 _ hself hex).2 fromCylinder).2 hin
  have hidx := getThingIndex_ne_of_mem w1 fromCylinder item hin1
  refine ⟨r,
    (if ((removeThing w1 fromCylinder item m).items item).stackable = true then
      stackUpdate (removeThing w1 fromCylinder item m) toCyl item toItem1 m
     else (removeThing w1 fromCylinder item m, some item, none)).2.1,
    (if ((removeThing w1 fromCylinder item m).items item).stackable = true then
      stackUpdate (removeThing w1 fromCylinder item m) toCyl item toItem1 m
     else (removeThing w1 fromCylinder item m, some item, none)).2.2, hr, ?_, ?_, ?_⟩
  · rw [hw]
    simp only [commitMove]
    rw [addNotice_commitNotify, addNotice_commitNotify, commitNotify_log, if_pos hidx, addMoved_log]
    have hlog : (if ((removeThing w1 fromCylinder item m).items item).stackable = true then
          stackUpdate (removeThing w1 fromCylinder item m) toCyl item toItem1 m
        else (removeThing w1 fromCylinder item m, some item, none)).1.log = w1.log := by
      split_ifs <;> simp
    rw [hlog]
    simp [List.append_assoc]
  · rw [hm]
    simp only [commitMove]
  · intro e he
    rcases List.mem_append.mp he with he | he
    · obtain ⟨i, -, hi, hei⟩ := addNotice_spec _ _ _ _ e he
      exact ⟨i, hi, hei⟩
    · obtain ⟨i, -, hi, hei⟩ := addNotice_spec _ _ _ _ e he
      exact ⟨i, hi, hei⟩

/-- Witness of C26: 60 coins are moved from the stack of 80 on tile 0 onto the
slot of player 1, which holds 50 coins. -/
theorem internalMoveItem_notifies_in_order_witness :
    ∃ r moveItem updateItem,
      internalMoveItem openEnv 4 coinWorld (.tile 0) (.player 1) INDEX_WHEREEVER 1 60 0 none none
        = some r ∧
      r.world.log = coinWorld.log
        ++ .postRemoveNotification (.tile 0) 1 (some (.player 1))
            (getThingIndex coinWorld (.tile 0) 1)
          :: (addNotice r.world (.tile 0) (.player 1) moveItem
              ++ addNotice r.world (.tile 0) (.player 1) updateItem) ∧
      r.moved = some (moveItem.getD 1) ∧
      ∀ e ∈ addNotice r.world (.tile 0) (.player 1) moveItem
            ++ addNotice r.world (.tile 0) (.player 1) updateItem,
        ∃ i, i ∈ r.world.contents (.player 1) ∧
          e = .postAddNotification (.player 1) i (some (.tile 0))
            (getThingIndex r.world (.player 1) i) :=
  internalMoveItem_notifies_in_order openEnv 4 coinWorld (.tile 0) (.player 1) INDEX_WHEREEVER 1
    60 0 none none coinWorld (.player 1) INDEX_WHEREEVER (some 2) (some 2) 60
    ⟨0, rfl, by decide, rfl, by decide, by decide, rfl, rfl⟩ (by decide)

/-- The commit of the witness of C26, evaluated: the tile is told of the
removal at index 0, then the player of the new stack of 10 coins (item 3) at
index 0 and of the filled stack (item 2) at index 1. -/
theorem notification_order_example :
    (internalMoveItem openEnv 4 coinWorld (.tile 0) (.player 1) INDEX_WHEREEVER 1 60 0 none
        none).map (fun r => (r.world.log, r.world.contents (.player 1)))
      = some ([.postRemoveNotification (.tile 0) 1 (some (.player 1)) 0,
          .postAddNotification (.player 1) 3 (some (.tile 0)) 0,
          .postAddNotification (.player 1) 2 (some (.tile 0)) 1], [3, 2]) := by
  decide

/-! ## Trade coordinator: accepting without an offer -/

/-- The validation with a null first item: `internalAddItem` rejects it with
`RETURNVALUE_NOTPOSSIBLE`, nothing passes and nothing changes. -/
theorem tradeValidate_null_item (env : Env) (w : World) (p q : Nat) (i2 : Option Nat) :
    ∃ ret2, tradeValidate env w p q none i2
      = some ⟨w, .RETURNVALUE_NOTPOSSIBLE, ret2, false⟩ := by
  obtain ⟨r2, h2⟩ := internalAddItem_test env 0 w (some (.player p)) i2 INDEX_WHEREEVER 0
  refine ⟨r2, ?_⟩
  have h1 : internalAddItem env 0 w (some (.player q)) none INDEX_WHEREEVER 0 true
      = some (.RETURNVALUE_NOTPOSSIBLE, w, 0) := by
    unfold internalAddItem; rfl
  unfold tradeValidate
  rw [h1]
  simp only []
  rw [h2]
  simp only []
  rw [if_neg (fun h => absurd h.1 (by decide))]

/-- The start of the transfer when the accepting player has offered nothing:
only the partner's item leaves the registry. -/
theorem beginTransfer_no_offer (w : World) (p q : Nat)
    (hnone : (w.players p).tradeItem = none) :
    (beginTransfer (setTradeState w p .TRADE_ACCEPT) p q).tradeItems
      = registryWithout w.tradeItems (w.players q).tradeItem ∧
    (beginTransfer (setTradeState w p .TRADE_ACCEPT) p q).ToReleaseItems
      = w.ToReleaseItems ++ releasedFrom w.tradeItems (w.players q).tradeItem := by
  unfold beginTransfer
  simp only [setTradeState_tradeItem, hnone]
  constructor
  · rw [releaseTradeItem_tradeItems_eq]; rfl
  · rw [releaseTradeItem_release_eq]; rfl

/-- Counterexample to C29 as stated. Player 1 has offered the transfer
document of house 0 (item 20, lying in the transfer container, item 21) and has
accepted; player 2, who has offered nothing, accepts. No move is made, but the
document does not stay where it was: the cancel hook withdraws it from its
holder and queues it for release. -/
theorem playerAcceptTrade_no_offer_withdraws_document :
    (deedWaitingWorld.players 2).tradeState = .TRADE_ACKNOWLEDGE ∧
    (deedWaitingWorld.players 2).tradeItem = none ∧
    (deedWaitingWorld.players 1).tradeState = .TRADE_ACCEPT ∧
    (deedWaitingWorld.players 1).tradeItem = some 20 ∧
    (deedWaitingWorld.items 20).parent = some (.container 21) ∧
    deedWaitingWorld.contents (.container 21) = [20] ∧
    ∃ w1, playerAcceptTrade openEnv 4 deedWaitingWorld 2 = some w1 ∧
      (w1.items 20).parent = none ∧ w1.contents (.container 21) = [] ∧
      w1.ToReleaseItems = [20, 20] ∧ (w1.houses 0).transferItem = none := by
  refine ⟨by decide, by decide, by decide, by decide, by decide, by decide, _, rfl, by decide,
    by decide, by decide, by decide⟩

theorem removeThing_parent_or (w : World) (c : Cylinder) (item n i : Nat) :
    ((removeThing w c item n).items i).parent = (w.items i).parent ∨
    ((removeThing w c item n).items i).parent = none := by
  unfold removeThing
  by_cases hi : i = item
  · subst hi
    split_ifs
    · left; simp
    · right; simp
    · left; rfl
  · left
    split_ifs <;> simp [Function.update_noteq hi]

/-- What the cancel hook of an offered item can do: it sends nothing, leaves
the players and the registry alone, never gives an item a holder and never
adds an item to a holder's sequence. -/
theorem onTradeEvent_cancel_frame (env : Env) (w : World) (item owner : Nat) :
    (onTradeEvent env w item .ON_TRADE_CANCEL owner).players = w.players ∧
    (onTradeEvent env w item .ON_TRADE_CANCEL owner).tradeItems = w.tradeItems ∧
    (onTradeEvent env w item .ON_TRADE_CANCEL owner).log = w.log ∧
    (∀ i, ((onTradeEvent env w item .ON_TRADE_CANCEL owner).items i).parent = (w.items i).parent ∨
      ((onTradeEvent env w item .ON_TRADE_CANCEL owner).items i).parent = none) ∧
    ∀ c, ((onTradeEvent env w item .ON_TRADE_CANCEL owner).contents c).Sublist (w.contents c) := by
  unfold onTradeEvent
  cases (w.items item).kind with
  | plain => exact ⟨rfl, rfl, rfl, fun _ => Or.inl rfl, fun _ => List.Sublist.refl _⟩
  | door _ => exact ⟨rfl, rfl, rfl, fun _ => Or.inl rfl, fun _ => List.Sublist.refl _⟩
  | houseTransfer house =>
    cases house with
    | none => exact ⟨rfl, rfl, rfl, fun _ => Or.inl rfl, fun _ => List.Sublist.refl _⟩
    | some h =>
      simp only []
      unfold resetTransferItem
      cases (w.houses h).transferItem with
      | none => exact ⟨rfl, rfl, rfl, fun _ => Or.inl rfl, fun _ => List.Sublist.refl _⟩
      | some tmp =>
        simp only []
        refine ⟨?_, ?_, ?_, ?_, ?_⟩
        · unfold removeThing; split_ifs <;> rfl
        · unfold removeThing; split_ifs <;> rfl
        · unfold removeThing; split_ifs <;> rfl
        · intro i
          simp only [ReleaseItem_items]
          rcases removeThing_parent_or
            (setItem (setHouse w h { w.houses h with transferItem := none })
              (w.houses h).transfer_container
              { (setHouse w h { w.houses h with transferItem := none }).items
                  (w.houses h).transfer_container with parent := none })
            (.container (w.houses h).transfer_container) tmp
            ((setItem (setHouse w h { w.houses h with transferItem := none })
              (w.houses h).transfer_container
              { (setHouse w h { w.houses h with transferItem := none }).items
                  (w.houses h).transfer_container with parent := none }).items tmp).count i
            with e | e
          · by_cases h2 : i = (w.houses h).transfer_container
            · right
              rw [e, h2]
              simp [setItem]
            · left
              rw [e]
              simp [setItem, setHouse, Function.update_noteq h2]
          · exact Or.inr e
        · intro c
          unfold removeThing
          split_ifs
          · exact List.Sublist.refl _
          · by_cases hc : c = .container (w.houses h).transfer_container
            · subst hc
              simp only [ReleaseItem_contents, Function.update_same]
              exact List.erase_sublist _ _
            · simp only [ReleaseItem_contents, Function.update_noteq hc]
              exact List.Sublist.refl _
          · exact List.Sublist.refl _

/-- The cancel hook of a house transfer document that its house has issued:
`House::resetTransferItem` forgets the document, takes it out of the transfer
container and queues it for release. -/
theorem onTradeEvent_cancel_document (env : Env) (w : World) (item owner h : Nat)
    (hk : (w.items item).kind = .houseTransfer (some h))
    (ht : (w.houses h).transferItem = some item) :
    (onTradeEvent env w item .ON_TRADE_CANCEL owner).ToReleaseItems
      = w.ToReleaseItems ++ [item] ∧
    ((onTradeEvent env w item .ON_TRADE_CANCEL owner).houses h).transferItem = none ∧
    (onTradeEvent env w item .ON_TRADE_CANCEL owner).contents
        (.container (w.houses h).transfer_container)
      = (w.contents (.container (w.houses h).transfer_container)).erase item ∧
    (item ∈ w.contents (.container (w.houses h).transfer_container) →
      ((onTradeEvent env w item .ON_TRADE_CANCEL owner).items item).parent = none) := by
  unfold onTradeEvent
  rw [hk]
  simp only []
  unfold resetTransferItem
  rw [ht]
  simp only []
  unfold removeThing
  by_cases hin : item ∈ w.contents (.container (w.houses h).transfer_container)
  · have hin2 : item ∈ (setItem (setHouse w h { w.houses h with transferItem := none })
        (w.houses h).transfer_container
        { (setHouse w h { w.houses h with transferItem := none }).items
            (w.houses h).transfer_container with parent := none }).contents
        (.container (w.houses h).transfer_container) := hin
    rw [if_pos hin2, if_neg (fun c => c.2 rfl)]
    refine ⟨rfl, ?_, ?_, fun _ => ?_⟩
    · simp [ReleaseItem, setItem, setHouse]
    · simp [ReleaseItem, setItem, setHouse]
    · simp [ReleaseItem]
  · have hin2 : item ∉ (setItem (setHouse w h { w.houses h with transferItem := none })
        (w.houses h).transfer_container
        { (setHouse w h { w.houses h with transferItem := none }).items
            (w.houses h).transfer_container with parent := none }).contents
        (.container (w.houses h).transfer_container) := hin
    rw [if_neg hin2]
    refine ⟨rfl, ?_, ?_, fun c => absurd c hin⟩
    · simp [ReleaseItem, setItem, setHouse]
    · rw [List.erase_of_not_mem hin]
      rfl

/-- The failure notices when the accepting player has offered nothing: only
the partner, if it has offered an item, is told, and only the cancel hook of
that item runs. -/
theorem tradeFailureNotices_null_offer (env : Env) (w : World) (p q : Nat) (i1 i2 : Option Nat)
    (r1 r2 : ReturnValue) (hnone : (w.players p).tradeItem = none) :
    tradeFailureNotices env w p q i1 i2 r1 r2
      = match (w.players q).tradeItem with
        | some pi =>
          onTradeEvent env (emit w (.sendTextMessage q .MESSAGE_EVENT_ADVANCE
            (getTradeErrorDescription w r1 i1))) pi .ON_TRADE_CANCEL q
        | none => w := by
  unfold tradeFailureNotices
  cases hq : (w.players q).tradeItem with
  | none =>
    simp only []
    rw [hnone]
  | some pi =>
    simp only []
    rw [(onTradeEvent_cancel_frame env _ pi q).1, emit_players, hnone]

@[simp] theorem beginTransfer_houses (w : World) (p q : Nat) :
    (beginTransfer w p q).houses = w.houses := by
  simp [beginTransfer, setTradeState, setPlayer]

/-- Claim C29, amended. Let a player in state `TRADE_ACKNOWLEDGE` who has
offered no item accept, in reach of the partner, after the partner has accepted.
`Game::playerAcceptTrade` returns; `internalAddItem` rejects the null item with
`RETURNVALUE_NOTPOSSIBLE`, so the validation fails and no `internalMoveItem` is
called. Whatever the partner has offered: both players end in state
`TRADE_NONE` with no partner and no offered item; the partner's item leaves the
registry `tradeItems`; the partner, if it has offered an item, is told that the
trade could not be completed, and both get `sendTradeClose`, nothing else is
sent; no item gets a holder it had not and no holder's sequence gains an item.
When the partner's item is no house transfer document, every item and every
holder's sequence is as it was, and the item is queued for release once if it
was registered. When it is the transfer document that a house has issued, the
cancel hook has the house forget the document, takes it out of the transfer
container of the house and queues it for release once more. -/
theorem playerAcceptTrade_null_offer (env : Env) (fuel : Nat) (w : World)
    (playerId player partner : Nat)
    (hp : w.playerByID playerId = some player)
    (hst : (w.players player).tradeState = .TRADE_ACKNOWLEDGE)
    (hnone : (w.players player).tradeItem = none)
    (hq : (w.players player).tradePartner = some partner)
    (hthrow : env.canThrowObjectTo w partner player = true)
    (hacc : (w.players partner).tradeState = .TRADE_ACCEPT) :
    ∃ w1 ret2, playerAcceptTrade env fuel w playerId = some w1 ∧
      tradeValidate env (beginTransfer (setTradeState w player .TRADE_ACCEPT) player partner)
          player partner none (w.players partner).tradeItem
        = some ⟨beginTransfer (setTradeState w player .TRADE_ACCEPT) player partner,
            .RETURNVALUE_NOTPOSSIBLE, ret2, false⟩ ∧
      (w1.players player).idle ∧ (w1.players partner).idle ∧
      w1.tradeItems = registryWithout w.tradeItems (w.players partner).tradeItem ∧
      w1.log = w.log
        ++ (match (w.players partner).tradeItem with
            | some _ => [.sendTextMessage partner .MESSAGE_EVENT_ADVANCE .tradeNotCompleted]
            | none => [])
        ++ [.sendTradeClose player, .sendTradeClose partner] ∧
      (∀ i, (w1.items i).parent = (w.items i).parent ∨ (w1.items i).parent = none) ∧
      (∀ c, (w1.contents c).Sublist (w.contents c)) ∧
      ((∀ i, (w.players partner).tradeItem = some i → (w.items i).kind.isDocument = false) →
        w1.items = w.items ∧ w1.contents = w.contents ∧
        w1.ToReleaseItems
          = w.ToReleaseItems ++ releasedFrom w.tradeItems (w.players partner).tradeItem) ∧
      (∀ i h, (w.players partner).tradeItem = some i →
        (w.items i).kind = .houseTransfer (some h) → (w.houses h).transferItem = some i →
        w1.ToReleaseItems = w.ToReleaseItems ++ releasedFrom w.tradeItems (some i) ++ [i] ∧
        (w1.houses h).transferItem = none ∧
        w1.contents (.container (w.houses h).transfer_container)
          = (w.contents (.container (w.houses h).transfer_container)).erase i ∧
        (i ∈ w.contents (.container (w.houses h).transfer_container) →
          (w1.items i).parent = none)) := by
  have hne : partner ≠ player := by
    intro e; subst e
    rw [hst] at hacc; cases hacc
  have hacc1 : ((setTradeState w player .TRADE_ACCEPT).players partner).tradeState
      = .TRADE_ACCEPT := by
    rw [setTradeState, setPlayer_players_of_ne _ _ _ _ hne]; exact hacc
  obtain ⟨ret2, hv⟩ := tradeValidate_null_item env
    (beginTransfer (setTradeState w player .TRADE_ACCEPT) player partner) player partner
    (w.players partner).tradeItem
  have hti : ∀ r, ((beginTransfer (setTradeState w player .TRADE_ACCEPT) player partner).players
      r).tradeItem = (w.players r).tradeItem := by
    intro r; simp
  obtain ⟨hb1, hb2⟩ := beginTransfer_no_offer w player partner hnone
  have hT := tradeFailureNotices_null_offer env
    (beginTransfer (setTradeState w player .TRADE_ACCEPT) player partner) player partner
    none (w.players partner).tradeItem .RETURNVALUE_NOTPOSSIBLE ret2 (by rw [hti]; exact hnone)
  rw [hti] at hT
  have hstep : playerAcceptTrade env fuel w playerId
      = some (resetTrade (resetTrade (tradeFailureNotices env
          (beginTransfer (setTradeState w player .TRADE_ACCEPT) player partner) player partner
          none (w.players partner).tradeItem .RETURNVALUE_NOTPOSSIBLE ret2) player) partner) := by
    simp only [playerAcceptTrade, hp, hst, true_or, not_true_eq_false, if_false, hq, hthrow,
      Bool.true_eq_false, hacc1, if_true, completeTrade, setTradeState_tradeItem, tradeTransfer,
      hnone, hv, Bool.false_eq_true]
  refine ⟨_, ret2, hstep, hv, ?_, ?_, ?_⟩
  · rw [resetTrade_players_of_ne _ _ _ (Ne.symm hne)]
    exact resetTrade_players_same _ _
  · exact resetTrade_players_same _ _
  · rw [hT]
    cases hi : (w.players partner).tradeItem with
    | none =>
      rw [hi] at hb1 hb2
      simp only []
      refine ⟨hb1, ?_, fun _ => Or.inl (by simp), fun _ => ?_,
        fun _ => ⟨by simp, by simp, ?_⟩, ?_⟩
      · simp [resetTrade_log]
      · simp
      · simp only [releasedFrom, List.append_nil]
        simpa [resetTrade, releasedFrom] using hb2
      · intro i h e
        cases e
    | some it =>
      rw [hi] at hb1 hb2
      simp only []
      obtain ⟨f1, f2, f3, f4, f5⟩ := onTradeEvent_cancel_frame env
        (emit (beginTransfer (setTradeState w player .TRADE_ACCEPT) player partner)
          (.sendTextMessage partner .MESSAGE_EVENT_ADVANCE
            (getTradeErrorDescription
              (beginTransfer (setTradeState w player .TRADE_ACCEPT) player partner)
              .RETURNVALUE_NOTPOSSIBLE none))) it partner
      refine ⟨?_, ?_, ?_, ?_, ?_, ?_⟩
      · show (onTradeEvent env _ it .ON_TRADE_CANCEL partner).tradeItems = _
        rw [f2]
        exact hb1
      · simp only [resetTrade_log, f3]
        simp [emit, getTradeErrorDescription]
      · intro i
        simpa using f4 i
      · intro c
        simpa using f5 c
      · intro hplain
        have hd : ((emit (beginTransfer (setTradeState w player .TRADE_ACCEPT) player partner)
            (.sendTextMessage partner .MESSAGE_EVENT_ADVANCE
              (getTradeErrorDescription
                (beginTransfer (setTradeState w player .TRADE_ACCEPT) player partner)
                .RETURNVALUE_NOTPOSSIBLE none))).items it).kind.isDocument = false := by
          simpa using hplain it rfl
        simp only [resetTrade_items, resetTrade_contents]
        rw [onTradeEvent_of_not_document env _ it _ partner hd]
        refine ⟨by simp, by simp, ?_⟩
        simpa [resetTrade] using hb2
      · intro i h e hk hh
        have e1 : it = i := Option.some.inj e
        subst e1
        obtain ⟨d1, d2, d3, d4⟩ := onTradeEvent_cancel_document env
          (emit (beginTransfer (setTradeState w player .TRADE_ACCEPT) player partner)
            (.sendTextMessage partner .MESSAGE_EVENT_ADVANCE
              (getTradeErrorDescription
                (beginTransfer (setTradeState w player .TRADE_ACCEPT) player partner)
                .RETURNVALUE_NOTPOSSIBLE none))) it partner h (by simpa using hk)
          (by simpa using hh)
        refine ⟨?_, ?_, ?_, ?_⟩
        · show (onTradeEvent env _ it .ON_TRADE_CANCEL partner).ToReleaseItems = _
          rw [d1]
          simp only [emit_ToReleaseItems, hb2]
        · simpa [resetTrade, setPlayer] using d2
        · simpa [resetTrade, setPlayer] using d3
        · intro hin
          simpa [resetTrade, setPlayer] using d4 (by simpa using hin)

/-- Witness of C29 (amended): player 1 has offered item 10 and has accepted;
player 2, who has offered nothing, accepts. -/
theorem playerAcceptTrade_null_offer_witness :
    ∃ w1 ret2, playerAcceptTrade openEnv 4 waitingWorld 2 = some w1 ∧
      tradeValidate openEnv (beginTransfer (setTradeState waitingWorld 2 .TRADE_ACCEPT) 2 1)
          2 1 none (waitingWorld.players 1).tradeItem
        = some ⟨beginTransfer (setTradeState waitingWorld 2 .TRADE_ACCEPT) 2 1,
            .RETURNVALUE_NOTPOSSIBLE, ret2, false⟩ ∧
      (w1.players 2).idle ∧ (w1.players 1).idle ∧
      w1.tradeItems = registryWithout waitingWorld.tradeItems (waitingWorld.players 1).tradeItem ∧
      w1.log = waitingWorld.log
        ++ (match (waitingWorld.players 1).tradeItem with
            | some _ => [.sendTextMessage 1 .MESSAGE_EVENT_ADVANCE .tradeNotCompleted]
            | none => [])
        ++ [.sendTradeClose 2, .sendTradeClose 1] ∧
      (∀ i, (w1.items i).parent = (waitingWorld.items i).parent ∨ (w1.items i).parent = none) ∧
      (∀ c, (w1.contents c).Sublist (waitingWorld.contents c)) ∧
      ((∀ i, (waitingWorld.players 1).tradeItem = some i →
          (waitingWorld.items i).kind.isDocument = false) →
        w1.items = waitingWorld.items ∧ w1.contents = waitingWorld.contents ∧
        w1.ToReleaseItems
          = waitingWorld.ToReleaseItems
            ++ releasedFrom waitingWorld.tradeItems (waitingWorld.players 1).tradeItem) ∧
      (∀ i h, (waitingWorld.players 1).tradeItem = some i →
        (waitingWorld.items i).kind = .houseTransfer (some h) →
        (waitingWorld.houses h).transferItem = some i →
        w1.ToReleaseItems
          = waitingWorld.ToReleaseItems ++ releasedFrom waitingWorld.tradeItems (some i) ++ [i] ∧
        (w1.houses h).transferItem = none ∧
        w1.contents (.container (waitingWorld.houses h).transfer_container)
          = (waitingWorld.contents (.container (waitingWorld.houses h).transfer_container)).erase
              i ∧
        (i ∈ waitingWorld.contents (.container (waitingWorld.houses h).transfer_container) →
          (w1.items i).parent = none)) :=
  playerAcceptTrade_null_offer openEnv 4 waitingWorld 2 2 1 rfl (by decide) (by decide)
    (by decide) rfl (by decide)

/-- The accept of the witness of C29, evaluated: item 10 stays with player 1,
leaves the registry and is queued for release once; player 1 is told that the
trade could not be completed. -/
theorem accept_without_offer_example :
    ∃ w1, playerAcceptTrade openEnv 4 waitingWorld 2 = some w1 ∧
      (w1.items 10).parent = some (.player 1) ∧ w1.contents (.player 1) = [10] ∧
      w1.tradeItems = [] ∧ w1.ToReleaseItems = [10] ∧
      (w1.players 1).tradeState = .TRADE_NONE ∧ (w1.players 2).tradeState = .TRADE_NONE ∧
      w1.log.drop waitingWorld.log.length
        = [.sendTextMessage 1 .MESSAGE_EVENT_ADVANCE .tradeNotCompleted, .sendTradeClose 2,
            .sendTradeClose 1] := by
  refine ⟨_, rfl, by decide, by decide, by decide, by decide, by decide, by decide, by decide⟩

/-! ## Trade coordinator: what a cancellation queues -/

theorem cancelQueue_of_not_document (w : World) (o : Option Nat)
    (h : ∀ i, o = some i → (w.items i).kind.isDocument = false) : cancelQueue w o = [] := by
  cases o with
  | none => rfl
  | some i =>
    have hk := h i rfl
    simp only [cancelQueue]
    cases hkind : (w.items i).kind with
    | plain => rfl
    | door _ => rfl
    | houseTransfer _ => rw [hkind] at hk; simp [ItemKind.isDocument] at hk

theorem cancelQueue_congr (w w1 : World) (o : Option Nat) (h1 : w1.items = w.items)
    (h2 : w1.houses = w.houses) : cancelQueue w1 o = cancelQueue w o := by
  cases o with
  | none => rfl
  | some i => simp only [cancelQueue]; rw [h1, h2]

/-- The release queue through the cancel hook of an offered item. -/
theorem onTradeEvent_cancel_queue (env : Env) (w : World) (item owner : Nat) :
    (onTradeEvent env w item .ON_TRADE_CANCEL owner).ToReleaseItems
      = w.ToReleaseItems ++ cancelQueue w (some item) := by
  simp only [onTradeEvent, cancelQueue]
  cases (w.items item).kind with
  | plain => simp
  | door _ => simp
  | houseTransfer house =>
    cases house with
    | none => simp
    | some h =>
      simp only []
      unfold resetTransferItem
      cases (w.houses h).transferItem with
      | none => simp
      | some tmp =>
        simp only []
        unfold removeThing
        split_ifs <;> rfl

/-- One side of a cancellation, whatever the offered item is: the player is
reset, the offered item leaves the registry and is queued once if it had an
entry, the cancel hook adds its own entries to the queue, the two notices are
sent and nothing else, no item gets a holder and no holder gains an item. -/
theorem closeSide_spec (env : Env) (w : World) (p : Nat) :
    (closeSide env w p).players = Function.update w.players p
      { w.players p with tradeState := .TRADE_NONE, tradePartner := none, tradeItem := none } ∧
    (closeSide env w p).tradeItems = registryWithout w.tradeItems (w.players p).tradeItem ∧
    (closeSide env w p).ToReleaseItems
      = w.ToReleaseItems ++ releasedFrom w.tradeItems (w.players p).tradeItem
          ++ cancelQueue w (w.players p).tradeItem ∧
    (closeSide env w p).log = w.log ++
      [.sendTextMessage p .MESSAGE_STATUS_SMALL .tradeCancelled, .sendTradeClose p] ∧
    (∀ i, ((closeSide env w p).items i).parent = (w.items i).parent ∨
      ((closeSide env w p).items i).parent = none) ∧
    ∀ c, ((closeSide env w p).contents c).Sublist (w.contents c) := by
  unfold closeSide
  cases hi : (w.players p).tradeItem with
  | none =>
    refine ⟨?_, rfl, by simp [emit, setPlayer, releasedFrom, cancelQueue], ?_,
      fun _ => Or.inl rfl, fun _ => List.Sublist.refl _⟩
    · simp [setPlayer, emit, hi]
    · simp [setPlayer, emit]
  | some i =>
    obtain ⟨f1, f2, f3, f4, f5⟩ := onTradeEvent_cancel_frame env (releaseTradeItem w (some i)) i p
    have f6 := onTradeEvent_cancel_queue env (releaseTradeItem w (some i)) i p
    refine ⟨?_, ?_, ?_, ?_, ?_, ?_⟩
    · simp [setPlayer, emit, f1, hi]
    · simp only [emit, setPlayer]
      rw [f2]
      exact releaseTradeItem_tradeItems_eq w (some i)
    · simp only [emit, setPlayer]
      rw [f6, releaseTradeItem_release_eq,
        cancelQueue_congr w _ (some i) (releaseTradeItem_items w _) (releaseTradeItem_houses w _)]
    · simp only [emit, setPlayer]
      rw [f3]
      simp
    · intro j
      simpa [emit, setPlayer] using f4 j
    · intro c
      simpa [emit, setPlayer] using f5 c

/-- Claim C9. Cancellation through `Game::internalCloseTrade`, whatever the
offered items are. When neither side is in state `TRADE_TRANSFER`, the call
resets the player and the partner to state `TRADE_NONE` with no partner and no
offered item; it leaves no offered item in the registry `tradeItems`; the
removal from the registry queues every offered item that had an entry for
release exactly once, and the only other entries the queue gains are those of
the cancel hooks of the offered items (`cancelQueue`: a transfer document that
its house gives up); it sends "Trade cancelled." and the trade close to the
player and then to the partner, and nothing else; no item gets a holder and no
holder gains an item. When no offered item is a house transfer document, the
hooks queue nothing and every item and every holder's sequence is as it was.
When either side is in state `TRADE_TRANSFER` the call changes nothing. -/
theorem internalCloseTrade_resets (env : Env) (w : World) (player : Nat) :
    ((isTransferring w (w.players player).tradePartner = false ∧
        (w.players player).tradeState ≠ .TRADE_TRANSFER) →
      ((internalCloseTrade env w player).players player).idle ∧
      (∀ q, (w.players player).tradePartner = some q →
        ((internalCloseTrade env w player).players q).idle) ∧
      (∀ i, (offeredBy w (some player) i || offeredBy w (w.players player).tradePartner i) = true →
        tradeItemsContains (internalCloseTrade env w player) i = false) ∧
      (∀ i, (internalCloseTrade env w player).ToReleaseItems.count i
        = w.ToReleaseItems.count i
          + (if ((offeredBy w (some player) i || offeredBy w (w.players player).tradePartner i)
                && tradeItemsContains w i) = true then 1 else 0)
          + (cancelQueue w (w.players player).tradeItem).count i
          + (cancelQueue (closeSide env w player)
              (match (w.players player).tradePartner with
                | some q => ((closeSide env w player).players q).tradeItem
                | none => none)).count i) ∧
      (internalCloseTrade env w player).log
        = w.log
          ++ [.sendTextMessage player .MESSAGE_STATUS_SMALL .tradeCancelled,
              .sendTradeClose player]
          ++ (match (w.players player).tradePartner with
              | some q => [.sendTextMessage q .MESSAGE_STATUS_SMALL .tradeCancelled,
                  .sendTradeClose q]
              | none => []) ∧
      (∀ i, ((internalCloseTrade env w player).items i).parent = (w.items i).parent ∨
        ((internalCloseTrade env w player).items i).parent = none) ∧
      (∀ c, ((internalCloseTrade env w player).contents c).Sublist (w.contents c)) ∧
      ((∀ p i, (p = player ∨ (w.players player).tradePartner = some p) →
          (w.players p).tradeItem = some i → (w.items i).kind.isDocument = false) →
        (∀ i, (internalCloseTrade env w player).ToReleaseItems.count i
          = w.ToReleaseItems.count i
            + (if ((offeredBy w (some player) i
                  || offeredBy w (w.players player).tradePartner i)
                  && tradeItemsContains w i) = true then 1 else 0)) ∧
        (internalCloseTrade env w player).items = w.items ∧
        (internalCloseTrade env w player).contents = w.contents)) ∧
    ((isTransferring w (w.players player).tradePartner = true ∨
        (w.players player).tradeState = .TRADE_TRANSFER) →
      internalCloseTrade env w player = w) := by
  constructor
  · rintro ⟨hnt, hns⟩
    have hcond : ¬ (isTransferring w (w.players player).tradePartner = true ∨
        (w.players player).tradeState = .TRADE_TRANSFER) := by
      simp [hnt, hns]
    obtain ⟨s1, s2, s3, s4, s5, s6⟩ := closeSide_spec env w player
    have hdoc : (∀ p i, (p = player ∨ (w.players player).tradePartner = some p) →
          (w.players p).tradeItem = some i → (w.items i).kind.isDocument = false) →
        (∀ i, (internalCloseTrade env w player).ToReleaseItems.count i
          = w.ToReleaseItems.count i
            + (if ((offeredBy w (some player) i
                  || offeredBy w (w.players player).tradePartner i)
                  && tradeItemsContains w i) = true then 1 else 0)) ∧
        (internalCloseTrade env w player).items = w.items ∧
        (internalCloseTrade env w player).contents = w.contents := by
      intro hplain
      obtain ⟨-, -, -, h4, -, -, h7, h8⟩ :=
        (internalCloseTrade_cancels env w player hplain).1 ⟨hnt, hns⟩
      exact ⟨h4, h7, h8⟩
    refine ⟨?_, ?_, ?_, ?_, ?_, ?_, ?_, hdoc⟩
    all_goals unfold internalCloseTrade
    all_goals simp only [hcond, if_false]
    all_goals cases hpart : (w.players player).tradePartner with
      | none => ?_
      | some q => ?_
    all_goals simp only []
    · rw [s1]; simp [Player.idle]
    · obtain ⟨t1, -⟩ := closeSide_spec env (closeSide env w player) q
      rw [t1, s1]
      by_cases hqp : player = q
      · subst hqp; simp [Player.idle]
      · simp [Player.idle, Function.update_noteq hqp]
    · intro q hq; cases hq
    · intro q1 hq1
      cases hq1
      obtain ⟨t1, -⟩ := closeSide_spec env (closeSide env w player) q
      rw [t1]; simp [Player.idle]
    · intro i hi
      simp only [offeredBy, Bool.or_false, decide_eq_true_eq] at hi
      rw [tradeItemsContains, s2]
      exact registryWithout_twice_not_mem w.tradeItems _ none i (Or.inl hi)
    · intro i hi
      obtain ⟨-, t2, -⟩ := closeSide_spec env (closeSide env w player) q
      simp only [offeredBy, Bool.or_eq_true, decide_eq_true_eq] at hi
      rw [tradeItemsContains, t2, s2]
      refine registryWithout_twice_not_mem w.tradeItems _ _ i ?_
      rw [s1]
      by_cases hqp : q = player
      · subst hqp
        simp only [Function.update_same]
        rcases hi with hi | hi <;> exact Or.inl hi
      · rw [Function.update_noteq hqp]
        exact hi
    · intro i
      rw [s3]
      have := releasedFrom_twice_count w.tradeItems (w.players player).tradeItem none i
      have e : releasedFrom (registryWithout w.tradeItems (w.players player).tradeItem) none
          = [] := rfl
      rw [e, List.append_nil] at this
      simp only [List.count_append, this, cancelQueue, List.count_nil, Nat.add_zero]
      congr 2
      refine if_congr ?_ rfl rfl
      simp [offeredBy, tradeItemsContains]
    · intro i
      obtain ⟨-, -, t3, -⟩ := closeSide_spec env (closeSide env w player) q
      rw [t3, s3, s2]
      have hitem2 : ((w.players player).tradeItem = some i ∨
            ((closeSide env w player).players q).tradeItem = some i) ↔
          ((w.players player).tradeItem = some i ∨ (w.players q).tradeItem = some i) := by
        rw [s1]
        by_cases hqp : q = player
        · subst hqp; simp
        · rw [Function.update_noteq hqp]
      have key := releasedFrom_twice_count w.tradeItems (w.players player).tradeItem
        ((closeSide env w player).players q).tradeItem i
      rw [List.count_append] at key
      simp only [List.count_append]
      have e : (if ((w.players player).tradeItem = some i ∨
            ((closeSide env w player).players q).tradeItem = some i) ∧
            (w.tradeItems.any fun e => e.1 == i) = true then 1 else 0)
          = (if ((offeredBy w (some player) i || offeredBy w (some q) i)
              && tradeItemsContains w i) = true then 1 else 0) := by
        refine if_congr ?_ rfl rfl
        rw [hitem2]
        simp [offeredBy, tradeItemsContains]
      rw [e] at key
      omega
    · rw [s4]; simp
    · obtain ⟨-, -, -, t4, -⟩ := closeSide_spec env (closeSide env w player) q
      rw [t4, s4]
    · exact s5
    · intro i
      obtain ⟨-, -, -, -, t5, -⟩ := closeSide_spec env (closeSide env w player) q
      rcases t5 i with e | e
      · rw [e]; exact s5 i
      · exact Or.inr e
    · exact s6
    · intro c
      obtain ⟨-, -, -, -, -, t6⟩ := closeSide_spec env (closeSide env w player) q
      exact (t6 c).trans (s6 c)
  · intro h
    unfold internalCloseTrade
    simp only [h, if_true]

/-- Witness of C9: player 1 closes the trade in which player 1 has offered
item 10 and player 2 has offered item 11; and player 1 closes the trade in
which it has offered the transfer document of house 0. -/
theorem internalCloseTrade_resets_witness :
    (((internalCloseTrade openEnv answeredWorld 1).players 1).idle ∧
      ((internalCloseTrade openEnv answeredWorld 1).players 2).idle ∧
      (internalCloseTrade openEnv answeredWorld 1).ToReleaseItems.count 10 = 1 ∧
      (internalCloseTrade openEnv answeredWorld 1).ToReleaseItems.count 11 = 1 ∧
      (internalCloseTrade openEnv answeredWorld 1).log
        = answeredWorld.log
          ++ [.sendTextMessage 1 .MESSAGE_STATUS_SMALL .tradeCancelled, .sendTradeClose 1]
          ++ [.sendTextMessage 2 .MESSAGE_STATUS_SMALL .tradeCancelled, .sendTradeClose 2]) ∧
    (((internalCloseTrade openEnv deedWorld 1).players 1).idle ∧
      ((internalCloseTrade openEnv deedWorld 1).players 2).idle ∧
      tradeItemsContains (internalCloseTrade openEnv deedWorld 1) 20 = false ∧
      (internalCloseTrade openEnv deedWorld 1).ToReleaseItems.count 20 = 0 + 1 + 1 + 0) :=
  have h := (internalCloseTrade_resets openEnv answeredWorld 1).1 ⟨by decide, by decide⟩
  have g := (internalCloseTrade_resets openEnv deedWorld 1).1 ⟨by decide, by decide⟩
  ⟨⟨h.1, h.2.1 2 (by decide), (h.2.2.2.1 10).trans (by decide),
      (h.2.2.2.1 11).trans (by decide), h.2.2.2.2.1⟩,
    ⟨g.1, g.2.1 2 (by decide), g.2.2.1 20 (by decide), (g.2.2.2.1 20).trans (by decide)⟩⟩

/-! ## Trade coordinator: requesting a trade -/

/-- The loops over the registry end in a refusal exactly for an item tied up
in a trade. -/
theorem tradedAlready_iff (env : RequestEnv) (w : World) (t : Nat) (l : List (Nat × Nat)) :
    tradedAlready env w t l = true ↔
      ((∃ e ∈ l, e.1 = t) ∨
       (∃ e ∈ l, env.getContainer w e.1 = true ∧ env.isHoldingItem w e.1 t = true) ∨
       (env.getContainer w t = true ∧ ∃ e ∈ l, env.isHoldingItem w t e.1 = true)) := by
  induction l with
  | nil => simp [tradedAlready]
  | cons e rest ih =>
    unfold tradedAlready
    by_cases hc : env.getContainer w t = true
    · rw [if_pos hc]
      by_cases h1 : t = e.1
      · rw [if_pos h1]
        simp only [true_iff]
        exact Or.inl ⟨e, List.mem_cons_self _ _, h1.symm⟩
      · rw [if_neg h1]
        by_cases h2 : env.isHoldingItem w t e.1 = true
        · rw [if_pos h2]
          simp only [true_iff]
          exact Or.inr (Or.inr ⟨hc, e, List.mem_cons_self _ _, h2⟩)
        · rw [if_neg h2]
          by_cases h3 : env.getContainer w e.1 = true ∧ env.isHoldingItem w e.1 t = true
          · rw [if_pos h3]
            simp only [true_iff]
            exact Or.inr (Or.inl ⟨e, List.mem_cons_self _ _, h3⟩)
          · rw [if_neg h3, ih]
            have h1' : ¬ e.1 = t := fun h => h1 h.symm
            simp [List.mem_cons, exists_eq_or_imp, hc, h1', h3, h2]
    · rw [if_neg hc]
      by_cases h1 : t = e.1
      · rw [if_pos h1]
        simp only [true_iff]
        exact Or.inl ⟨e, List.mem_cons_self _ _, h1.symm⟩
      · rw [if_neg h1]
        by_cases h3 : env.getContainer w e.1 = true ∧ env.isHoldingItem w e.1 t = true
        · rw [if_pos h3]
          simp only [true_iff]
          exact Or.inr (Or.inl ⟨e, List.mem_cons_self _ _, h3⟩)
        · rw [if_neg h3, ih]
          have h1' : ¬ e.1 = t := fun h => h1 h.symm
          simp [List.mem_cons, exists_eq_or_imp, hc, h1', h3]

/-- Every early return of the part after the lookup leaves the state alone,
and the call of `internalStartTrade` is made only for an item that is not tied
up in a trade. -/
theorem requestTradeOf_spec (env : RequestEnv) (w : World) (player tradePartner : Nat)
    (pos : Position) (spriteId t : Nat) :
    ((requestTradeOf env w player tradePartner pos spriteId t).2 = w ∧
      ∀ a b c ok, (requestTradeOf env w player tradePartner pos spriteId t).1
        ≠ .started a b c ok) ∨
    (¬ TiedUp env w t ∧
      requestTradeOf env w player tradePartner pos spriteId t
        = (.started player tradePartner t (internalStartTrade w player tradePartner t).1,
            (internalStartTrade w player tradePartner t).2)) := by
  unfold requestTradeOf
  split_ifs with h1 h2 h3 h4 h5 h6 h7
  · exact Or.inl ⟨rfl, fun _ _ _ _ h => by cases h⟩
  · exact Or.inl ⟨rfl, fun _ _ _ _ h => by cases h⟩
  · exact Or.inl ⟨rfl, fun _ _ _ _ h => by cases h⟩
  · exact Or.inl ⟨rfl, fun _ _ _ _ h => by cases h⟩
  · exact Or.inl ⟨rfl, fun _ _ _ _ h => by cases h⟩
  · exact Or.inl ⟨rfl, fun _ _ _ _ h => by cases h⟩
  · exact Or.inl ⟨rfl, fun _ _ _ _ h => by cases h⟩
  · refine Or.inr ⟨fun hb => ?_, rfl⟩
    apply h6
    rw [tradedAlready_iff]
    exact hb

/-- The call either leaves the state alone and does not reach
`internalStartTrade`, or it reaches it for the item the lookup has found, which
is not tied up in a trade. -/
theorem playerRequestTrade_spec (env : RequestEnv) (w : World) (playerId : Nat) (pos : Position)
    (stackPos tradePlayerId spriteId : Nat) :
    ((playerRequestTrade env w playerId pos stackPos tradePlayerId spriteId).2 = w ∧
      ∀ a b c ok, (playerRequestTrade env w playerId pos stackPos tradePlayerId spriteId).1
        ≠ .started a b c ok) ∨
    (∃ player tradePartner t, w.playerByID playerId = some player ∧
      w.playerByID tradePlayerId = some tradePartner ∧
      env.internalGetThing w player pos stackPos = some t ∧ ¬ TiedUp env w t ∧
      playerRequestTrade env w playerId pos stackPos tradePlayerId spriteId
        = (.started player tradePartner t (internalStartTrade w player tradePartner t).1,
            (internalStartTrade w player tradePartner t).2)) := by
  unfold playerRequestTrade
  cases hp : w.playerByID playerId with
  | none => exact Or.inl ⟨rfl, fun _ _ _ _ h => by cases h⟩
  | some player =>
    cases hq : w.playerByID tradePlayerId with
    | none => exact Or.inl ⟨rfl, fun _ _ _ _ h => by cases h⟩
    | some tradePartner =>
      simp only []
      split_ifs with h1 h2 h3
      · exact Or.inl ⟨rfl, fun _ _ _ _ h => by cases h⟩
      · exact Or.inl ⟨rfl, fun _ _ _ _ h => by cases h⟩
      · exact Or.inl ⟨rfl, fun _ _ _ _ h => by cases h⟩
      · cases ht : env.internalGetThing w player pos stackPos with
        | none => exact Or.inl ⟨rfl, fun _ _ _ _ h => by cases h⟩
        | some t =>
          simp only []
          rcases requestTradeOf_spec env w player tradePartner pos spriteId t with h | ⟨h, h'⟩
          · exact Or.inl h
          · exact Or.inr ⟨player, tradePartner, t, rfl, rfl, ht, h, h'⟩

/-- Claim C24. `Game::playerRequestTrade` never reaches `internalStartTrade`,
and leaves the whole state as it is (the registry `tradeItems` included), when
the item its lookup finds is tied up in a trade: registered in `tradeItems`,
held by a registered container, or a container that holds a registered item. -/
theorem playerRequestTrade_refuses_tied (env : RequestEnv) (w : World) (playerId : Nat)
    (pos : Position) (stackPos tradePlayerId spriteId player t : Nat)
    (hp : w.playerByID playerId = some player)
    (ht : env.internalGetThing w player pos stackPos = some t)
    (hbusy : TiedUp env w t) :
    (playerRequestTrade env w playerId pos stackPos tradePlayerId spriteId).2 = w ∧
    (playerRequestTrade env w playerId pos stackPos tradePlayerId spriteId).2.tradeItems
      = w.tradeItems ∧
    ∀ a b c ok, (playerRequestTrade env w playerId pos stackPos tradePlayerId spriteId).1
      ≠ .started a b c ok := by
  rcases playerRequestTrade_spec env w playerId pos stackPos tradePlayerId spriteId with
    ⟨h1, h2⟩ | ⟨p1, q1, t1, hp1, -, ht1, hfree, -⟩
  · exact ⟨h1, by rw [h1], h2⟩
  · exfalso
    rw [hp] at hp1
    cases hp1
    rw [ht] at ht1
    cases ht1
    exact hfree hbusy

/-- Witness of C24: player 1 has offered item 10; player 2 asks to trade
item 11, a container that holds item 10. -/
theorem playerRequestTrade_refuses_tied_witness :
    (playerRequestTrade requestEnv offeredWorld 2 ⟨0, 0, 7⟩ 11 1 200).2 = offeredWorld ∧
    (playerRequestTrade requestEnv offeredWorld 2 ⟨0, 0, 7⟩ 11 1 200).2.tradeItems
      = offeredWorld.tradeItems ∧
    ∀ a b c ok, (playerRequestTrade requestEnv offeredWorld 2 ⟨0, 0, 7⟩ 11 1 200).1
      ≠ .started a b c ok :=
  playerRequestTrade_refuses_tied requestEnv offeredWorld 2 ⟨0, 0, 7⟩ 11 1 200 2 11 rfl rfl
    (Or.inr (Or.inr ⟨by decide, (10, 1), by decide, by decide⟩))

/-- The requests around the witness of C24, evaluated. With item 10 on offer
by player 1, a request for item 10 itself and one for the container that holds
it are refused with "This item is already being traded."; a request by
player 2 for item 11 when nothing is on offer reaches `internalStartTrade`. -/
theorem request_trade_example :
    (playerRequestTrade requestEnv offeredWorld 2 ⟨0, 0, 7⟩ 10 1 100).1 = .alreadyTraded ∧
    (playerRequestTrade requestEnv offeredWorld 2 ⟨0, 0, 7⟩ 11 1 200).1 = .alreadyTraded ∧
    (playerRequestTrade requestEnv tradeWorld 2 ⟨0, 0, 7⟩ 11 1 200).1 = .started 2 1 11 true ∧
    (playerRequestTrade requestEnv tradeWorld 2 ⟨0, 0, 7⟩ 11 1 200).2.tradeItems = [(11, 2)] := by
  decide

/-! ## `Game::transformItem`: replacement and update in place -/

theorem toUInt16_natCast (n : Nat) : toUInt16 (n : Int) = n % 65536 := by
  unfold toUInt16
  omega

theorem transformSpent_cases (env : DecayEnv) (recur : Nat → Option (Game × Option Nat))
    (g : Game) (cylinder : Cylinder) (item newId : Nat) (g1 : Game) (newItem : Option Nat)
    (hp : (g.world.items item).parent = some cylinder) (hin : item ∈ g.world.contents cylinder)
    (hrec : ∀ g2 n2, recur (toUInt16 (newId : Int)) = some (g2, n2) →
      TransformStep env g item (toUInt16 (newId : Int)) g2 n2)
    (h : transformSpent env recur g cylinder (getThingIndex g.world cylinder item) item newId
      = some (g1, newItem)) :
    TransformStep env g item newId g1 newItem := by
  unfold transformSpent at h
  simp only [] at h
  by_cases c1 : (g.world.items item).stackable = true
  · rw [if_pos c1] at h
    obtain ⟨rfl, rfl⟩ := some_pair_inj h
    exact Or.inr ⟨cylinder, hp, hin, Or.inr (Or.inr (Or.inr ⟨rfl, rfl⟩))⟩
  · rw [if_neg c1] at h
    by_cases c2 : (if (env.itemTypes (g.world.items item).id).id = (env.itemTypes newId).id
        then (env.itemTypes (g.world.items item).id).decayTo else (newId : Int)) < 0
    · rw [if_pos c2] at h
      obtain ⟨rfl, rfl⟩ := some_pair_inj h
      exact Or.inr ⟨cylinder, hp, hin, Or.inr (Or.inr (Or.inr ⟨rfl, rfl⟩))⟩
    · rw [if_neg c2] at h
      by_cases c3 : (if (env.itemTypes (g.world.items item).id).id = (env.itemTypes newId).id
          then (env.itemTypes (g.world.items item).id).decayTo else (newId : Int)) ≠ newId
      · rw [if_pos c3] at h
        obtain ⟨rfl, rfl⟩ := some_pair_inj h
        exact Or.inr ⟨cylinder, hp, hin, Or.inr (Or.inr (Or.inl ⟨_, _, rfl⟩))⟩
      · rw [if_neg c3] at h
        have e : (if (env.itemTypes (g.world.items item).id).id = (env.itemTypes newId).id
          then (env.itemTypes (g.world.items item).id).decayTo else (newId : Int)) = newId := by
          by_contra hne; exact c3 hne
        rw [e] at h
        rcases hrec g1 newItem h with h0 | ⟨c, hc, hic, hk⟩
        · exact Or.inl h0
        · refine Or.inr ⟨c, hc, hic, ?_⟩
          rcases hk with ⟨id, cnt, hid, htop, hk⟩ | hk
          · refine Or.inl ⟨id, cnt, Or.inr ?_, htop, hk⟩
            rcases hid with hid | hid
            · exact hid
            · rw [hid, toUInt16_natCast, toUInt16_natCast, Nat.mod_mod]
          · exact Or.inr hk

/-- Every result of `Game::transformItem` comes from one of its branches. -/
theorem transformItem_cases (env : DecayEnv) :
    ∀ (fuel : Nat) (g : Game) (item newId : Nat) (newCount : Int) (g1 : Game)
      (newItem : Option Nat),
      transformItem env fuel g item newId newCount = some (g1, newItem) →
      TransformStep env g item newId g1 newItem := by
  have main : ∀ (fuel : Nat),
      (∀ (g : Game) (item newId : Nat) (g2 : Game) (n2 : Option Nat),
        (match fuel with
          | 0 => none
          | f + 1 => transformItem env f g item newId (-1)) = some (g2, n2) →
        TransformStep env g item newId g2 n2) →
      ∀ (g : Game) (item newId : Nat) (newCount : Int) (g1 : Game) (newItem : Option Nat),
        transformItem env fuel g item newId newCount = some (g1, newItem) →
        TransformStep env g item newId g1 newItem := by
    intro fuel hrec g item newId newCount g1 newItem h
    rw [transformItem] at h
    by_cases c0 : (g.world.items item).id = newId ∧
        (newCount = -1 ∨ (newCount = (env.getSubType g item : Int) ∧ newCount ≠ 0))
    · rw [if_pos c0] at h
      obtain ⟨rfl, rfl⟩ := some_pair_inj h
      exact Or.inl ⟨rfl, Or.inl rfl⟩
    · rw [if_neg c0] at h
      cases hp : (g.world.items item).parent with
      | none =>
        rw [hp] at h
        obtain ⟨rfl, rfl⟩ := some_pair_inj h
        exact Or.inl ⟨rfl, Or.inr rfl⟩
      | some cylinder =>
        rw [hp] at h
        simp only [] at h
        by_cases c1 : getThingIndex g.world cylinder item = -1
        · rw [if_pos c1] at h
          obtain ⟨rfl, rfl⟩ := some_pair_inj h
          exact Or.inl ⟨rfl, Or.inl rfl⟩
        · rw [if_neg c1] at h
          have hin : item ∈ g.world.contents cylinder := getThingIndex_mem _ _ _ c1
          by_cases c2 : env.canTransform g item = false
          · rw [if_pos c2] at h
            obtain ⟨rfl, rfl⟩ := some_pair_inj h
            exact Or.inl ⟨rfl, Or.inl rfl⟩
          · rw [if_neg c2] at h
            by_cases c3 : (env.itemTypes newId).id = 0
            · rw [if_pos c3] at h
              obtain ⟨rfl, rfl⟩ := some_pair_inj h
              exact Or.inl ⟨rfl, Or.inl rfl⟩
            · rw [if_neg c3] at h
              by_cases c4 : (env.itemTypes (g.world.items item).id).alwaysOnTop
                  ≠ (env.itemTypes newId).alwaysOnTop
              · rw [if_pos c4] at h
                exact Or.inr ⟨cylinder, hp, hin, Or.inl ⟨newId, newCount, Or.inl rfl, c4, (Option.some.inj h).symm⟩⟩
              · rw [if_neg c4] at h
                by_cases c5 : (env.itemTypes (g.world.items item).id).type
                    = (env.itemTypes newId).type
                · rw [if_pos c5] at h
                  by_cases c6 : newCount = 0 ∧
                      ((g.world.items item).stackable = true ∨ env.hasCharges g item = true)
                  · rw [if_pos c6] at h
                    exact transformSpent_cases env _ g cylinder item newId g1 newItem hp hin
                      (fun g2 n2 hk => hrec g item _ g2 n2 hk) h
                  · rw [if_neg c6] at h
                    exact Or.inr ⟨cylinder, hp, hin, Or.inr (Or.inl ⟨newId, newCount, (Option.some.inj h).symm⟩)⟩
                · rw [if_neg c5] at h
                  exact Or.inr ⟨cylinder, hp, hin, Or.inr (Or.inr (Or.inl ⟨_, _, (Option.some.inj h).symm⟩))⟩
  intro fuel
  induction fuel with
  | zero => exact main 0 (fun _ _ _ _ _ hk => by cases hk)
  | succ f ih => exact main (f + 1) (fun g item newId g2 n2 hk => ih g item newId (-1) g2 n2 hk)


theorem indexOf_set_fresh (l : List Nat) (x n : Nat) (hx : x ∈ l) (hn : n ∉ l) :
    (l.set (l.indexOf x) n).indexOf n = l.indexOf x := by
  induction l with
  | nil => cases hx
  | cons a t ih =>
    have hna : ¬ a = n := fun e => hn (by rw [e]; exact List.mem_cons_self _ _)
    have hnt : n ∉ t := fun e => hn (List.mem_cons_of_mem _ e)
    by_cases hax : a = x
    · subst hax
      simp [List.indexOf_cons_self]
    · have hxt : x ∈ t := by
        rcases List.mem_cons.mp hx with h | h
        · exact absurd h.symm hax
        · exact h
      rw [List.indexOf_cons_ne _ hax, List.set_cons_succ, List.indexOf_cons_ne _ hna, ih hxt hnt]

theorem mem_set_self (l : List Nat) (k n : Nat) (hk : k < l.length) : n ∈ l.set k n := by
  rw [List.mem_iff_getElem]
  exact ⟨k, by simpa using hk, by simp⟩

/-- The swap of an item for a new one: the new item takes the place of the old
in the holder's sequence and gets the holder; the old item loses its holder,
keeps its reference counter and is queued for release once. -/
theorem replaceItem_spec (g : Game) (cylinder : Cylinder) (itemIndex : Int) (item : Nat)
    (r : Item × Int × ItemDecayState_t) (hne : g.world.nextItem ≠ item) :
    (replaceItem g cylinder itemIndex item r).2 = some g.world.nextItem ∧
    (replaceItem g cylinder itemIndex item r).1.world.contents cylinder
      = (g.world.contents cylinder).set itemIndex.toNat g.world.nextItem ∧
    (∀ c, c ≠ cylinder →
      (replaceItem g cylinder itemIndex item r).1.world.contents c = g.world.contents c) ∧
    ((replaceItem g cylinder itemIndex item r).1.world.items g.world.nextItem).parent
      = some cylinder ∧
    ((replaceItem g cylinder itemIndex item r).1.world.items item).parent = none ∧
    (replaceItem g cylinder itemIndex item r).1.world.ToReleaseItems
      = g.world.ToReleaseItems ++ [item] ∧
    ((replaceItem g cylinder itemIndex item r).1.world.items item).referenceCounter
      = (g.world.items item).referenceCounter ∧
    (replaceItem g cylinder itemIndex item r).1.world.log
      = g.world.log ++ [.postAddNotification cylinder g.world.nextItem (some cylinder) itemIndex,
          .postRemoveNotification cylinder item (some cylinder) itemIndex] := by
  have hne2 : item ≠ g.world.nextItem := fun e => hne e.symm
  refine ⟨rfl, ?_, ?_, ?_, ?_, rfl, ?_, ?_⟩
  · simp [replaceItem, Game.withWorld, Game.allocate, ReleaseItem, setItem, emit, replaceThing]
  · intro c hc
    simp [replaceItem, Game.withWorld, Game.allocate, ReleaseItem, setItem, emit, replaceThing,
      Function.update_noteq hc]
  · simp [replaceItem, Game.withWorld, Game.allocate, ReleaseItem, setItem, emit, replaceThing,
      Function.update_noteq hne]
  · simp [replaceItem, Game.withWorld, Game.allocate, ReleaseItem, setItem, emit, replaceThing]
  · simp [replaceItem, Game.withWorld, Game.allocate, ReleaseItem, setItem, emit, replaceThing,
      Function.update_noteq hne2]
  · simp [replaceItem, Game.withWorld, Game.allocate, ReleaseItem, setItem, emit, replaceThing]

theorem updateThing_holder (env : DecayEnv) (henv : env.RetypeKeepsHolder) (g : Game)
    (c : Cylinder) (item itemId count : Nat) :
    (∀ j, ((g.updateThing env c item itemId count).world.items j).parent
      = (g.world.items j).parent) ∧
    (g.updateThing env c item itemId count).world.contents = g.world.contents := by
  unfold Game.updateThing
  split_ifs
  · refine ⟨fun j => ?_, rfl⟩
    by_cases hj : j = item
    · subst hj
      simp [Game.withWorld, Game.setID, setItem, (henv.1 _ _ _ _).1]
    · simp [Game.withWorld, Game.setID, setItem, Function.update_noteq hj]
  · exact ⟨fun _ => rfl, rfl⟩

@[simp] theorem withWorld_world (g : Game) (w : World) : (g.withWorld w).world = w := rfl

/-- The update in place leaves every item in its holder and every holder its
sequence, when retyping an item does not touch its holder. -/
theorem transformInPlace_holder (env : DecayEnv) (henv : env.RetypeKeepsHolder) (g : Game)
    (cylinder : Cylinder) (itemIndex : Int) (item newId : Nat) (newCount : Int) :
    (∀ j, ((transformInPlace env g cylinder itemIndex item newId newCount).1.world.items j).parent
      = (g.world.items j).parent) ∧
    (transformInPlace env g cylinder itemIndex item newId newCount).1.world.contents
      = g.world.contents := by
  unfold transformInPlace
  simp only []
  refine ⟨fun j => ?_, ?_⟩
  · rw [withWorld_world, emit_items, (updateThing_holder env henv _ cylinder item _ _).1 j]
    split_ifs
    · by_cases hj : j = item
      · subst hj
        simp [setItem, (henv.2.2 _).1]
      · simp [setItem, Function.update_noteq hj]
    · simp
  · rw [withWorld_world, emit_contents, (updateThing_holder env henv _ cylinder item _ _).2]
    split_ifs <;> simp [setItem]

theorem transformSpent_returns (env : DecayEnv) (recur : Nat → Option (Game × Option Nat))
    (g : Game) (cylinder : Cylinder) (itemIndex : Int) (item newId : Nat)
    (hrec : ∀ k, ∃ r, recur k = some r) :
    ∃ r, transformSpent env recur g cylinder itemIndex item newId = some r := by
  unfold transformSpent
  simp only []
  split_ifs <;> first | exact ⟨_, rfl⟩ | exact hrec _

/-- With fuel for one recursive call `Game::transformItem` always returns. -/
theorem transformItem_total (env : DecayEnv) (fuel : Nat) (g : Game) (item newId : Nat)
    (newCount : Int) : ∃ r, transformItem env (fuel + 1) g item newId newCount = some r := by
  rw [transformItem]
  by_cases c0 : (g.world.items item).id = newId ∧
      (newCount = -1 ∨ (newCount = (env.getSubType g item : Int) ∧ newCount ≠ 0))
  · rw [if_pos c0]; exact ⟨_, rfl⟩
  · rw [if_neg c0]
    cases (g.world.items item).parent with
    | none => exact ⟨_, rfl⟩
    | some cylinder =>
      simp only []
      by_cases c1 : getThingIndex g.world cylinder item = -1
      · rw [if_pos c1]; exact ⟨_, rfl⟩
      · rw [if_neg c1]
        by_cases c2 : env.canTransform g item = false
        · rw [if_pos c2]; exact ⟨_, rfl⟩
        · rw [if_neg c2]
          by_cases c3 : (env.itemTypes newId).id = 0
          · rw [if_pos c3]; exact ⟨_, rfl⟩
          · rw [if_neg c3]
            by_cases c4 : (env.itemTypes (g.world.items item).id).alwaysOnTop
                ≠ (env.itemTypes newId).alwaysOnTop
            · rw [if_pos c4]; exact ⟨_, rfl⟩
            · rw [if_neg c4]
              by_cases c5 : (env.itemTypes (g.world.items item).id).type
                  = (env.itemTypes newId).type
              · rw [if_pos c5]
                by_cases c6 : newCount = 0 ∧
                    ((g.world.items item).stackable = true ∨ env.hasCharges g item = true)
                · rw [if_pos c6]
                  exact transformSpent_returns env _ g cylinder _ item newId
                    (fun k => transformItem_returns env fuel g item k)
                · rw [if_neg c6]; exact ⟨_, rfl⟩
              · rw [if_neg c5]; exact ⟨_, rfl⟩

/-- Claim C23. Let `Game::transformItem` return, leaving the state `g1`.
When it returns an item `n` other than its input (a replacement), the input had
a holder that listed it; `n` is a new item; the holder's sequence is the old one
with `n` in the place of the input, so that `n` has the index the input had, and
every other holder keeps its sequence; `n` has that holder as its parent; the
input has no parent any more, keeps its reference counter, and is at the end of
`ToReleaseItems`, added there once. When it returns its input after an update of
the same kind (no change of `alwaysOnTop`, for a type id of 16 bits and an
allocated item, with methods of `Item` that retype without touching the holder),
every item has the holder it had and every holder its sequence. With fuel for
one recursive call the function always returns. -/
theorem transformItem_replaces_in_slot (env : DecayEnv) (fuel : Nat) (g : Game)
    (item newId : Nat) (newCount : Int) (g1 : Game) (newItem : Option Nat)
    (h : transformItem env fuel g item newId newCount = some (g1, newItem)) :
    (∀ n, newItem = some n → n ≠ item →
      ∃ cylinder, (g.world.items item).parent = some cylinder ∧
        item ∈ g.world.contents cylinder ∧ n = g.world.nextItem ∧
        g1.world.contents cylinder
          = (g.world.contents cylinder).set ((g.world.contents cylinder).indexOf item) n ∧
        ((∀ i ∈ g.world.contents cylinder, i < g.world.nextItem) →
          getThingIndex g1.world cylinder n = getThingIndex g.world cylinder item) ∧
        (∀ c, c ≠ cylinder → g1.world.contents c = g.world.contents c) ∧
        (g1.world.items n).parent = some cylinder ∧
        (g1.world.items item).parent = none ∧
        g1.world.ToReleaseItems = g.world.ToReleaseItems ++ [item] ∧
        (g1.world.items item).referenceCounter = (g.world.items item).referenceCounter) ∧
    (newItem = some item → env.RetypeKeepsHolder → newId < 65536 → item < g.world.nextItem →
      (env.itemTypes (g.world.items item).id).alwaysOnTop = (env.itemTypes newId).alwaysOnTop →
      (∀ j, (g1.world.items j).parent = (g.world.items j).parent) ∧
        g1.world.contents = g.world.contents) ∧
    ∃ r, transformItem env (fuel + 1) g item newId newCount = some r := by
  have hstep := transformItem_cases env fuel g item newId newCount g1 newItem h
  refine ⟨?_, ?_, transformItem_total env fuel g item newId newCount⟩
  · intro n hn hne
    rcases hstep with ⟨-, h0 | h0⟩ | ⟨cylinder, hp, hin, hk⟩
    · rw [h0] at hn; cases hn; exact absurd rfl hne
    · rw [h0] at hn; cases hn
    · rcases hk with ⟨id, cnt, -, -, hk⟩ | ⟨id, cnt, hk⟩ | ⟨type, count, hk⟩ | ⟨-, hk⟩
      · have h2 := (transformOnTop_frame env g cylinder (getThingIndex g.world cylinder item)
          item id cnt).2 n (by rw [← hk]; exact hn)
        exact absurd h2 hne
      · have h2 := (transformInPlace_frame env g cylinder (getThingIndex g.world cylinder item)
          item id cnt).2 n (by rw [← hk]; exact hn)
        exact absurd h2 hne
      · unfold transformReplace at hk
        cases hc : env.CreateItem type count with
        | none =>
          rw [hc] at hk
          simp only [Prod.mk.injEq] at hk
          rw [hk.2] at hn
          cases hn
        | some r =>
          rw [hc] at hk
          simp only [] at hk
          have hg1 : g1 = (replaceItem g cylinder (getThingIndex g.world cylinder item) item r).1 :=
            congrArg Prod.fst hk
          have hn1 : newItem
              = (replaceItem g cylinder (getThingIndex g.world cylinder item) item r).2 :=
            congrArg Prod.snd hk
          have hnn : n = g.world.nextItem := by
            rw [hn1] at hn
            have := (replaceItem_frame g cylinder (getThingIndex g.world cylinder item) item r).2.1
            rw [this] at hn
            exact (Option.some.inj hn).symm
          have hfresh : g.world.nextItem ≠ item := by rw [← hnn]; exact hne
          obtain ⟨-, s2, s3, s4, s5, s6, s7, -⟩ := replaceItem_spec g cylinder
            (getThingIndex g.world cylinder item) item r hfresh
          have hidx : (getThingIndex g.world cylinder item).toNat
              = (g.world.contents cylinder).indexOf item := by
            unfold getThingIndex
            rw [if_pos hin]
            simp
          rw [hidx] at s2
          refine ⟨cylinder, hp, hin, hnn, ?_, ?_, ?_, ?_, ?_, ?_, ?_⟩
          · rw [hg1, hnn]; exact s2
          · intro hall
            have hnot : g.world.nextItem ∉ g.world.contents cylinder :=
              fun hm => Nat.lt_irrefl _ (hall _ hm)
            have hmem : g.world.nextItem ∈ (g.world.contents cylinder).set
                ((g.world.contents cylinder).indexOf item) g.world.nextItem :=
              mem_set_self _ _ _ (List.indexOf_lt_length.mpr hin)
            have hcont : g1.world.contents cylinder = (g.world.contents cylinder).set
                ((g.world.contents cylinder).indexOf item) g.world.nextItem := by
              rw [hg1]; exact s2
            unfold getThingIndex
            rw [hcont, hnn, if_pos hmem, if_pos hin, indexOf_set_fresh _ _ _ hin hnot]
          · rw [hg1]; exact s3
          · rw [hg1, hnn]; exact s4
          · rw [hg1]; exact s5
          · rw [hg1]; exact s6
          · rw [hg1]; exact s7
      · rw [hk] at hn; cases hn
  · intro hn henv h16 halloc htop
    rcases hstep with ⟨h0, -⟩ | ⟨cylinder, hp, hin, hk⟩
    · rw [h0]; exact ⟨fun _ => rfl, rfl⟩
    · rcases hk with ⟨id, cnt, hid, hdiff, -⟩ | ⟨id, cnt, hk⟩ | ⟨type, count, hk⟩ | ⟨-, hk⟩
      · exfalso
        have : id = newId := by
          rcases hid with hid | hid
          · exact hid
          · rw [hid, toUInt16_natCast, Nat.mod_eq_of_lt h16]
        rw [this] at hdiff
        exact hdiff htop
      · have hg1 : g1 = (transformInPlace env g cylinder (getThingIndex g.world cylinder item)
            item id cnt).1 := congrArg Prod.fst hk
        rw [hg1]
        exact transformInPlace_holder env henv g cylinder _ item id cnt
      · exfalso
        have h2 := (transformReplace_frame env g cylinder (getThingIndex g.world cylinder item)
          item type count).2 item (by rw [← hk]; exact hn)
        omega
      · rw [hk] at hn; cases hn


/-- Witness of C23: item 1 of type 2052 on tile 0 is transformed to type 2053,
which is of another kind, so a new item takes its place. -/
theorem transformItem_replaces_in_slot_witness :
    (∀ n, some (wheelGame 2052 900).world.nextItem = some n → n ≠ 1 →
      ∃ cylinder, ((wheelGame 2052 900).world.items 1).parent = some cylinder ∧
        1 ∈ (wheelGame 2052 900).world.contents cylinder ∧
        n = (wheelGame 2052 900).world.nextItem ∧
        (transformReplace typedEnv (wheelGame 2052 900) (.tile 0) 0 1 2053 0).1.world.contents
            cylinder
          = ((wheelGame 2052 900).world.contents cylinder).set
              (((wheelGame 2052 900).world.contents cylinder).indexOf 1) n ∧
        ((∀ i ∈ (wheelGame 2052 900).world.contents cylinder,
            i < (wheelGame 2052 900).world.nextItem) →
          getThingIndex (transformReplace typedEnv (wheelGame 2052 900) (.tile 0) 0 1 2053
              0).1.world cylinder n
            = getThingIndex (wheelGame 2052 900).world cylinder 1) ∧
        (∀ c, c ≠ cylinder →
          (transformReplace typedEnv (wheelGame 2052 900) (.tile 0) 0 1 2053 0).1.world.contents c
            = (wheelGame 2052 900).world.contents c) ∧
        ((transformReplace typedEnv (wheelGame 2052 900) (.tile 0) 0 1 2053 0).1.world.items
            n).parent = some cylinder ∧
        ((transformReplace typedEnv (wheelGame 2052 900) (.tile 0) 0 1 2053 0).1.world.items
            1).parent = none ∧
        (transformReplace typedEnv (wheelGame 2052 900) (.tile 0) 0 1 2053 0).1.world.ToReleaseItems
          = (wheelGame 2052 900).world.ToReleaseItems ++ [1] ∧
        ((transformReplace typedEnv (wheelGame 2052 900) (.tile 0) 0 1 2053 0).1.world.items
            1).referenceCounter = ((wheelGame 2052 900).world.items 1).referenceCounter) ∧
    (some (wheelGame 2052 900).world.nextItem = some 1 → typedEnv.RetypeKeepsHolder →
      2053 < 65536 → 1 < (wheelGame 2052 900).world.nextItem →
      (typedEnv.itemTypes ((wheelGame 2052 900).world.items 1).id).alwaysOnTop
        = (typedEnv.itemTypes 2053).alwaysOnTop →
      (∀ j, ((transformReplace typedEnv (wheelGame 2052 900) (.tile 0) 0 1 2053 0).1.world.items
          j).parent = ((wheelGame 2052 900).world.items j).parent) ∧
        (transformReplace typedEnv (wheelGame 2052 900) (.tile 0) 0 1 2053 0).1.world.contents
          = (wheelGame 2052 900).world.contents) ∧
    ∃ r, transformItem typedEnv (0 + 1) (wheelGame 2052 900) 1 2053 (-1) = some r :=
  transformItem_replaces_in_slot typedEnv 0 (wheelGame 2052 900) 1 2053 (-1)
    (transformReplace typedEnv (wheelGame 2052 900) (.tile 0) 0 1 2053 0).1
    (some (wheelGame 2052 900).world.nextItem) rfl

/-- The two cases of C23, evaluated. The transformation of item 1 to type 2053
puts the new item 2 on tile 0 in its place, detaches item 1 and queues it for
release; the transformation to type 2054, of the same kind, retypes item 1
where it is. -/
theorem transform_example :
    (∃ g1, transformItem typedEnv 0 (wheelGame 2052 900) 1 2053 (-1) = some (g1, some 2) ∧
      g1.world.contents (.tile 0) = [2] ∧ (g1.world.items 2).parent = some (.tile 0) ∧
      (g1.world.items 2).id = 2053 ∧ (g1.world.items 1).parent = none ∧
      g1.world.ToReleaseItems = [1] ∧ (g1.world.items 1).referenceCounter = 1) ∧
    ∃ g1, transformItem typedEnv 0 (wheelGame 2052 900) 1 2054 (-1) = some (g1, some 1) ∧
      g1.world.contents (.tile 0) = [1] ∧ (g1.world.items 1).parent = some (.tile 0) ∧
      (g1.world.items 1).id = 2054 ∧ g1.world.ToReleaseItems = [] := by
  refine ⟨⟨_, rfl, by decide, by decide, by decide, by decide, by decide, by decide⟩,
    ⟨_, rfl, by decide, by decide, by decide, by decide⟩⟩

/-! ## Decay wheel: what a decay leaves of the other items -/

theorem SameItem_refl (a : Item) : SameItem a a := ⟨rfl, rfl, rfl, rfl, rfl, rfl⟩

theorem SameItem.same_trans {a b c : Item} (h1 : SameItem a b) (h2 : SameItem b c) :
    SameItem a c :=
  ⟨h2.1.trans h1.1, h2.2.1.trans h1.2.1, h2.2.2.1.trans h1.2.2.1, h2.2.2.2.1.trans h1.2.2.2.1,
    h2.2.2.2.2.1.trans h1.2.2.2.2.1, h2.2.2.2.2.2.trans h1.2.2.2.2.2⟩

theorem SameItem_of_eq {a b : Item} (h : b = a) : SameItem a b := by
  subst h
  exact SameItem_refl _

theorem onRemoved_items_of_ne (w : World) (item j : Nat) (hj : j ≠ item) :
    (onRemoved w item).items j = w.items j := by
  unfold onRemoved
  split
  · unfold removeDoor
    split_ifs
    · simp [Function.update_noteq hj]
    · rfl
  · rfl

theorem internalRemoveItem_items_of_ne (env : Env) (w : World) (item : Nat) (count : Int)
    (test : Bool) (flags j : Nat) (hj : j ≠ item) :
    (internalRemoveItem env w item count test flags).2.items j = w.items j := by
  have key : ∀ (c : Cylinder) (n : Nat) (e : Event),
      (onRemoved (emit (releaseIfRemoved (removeThing w c item n) item) e) item).items j
        = w.items j := by
    intro c n e
    rw [onRemoved_items_of_ne _ _ _ hj]
    show (releaseIfRemoved _ item).items j = _
    unfold releaseIfRemoved
    split_ifs
    · exact removeThing_items_of_ne _ _ _ _ _ hj
    · exact removeThing_items_of_ne _ _ _ _ _ hj
  unfold internalRemoveItem
  split
  · rfl
  · simp only []
    split_ifs <;> first | rfl | exact key _ _ _ | exact onRemoved_items_of_ne _ _ _ hj

theorem setID_items_of_ne (env : DecayEnv) (g : Game) (item newid j : Nat) (hj : j ≠ item) :
    (g.setID env item newid).world.items j = g.world.items j := by
  show Function.update g.world.items item _ j = _
  exact Function.update_noteq hj _ _

theorem transformOnTop_items (env : DecayEnv) (g : Game) (cylinder : Cylinder) (itemIndex : Int)
    (item newId : Nat) (newCount : Int) (j : Nat) (hj : j ≠ item) :
    (transformOnTop env g cylinder itemIndex item newId newCount).1.world.items j
      = g.world.items j := by
  have h1 : (removeThing g.world cylinder item (g.world.items item).count).items j
      = g.world.items j := removeThing_items_of_ne _ _ _ _ _ hj
  unfold transformOnTop
  simp only []
  split <;> split_ifs <;>
    simp [Game.withWorld, Game.setID, setItem, addThing, emit, ReleaseItem,
      Function.update_noteq hj, h1]

theorem transformInPlace_items (env : DecayEnv) (g : Game) (cylinder : Cylinder) (itemIndex : Int)
    (item newId : Nat) (newCount : Int) (j : Nat) (hj : j ≠ item) :
    (transformInPlace env g cylinder itemIndex item newId newCount).1.world.items j
      = g.world.items j := by
  unfold transformInPlace Game.updateThing
  simp only []
  split_ifs <;>
    simp [Game.withWorld, Game.setID, setItem, emit, Function.update_noteq hj]

theorem transformReplace_items (env : DecayEnv) (g : Game) (cylinder : Cylinder)
    (itemIndex : Int) (item type count j : Nat) (hj : j ≠ item) (hal : j < g.world.nextItem) :
    (transformReplace env g cylinder itemIndex item type count).1.world.items j
      = g.world.items j := by
  have hn : j ≠ g.world.nextItem := Nat.ne_of_lt hal
  unfold transformReplace
  split
  · rfl
  · simp [replaceItem, Game.allocate, replaceThing, Game.withWorld, setItem, emit, ReleaseItem,
      Function.update_noteq hj, Function.update_noteq hn]

/-- `Game::transformItem` leaves every other allocated item as it is. -/
theorem transformItem_items (env : DecayEnv) (fuel : Nat) (g : Game) (item newId : Nat)
    (newCount : Int) (g1 : Game) (n : Option Nat)
    (h : transformItem env fuel g item newId newCount = some (g1, n)) (j : Nat) (hj : j ≠ item)
    (hal : j < g.world.nextItem) : g1.world.items j = g.world.items j := by
  rcases transformItem_cases env fuel g item newId newCount g1 n h with ⟨rfl, -⟩ |
    ⟨c, -, -, hk⟩
  · rfl
  · rcases hk with ⟨id, cnt, -, -, e⟩ | ⟨id, cnt, e⟩ | ⟨type, count, e⟩ | ⟨e, -⟩
    · rw [(Prod.mk.inj e).1]; exact transformOnTop_items env g c _ item id cnt j hj
    · rw [(Prod.mk.inj e).1]; exact transformInPlace_items env g c _ item id cnt j hj
    · rw [(Prod.mk.inj e).1]; exact transformReplace_items env g c _ item type count j hj hal
    · rw [e]; exact internalRemoveItem_items_of_ne _ _ _ _ _ _ j hj

theorem register_sameItem (g : Game) (item x : Nat) :
    SameItem (g.world.items x) ((g.register item).world.items x) := by
  by_cases h : x = item
  · subst h
    simp [Game.register, Game.withWorld, Game.setDecaying, setItem, SameItem]
  · exact SameItem_of_eq (by
      simp [Game.register, Game.withWorld, Game.setDecaying, setItem, Function.update_noteq h])

theorem releaseAll_sameItem (l : List Nat) :
    ∀ (w : World) (x : Nat), SameItem (w.items x) ((releaseAll w l).items x) := by
  induction l with
  | nil => intro w x; exact SameItem_refl _
  | cons a t ih =>
    intro w x
    unfold releaseAll
    refine SameItem.same_trans ?_ (ih _ x)
    by_cases h : x = a
    · subst h
      simp [setItem, SameItem]
    · exact SameItem_of_eq (by simp [setItem, Function.update_noteq h])

theorem cleanup_sameItem (env : DecayEnv) (g : Game) (x : Nat) :
    SameItem (g.world.items x) ((cleanup env g).world.items x) := by
  have e : (cleanup env g).world
      = { releaseAll g.world g.world.ToReleaseItems with ToReleaseItems := [] } := by
    unfold cleanup
    simp only []
    exact enterWheel_world env _ _
  rw [e]
  exact releaseAll_sameItem _ _ x

/-! ## Decay wheel: one turn of the loop of `checkDecay` -/

theorem startDecay_none (env : DecayEnv) (fuel : Nat) (g : Game) :
    startDecay env fuel g none = some g := by
  cases fuel <;> rfl

/-- `Game::startDecay` on an item that has time left when it can decay and is
not flagged: the item is registered exactly when it can decay and is not
flagged, whatever the fuel. -/
theorem startDecay_of_time (env : DecayEnv) (fuel : Nat) (g : Game) (item : Nat)
    (h : env.canDecay g item = true → g.decaying item ≠ .DECAYING_TRUE → 0 < g.duration item) :
    startDecay env fuel g (some item)
      = some (if env.canDecay g item = true ∧ g.decaying item ≠ .DECAYING_TRUE
          then g.register item else g) := by
  cases fuel <;>
  · simp only [startDecay]
    by_cases h1 : env.canDecay g item = false
    · simp [h1]
    · have h1' : env.canDecay g item = true := by simpa using h1
      rw [if_neg h1]
      by_cases h2 : g.decaying item = .DECAYING_TRUE
      · simp [h2]
      · rw [if_neg h2, if_pos (h h1' h2), if_pos ⟨h1', h2⟩]

/-- `Game::internalDecayItem` does not touch the buckets, when the call of
`Game::startDecay` it ends with does not. -/
theorem internalDecayItemWith_decayItems (env : DecayEnv)
    (start : Game → Option Nat → Option Game) (fuel : Nat)
    (hstart : ∀ (g : Game) (item : Option Nat) (g1 : Game), start g item = some g1 →
      g1.decayItems = g.decayItems)
    (g g1 : Game) (y : Nat) (hr : internalDecayItemWith env start fuel g y = some g1) :
    g1.decayItems = g.decayItems := by
  unfold internalDecayItemWith at hr
  simp only [] at hr
  by_cases hd : (env.itemTypes ((g.logDecay y).world.items y).id).decayTo ≠ 0
  · rw [if_pos hd] at hr
    cases ht : transformItem env fuel (g.logDecay y) y
        (toUInt16 (env.itemTypes ((g.logDecay y).world.items y).id).decayTo) (-1) with
    | none => rw [ht] at hr; cases hr
    | some r =>
      obtain ⟨t, n⟩ := r
      rw [ht] at hr
      simp only [] at hr
      rw [hstart t n g1 hr, (transformItem_frame env fuel _ y _ _ t n ht).1.2.1]
      rfl
  · rw [if_neg hd] at hr
    simp only [Option.some.injEq] at hr
    subst hr
    rfl

/-- `Game::startDecay` does not touch the buckets: a registration goes to
`toDecayItems`. -/
theorem startDecay_decayItems (env : DecayEnv) :
    ∀ (fuel : Nat) (g : Game) (item : Option Nat) (g1 : Game),
      startDecay env fuel g item = some g1 → g1.decayItems = g.decayItems := by
  intro fuel
  induction fuel with
  | zero =>
    intro g item g1 hr
    cases item with
    | none =>
      simp only [startDecay, Option.some.injEq] at hr
      subst hr; rfl
    | some i =>
      simp only [startDecay] at hr
      split_ifs at hr with c1 c2 c3
      · simp only [Option.some.injEq] at hr; subst hr; rfl
      · simp only [Option.some.injEq] at hr; subst hr; rfl
      · simp only [Option.some.injEq] at hr; subst hr; rfl
  | succ f ih =>
    intro g item g1 hr
    cases item with
    | none =>
      simp only [startDecay, Option.some.injEq] at hr
      subst hr; rfl
    | some i =>
      simp only [startDecay] at hr
      split_ifs at hr with c1 c2 c3
      · simp only [Option.some.injEq] at hr; subst hr; rfl
      · simp only [Option.some.injEq] at hr; subst hr; rfl
      · simp only [Option.some.injEq] at hr; subst hr; rfl
      · exact internalDecayItemWith_decayItems env (startDecay env f) f ih g g1 i hr

/-- `Game::internalDecayItem` on an item flagged as decaying returns whatever
the fuel, when the successor of a flagged item has time left: for a type with
a successor it is `Game::transformItem` followed by `Game::startDecay` on the
result, which registers the result or leaves it alone; for a type without one
it is `Game::internalRemoveItem`. -/
theorem internalDecayItem_eq (env : DecayEnv) (hS : env.SuccessorHasTime) (fuel : Nat) (g : Game)
    (item : Nat) (hflag : g.decaying item = .DECAYING_TRUE) :
    ∃ g2, internalDecayItem env fuel g item = some g2 ∧
      ((env.itemTypes (g.world.items item).id).decayTo ≠ 0 →
        ∃ t n, transformItem env fuel (g.logDecay item) item
            (toUInt16 (env.itemTypes (g.world.items item).id).decayTo) (-1) = some (t, n) ∧
          startDecay env fuel t n = some g2 ∧
          (g2 = t ∨ ∃ m, n = some m ∧ g2 = t.register m)) ∧
      ((env.itemTypes (g.world.items item).id).decayTo = 0 →
        g2 = (g.logDecay item).withWorld
          (internalRemoveItem env.toEnv g.world item (-1) false 0).2) := by
  unfold internalDecayItem internalDecayItemWith
  simp only []
  have hw : (g.logDecay item).world = g.world := rfl
  rw [hw]
  by_cases hd : (env.itemTypes (g.world.items item).id).decayTo ≠ 0
  · rw [if_pos hd]
    obtain ⟨⟨t, n⟩, hr⟩ := transformItem_returns env fuel (g.logDecay item) item
      (toUInt16 (env.itemTypes (g.world.items item).id).decayTo)
    rw [hr]
    simp only []
    cases n with
    | none =>
      exact ⟨t, startDecay_none env fuel t, fun _ => ⟨t, none, rfl, startDecay_none env fuel t,
        Or.inl rfl⟩, fun h0 => absurd h0 hd⟩
    | some m =>
      have hs := startDecay_of_time env fuel t m
        (hS fuel (g.logDecay item) t item m hflag hr)
      refine ⟨_, hs, fun _ => ⟨t, some m, rfl, hs, ?_⟩, fun h0 => absurd h0 hd⟩
      split_ifs
      · exact Or.inr ⟨m, rfl, rfl⟩
      · exact Or.inl rfl
  · rw [if_neg hd]
    exact ⟨_, rfl, fun h0 => absurd h0 hd, fun _ => rfl⟩

/-- `Game::internalDecayItem` logs its item once, and allocates at most. -/
theorem internalDecayItem_log (env : DecayEnv) (hS : env.SuccessorHasTime) (fuel : Nat)
    (g g2 : Game) (item : Nat) (hflag : g.decaying item = .DECAYING_TRUE)
    (h : internalDecayItem env fuel g item = some g2) :
    g2.decayLog = g.decayLog ++ [item] ∧ g.world.nextItem ≤ g2.world.nextItem := by
  obtain ⟨g3, h3, ha, hb⟩ := internalDecayItem_eq env hS fuel g item hflag
  rw [h] at h3
  cases h3
  by_cases hd : (env.itemTypes (g.world.items item).id).decayTo ≠ 0
  · obtain ⟨t, n, ht, -, hs⟩ := ha hd
    obtain ⟨⟨-, -, -, f4, f5, -⟩, -⟩ := transformItem_frame env fuel _ item _ _ t n ht
    rcases hs with rfl | ⟨m, -, rfl⟩
    · exact ⟨f4, f5⟩
    · exact ⟨f4, f5⟩
  · rw [hb (by simpa using hd)]
    exact ⟨rfl, by simp [Game.withWorld, Game.logDecay]⟩

/-- `Game::internalDecayItem` does not touch the buckets. -/
theorem internalDecayItem_decayItems (env : DecayEnv) (fuel : Nat) (g g2 : Game) (item : Nat)
    (h : internalDecayItem env fuel g item = some g2) : g2.decayItems = g.decayItems :=
  internalDecayItemWith_decayItems env (startDecay env fuel) fuel (startDecay_decayItems env fuel)
    g g2 item h
theorem WheelKeeps_refl (x bucket : Nat) (g : Game) : WheelKeeps x bucket g g :=
  ⟨rfl, fun _ _ => rfl, rfl, rfl, Nat.le_refl _, rfl, rfl, SameItem_refl _⟩

theorem WheelKeeps.keeps_trans {x bucket : Nat} {g g1 g2 : Game} (h1 : WheelKeeps x bucket g g1)
    (h2 : WheelKeeps x bucket g1 g2) : WheelKeeps x bucket g g2 := by
  obtain ⟨a1, a2, a3, a4, a5, a6, a7, a8⟩ := h1
  obtain ⟨b1, b2, b3, b4, b5, b6, b7, b8⟩ := h2
  exact ⟨b1.trans a1, fun b hb => (b2 b hb).trans (a2 b hb), b3.trans a3, b4.trans a4,
    Nat.le_trans a5 b5, b6.trans a6, b7.trans a7, a8.same_trans b8⟩

/-- `Game::internalDecayItem` on one flagged item leaves every other
allocated item alone on the side of the wheel. -/
theorem internalDecayItem_keeps (env : DecayEnv) (hS : env.SuccessorHasTime) (fuel : Nat)
    (g g2 : Game) (x y bucket : Nat) (hflag : g.decaying y = .DECAYING_TRUE) (hxy : y ≠ x)
    (hx : x < g.world.nextItem) (h : internalDecayItem env fuel g y = some g2) :
    WheelKeeps x bucket g g2 ∧ g2.decayItems = g.decayItems := by
  obtain ⟨g3, h3, ha, hb⟩ := internalDecayItem_eq env hS fuel g y hflag
  rw [h] at h3
  cases h3
  have hlog : (g.logDecay y).decayLog.count x = g.decayLog.count x := by
    show (g.decayLog ++ [y]).count x = _
    simp [List.count_cons, hxy]
  by_cases hd : (env.itemTypes (g.world.items y).id).decayTo ≠ 0
  · obtain ⟨t, n, ht, -, hs⟩ := ha hd
    obtain ⟨⟨f1, f2, f3, f4, f5, f6⟩, hn⟩ := transformItem_frame env fuel _ y _ _ t n ht
    have hx' : x < (g.logDecay y).world.nextItem := hx
    have hxt := f6 x (Ne.symm hxy) hx'
    have hit : t.world.items x = g.world.items x :=
      transformItem_items env fuel _ y _ _ t n ht x (Ne.symm hxy) hx'
    have hkt : WheelKeeps x bucket g t :=
      ⟨by rw [f1]; rfl, fun b _ => by rw [f2]; rfl, hxt.2, hxt.1, f5, f3, by rw [f4]; exact hlog,
        SameItem_of_eq hit⟩
    have hdt : t.decayItems = g.decayItems := f2
    rcases hs with rfl | ⟨m, rfl, rfl⟩
    · exact ⟨hkt, hdt⟩
    · have hnx : m ≠ x := by
        rcases hn m rfl with h1 | ⟨h1, -⟩
        · rw [h1]; exact hxy
        · exact fun e => by rw [e] at h1; exact absurd hx' (Nat.not_lt.mpr h1)
      refine ⟨hkt.keeps_trans ⟨?_, fun b _ => rfl, rfl, ?_, Nat.le_refl _, rfl, rfl,
        register_sameItem t m x⟩, hdt⟩
      · simp [List.count_cons, hnx]
      · exact register_decaying_of_ne t m x (Ne.symm hnx)
  · rw [hb (by simpa using hd)]
    refine ⟨⟨rfl, fun b _ => rfl, rfl, rfl, by simp [Game.withWorld, Game.logDecay], rfl, hlog,
      SameItem_of_eq ?_⟩, rfl⟩
    exact internalRemoveItem_items_of_ne _ _ _ _ _ _ x (Ne.symm hxy)

theorem WheelKeeps_setDecaying (x bucket y : Nat) (g : Game) (s : ItemDecayState_t) (hxy : y ≠ x) :
    WheelKeeps x bucket g (g.setDecaying y s) :=
  ⟨rfl, fun _ _ => rfl, rfl, Function.update_noteq (Ne.symm hxy) _ _, Nat.le_refl _, rfl, rfl,
    SameItem_refl _⟩

theorem WheelKeeps_decreaseDuration (x bucket y : Nat) (g : Game) (t : Int) (hxy : y ≠ x) :
    WheelKeeps x bucket g (g.decreaseDuration y t) :=
  ⟨rfl, fun _ _ => rfl, Function.update_noteq (Ne.symm hxy) _ _, rfl, Nat.le_refl _, rfl, rfl,
    SameItem_refl _⟩

theorem WheelKeeps_eraseCurrent (x bucket : Nat) (g : Game) (done rest : List Nat) :
    WheelKeeps x bucket g (g.eraseCurrent bucket done rest) :=
  ⟨rfl, fun b hb => by simp [Game.eraseCurrent, Function.update_noteq hb], rfl, rfl,
    Nat.le_refl _, rfl, rfl, SameItem_refl _⟩

theorem WheelKeeps_release (x bucket y : Nat) (g : Game) :
    WheelKeeps x bucket g (g.withWorld (ReleaseItem g.world y)) :=
  ⟨rfl, fun _ _ => rfl, rfl, rfl, Nat.le_refl _, rfl, rfl, SameItem_refl _⟩

theorem WheelKeeps_pushBack (x bucket b y : Nat) (g : Game) (hxy : y ≠ x) :
    WheelKeeps x bucket g (g.pushBack b y) := by
  refine ⟨rfl, fun b1 _ => ?_, rfl, rfl, Nat.le_refl _, rfl, rfl, SameItem_refl _⟩
  by_cases hb : b1 = b
  · subst hb
    simp [Game.pushBack, List.count_cons, hxy]
  · simp [Game.pushBack, Function.update_noteq hb]

/-- The calls `internalDecayItem(item); ReleaseItem(item);` on a flagged item
return and leave every other allocated item alone. -/
theorem expire_keeps (env : DecayEnv) (hS : env.SuccessorHasTime) (fuel : Nat) (g : Game)
    (x y bucket : Nat) (hflag : g.decaying y = .DECAYING_TRUE) (hxy : y ≠ x)
    (hx : x < g.world.nextItem) :
    ∃ g1, expire env fuel g y = some g1 ∧ WheelKeeps x bucket g g1 ∧
      g1.decayItems = g.decayItems := by
  obtain ⟨g2, h2, -⟩ := internalDecayItem_eq env hS fuel g y hflag
  obtain ⟨k, hd⟩ := internalDecayItem_keeps env hS fuel g g2 x y bucket hflag hxy hx h2
  refine ⟨g2.withWorld (ReleaseItem g2.world y), by simp only [expire, h2], ?_, hd⟩
  exact k.keeps_trans (WheelKeeps_release x bucket y g2)

/-- The turn of another, flagged item in the loop of `Game::checkDecay`
returns and leaves item `x` alone; afterwards the bucket holds the items left
in place and the items still to visit. -/
theorem decayTurn_keeps (env : DecayEnv) (hS : env.SuccessorHasTime) (fuel bucket : Nat)
    (done rest : List Nat) (g : Game) (x y : Nat) (hflag : g.decaying y = .DECAYING_TRUE)
    (hxy : y ≠ x) (hx : x < g.world.nextItem) :
    ∃ g1 stays, decayTurn env fuel bucket done rest g y = some (g1, stays) ∧
      WheelKeeps x bucket g g1 ∧
      (g.decayItems bucket = done ++ y :: rest →
        g1.decayItems bucket = (if stays = true then done ++ [y] else done) ++ rest) := by
  unfold decayTurn
  by_cases h1 : env.canDecay g y = false
  · rw [if_pos h1]
    refine ⟨_, false, rfl, ?_, fun _ => by simp⟩
    exact ((WheelKeeps_setDecaying x bucket y g _ hxy).keeps_trans
      (WheelKeeps_release x bucket y _)).keeps_trans
      (WheelKeeps_eraseCurrent x bucket _ done rest)
  · rw [if_neg h1]
    simp only []
    have k1 : WheelKeeps x bucket g ((g.decreaseDuration y
        (decreaseTime env (g.duration y))).eraseCurrent bucket done rest) :=
      (WheelKeeps_decreaseDuration x bucket y g _ hxy).keeps_trans
        (WheelKeeps_eraseCurrent x bucket _ done rest)
    obtain ⟨ge, e1, e2, e3⟩ := expire_keeps env hS fuel ((g.decreaseDuration y
      (decreaseTime env (g.duration y))).eraseCurrent bucket done rest) x y bucket
      (by exact hflag) hxy hx
    by_cases h2 : durationLeft env (g.duration y) ≤ 0
    · rw [if_pos h2]
      refine ⟨ge, false, by rw [e1]; rfl, k1.keeps_trans e2, fun _ => ?_⟩
      rw [e3]; simp
    · rw [if_neg h2]
      by_cases h3 : durationLeft env (g.duration y) < revolution env
      · rw [if_pos h3]
        split_ifs with h4
        · refine ⟨ge, false, by rw [e1]; rfl, k1.keeps_trans e2, fun _ => ?_⟩
          rw [e3]; simp
        · refine ⟨_, false, rfl, k1.keeps_trans (WheelKeeps_pushBack x bucket _ y _ hxy), fun _ => ?_⟩
          rw [pushBack_other _ _ _ _ (Ne.symm h4)]
          exact eraseCurrent_same _ _ _ _
      · rw [if_neg h3]
        refine ⟨_, true, rfl, WheelKeeps_decreaseDuration x bucket y g _ hxy, fun hc => ?_⟩
        simp [hc]

/-- The loop of `Game::checkDecay` over items other than `x` in a well formed
wheel leaves `x` alone and reaches the items behind them. -/
theorem decayBucket_front (env : DecayEnv) (hS : env.SuccessorHasTime) (fuel bucket x : Nat)
    (hb : bucket < env.EVENT_DECAY_BUCKETS) (tail : List Nat) :
    ∀ (pre done : List Nat) (g : Game), WheelOk env g → x ∉ pre → x < g.world.nextItem →
      g.decayItems bucket = done ++ (pre ++ tail) →
      ∃ g1 done1, decayBucket env fuel bucket done g (pre ++ tail)
          = decayBucket env fuel bucket done1 g1 tail ∧
        WheelKeeps x bucket g g1 ∧ g1.decayItems bucket = done1 ++ tail ∧
        done1.count x = done.count x ∧ WheelOk env g1 := by
  intro pre
  induction pre with
  | nil =>
    intro done g hok _ _ hc
    exact ⟨g, done, rfl, WheelKeeps_refl x bucket g, hc, rfl, hok⟩
  | cons y pre ih =>
    intro done g hok hx hal hc
    have hxy : y ≠ x := fun e => hx (by simp [e])
    have hxp : x ∉ pre := fun e => hx (by simp [e])
    have hc' : g.decayItems bucket = done ++ y :: (pre ++ tail) := by simpa using hc
    have hpos : 0 < wheelCount env g y := by
      have := wheelCount_eraseCurrent env g bucket y y done (pre ++ tail) hb hc'
      simp only [if_true] at this
      omega
    have hflag : g.decaying y = .DECAYING_TRUE := ((hok.2 y).2 hpos).1
    obtain ⟨g1, stays, e1, k1, c1⟩ := decayTurn_keeps env hS fuel bucket done (pre ++ tail) g x y
      hflag hxy hal
    have c1' := c1 hc'
    have hok1 := (decayTurn_ok env fuel bucket done (pre ++ tail) g g1 y stays hok hb hc' e1).1
    obtain ⟨g2, done2, e2, k2, c2, n2, hok2⟩ := ih (if stays = true then done ++ [y] else done) g1
      hok1 hxp (Nat.lt_of_lt_of_le hal k1.2.2.2.2.1) c1'
    refine ⟨g2, done2, ?_, k1.keeps_trans k2, c2, ?_, hok2⟩
    · show decayBucket env fuel bucket done g (y :: (pre ++ tail)) = _
      rw [decayBucket, e1]
      exact e2
    · rw [n2]
      split_ifs
      · simp [List.count_cons, hxy]
      · rfl

/-- The loop of `Game::checkDecay` over a bucket of a well formed wheel that
does not hold `x` returns and leaves `x` alone. -/
theorem decayBucket_keeps (env : DecayEnv) (hS : env.SuccessorHasTime) (fuel bucket x : Nat)
    (hb : bucket < env.EVENT_DECAY_BUCKETS)
    (items done : List Nat) (g : Game) (hok : WheelOk env g) (hx : x ∉ items)
    (hal : x < g.world.nextItem) (hc : g.decayItems bucket = done ++ items) :
    ∃ g1, decayBucket env fuel bucket done g items = some g1 ∧ WheelKeeps x bucket g g1 ∧
      (g1.decayItems bucket).count x = done.count x ∧ WheelOk env g1 := by
  obtain ⟨g1, done1, e1, k1, c1, n1, hok1⟩ := decayBucket_front env hS fuel bucket x hb [] items
    done g hok (by simpa using hx) hal (by simpa using hc)
  rw [List.append_nil] at e1
  refine ⟨g1, by rw [e1]; rfl, k1, ?_, hok1⟩
  rw [c1, List.append_nil, n1]

/-- A tick of `Game::checkDecay` on another bucket returns and leaves an item
of the wheel where and as it is. -/
theorem checkDecay_other (env : DecayEnv) (hS : env.SuccessorHasTime) (fuel : Nat) (g : Game)
    (x b : Nat) (d : Int) (h : InWheel env g x b d) (hok : WheelOk env g)
    (hne : (g.lastBucket + 1) % env.EVENT_DECAY_BUCKETS ≠ b) :
    ∃ g1, checkDecay env fuel g = some g1 ∧ InWheel env g1 x b d ∧
      g1.lastBucket = (g.lastBucket + 1) % env.EVENT_DECAY_BUCKETS ∧
      g1.decayLog.count x = g.decayLog.count x ∧ WheelOk env g1 ∧
      SameItem (g.world.items x) (g1.world.items x) := by
  obtain ⟨hb, hl, hc, ho, hp, hd, hf, hal⟩ := h
  have hB : 0 < env.EVENT_DECAY_BUCKETS := Nat.lt_of_le_of_lt (Nat.zero_le _) hb
  have hbk : (g.lastBucket + 1) % env.EVENT_DECAY_BUCKETS < env.EVENT_DECAY_BUCKETS :=
    Nat.mod_lt _ hB
  have hx : x ∉ g.decayItems ((g.lastBucket + 1) % env.EVENT_DECAY_BUCKETS) :=
    List.count_eq_zero.mp (ho _ hbk hne)
  obtain ⟨g1, e1, ⟨k1, k2, k3, k4, k5, k6, k7, k8⟩, c1, -⟩ := decayBucket_keeps env hS fuel
    ((g.lastBucket + 1) % env.EVENT_DECAY_BUCKETS) x hbk _ [] g hok hx hal (by simp)
  obtain ⟨q1, q2, q3, q4, q5, q6, q7⟩ := cleanup_count env
    { g1 with lastBucket := (g.lastBucket + 1) % env.EVENT_DECAY_BUCKETS } x
  have hpend : ({ g1 with lastBucket := (g.lastBucket + 1) % env.EVENT_DECAY_BUCKETS } :
      Game).toDecayItems.count x = 0 := by rw [← hp]; exact k1
  simp only [hpend, ite_self, add_zero] at q1
  have hstep : checkDecay env fuel g = some (cleanup env
      { g1 with lastBucket := (g.lastBucket + 1) % env.EVENT_DECAY_BUCKETS }) := by
    simp only [checkDecay, e1]
  refine ⟨_, hstep, ⟨hb, ?_, ?_, ?_, ?_, ?_, ?_, ?_⟩, q5, ?_, checkDecay_ok env fuel g _ hok hstep,
    k8.same_trans (cleanup_sameItem env _ x)⟩
  · rw [q5]; exact hbk
  · rw [q1 b]
    exact (k2 b (Ne.symm hne)).trans hc
  · intro b1 hb1 hb1b
    rw [q1 b1]
    by_cases hbb : b1 = (g.lastBucket + 1) % env.EVENT_DECAY_BUCKETS
    · rw [hbb]; simpa using c1
    · exact (k2 b1 hbb).trans (ho b1 hb1 hb1b)
  · rw [q2]; rfl
  · rw [q3]; exact k3.trans hd
  · rw [q4]; exact k4.trans hf
  · rw [q6]; exact Nat.lt_of_lt_of_le hal k5
  · rw [q7]; exact k7

/-- A tick of `Game::checkDecay` on the bucket of an item of the wheel comes
to the turn of that item with the item untouched. -/
theorem checkDecay_reaches (env : DecayEnv) (hS : env.SuccessorHasTime) (fuel : Nat) (g : Game)
    (x b : Nat) (d : Int) (h : InWheel env g x b d) (hok : WheelOk env g)
    (hb : (g.lastBucket + 1) % env.EVENT_DECAY_BUCKETS = b) :
    ∃ post gx donex, x ∉ post ∧ donex.count x = 0 ∧ WheelKeeps x b g gx ∧
      gx.decayItems b = donex ++ x :: post ∧ WheelOk env gx ∧
      checkDecay env fuel g = (decayBucket env fuel b donex gx (x :: post)).map
        fun g1 => cleanup env { g1 with lastBucket := b } := by
  obtain ⟨hbB, -, hc, -, -, -, -, hal⟩ := h
  obtain ⟨pre, post, e, hpre, hpost⟩ := split_of_count_one x _ hc
  obtain ⟨gx, donex, e1, k1, c1, n1, hok1⟩ := decayBucket_front env hS fuel b x hbB (x :: post)
    pre [] g hok hpre hal (by simpa using e)
  refine ⟨post, gx, donex, hpost, by simpa using n1, k1, c1, hok1, ?_⟩
  rw [checkDecay_eq_map, hb, e, e1]

/-- The end of a tick of `Game::checkDecay` after the turn of item `x`: the
items behind it and `Game::cleanup` leave `x` alone. -/
theorem checkDecay_tail (env : DecayEnv) (hS : env.SuccessorHasTime) (fuel : Nat) (g1 : Game)
    (x b : Nat) (hb : b < env.EVENT_DECAY_BUCKETS) (done1 post : List Nat) (hok : WheelOk env g1)
    (hpost : x ∉ post) (hal : x < g1.world.nextItem)
    (hc : g1.decayItems b = done1 ++ post) (hp : g1.toDecayItems.count x = 0) :
    ∃ g3, (decayBucket env fuel b done1 g1 post).map
        (fun g2 => cleanup env { g2 with lastBucket := b }) = some g3 ∧
      g3.lastBucket = b ∧ g3.toDecayItems.count x = 0 ∧
      (g3.decayItems b).count x = done1.count x ∧
      (∀ b1, b1 ≠ b → (g3.decayItems b1).count x = (g1.decayItems b1).count x) ∧
      g3.duration x = g1.duration x ∧ g3.decaying x = g1.decaying x ∧
      x < g3.world.nextItem ∧ g3.decayLog.count x = g1.decayLog.count x ∧
      WheelOk env g3 ∧ SameItem (g1.world.items x) (g3.world.items x) := by
  obtain ⟨g2, e2, ⟨k1, k2, k3, k4, k5, k6, k7, k8⟩, c2, hok2⟩ := decayBucket_keeps env hS fuel b
    x hb post done1 g1 hok hpost hal hc
  obtain ⟨q1, q2, q3, q4, q5, q6, q7⟩ := cleanup_count env { g2 with lastBucket := b } x
  have hpend : ({ g2 with lastBucket := b } : Game).toDecayItems.count x = 0 := by
    rw [← hp]; exact k1
  simp only [hpend, ite_self, add_zero] at q1
  refine ⟨_, by rw [e2]; rfl, q5, by rw [q2]; rfl, ?_, ?_, ?_, ?_, ?_, ?_,
    cleanup_ok env _ ⟨hb, hok2.2⟩, k8.same_trans (cleanup_sameItem env _ x)⟩
  · rw [q1 b]; exact c2
  · intro b1 hb1
    rw [q1 b1]; exact k2 b1 hb1
  · rw [q3]; exact k3
  · rw [q4]; exact k4
  · rw [q6]; exact Nat.lt_of_lt_of_le hal k5
  · rw [q7]; exact k7

/-- The calls `internalDecayItem(item); ReleaseItem(item);` on a flagged item
return and log the item once. -/
theorem expire_log (env : DecayEnv) (hS : env.SuccessorHasTime) (fuel : Nat) (g : Game)
    (x : Nat) (hflag : g.decaying x = .DECAYING_TRUE) :
    ∃ g1, expire env fuel g x = some g1 ∧ g1.decayLog.count x = g.decayLog.count x + 1 ∧
      g1.decayItems = g.decayItems ∧ g.world.nextItem ≤ g1.world.nextItem := by
  obtain ⟨g2, h2, -⟩ := internalDecayItem_eq env hS fuel g x hflag
  obtain ⟨l1, l2⟩ := internalDecayItem_log env hS fuel g g2 x hflag h2
  refine ⟨g2.withWorld (ReleaseItem g2.world x), by simp only [expire, h2], ?_, ?_, ?_⟩
  · show g2.decayLog.count x = _
    rw [l1]
    simp
  · exact internalDecayItem_decayItems env fuel g g2 x h2
  · simpa [Game.withWorld] using l2

/-- The end of a tick of `Game::checkDecay` after the turn of item `x`, as far
as the decay log goes. -/
theorem checkDecay_tail_log (env : DecayEnv) (hS : env.SuccessorHasTime) (fuel : Nat) (g1 : Game)
    (x b : Nat) (hb : b < env.EVENT_DECAY_BUCKETS) (done1 post : List Nat) (hok : WheelOk env g1)
    (hpost : x ∉ post) (hal : x < g1.world.nextItem)
    (hc : g1.decayItems b = done1 ++ post) :
    ∃ g3, (decayBucket env fuel b done1 g1 post).map
        (fun g2 => cleanup env { g2 with lastBucket := b }) = some g3 ∧
      g3.decayLog.count x = g1.decayLog.count x := by
  obtain ⟨g2, e2, ⟨-, -, -, -, -, -, k7, -⟩, -, -⟩ := decayBucket_keeps env hS fuel b x hb post
    done1 g1 hok hpost hal hc
  obtain ⟨-, -, -, -, -, -, q7⟩ := cleanup_count env { g2 with lastBucket := b } x
  exact ⟨_, by rw [e2]; rfl, by rw [q7]; exact k7⟩

/-- A tick of `Game::checkDecay` on the bucket of an item of the wheel that
can decay hands the item to `Game::internalDecayItem` once when the duration
left after the visit is `<= 0`, or is less than a revolution and maps to the
same bucket. -/
theorem checkDecay_fire (env : DecayEnv) (hS : env.SuccessorHasTime) (fuel : Nat) (g : Game)
    (x b : Nat) (d : Int) (it : Item) (h : InWheel env g x b d) (hok : WheelOk env g)
    (hit : SameItem it (g.world.items x))
    (hb : (g.lastBucket + 1) % env.EVENT_DECAY_BUCKETS = b)
    (helig : ∀ g1 : Game, SameItem it (g1.world.items x) → g1.decaying x = .DECAYING_TRUE →
      env.canDecay g1 x = true)
    (hcase : durationLeft env d ≤ 0 ∨
      (durationLeft env d < revolution env ∧
        (b + ((durationLeft env d + (env.EVENT_DECAYINTERVAL / 2 : Nat)) / 1000).toNat)
          % env.EVENT_DECAY_BUCKETS = b)) :
    ∃ g1, checkDecay env fuel g = some g1 ∧ g1.decayLog.count x = g.decayLog.count x + 1 := by
  obtain ⟨post, gx, donex, hpost, hdx, ⟨k1, k2, k3, k4, k5, k6, k7, k8⟩, cx, hokx, e⟩ :=
    checkDecay_reaches env hS fuel g x b d h hok hb
  obtain ⟨hbB, -, -, -, -, hd, hf, hal⟩ := h
  have hflagx : gx.decaying x = .DECAYING_TRUE := k4.trans hf
  have hcan : env.canDecay gx x = true := helig gx (hit.same_trans k8) hflagx
  have hdur : gx.duration x = d := k3.trans hd
  have halx : x < gx.world.nextItem := Nat.lt_of_lt_of_le hal k5
  obtain ⟨g1, x1, x2, x3, x4⟩ := expire_log env hS fuel ((gx.decreaseDuration x
    (decreaseTime env d)).eraseCurrent b donex post) x (by exact hflagx)
  have t1 : decayTurn env fuel b donex post gx x = some (g1, false) := by
    by_cases hle : durationLeft env d ≤ 0
    · simp only [decayTurn, hcan, Bool.true_eq_false, if_false, hdur, hle, if_true, x1,
        Option.map_some']
    · rcases hcase with hc | ⟨hc1, hc2⟩
      · exact absurd hc hle
      · simp only [decayTurn, hcan, Bool.true_eq_false, if_false, hdur, hle, hc1, hc2, if_true,
          x1, Option.map_some']
  have hok1 := (decayTurn_ok env fuel b donex post gx g1 x false hokx hbB cx t1).1
  obtain ⟨g3, e3, l3⟩ := checkDecay_tail_log env hS fuel g1 x b hbB donex post
    hok1 hpost (Nat.lt_of_lt_of_le halx x4)
    (by rw [x3]; exact eraseCurrent_same _ _ _ _)
  refine ⟨g3, ?_, ?_⟩
  · rw [e, decayBucket, t1]
    exact e3
  · rw [l3, x2]
    show gx.decayLog.count x + 1 = _
    rw [k7]

/-- A tick of `Game::checkDecay` on the bucket of an item of the wheel that
can decay and has, after the visit, less than a revolution left moves the item
to the bucket of the rest, when that is another bucket. -/
theorem checkDecay_move (env : DecayEnv) (hS : env.SuccessorHasTime) (fuel : Nat) (g : Game)
    (x b : Nat) (d : Int) (it : Item) (h : InWheel env g x b d) (hok : WheelOk env g)
    (hit : SameItem it (g.world.items x))
    (hb : (g.lastBucket + 1) % env.EVENT_DECAY_BUCKETS = b)
    (helig : ∀ g1 : Game, SameItem it (g1.world.items x) → g1.decaying x = .DECAYING_TRUE →
      env.canDecay g1 x = true)
    (hc0 : ¬ durationLeft env d ≤ 0) (hc1 : durationLeft env d < revolution env)
    (hc2 : (b + ((durationLeft env d + (env.EVENT_DECAYINTERVAL / 2 : Nat)) / 1000).toNat)
      % env.EVENT_DECAY_BUCKETS ≠ b) :
    ∃ g1, checkDecay env fuel g = some g1 ∧
      InWheel env g1 x
        ((b + ((durationLeft env d + (env.EVENT_DECAYINTERVAL / 2 : Nat)) / 1000).toNat)
          % env.EVENT_DECAY_BUCKETS)
        (d - decreaseTime env d) ∧
      g1.lastBucket = b ∧ g1.decayLog.count x = g.decayLog.count x ∧ WheelOk env g1 ∧
      SameItem it (g1.world.items x) := by
  obtain ⟨post, gx, donex, hpost, hdx, ⟨k1, k2, k3, k4, k5, k6, k7, k8⟩, cx, hokx, e⟩ :=
    checkDecay_reaches env hS fuel g x b d h hok hb
  obtain ⟨hbB, -, -, ho, hp, hd, hf, hal⟩ := h
  have hB : 0 < env.EVENT_DECAY_BUCKETS := Nat.lt_of_le_of_lt (Nat.zero_le _) hbB
  have hflagx : gx.decaying x = .DECAYING_TRUE := k4.trans hf
  have hcan : env.canDecay gx x = true := helig gx (hit.same_trans k8) hflagx
  have hdur : gx.duration x = d := k3.trans hd
  have halx : x < gx.world.nextItem := Nat.lt_of_lt_of_le hal k5
  have t1 : decayTurn env fuel b donex post gx x
      = some (((gx.decreaseDuration x (decreaseTime env d)).eraseCurrent b donex post).pushBack
        ((b + ((durationLeft env d + (env.EVENT_DECAYINTERVAL / 2 : Nat)) / 1000).toNat)
          % env.EVENT_DECAY_BUCKETS) x, false) := by
    simp only [decayTurn, hcan, Bool.true_eq_false, if_false, hdur, hc0, hc1, hc2, if_true]
  have hok1 := (decayTurn_ok env fuel b donex post gx _ x false hokx hbB cx t1).1
  obtain ⟨g3, e3, r1, r2, r3, r4, r5, r6, r7, r8, r9, r10⟩ := checkDecay_tail env hS fuel
    (((gx.decreaseDuration x (decreaseTime env d)).eraseCurrent b donex post).pushBack
      ((b + ((durationLeft env d + (env.EVENT_DECAYINTERVAL / 2 : Nat)) / 1000).toNat)
        % env.EVENT_DECAY_BUCKETS) x)
    x b hbB donex post hok1 hpost (by exact halx)
    (by rw [pushBack_other _ _ _ _ (Ne.symm hc2)]; exact eraseCurrent_same _ _ _ _)
    (by exact k1.trans hp)
  refine ⟨g3, ?_, ⟨Nat.mod_lt _ hB, by rw [r1]; exact hbB, ?_, ?_, r2, ?_, ?_, r7⟩, r1, ?_, r9,
    (hit.same_trans k8).same_trans r10⟩
  · rw [e, decayBucket, t1]
    exact e3
  · rw [r4 _ hc2, pushBack_same]
    have : (gx.decayItems ((b + ((durationLeft env d + (env.EVENT_DECAYINTERVAL / 2 : Nat))
        / 1000).toNat) % env.EVENT_DECAY_BUCKETS)).count x = 0 :=
      (k2 _ hc2).trans (ho _ (Nat.mod_lt _ hB) hc2)
    simp only [Game.eraseCurrent, Game.decreaseDuration, Function.update_noteq hc2,
      List.count_append, this, List.count_cons_self, List.count_nil]
  · intro b1 hb1 hb1n
    by_cases hbb : b1 = b
    · rw [hbb, r3, hdx]
    · rw [r4 b1 hbb, pushBack_other _ _ _ _ hb1n]
      simp only [Game.eraseCurrent, Game.decreaseDuration, Function.update_noteq hbb]
      exact (k2 b1 hbb).trans (ho b1 hb1 hbb)
  · rw [r5]
    show Function.update gx.duration x _ x = _
    rw [Function.update_same, hdur]
  · rw [r6]; exact k4.trans hf
  · rw [r8]; exact k7

/-- A tick of `Game::checkDecay` on the bucket of an item of the wheel that
can decay and has, after the visit, a revolution or more left takes one
revolution off its duration and leaves it in place. -/
theorem checkDecay_stay (env : DecayEnv) (hS : env.SuccessorHasTime) (fuel : Nat) (g : Game)
    (x b : Nat) (d : Int) (it : Item) (h : InWheel env g x b d) (hok : WheelOk env g)
    (hit : SameItem it (g.world.items x))
    (hb : (g.lastBucket + 1) % env.EVENT_DECAY_BUCKETS = b)
    (helig : ∀ g1 : Game, SameItem it (g1.world.items x) → g1.decaying x = .DECAYING_TRUE →
      env.canDecay g1 x = true)
    (hc0 : ¬ durationLeft env d ≤ 0) (hc1 : ¬ durationLeft env d < revolution env) :
    ∃ g1, checkDecay env fuel g = some g1 ∧
      InWheel env g1 x b (d - decreaseTime env d) ∧
      g1.lastBucket = b ∧ g1.decayLog.count x = g.decayLog.count x ∧ WheelOk env g1 ∧
      SameItem it (g1.world.items x) := by
  obtain ⟨post, gx, donex, hpost, hdx, ⟨k1, k2, k3, k4, k5, k6, k7, k8⟩, cx, hokx, e⟩ :=
    checkDecay_reaches env hS fuel g x b d h hok hb
  obtain ⟨hbB, -, -, ho, hp, hd, hf, hal⟩ := h
  have hflagx : gx.decaying x = .DECAYING_TRUE := k4.trans hf
  have hcan : env.canDecay gx x = true := helig gx (hit.same_trans k8) hflagx
  have hdur : gx.duration x = d := k3.trans hd
  have halx : x < gx.world.nextItem := Nat.lt_of_lt_of_le hal k5
  have t1 : decayTurn env fuel b donex post gx x
      = some (gx.decreaseDuration x (decreaseTime env d), true) := by
    simp only [decayTurn, hcan, Bool.true_eq_false, if_false, hdur, hc0, hc1]
  have hok1 := (decayTurn_ok env fuel b donex post gx _ x true hokx hbB cx t1).1
  obtain ⟨g3, e3, r1, r2, r3, r4, r5, r6, r7, r8, r9, r10⟩ := checkDecay_tail env hS fuel
    (gx.decreaseDuration x (decreaseTime env d))
    x b hbB (donex ++ [x]) post hok1 hpost (by exact halx)
    (by rw [decreaseDuration_decayItems, cx]; simp)
    (by exact k1.trans hp)
  refine ⟨g3, ?_, ⟨hbB, by rw [r1]; exact hbB, ?_, ?_, r2, ?_, ?_, r7⟩, r1, ?_, r9,
    (hit.same_trans k8).same_trans r10⟩
  · rw [e, decayBucket, t1]
    exact e3
  · rw [r3]; simp [hdx]
  · intro b1 hb1 hb1n
    rw [r4 b1 hb1n, decreaseDuration_decayItems]
    exact (k2 b1 hb1n).trans (ho b1 hb1 hb1n)
  · rw [r5]
    show Function.update gx.duration x _ x = _
    rw [Function.update_same, hdur]
  · rw [r6]; exact k4.trans hf
  · rw [r8]; exact k7

/-! ## Decay wheel: the tick on which an item decays -/

theorem revolution_eq (env : DecayEnv)
    (hR : env.EVENT_DECAYINTERVAL * env.EVENT_DECAY_BUCKETS < 2147483648) :
    revolution env = ((env.EVENT_DECAYINTERVAL * env.EVENT_DECAY_BUCKETS : Nat) : Int) :=
  toInt32_of_lt _ hR

theorem int32_of_small (d : Int) (h0 : 0 ≤ d) (h1 : d < 2147483648) :
    toInt32 (toUInt32 d) = d := by
  unfold toUInt32
  have e : (d % 4294967296).toNat = d.toNat := by omega
  rw [e, toInt32_of_lt _ (by omega)]
  omega

theorem int32_of_big (d : Int) (h0 : 2147483648 ≤ d) (h1 : d < 4294967296) :
    toInt32 (toUInt32 d) = d - 4294967296 := by
  unfold toUInt32 toInt32
  have e : (d % 4294967296).toNat = d.toNat := by omega
  rw [e]
  have e2 : d.toNat % 4294967296 = d.toNat := by omega
  rw [e2, if_neg (by omega)]
  omega

/-- The turn of an item whose duration fits an `int32_t`, in a wheel whose
revolution does: one revolution, or all that is left, is taken off. -/
theorem turn_small (env : DecayEnv) (d : Int) (h0 : 0 ≤ d) (h1 : d < 2147483648)
    (hR : env.EVENT_DECAYINTERVAL * env.EVENT_DECAY_BUCKETS < 2147483648) :
    decreaseTime env d
        = min ((env.EVENT_DECAYINTERVAL * env.EVENT_DECAY_BUCKETS : Nat) : Int) d ∧
    durationLeft env d
        = d - min ((env.EVENT_DECAYINTERVAL * env.EVENT_DECAY_BUCKETS : Nat) : Int) d := by
  have e1 : decreaseTime env d
      = min ((env.EVENT_DECAYINTERVAL * env.EVENT_DECAY_BUCKETS : Nat) : Int) d := by
    unfold decreaseTime
    rw [revolution_eq env hR, int32_of_small d h0 h1]
  refine ⟨e1, ?_⟩
  unfold durationLeft
  rw [e1, int32_of_small d h0 h1]
  apply int32_of_small
  · have := min_le_right ((env.EVENT_DECAYINTERVAL * env.EVENT_DECAY_BUCKETS : Nat) : Int) d
    omega
  · have : (0 : Int) ≤ min ((env.EVENT_DECAYINTERVAL * env.EVENT_DECAY_BUCKETS : Nat) : Int) d :=
      le_min (by exact_mod_cast Nat.zero_le _) h0
    omega

/-- The turn of an item whose duration is negative as an `int32_t`: nothing
is left. -/
theorem turn_big (env : DecayEnv) (d : Int) (h0 : 2147483648 ≤ d) (h1 : d < 4294967296)
    (hR : env.EVENT_DECAYINTERVAL * env.EVENT_DECAY_BUCKETS < 2147483648) :
    durationLeft env d = 0 := by
  have e1 : decreaseTime env d = d - 4294967296 := by
    unfold decreaseTime
    rw [revolution_eq env hR, int32_of_big d h0 h1]
    apply min_eq_right
    have : (0 : Int) ≤ ((env.EVENT_DECAYINTERVAL * env.EVENT_DECAY_BUCKETS : Nat) : Int) := by
      exact_mod_cast Nat.zero_le _
    omega
  unfold durationLeft
  rw [e1, int32_of_big d h0 h1, sub_self]
  rfl

/-- An item of the wheel waits untouched through the ticks on the buckets
before its own. -/
theorem ticks_wait (env : DecayEnv) (hS : env.SuccessorHasTime) (fuel x b : Nat) (d : Int)
    (it : Item) :
    ∀ (n : Nat) (g : Game), InWheel env g x b d → WheelOk env g →
      SameItem it (g.world.items x) →
      b = (g.lastBucket + 1 + n) % env.EVENT_DECAY_BUCKETS → n < env.EVENT_DECAY_BUCKETS →
      ∃ g1, ticks env fuel n g = some g1 ∧ InWheel env g1 x b d ∧
        (g1.lastBucket + 1) % env.EVENT_DECAY_BUCKETS = b ∧
        g1.decayLog.count x = g.decayLog.count x ∧ WheelOk env g1 ∧
        SameItem it (g1.world.items x) := by
  intro n
  induction n with
  | zero =>
    intro g h hok hit hb _
    exact ⟨g, rfl, h, by rw [hb, Nat.add_zero], rfl, hok, hit⟩
  | succ n ih =>
    intro g h hok hit hb hn
    have hne : (g.lastBucket + 1) % env.EVENT_DECAY_BUCKETS ≠ b := by
      rw [hb]
      exact (add_mod_ne (g.lastBucket + 1) (n + 1) _ (Nat.succ_pos n) hn).symm
    obtain ⟨g1, e1, w1, l1, c1, ok1, s1⟩ := checkDecay_other env hS fuel g x b d h hok hne
    have hb1 : b = (g1.lastBucket + 1 + n) % env.EVENT_DECAY_BUCKETS := by
      rw [hb, l1]
      conv_rhs => rw [Nat.add_assoc, Nat.add_mod, Nat.mod_mod, ← Nat.add_mod]
      congr 1
      omega
    obtain ⟨g2, e2, w2, l2, c2, ok2, s2⟩ := ih g1 w1 ok1 (hit.same_trans s1) hb1 (by omega)
    refine ⟨g2, ?_, w2, l2, c2.trans c1, ok2, s2⟩
    simp only [ticks, e1, Option.some_bind]
    exact e2

/-- An item of the wheel that can decay and has nothing left after its next
visit is handed to `Game::internalDecayItem` on the tick on its bucket and on
none of the ticks before. -/
theorem fires_within (env : DecayEnv) (hS : env.SuccessorHasTime) (fuel x b : Nat) (d : Int)
    (it : Item) (n : Nat) (g : Game) (h : InWheel env g x b d) (hok : WheelOk env g)
    (hit : SameItem it (g.world.items x))
    (helig : ∀ g1 : Game, SameItem it (g1.world.items x) → g1.decaying x = .DECAYING_TRUE →
      env.canDecay g1 x = true)
    (hd : durationLeft env d ≤ 0)
    (hb : b = (g.lastBucket + 1 + n) % env.EVENT_DECAY_BUCKETS)
    (hn : n < env.EVENT_DECAY_BUCKETS) :
    ∃ g1 g2, ticks env fuel n g = some g1 ∧ g1.decayLog.count x = g.decayLog.count x ∧
      checkDecay env fuel g1 = some g2 ∧ g2.decayLog.count x = g.decayLog.count x + 1 := by
  obtain ⟨g1, e1, w1, l1, c1, ok1, s1⟩ := ticks_wait env hS fuel x b d it n g h hok hit hb hn
  obtain ⟨g2, e2, c2⟩ := checkDecay_fire env hS fuel g1 x b d it w1 ok1 s1 l1 helig (Or.inl hd)
  exact ⟨g1, g2, e1, c1, e2, by rw [c2, c1]⟩

/-- An item of the wheel that can decay, has one revolution or more left and
sits in the bucket visited last is visited once per revolution; once less
than a revolution is left it moves on to the bucket of its rest rounded to
seconds, or decays at once when that is the same bucket. -/
theorem fires_after_revolutions (env : DecayEnv) (hS : env.SuccessorHasTime) (fuel x b : Nat)
    (it : Item)
    (helig : ∀ g1 : Game, SameItem it (g1.world.items x) → g1.decaying x = .DECAYING_TRUE →
      env.canDecay g1 x = true)
    (hR : 0 < env.EVENT_DECAYINTERVAL * env.EVENT_DECAY_BUCKETS)
    (hR31 : env.EVENT_DECAYINTERVAL * env.EVENT_DECAY_BUCKETS < 2147483648) :
    ∀ (k D : Nat) (g : Game), D < 2147483648 →
      D / (env.EVENT_DECAYINTERVAL * env.EVENT_DECAY_BUCKETS) = k + 1 →
      InWheel env g x b (D : Int) → WheelOk env g → SameItem it (g.world.items x) →
      g.lastBucket = b →
      ∃ g1 g2,
        ticks env fuel ((k + 1) * env.EVENT_DECAY_BUCKETS
          + (if D % (env.EVENT_DECAYINTERVAL * env.EVENT_DECAY_BUCKETS) = 0 then 0
             else ((D % (env.EVENT_DECAYINTERVAL * env.EVENT_DECAY_BUCKETS)
                + env.EVENT_DECAYINTERVAL / 2) / 1000) % env.EVENT_DECAY_BUCKETS) - 1) g
          = some g1 ∧
        g1.decayLog.count x = g.decayLog.count x ∧
        checkDecay env fuel g1 = some g2 ∧ g2.decayLog.count x = g.decayLog.count x + 1 := by
  intro k
  induction k with
  | zero =>
    intro D g hD31 hq h hok hit hl
    have hbB : b < env.EVENT_DECAY_BUCKETS := h.1
    obtain ⟨g1, e1, w1, l1, c1, ok1, s1⟩ := ticks_wait env hS fuel x b D it
      (env.EVENT_DECAY_BUCKETS - 1) g h hok hit
      (by rw [hl]
          have : b + 1 + (env.EVENT_DECAY_BUCKETS - 1) = b + env.EVENT_DECAY_BUCKETS := by omega
          rw [this, Nat.add_mod_right, Nat.mod_eq_of_lt hbB])
      (by omega)
    obtain ⟨hdt, hdl⟩ := turn_small env (D : Int) (by exact_mod_cast Nat.zero_le _)
      (by exact_mod_cast hD31) hR31
    have hrev := revolution_eq env hR31
    generalize hRR : env.EVENT_DECAYINTERVAL * env.EVENT_DECAY_BUCKETS = R at *
    have hD1 : R ≤ D := by
      by_contra hc
      rw [Nat.div_eq_of_lt (by omega)] at hq
      omega
    have hD2 : D < 2 * R := by
      by_contra hc
      have : 2 ≤ D / R := (Nat.le_div_iff_mul_le hR).mpr (by omega)
      omega
    have hrem : D % R = D - R := by
      rw [Nat.mod_eq_sub_mod hD1, Nat.mod_eq_of_lt (by omega)]
    have hmin : min ((R : Nat) : Int) (D : Int) = (R : Int) :=
      min_eq_left (by exact_mod_cast hD1)
    rw [hmin] at hdt hdl
    by_cases h0 : D % R = 0
    · -- exactly one revolution
      rw [if_pos h0]
      have hDR : D = R := by omega
      obtain ⟨g2, e2, c2⟩ := checkDecay_fire env hS fuel g1 x b D it w1 ok1 s1 l1 helig
        (Or.inl (by rw [hdl, hDR]; omega))
      refine ⟨g1, g2, ?_, c1, e2, by rw [c2, c1]⟩
      have : (0 + 1) * env.EVENT_DECAY_BUCKETS + 0 - 1 = env.EVENT_DECAY_BUCKETS - 1 := by omega
      rw [this]; exact e1
    · rw [if_neg h0]
      have hoff := offset_cast D R (env.EVENT_DECAYINTERVAL / 2) hD1
      have hc0 : ¬ durationLeft env (D : Int) ≤ 0 := by
        rw [hdl]
        have : R < D := by omega
        omega
      have hc1 : durationLeft env (D : Int) < revolution env := by
        rw [hdl, hrev]
        have : D - R < R := by omega
        omega
      by_cases ho : ((D % R + env.EVENT_DECAYINTERVAL / 2) / 1000) % env.EVENT_DECAY_BUCKETS = 0
      · -- the rest maps to the same bucket
        rw [ho]
        have hsame : (b + ((durationLeft env (D : Int)
            + ((env.EVENT_DECAYINTERVAL / 2 : Nat) : Int)) / 1000).toNat)
            % env.EVENT_DECAY_BUCKETS = b := by
          rw [hdl, hoff, add_mod_eq_self b _ _ hbB, ← hrem]
          exact ho
        obtain ⟨g2, e2, c2⟩ := checkDecay_fire env hS fuel g1 x b D it w1 ok1 s1 l1 helig
          (Or.inr ⟨hc1, hsame⟩)
        refine ⟨g1, g2, ?_, c1, e2, by rw [c2, c1]⟩
        have : (0 + 1) * env.EVENT_DECAY_BUCKETS + 0 - 1 = env.EVENT_DECAY_BUCKETS - 1 := by omega
        rw [this]; exact e1
      · -- the rest maps to another bucket
        have hdiff : (b + ((durationLeft env (D : Int)
            + ((env.EVENT_DECAYINTERVAL / 2 : Nat) : Int)) / 1000).toNat)
            % env.EVENT_DECAY_BUCKETS ≠ b := by
          rw [hdl, hoff, Ne, add_mod_eq_self b _ _ hbB, ← hrem]
          exact ho
        obtain ⟨g2, e2, w2, l2, c2, ok2, s2⟩ := checkDecay_move env hS fuel g1 x b D it w1 ok1 s1
          l1 helig hc0 hc1 hdiff
        have hcast : (D : Int) - (R : Int) = ((D - R : Nat) : Int) := by omega
        rw [hdl, hdt, hoff, ← hrem, hcast, ← hrem] at w2
        have hopos : 0 < ((D % R + env.EVENT_DECAYINTERVAL / 2) / 1000) % env.EVENT_DECAY_BUCKETS :=
          Nat.pos_of_ne_zero ho
        have holt : ((D % R + env.EVENT_DECAYINTERVAL / 2) / 1000) % env.EVENT_DECAY_BUCKETS
            < env.EVENT_DECAY_BUCKETS := Nat.mod_lt _ (by omega)
        have hlast : durationLeft env ((D % R : Nat) : Int) ≤ 0 := by
          have hlt : D % R < R := Nat.mod_lt _ hR
          obtain ⟨-, hx⟩ := turn_small env ((D % R : Nat) : Int) (by exact_mod_cast Nat.zero_le _)
            (by
              have : D % R < 2147483648 := by omega
              exact_mod_cast this) (by rw [hRR]; exact hR31)
          rw [hx, hRR, min_eq_right (by exact_mod_cast le_of_lt hlt)]
          omega
        obtain ⟨g3, g4, e3, c3, e4, c4⟩ := fires_within env hS fuel x _ _ it
          (((D % R + env.EVENT_DECAYINTERVAL / 2) / 1000) % env.EVENT_DECAY_BUCKETS - 1) g2 w2 ok2
          s2 helig hlast
          (by rw [l2]
              have : b + 1 + (((D % R + env.EVENT_DECAYINTERVAL / 2) / 1000)
                  % env.EVENT_DECAY_BUCKETS - 1)
                  = b + ((D % R + env.EVENT_DECAYINTERVAL / 2) / 1000)
                    % env.EVENT_DECAY_BUCKETS := by omega
              rw [this, Nat.add_mod_mod])
          (by omega)
        refine ⟨g3, g4, ?_, by rw [c3, c2, c1], e4, by rw [c4, c2, c1]⟩
        have : (0 + 1) * env.EVENT_DECAY_BUCKETS
            + ((D % R + env.EVENT_DECAYINTERVAL / 2) / 1000) % env.EVENT_DECAY_BUCKETS - 1
            = (env.EVENT_DECAY_BUCKETS - 1) + (1 + (((D % R + env.EVENT_DECAYINTERVAL / 2) / 1000)
                % env.EVENT_DECAY_BUCKETS - 1)) := by omega
        rw [this, ticks_add, e1, Option.some_bind, ticks_add]
        simp only [ticks, e2, Option.some_bind]
        exact e3
  | succ k ih =>
    intro D g hD31 hq h hok hit hl
    have hbB : b < env.EVENT_DECAY_BUCKETS := h.1
    obtain ⟨g1, e1, w1, l1, c1, ok1, s1⟩ := ticks_wait env hS fuel x b D it
      (env.EVENT_DECAY_BUCKETS - 1) g h hok hit
      (by rw [hl]
          have : b + 1 + (env.EVENT_DECAY_BUCKETS - 1) = b + env.EVENT_DECAY_BUCKETS := by omega
          rw [this, Nat.add_mod_right, Nat.mod_eq_of_lt hbB])
      (by omega)
    obtain ⟨hdt, hdl⟩ := turn_small env (D : Int) (by exact_mod_cast Nat.zero_le _)
      (by exact_mod_cast hD31) hR31
    have hrev := revolution_eq env hR31
    generalize hRR : env.EVENT_DECAYINTERVAL * env.EVENT_DECAY_BUCKETS = R at *
    have hD2 : 2 * R ≤ D := by
      have := (Nat.le_div_iff_mul_le hR).mp (show 2 ≤ D / R by omega)
      omega
    have hmin : min ((R : Nat) : Int) (D : Int) = (R : Int) :=
      min_eq_left (by
        have : R ≤ D := by omega
        exact_mod_cast this)
    rw [hmin] at hdt hdl
    have hc0 : ¬ durationLeft env (D : Int) ≤ 0 := by
      rw [hdl]; omega
    have hc1 : ¬ durationLeft env (D : Int) < revolution env := by
      rw [hdl, hrev]; omega
    obtain ⟨g2, e2, w2, l2, c2, ok2, s2⟩ := checkDecay_stay env hS fuel g1 x b D it w1 ok1 s1 l1
      helig hc0 hc1
    have hcast : (D : Int) - (R : Int) = ((D - R : Nat) : Int) := by omega
    rw [hdt, hcast] at w2
    have hq' : (D - R) / R = k + 1 := by
      have := Nat.div_eq_sub_div hR (show R ≤ D by omega)
      omega
    have hmod : (D - R) % R = D % R := by
      rw [← Nat.mod_eq_sub_mod (by omega)]
    obtain ⟨g3, g4, e3, c3, e4, c4⟩ := ih (D - R) g2 (by omega) hq' w2 ok2 s2 l2
    rw [hmod] at e3
    refine ⟨g3, g4, ?_, by rw [c3, c2, c1], e4, by rw [c4, c2, c1]⟩
    have hBpos : 0 < env.EVENT_DECAY_BUCKETS := by omega
    have : (k + 1 + 1) * env.EVENT_DECAY_BUCKETS
        + (if D % R = 0 then 0
           else ((D % R + env.EVENT_DECAYINTERVAL / 2) / 1000) % env.EVENT_DECAY_BUCKETS) - 1
        = (env.EVENT_DECAY_BUCKETS - 1) + (1 + ((k + 1) * env.EVENT_DECAY_BUCKETS
          + (if D % R = 0 then 0
             else ((D % R + env.EVENT_DECAYINTERVAL / 2) / 1000) % env.EVENT_DECAY_BUCKETS) - 1)) := by
      have h1 : (k + 1 + 1) * env.EVENT_DECAY_BUCKETS
          = (k + 1) * env.EVENT_DECAY_BUCKETS + env.EVENT_DECAY_BUCKETS := by ring
      have h2 : 1 ≤ (k + 1) * env.EVENT_DECAY_BUCKETS := Nat.mul_pos (Nat.succ_pos k) hBpos
      omega
    rw [this, ticks_add, e1, Option.some_bind, ticks_add]
    simp only [ticks, e2, Option.some_bind]
    exact e3

theorem wheelCount_zero (env : DecayEnv) (g : Game) (x : Nat) (h : wheelCount env g x = 0) :
    g.toDecayItems.count x = 0 ∧
    ∀ b, b < env.EVENT_DECAY_BUCKETS → (g.decayItems b).count x = 0 := by
  unfold wheelCount at h
  have h1 : g.toDecayItems.count x = 0 := by omega
  have h2 : ((List.range env.EVENT_DECAY_BUCKETS).map fun b => (g.decayItems b).count x).sum
      = 0 := by omega
  refine ⟨h1, fun b hb => ?_⟩
  exact List.sum_eq_zero_iff.mp h2 _
    (List.mem_map.mpr ⟨b, List.mem_range.mpr hb, rfl⟩)

/-- Claim C18, amended. Take a well formed wheel with a positive tick interval
whose revolution fits an `int32_t`, in an environment where the successor of a
flagged item has time left, and an allocated item that can decay, is not
flagged as decaying and has `D > 0` milliseconds left; let the item stay able
to decay as long as it is flagged and is itself unchanged but for its
reference counter. Then `Game::startDecay` registers it, and after the next
`Game::cleanup` the item is handed to `Game::internalDecayItem` on the tick of
`Game::checkDecay` with number `decayTick D` and on none of the ticks before,
every one of these ticks returning whatever the fuel. For `D` below one
revolution of the wheel `decayTick D` is `1 + (D / 1000) mod
EVENT_DECAY_BUCKETS`, which is not the number `ceil (D / EVENT_DECAYINTERVAL)`
in general; for `D` of `2^31` or more it is `EVENT_DECAY_BUCKETS`. -/
theorem startDecay_fires_on (env : DecayEnv) (hS : env.SuccessorHasTime)
    (hI : 0 < env.EVENT_DECAYINTERVAL)
    (hR31 : env.EVENT_DECAYINTERVAL * env.EVENT_DECAY_BUCKETS < 2147483648)
    (fuel x D : Nat) (g0 : Game) (hok : WheelOk env g0) (hal : x < g0.world.nextItem)
    (hcan : env.canDecay g0 x = true) (hflag : g0.decaying x ≠ .DECAYING_TRUE)
    (hdur : g0.duration x = (D : Int)) (hD : 0 < D) (hD32 : D < 4294967296)
    (helig : ∀ g1 : Game, SameItem (g0.world.items x) (g1.world.items x) →
      g1.decaying x = .DECAYING_TRUE → env.canDecay g1 x = true) :
    ∃ g1 g2, startDecay env fuel g0 (some x) = some (g0.register x) ∧
      ticks env fuel (decayTick env D - 1) (cleanup env (g0.register x)) = some g1 ∧
      g1.decayLog.count x = g0.decayLog.count x ∧
      checkDecay env fuel g1 = some g2 ∧
      g2.decayLog.count x = g0.decayLog.count x + 1 := by
  have hlast : g0.lastBucket < env.EVENT_DECAY_BUCKETS := hok.1
  have hB : 0 < env.EVENT_DECAY_BUCKETS := Nat.lt_of_le_of_lt (Nat.zero_le _) hlast
  have hR : 0 < env.EVENT_DECAYINTERVAL * env.EVENT_DECAY_BUCKETS := Nat.mul_pos hI hB
  have hcount := WheelOk_count_of_not_flagged env g0 x hok hflag
  obtain ⟨hpending, hbuckets⟩ := wheelCount_zero env g0 x hcount
  have hs : startDecay env fuel g0 (some x) = some (g0.register x) := by
    rw [startDecay_of_time env fuel g0 x (fun _ _ => by rw [hdur]; exact_mod_cast hD),
      if_pos ⟨hcan, hflag⟩]
  have hokc : WheelOk env (cleanup env (g0.register x)) :=
    cleanup_ok env _ (WheelOk_register env g0 x hok hcount hal)
  have hitc : SameItem (g0.world.items x) ((cleanup env (g0.register x)).world.items x) :=
    (register_sameItem g0 x x).same_trans (cleanup_sameItem env _ x)
  obtain ⟨q1, q2, q3, q4, q5, q6, q7⟩ := cleanup_count env (g0.register x) x
  have hdur' : (g0.register x).duration x = (D : Int) := hdur
  have hcb : cleanupBucket env (g0.register x).lastBucket ((g0.register x).duration x)
      < env.EVENT_DECAY_BUCKETS := by
    unfold cleanupBucket
    split_ifs
    · exact hlast
    · exact Nat.mod_lt _ hB
  have hw : InWheel env (cleanup env (g0.register x)) x
      (cleanupBucket env (g0.register x).lastBucket ((g0.register x).duration x)) (D : Int) := by
    refine ⟨hcb, by rw [q5]; exact hlast, ?_, ?_, by rw [q2]; rfl, by rw [q3]; exact hdur,
      by rw [q4]; exact register_decaying_self g0 x, by rw [q6]; exact hal⟩
    · rw [q1, if_pos rfl, register_decayItems, hbuckets _ hcb, register_toDecayItems,
        List.count_cons_self, hpending]
    · intro b1 hb1 hne
      rw [q1, if_neg hne, register_decayItems, hbuckets _ hb1]
  by_cases hbig : 2147483648 ≤ D
  · have hc : cleanupBucket env (g0.register x).lastBucket ((g0.register x).duration x)
        = (cleanup env (g0.register x)).lastBucket := by
      rw [q5, hdur']
      unfold cleanupBucket
      rw [toUInt32_natCast D hD32, if_pos (by omega)]
    have hbB := hw.1
    obtain ⟨g1, e1, w1, l1, c1, ok1, s1⟩ := ticks_wait env hS fuel x _ D (g0.world.items x)
      (env.EVENT_DECAY_BUCKETS - 1) _ hw hokc hitc
      (by
        rw [hc]
        have : (cleanup env (g0.register x)).lastBucket + 1 + (env.EVENT_DECAY_BUCKETS - 1)
            = (cleanup env (g0.register x)).lastBucket + env.EVENT_DECAY_BUCKETS := by omega
        rw [this, Nat.add_mod_right, Nat.mod_eq_of_lt (by rw [← hc]; exact hbB)])
      (by omega)
    obtain ⟨g2, e2, c2⟩ := checkDecay_fire env hS fuel g1 x _ D (g0.world.items x) w1 ok1 s1 l1
      helig (Or.inl (le_of_eq (turn_big env (D : Int) (by exact_mod_cast hbig)
        (by exact_mod_cast hD32) hR31)))
    refine ⟨g1, g2, hs, ?_, by rw [c1, q7]; rfl, e2, by rw [c2, c1, q7]; rfl⟩
    have : decayTick env D - 1 = env.EVENT_DECAY_BUCKETS - 1 := by
      simp only [decayTick, hbig, if_true]
    rw [this]; exact e1
  · have hD31 : D < 2147483648 := by omega
    by_cases hlt : D < env.EVENT_DECAYINTERVAL * env.EVENT_DECAY_BUCKETS
    · have hc : cleanupBucket env (g0.register x).lastBucket ((g0.register x).duration x)
          = ((cleanup env (g0.register x)).lastBucket + 1
              + (D / 1000) % env.EVENT_DECAY_BUCKETS) % env.EVENT_DECAY_BUCKETS := by
        rw [q5, hdur']
        unfold cleanupBucket
        rw [toUInt32_natCast D hD32, if_neg (by omega), Nat.add_mod_mod]
      have hzero : durationLeft env (D : Int) ≤ 0 := by
        obtain ⟨-, hx⟩ := turn_small env (D : Int) (by exact_mod_cast Nat.zero_le _)
          (by exact_mod_cast hD31) hR31
        rw [hx, min_eq_right (by exact_mod_cast le_of_lt hlt)]
        omega
      obtain ⟨g1, g2, e1, c1, e2, c2⟩ := fires_within env hS fuel x _ (D : Int)
        (g0.world.items x) ((D / 1000) % env.EVENT_DECAY_BUCKETS) _ hw hokc hitc helig hzero hc
        (Nat.mod_lt _ hB)
      refine ⟨g1, g2, hs, ?_, by rw [c1, q7]; rfl, e2, by rw [c2, q7]; rfl⟩
      have : decayTick env D - 1 = (D / 1000) % env.EVENT_DECAY_BUCKETS := by
        simp only [decayTick, hbig, hlt, if_true, if_false]
        omega
      rw [this]; exact e1
    · have hc : cleanupBucket env (g0.register x).lastBucket ((g0.register x).duration x)
          = (cleanup env (g0.register x)).lastBucket := by
        rw [q5, hdur']
        unfold cleanupBucket
        rw [toUInt32_natCast D hD32, if_pos (by omega)]
      have hq : 1 ≤ D / (env.EVENT_DECAYINTERVAL * env.EVENT_DECAY_BUCKETS) :=
        (Nat.le_div_iff_mul_le hR).mpr (by omega)
      obtain ⟨g1, g2, e1, c1, e2, c2⟩ := fires_after_revolutions env hS fuel x _
        (g0.world.items x) helig hR hR31
        (D / (env.EVENT_DECAYINTERVAL * env.EVENT_DECAY_BUCKETS) - 1) D _ hD31 (by omega) hw
        hokc hitc hc.symm
      refine ⟨g1, g2, hs, ?_, by rw [c1, q7]; rfl, e2, by rw [c2, q7]; rfl⟩
      have : decayTick env D = (D / (env.EVENT_DECAYINTERVAL * env.EVENT_DECAY_BUCKETS) - 1 + 1)
          * env.EVENT_DECAY_BUCKETS
          + (if D % (env.EVENT_DECAYINTERVAL * env.EVENT_DECAY_BUCKETS) = 0 then 0
             else ((D % (env.EVENT_DECAYINTERVAL * env.EVENT_DECAY_BUCKETS)
                + env.EVENT_DECAYINTERVAL / 2) / 1000) % env.EVENT_DECAY_BUCKETS) := by
        simp only [decayTick, hbig, hlt, if_false]
        rw [Nat.sub_add_cancel hq]
      rw [this]; exact e1

/-! ## Decay wheel: an environment that reads the item, and the ticks evaluated -/

theorem updateThing_setID (env : DecayEnv) (g : Game) (c : Cylinder) (item itemId count : Nat)
    (hin : item ∈ g.world.contents c) :
    (g.updateThing env c item itemId count).duration item
      = (env.setID (g.world.items item) (g.duration item) (g.decaying item) itemId).2.1 ∧
    (g.updateThing env c item itemId count).world.items item
      = { (env.setID (g.world.items item) (g.duration item) (g.decaying item) itemId).1 with
          count := count } := by
  unfold Game.updateThing
  rw [if_pos hin]
  simp [Game.setID, Game.withWorld, setItem]

/-- The update in place of an item that its holder lists ends in
`Item::setID` followed by the new count. -/
theorem transformInPlace_setID (env : DecayEnv) (g : Game) (c : Cylinder) (idx : Int)
    (item newId : Nat) (newCount : Int) (hin : item ∈ g.world.contents c) :
    ∃ (it : Item) (d : Int) (s : ItemDecayState_t) (k cnt : Nat),
      (transformInPlace env g c idx item newId newCount).1.duration item
        = (env.setID it d s k).2.1 ∧
      (transformInPlace env g c idx item newId newCount).1.world.items item
        = { (env.setID it d s k).1 with count := cnt } := by
  unfold transformInPlace
  simp only []
  have hg2 : item ∈ (if (env.itemTypes (g.world.items item).id).id ≠ (env.itemTypes newId).id ∧
      (env.itemTypes newId).group ≠ (env.itemTypes (g.world.items item).id).group then
      g.withWorld (setItem (emit g.world (.postRemoveNotification c item (some c) idx)) item
        (env.setDefaultSubtype
          ((emit g.world (.postRemoveNotification c item (some c) idx)).items item)))
      else g.withWorld (emit g.world (.postRemoveNotification c item (some c) idx))).world.contents
        c := by
    split_ifs <;> exact hin
  obtain ⟨h1, h2⟩ := updateThing_setID env _ c item
    (if (env.itemTypes (g.world.items item).id).id ≠ (env.itemTypes newId).id then newId
      else (g.world.items item).id)
    (toUInt32 (if newCount ≠ -1 ∧ (env.itemTypes newId).hasSubType = true then newCount
      else (env.getSubType (g.withWorld
        (emit g.world (.postRemoveNotification c item (some c) idx))) item : Int))) hg2
  exact ⟨_, _, _, _, _, h1, h2⟩

/-- The replacement of an item puts the attributes that `Item::CreateItem`
returns into the next unused pointer; the holder of the new item apart. -/
theorem replaceItem_new (g : Game) (c : Cylinder) (idx : Int) (item : Nat)
    (r : Item × Int × ItemDecayState_t) :
    (replaceItem g c idx item r).1.duration g.world.nextItem = r.2.1 ∧
    ((replaceItem g c idx item r).1.world.items g.world.nextItem).id = r.1.id := by
  constructor
  · simp [replaceItem, Game.allocate, Game.withWorld]
  · by_cases h : item = g.world.nextItem
    · simp [replaceItem, Game.allocate, Game.withWorld, replaceThing, setItem, emit, ReleaseItem, h]
    · simp [replaceItem, Game.allocate, Game.withWorld, replaceThing, setItem, emit, ReleaseItem,
        Function.update_noteq (Ne.symm h)]

/-- In `itemEnv` the successor of a flagged item has time left: a retyped or
new item has the duration of its type, and it can decay only when that
duration is positive. -/
theorem itemEnv_successor (interval buckets : Nat) :
    (itemEnv interval buckets).SuccessorHasTime := by
  intro fuel g t y n hflag htr hcan hnf
  have hcan' : 0 < exampleDuration (t.world.items n).id := by
    have : ((t.world.items n).parent.isSome
        && decide (0 < exampleDuration (t.world.items n).id)) = true := hcan
    simp only [Bool.and_eq_true, decide_eq_true_eq] at this
    exact this.2
  rcases transformItem_cases _ fuel g y _ _ t (some n) htr with ⟨rfl, hn⟩ | ⟨c, hp, hin, hk⟩
  · rcases hn with hn | hn
    · cases hn
      exact absurd hflag hnf
    · cases hn
  · rcases hk with ⟨id, cnt, -, htop, -⟩ | ⟨id, cnt, e⟩ | ⟨type, count, e⟩ | ⟨-, e⟩
    · exact absurd rfl htop
    · have e1 : t = (transformInPlace (itemEnv interval buckets) g c (getThingIndex g.world c y)
          y id cnt).1 := congrArg Prod.fst e
      have hn : n = y := Option.some.inj (congrArg Prod.snd e)
      subst hn
      obtain ⟨it, d, s, k, cnt1, h1, h2⟩ := transformInPlace_setID (itemEnv interval buckets) g c
        (getThingIndex g.world c n) n id cnt hin
      rw [e1, h1]
      rw [e1, h2] at hcan'
      exact hcan'
    · have hcr : (itemEnv interval buckets).CreateItem type count
          = some (⟨type, count, false, none, 1, .plain, true⟩, exampleDuration type,
              .DECAYING_FALSE) := rfl
      have hrep : transformReplace (itemEnv interval buckets) g c (getThingIndex g.world c y) y
          type count
          = replaceItem g c (getThingIndex g.world c y) y
              (⟨type, count, false, none, 1, .plain, true⟩, exampleDuration type,
                .DECAYING_FALSE) := by
        unfold transformReplace
        rw [hcr]
      rw [hrep] at e
      have e1 : t = (replaceItem g c (getThingIndex g.world c y) y
          (⟨type, count, false, none, 1, .plain, true⟩, exampleDuration type,
            .DECAYING_FALSE)).1 := congrArg Prod.fst e
      have hn : n = g.world.nextItem := Option.some.inj (congrArg Prod.snd e)
      obtain ⟨h1, h2⟩ := replaceItem_new g c (getThingIndex g.world c y) y
        (⟨type, count, false, none, 1, .plain, true⟩, exampleDuration type, .DECAYING_FALSE)
      rw [e1, hn, h1]
      rw [e1, hn, h2] at hcan'
      exact hcan'
    · cases e


/-- In `itemEnv` an item stays able to decay as long as it is itself unchanged
but for its reference counter. -/
theorem itemEnv_eligible (interval buckets x : Nat) (g0 g1 : Game)
    (h0 : (itemEnv interval buckets).canDecay g0 x = true)
    (hs : SameItem (g0.world.items x) (g1.world.items x)) :
    (itemEnv interval buckets).canDecay g1 x = true := by
  have e1 := hs.1
  have e2 := hs.2.2.2.1
  show ((g1.world.items x).parent.isSome
    && decide (0 < exampleDuration (g1.world.items x).id)) = true
  rw [e1, e2]
  exact h0

/-- Counterexample to C18 as stated. With a tick interval of 2000 ms and four
buckets, an item registered with 1000 ms left is not touched by the first
tick of `Game::checkDecay` after its registration and is handed to
`Game::internalDecayItem` by the second, where `ceil (1000 / 2000) = 1`. With
an interval of 250 ms and four buckets, an item registered with 900 ms left is
handed to `Game::internalDecayItem` by the first tick, where
`ceil (900 / 250) = 4`, and an item registered with `2^31` ms left, a negative
number as the `int32_t` of `Game::checkDecay`, is handed over by the fourth
tick and not by the third, where `ceil (2^31 / 250) = 8589935`. -/
theorem checkDecay_off_schedule :
    (((startDecay (itemEnv 2000 4) 0 (wheelGame 2052 1000) (some 1)).bind fun g =>
        ticks (itemEnv 2000 4) 0 1 (cleanup (itemEnv 2000 4) g)).map fun g => g.decayLog)
      = some [] ∧
    (((startDecay (itemEnv 2000 4) 0 (wheelGame 2052 1000) (some 1)).bind fun g =>
        ticks (itemEnv 2000 4) 0 2 (cleanup (itemEnv 2000 4) g)).map fun g => g.decayLog)
      = some [1] ∧
    (1000 + 2000 - 1) / 2000 = 1 ∧
    (((startDecay (itemEnv 250 4) 0 (wheelGame 2052 900) (some 1)).bind fun g =>
        ticks (itemEnv 250 4) 0 1 (cleanup (itemEnv 250 4) g)).map fun g => g.decayLog)
      = some [1] ∧
    (900 + 250 - 1) / 250 = 4 ∧
    (((startDecay (itemEnv 250 4) 0 (wheelGame 2052 2147483648) (some 1)).bind fun g =>
        ticks (itemEnv 250 4) 0 3 (cleanup (itemEnv 250 4) g)).map fun g => g.decayLog)
      = some [] ∧
    (((startDecay (itemEnv 250 4) 0 (wheelGame 2052 2147483648) (some 1)).bind fun g =>
        ticks (itemEnv 250 4) 0 4 (cleanup (itemEnv 250 4) g)).map fun g => g.decayLog)
      = some [1] ∧
    (2147483648 + 250 - 1) / 250 = 8589935 := by
  refine ⟨by decide, by decide, by decide, by decide, by decide, by decide, by decide, by decide⟩

/-- Witness of C18: with an interval of 250 ms and four buckets, an item
registered with 1100 ms left decays on tick `decayTick 1100 = 4`. -/
theorem startDecay_fires_on_witness :
    decayTick (itemEnv 250 4) 1100 = 4 ∧
    ∃ g1 g2, startDecay (itemEnv 250 4) 0 (wheelGame 2052 1100) (some 1)
        = some ((wheelGame 2052 1100).register 1) ∧
      ticks (itemEnv 250 4) 0 (decayTick (itemEnv 250 4) 1100 - 1)
          (cleanup (itemEnv 250 4) ((wheelGame 2052 1100).register 1))
        = some g1 ∧
      g1.decayLog.count 1 = (wheelGame 2052 1100).decayLog.count 1 ∧
      checkDecay (itemEnv 250 4) 0 g1 = some g2 ∧
      g2.decayLog.count 1 = (wheelGame 2052 1100).decayLog.count 1 + 1 :=
  ⟨by decide,
    startDecay_fires_on (itemEnv 250 4) (itemEnv_successor 250 4) (by decide) (by decide) 0 1 1100
      (wheelGame 2052 1100)
      (DecayReachable_wheelOk _ _ (DecayReachable.init _ (by decide) rfl (fun _ => rfl)))
      (by decide) (by decide) (by decide) rfl (by decide) (by decide)
      (fun g1 hs _ => itemEnv_eligible 250 4 1 (wheelGame 2052 1100) g1 (by decide) hs)⟩

/-- The first turn of the witness of C19, evaluated: the item leaves bucket 1,
takes type 2051, is registered again by `Game::startDecay` with the duration
of its new type, and is queued for release once. -/
theorem decay_turn_example :
    ∃ g, decayTurn (itemEnv 250 4) 0 1 [] [] (turnGame 2050 1000) 1 = some (g, false) ∧
      g.decayItems 1 = [] ∧ (g.world.items 1).id = 2051 ∧ g.toDecayItems = [1] ∧
      g.duration 1 = 1000 ∧ g.decaying 1 = .DECAYING_TRUE ∧ g.world.ToReleaseItems = [1] ∧
      g.decayLog = [1] := by
  refine ⟨_, rfl, by decide, by decide, by decide, by decide, by decide, by decide, by decide⟩

/-! ## Creature upkeep -/

@[simp] theorem setCreature_queue (s : Server) (c : Nat) (cr : Creature) :
    (s.setCreature c cr).ToReleaseCreatures = s.ToReleaseCreatures := rfl

/-- The loop of `cleanup` over the creatures takes one reference off a creature
for each of its entries in the queue and touches nothing else of it. -/
theorem releaseCreatures_spec (l : List Nat) :
    ∀ (cs : Nat → Creature) (c : Nat),
      (releaseCreatures cs l c).referenceCounter = (cs c).referenceCounter - l.count c ∧
      (releaseCreatures cs l c).creatureCheck = (cs c).creatureCheck ∧
      (releaseCreatures cs l c).inCheckCreaturesVector = (cs c).inCheckCreaturesVector ∧
      (releaseCreatures cs l c).health = (cs c).health := by
  induction l with
  | nil => intro cs c; simp [releaseCreatures]
  | cons a t ih =>
    intro cs c
    obtain ⟨h1, h2, h3, h4⟩ := ih
      (Function.update cs a { cs a with referenceCounter := (cs a).referenceCounter - 1 }) c
    unfold releaseCreatures
    rw [h1, h2, h3, h4]
    by_cases hac : a = c
    · subst hac
      simp only [Function.update_same, List.count_cons_self]
      refine ⟨?_, trivial, trivial, trivial⟩
      push_cast
      omega
    · have hca : c ≠ a := fun e => hac e.symm
      simp only [Function.update_noteq hca, List.count_cons_of_ne hca]
      exact ⟨trivial, trivial, trivial, trivial⟩

/-- The turns of the witness of C21, evaluated. On the turn of partition 0
creature 1 thinks, which enrols creature 3 behind creature 2, attacks and has
its conditions run; creature 2 gets no callback, is erased from the partition
and released, and has its reference counter back at 1; creature 3, enrolled
during the turn, is visited in the same turn. A second turn of partition 0
calls creatures 1 and 3 again. -/
theorem upkeep_example :
    (removeCreatureCheck (addCreatureCheck upkeepServer 2 0) 2).checkCreatureLists 0 = [1, 2] ∧
    ((removeCreatureCheck (addCreatureCheck upkeepServer 2 0) 2).creatures 2).referenceCounter
      = 2 ∧
    ((checkCreatures summonEnv 8 (removeCreatureCheck (addCreatureCheck upkeepServer 2 0) 2)
        0).map fun r => (r.2.1, r.2.2, r.1.checkCreatureLists 0,
          (r.1.creatures 2).referenceCounter))
      = some ([.onThink 1, .onAttacking 1, .executeConditions 1, .onThink 3, .onAttacking 3,
          .executeConditions 3], [2], [1, 3], 1) ∧
    ((upkeepTurns summonEnv 8 [0, 0]
        (removeCreatureCheck (addCreatureCheck upkeepServer 2 0) 2)).map fun r => (r.2.1, r.2.2))
      = some ([.onThink 1, .onAttacking 1, .executeConditions 1, .onThink 3, .onAttacking 3,
          .executeConditions 3, .onThink 1, .onAttacking 1, .executeConditions 1, .onThink 3,
          .onAttacking 3, .executeConditions 3], [2]) := by
  refine ⟨by decide, by decide, by decide, by decide⟩

/-! ## Deferred release: the reference counters -/

theorem HoldsKept_refl (w : World) : HoldsKept w w := ⟨Nat.le_refl _, fun _ _ => rfl⟩

theorem HoldsKept.holds_trans {w w1 w2 : World} (h1 : HoldsKept w w1) (h2 : HoldsKept w1 w2) :
    HoldsKept w w2 :=
  ⟨Nat.le_trans h1.1 h2.1, fun i hi => (h2.2 i (Nat.lt_of_lt_of_le hi h1.1)).trans (h1.2 i hi)⟩

theorem HoldsKept_of_all (w w1 : World) (hn : w.nextItem ≤ w1.nextItem)
    (h : ∀ i, (w1.items i).referenceCounter = (w.items i).referenceCounter) : HoldsKept w w1 :=
  ⟨hn, fun i _ => h i⟩

theorem removeThing_refs (w : World) (c : Cylinder) (item n i : Nat) :
    ((removeThing w c item n).items i).referenceCounter = (w.items i).referenceCounter := by
  unfold removeThing
  by_cases hi : i = item
  · subst hi
    split_ifs <;> simp
  · split_ifs <;> simp [Function.update_noteq hi]

theorem addThing_refs (w : World) (c : Cylinder) (k : Int) (item i : Nat) :
    ((addThing w c k item).items i).referenceCounter = (w.items i).referenceCounter := by
  unfold addThing
  by_cases hi : i = item
  · subst hi; simp
  · simp [Function.update_noteq hi]

theorem updateThing_refs (w : World) (c : Cylinder) (item a b i : Nat) :
    ((updateThing w c item a b).items i).referenceCounter = (w.items i).referenceCounter := by
  unfold updateThing
  by_cases hi : i = item
  · subst hi
    split_ifs <;> simp
  · split_ifs <;> simp [Function.update_noteq hi]

theorem removeThing_kind (w : World) (c : Cylinder) (item n i : Nat) :
    ((removeThing w c item n).items i).kind = (w.items i).kind := by
  unfold removeThing
  by_cases hi : i = item
  · subst hi
    split_ifs <;> simp
  · split_ifs <;> simp [Function.update_noteq hi]

theorem updateThing_kind (w : World) (c : Cylinder) (item a b i : Nat) :
    ((updateThing w c item a b).items i).kind = (w.items i).kind := by
  unfold updateThing
  by_cases hi : i = item
  · subst hi
    split_ifs <;> simp
  · split_ifs <;> simp [Function.update_noteq hi]

/-- The removal hook changes a reference counter only for a door of a house:
`House::removeDoor` gives up the reference of the house at once. -/
theorem onRemoved_refs (w : World) (item i : Nat)
    (h : i = item → (w.items item).kind.isHouseDoor = false) :
    ((onRemoved w item).items i).referenceCounter = (w.items i).referenceCounter := by
  unfold onRemoved
  cases hk : (w.items item).kind with
  | plain => rfl
  | houseTransfer _ => rfl
  | door o =>
    cases o with
    | none => rfl
    | some house =>
      simp only []
      have hi : i ≠ item := by
        intro e
        have := h e
        rw [hk] at this
        simp [ItemKind.isHouseDoor] at this
      unfold removeDoor
      split_ifs
      · simp [Function.update_noteq hi]
      · rfl

/-- `Game::internalRemoveItem` changes no reference counter, the one of a door
of a house apart. -/
theorem internalRemoveItem_refs (env : Env) (w : World) (item : Nat) (count : Int) (test : Bool)
    (flags : Nat) (i : Nat) (h : i = item → (w.items item).kind.isHouseDoor = false) :
    ((internalRemoveItem env w item count test flags).2.items i).referenceCounter
      = (w.items i).referenceCounter := by
  have key : ∀ (c : Cylinder) (n : Nat) (e : Event),
      ((onRemoved (emit (releaseIfRemoved (removeThing w c item n) item) e) item).items
        i).referenceCounter = (w.items i).referenceCounter := by
    intro c n e
    rw [onRemoved_refs _ _ _ (by
      intro e1
      simp only [emit_items, releaseIfRemoved_items, removeThing_kind]
      exact h e1)]
    simp only [emit_items, releaseIfRemoved_items, removeThing_refs]
  unfold internalRemoveItem
  cases (w.items item).parent with
  | none => rfl
  | some cylinder =>
    simp only []
    split_ifs <;> first | rfl | exact key _ _ _ | exact onRemoved_refs _ _ _ h

theorem mergeStep_refs (w : World) (d : Cylinder) (item : Nat) (toItem : Option Nat) (m i : Nat) :
    ((mergeStep w d item toItem m).1.items i).referenceCounter = (w.items i).referenceCounter := by
  unfold mergeStep
  cases toItem with
  | none => rfl
  | some t =>
    simp only []
    split_ifs
    · exact updateThing_refs _ _ _ _ _ _
    · rfl

theorem cloneStep_holds (w : World) (item : Nat) (k : Int) : HoldsKept w (cloneStep w item k).1 := by
  unfold cloneStep cloneWithCount
  split_ifs
  · refine ⟨Nat.le_succ _, fun i hi => ?_⟩
    have hne : i ≠ w.nextItem := Nat.ne_of_lt hi
    simp [Function.update_noteq hne]
  · exact HoldsKept_refl w

theorem stackUpdate_holds (w : World) (d : Cylinder) (item : Nat) (toItem : Option Nat) (m : Nat) :
    HoldsKept w (stackUpdate w d item toItem m).1 := by
  unfold stackUpdate
  simp only []
  have h1 : HoldsKept w (mergeStep w d item toItem m).1 :=
    HoldsKept_of_all _ _ (by rw [mergeStep_nextItem]) (mergeStep_refs w d item toItem m)
  have h2 := cloneStep_holds (mergeStep w d item toItem m).1 item
    (toInt32 (m - (mergeStep w d item toItem m).2.1))
  refine (h1.holds_trans h2).holds_trans (HoldsKept_of_all _ _ ?_ ?_)
  · simp
  · intro i; simp

theorem addMoved_refs (w : World) (c : Cylinder) (k : Int) (o : Option Nat) (i : Nat) :
    ((addMoved w c k o).items i).referenceCounter = (w.items i).referenceCounter := by
  cases o with
  | none => rfl
  | some mi => exact addThing_refs w c k mi i

theorem addMoved_nextItem (w : World) (c : Cylinder) (k : Int) (o : Option Nat) :
    (addMoved w c k o).nextItem = w.nextItem := by
  cases o <;> rfl

/-- The commit of `Game::internalMoveItem` changes no reference counter. -/
theorem commitMove_holds (w : World) (a b : Cylinder) (k : Int) (item : Nat)
    (toItem : Option Nat) (m : Nat) : HoldsKept w (commitMove w a b k item toItem m).1 := by
  unfold commitMove
  simp only []
  have h1 : HoldsKept w (removeThing w a item m) :=
    HoldsKept_of_all _ _ (by rw [removeThing_nextItem]) (removeThing_refs w a item m)
  have h2 : HoldsKept (removeThing w a item m)
      (if ((removeThing w a item m).items item).stackable = true then
        stackUpdate (removeThing w a item m) b item toItem m
       else (removeThing w a item m, some item, none)).1 := by
    split_ifs
    · exact stackUpdate_holds _ _ _ _ _
    · exact HoldsKept_refl _
  refine (h1.holds_trans h2).holds_trans (HoldsKept_of_all _ _ ?_ ?_)
  · rw [commitNotify_nextItem, addMoved_nextItem]
  · intro i
    rw [commitNotify_items, addMoved_refs]

theorem exchangePhase_holds (env : Env) (w : World) (a b : Cylinder) (index : Int)
    (item count flags : Nat) (actor toItem : Option Nat) (w1 : World) (toItem1 : Option Nat)
    (ret : ReturnValue)
    (h : exchangePhase env w a b index item count flags actor toItem = some (w1, toItem1, ret)) :
    HoldsKept w w1 := by
  rcases exchangePhase_shape env w a b index item count flags actor toItem w1 toItem1 ret h with
    ⟨h1, -⟩ | ⟨t, -, -, hi, -, hn⟩
  · rw [h1]; exact HoldsKept_refl w
  · refine HoldsKept_of_all _ _ ?_ fun i => ?_
    · rw [hn, exchanged_nextItem]
    · rw [hi]
      unfold exchanged
      rw [addThing_refs, removeThing_refs]

theorem moveAfterAdd_holds (env : Env) (fuel : Nat) (w : World) (a b : Cylinder) (index : Int)
    (item count flags : Nat) (tradeItem toItem : Option Nat) (ret : ReturnValue) (r : MoveResult)
    (h : moveAfterAdd env fuel w a b index item count flags tradeItem toItem ret = some r) :
    HoldsKept w r.world := by
  simp only [moveAfterAdd] at h
  by_cases h1 : ret ≠ .RETURNVALUE_NOERROR
  · rw [if_pos h1] at h; cases h; exact HoldsKept_refl w
  · rw [if_neg h1] at h
    by_cases h2 : (env.queryMaxCount w b index item count flags).1 ≠ .RETURNVALUE_NOERROR ∧
        (env.queryMaxCount w b index item count flags).2 = 0
    · rw [if_pos h2] at h; cases h; exact HoldsKept_refl w
    · rw [if_neg h2] at h
      by_cases h3 : env.queryRemove w a item
          (clampAmount w item count (env.queryMaxCount w b index item count flags).2) flags
          ≠ .RETURNVALUE_NOERROR
      · rw [if_pos h3] at h; cases h; exact HoldsKept_refl w
      · rw [if_neg h3] at h
        cases hc : reservedCheck w fuel b tradeItem with
        | none => rw [hc] at h; cases h
        | some v =>
          rw [hc] at h
          cases v
          · simp only [] at h
            split_ifs at h <;> cases h <;> exact commitMove_holds _ _ _ _ _ _ _
          · cases h; exact HoldsKept_refl w

/-- `Game::internalMoveItem` changes the reference counter of no item. -/
theorem internalMoveItem_holds (env : Env) (fuel : Nat) (w : World) (a b : Cylinder)
    (index : Int) (item count flags : Nat) (actor tradeItem : Option Nat) (r : MoveResult)
    (h : internalMoveItem env fuel w a b index item count flags actor tradeItem = some r) :
    HoldsKept w r.world := by
  unfold internalMoveItem at h
  split at h
  rename_i toCyl index1 toItem flags1 _
  split_ifs at h
  · cases h; exact HoldsKept_refl w
  · cases hex : exchangePhase env w a toCyl index1 item count flags1 actor toItem with
    | none => rw [hex] at h; cases h
    | some v =>
      obtain ⟨w1, toItem1, ret⟩ := v
      rw [hex] at h
      simp only [] at h
      exact (exchangePhase_holds env w a toCyl index1 item count flags1 actor toItem w1 toItem1
        ret hex).holds_trans
        (moveAfterAdd_holds env fuel w1 a toCyl index1 item count flags1 tradeItem toItem1 ret r h)

theorem plainAdd_refs (w : World) (c : Cylinder) (k : Int) (item i : Nat) :
    ((plainAdd w c k item).items i).referenceCounter = (w.items i).referenceCounter := by
  unfold plainAdd
  simp only [emitIf_items]
  exact addThing_refs w c k item i

theorem plainAdd_nextItem (w : World) (c : Cylinder) (k : Int) (item : Nat) :
    (plainAdd w c k item).nextItem = w.nextItem := by
  unfold plainAdd
  simp

/-- `Game::internalAddItem` changes the reference counter of no item that
exists when it is called, the one of the added item apart when that is a door
of a house and is merged whole into a stack (its removal hook runs). -/
theorem internalAddItem_holds (env : Env) :
    ∀ (fuel : Nat) (w : World) (toCylinder : Option Cylinder) (item : Option Nat) (index : Int)
      (flags : Nat) (test : Bool) (ret : ReturnValue) (w1 : World) (rem : Nat),
      internalAddItem env fuel w toCylinder item index flags test = some (ret, w1, rem) →
      w.nextItem ≤ w1.nextItem ∧
      ∀ i, i < w.nextItem →
        (∀ it, item = some it → i = it → (w.items it).kind.isHouseDoor = false) →
        (w1.items i).referenceCounter = (w.items i).referenceCounter := by
  intro fuel
  induction fuel using Nat.strong_induction_on with
  | _ fuel ih =>
    intro w toCylinder item index flags test ret w1 rem h
    unfold internalAddItem at h
    cases toCylinder with
    | none =>
      simp only [Option.some.injEq, Prod.mk.injEq] at h
      rw [← h.2.1]
      exact ⟨Nat.le_refl _, fun _ _ _ => rfl⟩
    | some d =>
      cases item with
      | none =>
        simp only [Option.some.injEq, Prod.mk.injEq] at h
        rw [← h.2.1]
        exact ⟨Nat.le_refl _, fun _ _ _ => rfl⟩
      | some it =>
        simp only [] at h
        have hrefl : ∀ (r : ReturnValue) (k : Nat), some (r, w, k) = some (ret, w1, rem) →
            w.nextItem ≤ w1.nextItem ∧ ∀ i, i < w.nextItem →
              (∀ it1, some it = some it1 → i = it1 → (w.items it1).kind.isHouseDoor = false) →
              (w1.items i).referenceCounter = (w.items i).referenceCounter := by
          intro r k e
          simp only [Option.some.injEq, Prod.mk.injEq] at e
          rw [← e.2.1]
          exact ⟨Nat.le_refl _, fun _ _ _ => rfl⟩
        have hplain : ∀ (r : ReturnValue) (k : Nat) (v : World) (c : Cylinder) (j : Int),
            v.nextItem = w.nextItem →
            (∀ i, (v.items i).referenceCounter = (w.items i).referenceCounter) →
            some (r, plainAdd v c j it, k) = some (ret, w1, rem) →
            w.nextItem ≤ w1.nextItem ∧ ∀ i, i < w.nextItem →
              (∀ it1, some it = some it1 → i = it1 → (w.items it1).kind.isHouseDoor = false) →
              (w1.items i).referenceCounter = (w.items i).referenceCounter := by
          intro r k v c j hv1 hv2 e
          simp only [Option.some.injEq, Prod.mk.injEq] at e
          rw [← e.2.1]
          refine ⟨by rw [plainAdd_nextItem, hv1], fun i _ _ => ?_⟩
          rw [plainAdd_refs, hv2]
        split_ifs at h with c1 c2 c3
        · exact hrefl _ _ h
        · exact hrefl _ _ h
        · exact hrefl _ _ h
        · split at h
          · rename_i t ht
            split_ifs at h with c4 c5 c6
            · cases fuel with
              | zero => cases h
              | succ f =>
                simp only [] at h
                split at h
                · cases h
                · rename_i ret3 w3 snd heq
                  obtain ⟨k1, k2⟩ := ih f (Nat.lt_succ_self f) _ _ _ _ _ _ _ _ _ heq
                  have hfin : w.nextItem ≤ w3.nextItem ∧ ∀ i, i < w.nextItem →
                      (w3.items i).referenceCounter = (w.items i).referenceCounter := by
                    simp only [cloneWithCount, updateThing_nextItem] at k1 k2
                    refine ⟨by omega, fun i hi => ?_⟩
                    have hne : i ≠ w.nextItem := Nat.ne_of_lt hi
                    rw [k2 i (by omega) (fun it1 e1 e2 => by
                      simp only [Option.some.injEq] at e1
                      exact absurd (e2.trans e1.symm) hne)]
                    simp only [Function.update_noteq hne]
                    exact updateThing_refs _ _ _ _ _ _
                  split_ifs at h
                  · simp only [Option.some.injEq, Prod.mk.injEq] at h
                    rw [← h.2.1]
                    exact ⟨hfin.1, fun i hi _ => hfin.2 i hi⟩
                  · simp only [Option.some.injEq, Prod.mk.injEq] at h
                    rw [← h.2.1]
                    exact ⟨hfin.1, fun i hi _ => hfin.2 i hi⟩
            · exact hplain _ _ _ _ _ (updateThing_nextItem _ _ _ _ _)
                (fun i => updateThing_refs _ _ _ _ _ _) h
            · simp only [Option.some.injEq, Prod.mk.injEq] at h
              rw [← h.2.1]
              refine ⟨by simp [ReleaseItem, updateThing_nextItem], fun i _ hdoor => ?_⟩
              simp only [emitIf_items, ReleaseItem_items]
              rw [onRemoved_refs _ _ _ (by
                intro e
                rw [updateThing_kind]
                exact hdoor it rfl e)]
              exact updateThing_refs _ _ _ _ _ _
            · exact hplain _ _ w _ _ rfl (fun _ => rfl) h
          · exact hplain _ _ w _ _ rfl (fun _ => rfl) h

theorem setID_refs (env : DecayEnv) (henv : env.RetypeKeepsHolder) (g : Game) (item newid i : Nat) :
    ((g.setID env item newid).world.items i).referenceCounter
      = (g.world.items i).referenceCounter := by
  by_cases hi : i = item
  · subst hi
    simp [Game.setID, setItem, (henv.1 _ _ _ _).2.2]
  · simp [Game.setID, setItem, Function.update_noteq hi]

theorem setID_nextItem (env : DecayEnv) (g : Game) (item newid : Nat) :
    (g.setID env item newid).world.nextItem = g.world.nextItem := rfl

theorem setItem_refs (w : World) (item i : Nat) (it : Item)
    (h : it.referenceCounter = (w.items item).referenceCounter) :
    ((setItem w item it).items i).referenceCounter = (w.items i).referenceCounter := by
  by_cases hi : i = item
  · subst hi
    simp [setItem, h]
  · simp [setItem, Function.update_noteq hi]

theorem updateThing_typed_refs (env : DecayEnv) (henv : env.RetypeKeepsHolder) (g : Game)
    (c : Cylinder) (item itemId count i : Nat) :
    ((g.updateThing env c item itemId count).world.items i).referenceCounter
      = (g.world.items i).referenceCounter ∧
    (g.updateThing env c item itemId count).world.nextItem = g.world.nextItem := by
  unfold Game.updateThing
  split_ifs
  · refine ⟨?_, rfl⟩
    simp only [withWorld_world]
    refine Eq.trans ?_ (setID_refs env henv g item itemId i)
    by_cases hi : i = item
    · subst hi
      simp [setItem]
    · simp [setItem, Function.update_noteq hi]
  · exact ⟨rfl, rfl⟩

/-- The branch for a change of `alwaysOnTop` changes no reference counter. -/
theorem transformOnTop_holds (env : DecayEnv) (henv : env.RetypeKeepsHolder) (g : Game)
    (cylinder : Cylinder) (itemIndex : Int) (item newId : Nat) (newCount : Int) :
    HoldsKept g.world (transformOnTop env g cylinder itemIndex item newId newCount).1.world := by
  have h2 : ∀ i, (((g.withWorld (emit (removeThing g.world cylinder item
      (g.world.items item).count) (.postRemoveNotification cylinder item (some cylinder)
        itemIndex))).setID env item newId).world.items i).referenceCounter
      = (g.world.items i).referenceCounter := by
    intro i
    rw [setID_refs env henv]
    simp only [withWorld_world, emit_items]
    exact removeThing_refs _ _ _ _ _
  have h2n : ((g.withWorld (emit (removeThing g.world cylinder item
      (g.world.items item).count) (.postRemoveNotification cylinder item (some cylinder)
        itemIndex))).setID env item newId).world.nextItem = g.world.nextItem := by
    rw [setID_nextItem]
    simp only [withWorld_world, emit_nextItem]
    exact removeThing_nextItem _ _ _ _
  unfold transformOnTop
  simp only []
  by_cases c : newCount ≠ -1
  · simp only [if_pos c]
    split
    · refine HoldsKept_of_all _ _ ?_ fun i => ?_
      · simp [h2n, setItem]
      · simp only [withWorld_world, ReleaseItem_items]
        rw [addThing_refs, setItem_refs _ _ _ _ (henv.2.1 _ _).2.2]
        exact h2 i
    · refine HoldsKept_of_all _ _ ?_ fun i => ?_
      · simp [h2n, setItem]
      · simp only [withWorld_world, emit_items]
        rw [addThing_refs, setItem_refs _ _ _ _ (henv.2.1 _ _).2.2]
        exact h2 i
  · simp only [if_neg c]
    split
    · refine HoldsKept_of_all _ _ ?_ fun i => ?_
      · simp [h2n]
      · simp only [withWorld_world, ReleaseItem_items]
        rw [addThing_refs]
        exact h2 i
    · refine HoldsKept_of_all _ _ ?_ fun i => ?_
      · simp [h2n]
      · simp only [withWorld_world, emit_items]
        rw [addThing_refs]
        exact h2 i

/-- The update in place changes no reference counter. -/
theorem transformInPlace_holds (env : DecayEnv) (henv : env.RetypeKeepsHolder) (g : Game)
    (cylinder : Cylinder) (itemIndex : Int) (item newId : Nat) (newCount : Int) :
    HoldsKept g.world
      (transformInPlace env g cylinder itemIndex item newId newCount).1.world := by
  unfold transformInPlace
  simp only [withWorld_world, emit_items, emit_nextItem]
  refine HoldsKept_of_all _ _ ?_ fun i => ?_
  · show g.world.nextItem ≤ (Game.updateThing env _ _ _ _ _).world.nextItem
    rw [(updateThing_typed_refs env henv _ _ _ _ _ 0).2]
    split_ifs <;> simp [setItem]
  · show ((Game.updateThing env _ _ _ _ _).world.items i).referenceCounter = _
    rw [(updateThing_typed_refs env henv _ _ _ _ _ i).1]
    split_ifs
    · simp only [withWorld_world]
      exact setItem_refs _ item i _ (henv.2.2 _).2.2
    · rfl

/-- The swap for a new item changes no reference counter of an item that
exists: the old item is only queued. -/
theorem replaceItem_holds (g : Game) (cylinder : Cylinder) (itemIndex : Int) (item : Nat)
    (r : Item × Int × ItemDecayState_t) :
    HoldsKept g.world (replaceItem g cylinder itemIndex item r).1.world := by
  refine ⟨?_, fun i hi => ?_⟩
  · simp [replaceItem, Game.withWorld, Game.allocate, ReleaseItem, setItem, emit, replaceThing]
  · have hne : i ≠ g.world.nextItem := Nat.ne_of_lt hi
    by_cases hii : i = item
    · subst hii
      simp [replaceItem, Game.withWorld, Game.allocate, ReleaseItem, setItem, emit, replaceThing,
        Function.update_noteq hne]
    · simp [replaceItem, Game.withWorld, Game.allocate, ReleaseItem, setItem, emit, replaceThing,
        Function.update_noteq hne, Function.update_noteq hii]

theorem transformReplace_holds (env : DecayEnv) (g : Game) (cylinder : Cylinder)
    (itemIndex : Int) (item type count : Nat) :
    HoldsKept g.world (transformReplace env g cylinder itemIndex item type count).1.world := by
  unfold transformReplace
  split
  · exact HoldsKept_refl _
  · exact replaceItem_holds _ _ _ _ _

/-- The reference counters through `Game::transformItem`: no item that
exists changes its counter, except a door of a house that the call removes. -/
theorem transformItem_holds (env : DecayEnv) (henv : env.RetypeKeepsHolder) (fuel : Nat)
    (g : Game) (item newId : Nat) (newCount : Int) (g1 : Game) (newItem : Option Nat)
    (h : transformItem env fuel g item newId newCount = some (g1, newItem)) :
    g.world.nextItem ≤ g1.world.nextItem ∧
    ∀ i, i < g.world.nextItem →
      (i = item → (g.world.items item).kind.isHouseDoor = false) →
      (g1.world.items i).referenceCounter = (g.world.items i).referenceCounter := by
  have lift : ∀ g2 : Game, HoldsKept g.world g2.world →
      g.world.nextItem ≤ g2.world.nextItem ∧
      ∀ i, i < g.world.nextItem →
        (i = item → (g.world.items item).kind.isHouseDoor = false) →
        (g2.world.items i).referenceCounter = (g.world.items i).referenceCounter :=
    fun _ hk => ⟨hk.1, fun i hi _ => hk.2 i hi⟩
  rcases transformItem_cases env fuel g item newId newCount g1 newItem h with
    ⟨rfl, _⟩ | ⟨c, _, _, hk⟩
  · exact lift _ (HoldsKept_refl _)
  · rcases hk with ⟨id, cnt, _, _, e⟩ | ⟨id, cnt, e⟩ | ⟨t, n, e⟩ | ⟨e, _⟩
    · have e1 : g1 = (transformOnTop env g c (getThingIndex g.world c item) item id cnt).1 :=
        congrArg Prod.fst e
      rw [e1]
      exact lift _ (transformOnTop_holds env henv _ _ _ _ _ _)
    · have e1 : g1 = (transformInPlace env g c (getThingIndex g.world c item) item id cnt).1 :=
        congrArg Prod.fst e
      rw [e1]
      exact lift _ (transformInPlace_holds env henv _ _ _ _ _ _)
    · have e1 : g1 = (transformReplace env g c (getThingIndex g.world c item) item t n).1 :=
        congrArg Prod.fst e
      rw [e1]
      exact lift _ (transformReplace_holds env _ _ _ _ _ _)
    · rw [e]
      simp only [withWorld_world, internalRemoveItem_nextItem]
      exact ⟨Nat.le_refl _, fun i _ hd => internalRemoveItem_refs _ _ _ _ _ _ _ hd⟩

theorem releaseAll_spec (l : List Nat) :
    ∀ (w : World) (i : Nat),
      ((releaseAll w l).items i).referenceCounter = (w.items i).referenceCounter - l.count i := by
  induction l with
  | nil => intro w i; simp [releaseAll]
  | cons a t ih =>
    intro w i
    unfold releaseAll
    rw [ih]
    by_cases hai : a = i
    · subst hai
      simp [setItem]
      omega
    · have hia : i ≠ a := fun e => hai e.symm
      rw [List.count_cons_of_ne hia]
      simp [setItem, Function.update_noteq hia]

/-- The part of `Game::cleanup` on the items: every item loses one reference
for each of its entries in `ToReleaseItems`, and the queue is left empty. -/
theorem cleanup_refs (env : DecayEnv) (g : Game) :
    (∀ i, ((cleanup env g).world.items i).referenceCounter
      = (g.world.items i).referenceCounter - g.world.ToReleaseItems.count i) ∧
    (cleanup env g).world.ToReleaseItems = [] := by
  have e : (cleanup env g).world
      = { releaseAll g.world g.world.ToReleaseItems with ToReleaseItems := [] } := by
    unfold cleanup
    simp only []
    exact enterWheel_world env _ _
  rw [e]
  exact ⟨fun i => releaseAll_spec _ _ i, rfl⟩

/-- Counterexample of C22: a door of house 0 lies on tile 0 with two
references, one of the tile and one of the house. `internalRemoveItem` takes it
off the tile and queues it for release, and in the same call the hook
`Door::onRemoved` has `House::removeDoor` decrement its reference counter from
2 to 1, before any `cleanup`. -/
theorem internalRemoveItem_drops_door_hold_at_once :
    (doorWorld.items 30).referenceCounter = 2 ∧
    doorWorld.ToReleaseItems = [] ∧
    (internalRemoveItem openEnv doorWorld 30 (-1) false 0).1 = .RETURNVALUE_NOERROR ∧
    (internalRemoveItem openEnv doorWorld 30 (-1) false 0).2.ToReleaseItems = [30] ∧
    ((internalRemoveItem openEnv doorWorld 30 (-1) false 0).2.items 30).referenceCounter = 1 := by
  refine ⟨by decide, by decide, by decide, by decide, by decide⟩

/-- Claim C22, amended. `internalMoveItem` changes the reference counter of no
item that exists; `internalAddItem`, `internalRemoveItem` and `transformItem`
change none either, except that of a door of a house that they remove (there
`Door::onRemoved` has the house give up its reference at once); the retyping
methods of `Item` are assumed to leave the counter alone. `Game::cleanup` takes
from every item and every creature one reference for each of its entries in
the release queue, and leaves both queues empty. -/
theorem release_deferred_but_house_door (env : UpkeepEnv)
    (henv : env.toDecayEnv.RetypeKeepsHolder) :
    (∀ (fuel : Nat) (w : World) (a b : Cylinder) (index : Int) (item count flags : Nat)
        (actor tradeItem : Option Nat) (r : MoveResult),
      internalMoveItem env.toEnv fuel w a b index item count flags actor tradeItem = some r →
      ∀ i, i < w.nextItem → (r.world.items i).referenceCounter = (w.items i).referenceCounter) ∧
    (∀ (fuel : Nat) (w : World) (toCylinder : Option Cylinder) (item : Option Nat)
        (index : Int) (flags : Nat) (test : Bool) (ret : ReturnValue) (w1 : World) (rem : Nat),
      internalAddItem env.toEnv fuel w toCylinder item index flags test = some (ret, w1, rem) →
      ∀ i, i < w.nextItem →
        (item = some i → (w.items i).kind.isHouseDoor = false) →
        (w1.items i).referenceCounter = (w.items i).referenceCounter) ∧
    (∀ (w : World) (item : Nat) (count : Int) (test : Bool) (flags i : Nat),
      (i = item → (w.items item).kind.isHouseDoor = false) →
      ((internalRemoveItem env.toEnv w item count test flags).2.items i).referenceCounter
        = (w.items i).referenceCounter) ∧
    (∀ (fuel : Nat) (g : Game) (item newId : Nat) (newCount : Int) (g1 : Game)
        (newItem : Option Nat),
      transformItem env.toDecayEnv fuel g item newId newCount = some (g1, newItem) →
      ∀ i, i < g.world.nextItem →
        (i = item → (g.world.items item).kind.isHouseDoor = false) →
        (g1.world.items i).referenceCounter = (g.world.items i).referenceCounter) ∧
    (∀ s : Server,
      (∀ i, ((Server.cleanup env s).game.world.items i).referenceCounter
        = (s.game.world.items i).referenceCounter - s.game.world.ToReleaseItems.count i) ∧
      (∀ c, ((Server.cleanup env s).creatures c).referenceCounter
        = (s.creatures c).referenceCounter - s.ToReleaseCreatures.count c) ∧
      (Server.cleanup env s).game.world.ToReleaseItems = [] ∧
      (Server.cleanup env s).ToReleaseCreatures = []) := by
  refine ⟨?_, ?_, ?_, ?_, ?_⟩
  · intro fuel w a b index item count flags actor tradeItem r h
    exact (internalMoveItem_holds _ _ _ _ _ _ _ _ _ _ _ r h).2
  · intro fuel w toCylinder item index flags test ret w1 rem h i hi hd
    exact (internalAddItem_holds _ _ _ _ _ _ _ _ _ _ _ h).2 i hi
      (fun it e1 e2 => by subst e2; exact hd e1)
  · intro w item count test flags i hd
    exact internalRemoveItem_refs _ _ _ _ _ _ _ hd
  · intro fuel g item newId newCount g1 newItem h
    exact (transformItem_holds _ henv _ _ _ _ _ _ _ h).2
  · intro s
    exact ⟨(cleanup_refs env.toDecayEnv s.game).1,
      fun c => (releaseCreatures_spec s.ToReleaseCreatures s.creatures c).1,
      (cleanup_refs env.toDecayEnv s.game).2, rfl⟩

theorem upkeepEnv_retype : upkeepEnv.toDecayEnv.RetypeKeepsHolder :=
  ⟨fun _ _ _ _ => ⟨rfl, rfl, rfl⟩, fun _ _ => ⟨rfl, rfl, rfl⟩, fun _ => ⟨rfl, rfl, rfl⟩⟩

/-- Witness of C22: the environment `upkeepEnv` retypes items without touching
their counters; the removal of the gold of tile 0 and the cleanup of
`queuedServer` are instances. -/
theorem release_deferred_but_house_door_witness :
    upkeepEnv.toDecayEnv.RetypeKeepsHolder ∧
    ((1 = 1 → (coinWorld.items 1).kind.isHouseDoor = false) →
      ((internalRemoveItem upkeepEnv.toEnv coinWorld 1 (-1) false 0).2.items 1).referenceCounter
        = (coinWorld.items 1).referenceCounter) ∧
    ((∀ i, ((Server.cleanup upkeepEnv queuedServer).game.world.items i).referenceCounter
        = (queuedServer.game.world.items i).referenceCounter
          - queuedServer.game.world.ToReleaseItems.count i) ∧
      (∀ c, ((Server.cleanup upkeepEnv queuedServer).creatures c).referenceCounter
        = (queuedServer.creatures c).referenceCounter - queuedServer.ToReleaseCreatures.count c) ∧
      (Server.cleanup upkeepEnv queuedServer).game.world.ToReleaseItems = [] ∧
      (Server.cleanup upkeepEnv queuedServer).ToReleaseCreatures = []) :=
  ⟨upkeepEnv_retype,
    (release_deferred_but_house_door upkeepEnv upkeepEnv_retype).2.2.1 coinWorld 1 (-1) false 0 1,
    (release_deferred_but_house_door upkeepEnv upkeepEnv_retype).2.2.2.2 queuedServer⟩

/-- The deferred release, evaluated: the removal of the gold of tile 0 queues
it and leaves its counter at 1; the cleanup of `queuedServer` takes one
reference from item 1, queued once, and two from creature 1, queued twice, and
empties both queues. -/
theorem deferred_release_example :
    (coinWorld.items 1).referenceCounter = 1 ∧
    (internalRemoveItem openEnv coinWorld 1 (-1) false 0).2.ToReleaseItems = [1] ∧
    ((internalRemoveItem openEnv coinWorld 1 (-1) false 0).2.items 1).referenceCounter = 1 ∧
    (queuedServer.game.world.items 1).referenceCounter = 1 ∧
    queuedServer.game.world.ToReleaseItems = [1] ∧
    (queuedServer.creatures 1).referenceCounter = 2 ∧
    ((Server.cleanup upkeepEnv queuedServer).game.world.items 1).referenceCounter = 0 ∧
    ((Server.cleanup upkeepEnv queuedServer).creatures 1).referenceCounter = 0 ∧
    (Server.cleanup upkeepEnv queuedServer).game.world.ToReleaseItems = [] ∧
    (Server.cleanup upkeepEnv queuedServer).ToReleaseCreatures = [] := by
  refine ⟨by decide, by decide, by decide, by decide, by decide, by decide, by decide, by decide,
    by decide, by decide⟩

/-! ## `Game::addMoney` -/

theorem toInt32_le (x : Nat) : toInt32 x ≤ (x : Int) := by
  unfold toInt32
  split_ifs <;> omega

theorem remainder_bound (c q tc : Nat)
    (h : 0 < toInt32 (min c q - mergeAmount tc (min c q))) :
    toInt32 (min c q - mergeAmount tc (min c q)) ≤ (c : Int) ∧ 0 < c ∧
    (mergeAmount tc (min c q) = 0 ∨ toInt32 (min c q - mergeAmount tc (min c q)) < (c : Int)) := by
  have h1 := toInt32_le (min c q - mergeAmount tc (min c q))
  have h2 : min c q ≤ c := Nat.min_le_left _ _
  refine ⟨by omega, by omega, ?_⟩
  by_cases hn : mergeAmount tc (min c q) = 0
  · exact Or.inl hn
  · exact Or.inr (by omega)

theorem remainder_lt (c q tc x : Nat)
    (hpos : 0 < toInt32 (min c q - mergeAmount tc (min c q)))
    (hx : x = c ∨ (x = tc + mergeAmount tc (min c q) ∧ tc = c))
    (hne : (x : Int) ≠ toInt32 (min c q - mergeAmount tc (min c q))) :
    (toInt32 (min c q - mergeAmount tc (min c q))).toNat < c := by
  have h1 := toInt32_le (min c q - mergeAmount tc (min c q))
  have h2 : min c q ≤ c := Nat.min_le_left _ _
  rcases hx with hx | ⟨hx, ht⟩ <;> omega

theorem updateThing_count_cases (w : World) (c : Cylinder) (t a k i : Nat) :
    ((updateThing w c t a k).items i).count = (w.items i).count ∨
    (i = t ∧ ((updateThing w c t a k).items i).count = k) := by
  unfold updateThing
  by_cases hi : i = t
  · subst hi
    split_ifs
    · right; simp
    · left; rfl
  · left
    split_ifs
    · simp [Function.update_noteq hi]
    · rfl

/-- A call of `Game::internalAddItem` that does not return
`RETURNVALUE_NOERROR` has changed nothing. -/
theorem internalAddItem_failed (env : Env) (fuel : Nat) (w : World)
    (toCylinder : Option Cylinder) (item : Option Nat) (index : Int) (flags : Nat) (test : Bool)
    (ret : ReturnValue) (w1 : World) (rem : Nat)
    (h : internalAddItem env fuel w toCylinder item index flags test = some (ret, w1, rem))
    (hret : ret ≠ .RETURNVALUE_NOERROR) : w1 = w := by
  have hfail : ∀ (r : ReturnValue) (x : World) (n : Nat),
      some (r, w, n) = some (ret, x, rem) → x = w := by
    intro r x n e
    simp only [Option.some.injEq, Prod.mk.injEq] at e
    exact e.2.1.symm
  have hok : ∀ (x y : World) (n : Nat),
      some (ReturnValue.RETURNVALUE_NOERROR, x, n) = some (ret, y, rem) → y = w := by
    intro x y n e
    simp only [Option.some.injEq, Prod.mk.injEq] at e
    exact absurd e.1.symm hret
  unfold internalAddItem at h
  cases toCylinder with
  | none => exact hfail _ _ _ h
  | some d =>
    cases item with
    | none => exact hfail _ _ _ h
    | some it =>
      simp only [] at h
      split_ifs at h with c1 c2 c3
      · exact hfail _ _ _ h
      · exact hfail _ _ _ h
      · exact hok _ _ _ h
      · split at h
        · split_ifs at h with c4 c5 c6
          · cases fuel with
            | zero => cases h
            | succ f =>
              simp only [] at h
              split at h
              · cases h
              · split_ifs at h
                · exact hok _ _ _ h
                · exact hok _ _ _ h
          · exact hok _ _ _ h
          · exact hok _ _ _ h
          · exact hok _ _ _ h
        · exact hok _ _ _ h

/-- `Game::internalAddItem` returns: the recursion for the remainder of a
stack runs on a stack of a smaller count, so as many levels as the item has
units are enough. -/
theorem internalAddItem_returns (env : Env) :
    ∀ (fuel : Nat) (w : World) (toCylinder : Option Cylinder) (item : Option Nat) (index : Int)
      (flags : Nat) (test : Bool),
      (∀ it, item = some it → (w.items it).count ≤ fuel) →
      ∃ r, internalAddItem env fuel w toCylinder item index flags test = some r := by
  intro fuel
  induction fuel with
  | zero =>
    intro w toCylinder item index flags test hc
    unfold internalAddItem
    cases toCylinder with
    | none => exact ⟨_, rfl⟩
    | some d =>
      cases item with
      | none => exact ⟨_, rfl⟩
      | some it =>
        have h0 : (w.items it).count = 0 := Nat.le_zero.mp (hc it rfl)
        simp only []
        split_ifs with c1 c2 c3
        · exact ⟨_, rfl⟩
        · exact ⟨_, rfl⟩
        · exact ⟨_, rfl⟩
        · split
          · split_ifs with c4 c5 c6
            · exfalso
              have hb := (remainder_bound _ _ _ c5).2.1
              omega
            · exact ⟨_, rfl⟩
            · exact ⟨_, rfl⟩
            · exact ⟨_, rfl⟩
          · exact ⟨_, rfl⟩
  | succ f ih =>
    intro w toCylinder item index flags test hc
    unfold internalAddItem
    cases toCylinder with
    | none => exact ⟨_, rfl⟩
    | some d =>
      cases item with
      | none => exact ⟨_, rfl⟩
      | some it =>
        have h0 : (w.items it).count ≤ f + 1 := hc it rfl
        simp only []
        split_ifs with c1 c2 c3
        · exact ⟨_, rfl⟩
        · exact ⟨_, rfl⟩
        · exact ⟨_, rfl⟩
        · split
          · split_ifs with c4 c5 c6
            · rename_i toItem t ht
              have hlt := remainder_lt _ _ _ _ c5
                ((updateThing_count_cases w (env.queryDestination w d index it none flags).1 t
                  (w.items t).id _ it).imp id (fun e => ⟨e.2, by rw [e.1]⟩)) c6
              obtain ⟨⟨ret3, w3, rem3⟩, hr⟩ := ih
                (cloneWithCount (updateThing w (env.queryDestination w d index it none flags).1 t
                  (w.items t).id ((w.items t).count + mergeAmount (w.items t).count
                    (min (w.items it).count
                      (env.queryMaxCount w d INDEX_WHEREEVER it (w.items it).count
                        (env.queryDestination w d index it none flags).2.2.2).2))) it
                  (toInt32 (min (w.items it).count
                    (env.queryMaxCount w d INDEX_WHEREEVER it (w.items it).count
                      (env.queryDestination w d index it none flags).2.2.2).2
                    - mergeAmount (w.items t).count (min (w.items it).count
                      (env.queryMaxCount w d INDEX_WHEREEVER it (w.items it).count
                        (env.queryDestination w d index it none flags).2.2.2).2))).toNat).2
                (some d)
                (some (updateThing w (env.queryDestination w d index it none flags).1 t
                  (w.items t).id ((w.items t).count + mergeAmount (w.items t).count
                    (min (w.items it).count
                      (env.queryMaxCount w d INDEX_WHEREEVER it (w.items it).count
                        (env.queryDestination w d index it none flags).2.2.2).2))).nextItem)
                INDEX_WHEREEVER (env.queryDestination w d index it none flags).2.2.2 false
                (by
                  intro it1 e
                  simp only [Option.some.injEq] at e
                  subst e
                  simp only [cloneWithCount, Function.update_same]
                  exact Nat.le_of_lt_succ (Nat.lt_of_lt_of_le hlt h0))
              simp only [cloneWithCount] at hr ⊢
              rw [hr]
              simp only []
              split_ifs <;> exact ⟨_, rfl⟩
            · exact ⟨_, rfl⟩
            · exact ⟨_, rfl⟩
            · exact ⟨_, rfl⟩
          · exact ⟨_, rfl⟩

/-- The statements of `Game::addMoney` for one stack return. -/
theorem addCoins_returns (env : MoneyEnv) (fuel : Nat) (g : Game) (cylinder : Cylinder)
    (coin : Coin) (count flags : Nat) (hfuel : env.CreatesWithin fuel) (hc : count < 65536) :
    ∃ g1, addCoins env fuel g cylinder coin count flags = some g1 := by
  unfold addCoins
  cases hci : env.CreateItem (env.coinId coin) count with
  | none =>
    simp only []
    obtain ⟨⟨ret, w1, rem⟩, h1⟩ := internalAddItem_returns env.toEnv fuel g.world (some cylinder)
      none INDEX_WHEREEVER flags false (fun _ e => by cases e)
    rw [h1]
    simp only []
    split_ifs
    · obtain ⟨⟨ret2, w2, rem2⟩, h2⟩ := internalAddItem_returns env.toEnv fuel w1
        (env.getTile w1 cylinder) none INDEX_WHEREEVER env.FLAG_NOLIMIT false
        (fun _ e => by cases e)
      rw [h2]
      exact ⟨_, rfl⟩
    · exact ⟨_, rfl⟩
  | some r =>
    simp only []
    have hcount : ∀ it, some (g.allocate r).1 = some it →
        ((g.allocate r).2.world.items it).count ≤ fuel := by
      intro it e
      simp only [Option.some.injEq] at e
      subst e
      simp only [Game.allocate, Function.update_same]
      exact hfuel _ _ r hc hci
    obtain ⟨⟨ret, w1, rem⟩, h1⟩ := internalAddItem_returns env.toEnv fuel (g.allocate r).2.world
      (some cylinder) (some (g.allocate r).1) INDEX_WHEREEVER flags false hcount
    rw [h1]
    simp only []
    split_ifs with hret
    · have hw : w1 = (g.allocate r).2.world :=
        internalAddItem_failed _ _ _ _ _ _ _ _ _ _ _ h1 hret
      obtain ⟨⟨ret2, w2, rem2⟩, h2⟩ := internalAddItem_returns env.toEnv fuel w1
        (env.getTile w1 cylinder) (some (g.allocate r).1) INDEX_WHEREEVER env.FLAG_NOLIMIT false
        (by rw [hw]; exact hcount)
      rw [h2]
      exact ⟨_, rfl⟩
    · exact ⟨_, rfl⟩

theorem stacksWorth_cons (c : Coin) (n : Nat) (l : List (Coin × Nat)) :
    stacksWorth ((c, n) :: l) = c.worth * n + stacksWorth l := by
  simp [stacksWorth]

theorem stacksWorth_append (l1 l2 : List (Coin × Nat)) :
    stacksWorth (l1 ++ l2) = stacksWorth l1 + stacksWorth l2 := by
  simp [stacksWorth]

/-- The loop over the crystal coins returns when it has as many steps as
coins; its stacks are of crystal coins, of 1 to 100 coins each, and hold
`crystalCoins` coins together. -/
theorem crystalStacks_spec (env : MoneyEnv) (fuel : Nat) (cylinder : Cylinder) (flags : Nat)
    (hfuel : env.CreatesWithin fuel) :
    ∀ (steps crystalCoins : Nat) (g : Game), crystalCoins ≤ steps →
      ∃ g1 coins, crystalStacks env fuel cylinder flags steps crystalCoins g = some (g1, coins) ∧
        stacksWorth coins = crystalCoins * 10000 ∧
        ∀ s ∈ coins, s.1 = Coin.CRYSTAL ∧ 1 ≤ s.2 ∧ s.2 ≤ 100 := by
  intro steps
  induction steps with
  | zero =>
    intro crystalCoins g h
    have h0 : crystalCoins = 0 := Nat.le_zero.mp h
    subst h0
    exact ⟨g, [], rfl, rfl, fun _ hs => by cases hs⟩
  | succ n ih =>
    intro crystalCoins g h
    cases crystalCoins with
    | zero => exact ⟨g, [], by unfold crystalStacks; rfl, rfl, fun _ hs => by cases hs⟩
    | succ c =>
      unfold crystalStacks
      simp only []
      obtain ⟨g1, h1⟩ := addCoins_returns env fuel g cylinder .CRYSTAL (min 100 (c + 1)) flags
        hfuel (by omega)
      rw [h1]
      simp only []
      obtain ⟨g2, t, h2, hw, hall⟩ := ih (c + 1 - min 100 (c + 1)) g1 (by omega)
      rw [h2]
      refine ⟨g2, _, rfl, ?_, ?_⟩
      · rw [stacksWorth_cons, hw]
        simp only [Coin.worth]
        omega
      · intro s hs
        rcases List.mem_cons.mp hs with e | hs
        · subst e
          exact ⟨rfl, by simp only []; omega, by simp only []; omega⟩
        · exact hall s hs

/-- The stacks that `Game::addMoney` asks for: stacks of crystal coins of 1 to
100 coins that hold `crystalCoins` coins together, then one stack of
`platinumCoins` platinum coins if that is not zero, then one stack of gold
coins for what is left of `money`, cut to 16 bits. The call returns when the
fuel covers the created items. -/
theorem addMoney_spec (env : MoneyEnv) (fuel : Nat) (g : Game) (cylinder : Cylinder)
    (money flags : Nat) (hfuel : env.CreatesWithin fuel) (hm : money ≠ 0) :
    ∃ g1 crystal,
      addMoney env fuel g cylinder money flags
        = some (g1, crystal
            ++ (if platinumCoinsOf money ≠ 0 then [(Coin.PLATINUM, platinumCoinsOf money)]
                else [])
            ++ (if afterPlatinum money ≠ 0 then [(Coin.GOLD, afterPlatinum money % 65536)]
                else [])) ∧
      stacksWorth crystal = crystalCoinsOf money * 10000 ∧
      ∀ s ∈ crystal, s.1 = Coin.CRYSTAL ∧ 1 ≤ s.2 ∧ s.2 ≤ 100 := by
  obtain ⟨g1, crystal, h1, hw, hall⟩ := crystalStacks_spec env fuel cylinder flags hfuel
    (crystalCoinsOf money) (crystalCoinsOf money) g (Nat.le_refl _)
  unfold addMoney
  rw [if_neg hm]
  simp only []
  unfold crystalCoinsOf at h1
  rw [h1]
  simp only []
  by_cases hp : platinumCoinsOf money ≠ 0
  · obtain ⟨g2, h2⟩ := addCoins_returns env fuel g1 cylinder .PLATINUM (platinumCoinsOf money)
      flags hfuel (by unfold platinumCoinsOf; omega)
    simp only [afterPlatinum, if_pos hp]
    unfold platinumCoinsOf afterCrystal crystalCoinsOf at hp h2 ⊢
    rw [if_pos hp, h2]
    simp only []
    split_ifs with hg
    · obtain ⟨g3, h3⟩ := addCoins_returns env fuel g2 cylinder .GOLD
        ((money - money / 10000 % 4294967296 * 10000 % 4294967296
          - (money - money / 10000 % 4294967296 * 10000 % 4294967296) / 100 % 65536 * 100)
            % 65536) flags hfuel (Nat.mod_lt _ (by decide))
      rw [h3]
      exact ⟨g3, crystal, rfl, hw, hall⟩
    · exact ⟨g2, crystal, by simp, hw, hall⟩
  · simp only [afterPlatinum, if_neg hp]
    unfold platinumCoinsOf afterCrystal crystalCoinsOf at hp
    unfold afterCrystal crystalCoinsOf
    rw [if_neg hp]
    simp only []
    split_ifs with hg
    · obtain ⟨g3, h3⟩ := addCoins_returns env fuel g1 cylinder .GOLD
        ((money - money / 10000 % 4294967296 * 10000 % 4294967296) % 65536) flags hfuel
        (Nat.mod_lt _ (by decide))
      rw [h3]
      exact ⟨g3, crystal, by simp, hw, hall⟩
    · exact ⟨g1, crystal, by simp, hw, hall⟩

theorem moneyEnv_creates : moneyEnv.CreatesWithin 65535 := by
  intro type count r hc h
  have e : r = (⟨type, count, true, none, 1, .plain, true⟩, 0, .DECAYING_FALSE) :=
    (Option.some.inj h).symm
  rw [e]
  exact Nat.le_of_lt_succ hc

/-- Below 4294970000 `Game::addMoney` conserves the value: the stacks it asks
for are worth `money` together and hold 1 to 100 coins each. -/
theorem addMoney_conserves_below (env : MoneyEnv) (fuel : Nat) (g : Game) (cylinder : Cylinder)
    (money flags : Nat) (hfuel : env.CreatesWithin fuel) (hm : money < 4294970000) :
    ∃ g1 coins, addMoney env fuel g cylinder money flags = some (g1, coins) ∧
      stacksWorth coins = money ∧ ∀ s ∈ coins, 1 ≤ s.2 ∧ s.2 ≤ 100 := by
  by_cases h0 : money = 0
  · subst h0
    exact ⟨g, [], rfl, rfl, fun _ hs => by cases hs⟩
  · obtain ⟨g1, crystal, h1, hw, hall⟩ := addMoney_spec env fuel g cylinder money flags hfuel h0
    have hcc : crystalCoinsOf money = money / 10000 := by unfold crystalCoinsOf; omega
    have hac : afterCrystal money = money % 10000 := by unfold afterCrystal; rw [hcc]; omega
    have hpc : platinumCoinsOf money = money % 10000 / 100 := by
      unfold platinumCoinsOf; rw [hac]; omega
    have hap : afterPlatinum money = money % 100 := by
      unfold afterPlatinum; rw [hpc, hac]; split_ifs <;> omega
    refine ⟨g1, _, h1, ?_, ?_⟩
    · rw [stacksWorth_append, stacksWorth_append, hw, hcc, hpc, hap]
      split_ifs <;> simp [stacksWorth, Coin.worth] <;> omega
    · intro s hs
      rw [hpc, hap] at hs
      rcases List.mem_append.mp hs with hs | hs
      · rcases List.mem_append.mp hs with hs | hs
        · exact (hall s hs).2
        · split_ifs at hs with c
          · rw [List.mem_singleton.mp hs]
            simp only []
            omega
          · cases hs
      · split_ifs at hs with c
        · rw [List.mem_singleton.mp hs]
          simp only []
          omega
        · cases hs

/-- Claim C28, refuted by the code. For `money = 4294970000` the count of
crystal coins is 429497 and the product `crystalCoins * 10000`, computed in 32
bits, is 2704: the stacks of crystal coins are worth the whole amount, and
`Game::addMoney` asks for a stack of 23592 platinum coins and a stack of 96
gold coins on top, 4297329296 in all. For `money = 42949672960001` the count
of crystal coins, cut to 32 bits, and the count of platinum coins, cut to 16
bits, are zero and one gold coin is all that is created. -/
theorem addMoney_does_not_conserve :
    (∃ g1 crystal,
      addMoney moneyEnv 65535 purseGame (.player 1) 4294970000 0
        = some (g1, crystal ++ [(Coin.PLATINUM, 23592)] ++ [(Coin.GOLD, 96)]) ∧
      stacksWorth crystal = 4294970000 ∧
      stacksWorth (crystal ++ [(Coin.PLATINUM, 23592)] ++ [(Coin.GOLD, 96)]) = 4297329296) ∧
    (addMoney moneyEnv 65535 purseGame (.player 1) 42949672960001 0).map Prod.snd
      = some [(Coin.GOLD, 1)] ∧
    (addMoney moneyEnv 65535 purseGame (.player 1) 42949672960001 0).map
        (fun r => (r.1.world.nextItem, (r.1.world.items 4).id, (r.1.world.items 4).count))
      = some (5, 2148, 1) := by
  have e1 : crystalCoinsOf 4294970000 = 429497 := by decide
  have e2 : platinumCoinsOf 4294970000 = 23592 := by decide
  have e3 : afterPlatinum 4294970000 = 4292608096 := by decide
  obtain ⟨g1, crystal, h1, hw, _⟩ := addMoney_spec moneyEnv 65535 purseGame (.player 1)
    4294970000 0 moneyEnv_creates (by decide)
  rw [e1] at hw
  rw [e2, e3] at h1
  refine ⟨⟨g1, crystal, h1, hw, ?_⟩, by decide, by decide⟩
  rw [stacksWorth_append, stacksWorth_append, hw]
  rfl

/-! ## `Game::removeMoney` -/

theorem moneyEmplace_perm (worth item : Nat) (l : List (Nat × Nat)) :
    List.Perm (moneyEmplace worth item l) ((worth, item) :: l) := by
  induction l with
  | nil => exact List.Perm.refl _
  | cons e rest ih =>
    unfold moneyEmplace
    split_ifs
    · exact List.Perm.refl _
    · exact (List.Perm.cons e ih).trans (List.Perm.swap _ _ _)

theorem mapWorth_emplace (worth item : Nat) (l : List (Nat × Nat)) :
    mapWorth (moneyEmplace worth item l) = worth + mapWorth l := by
  unfold mapWorth
  rw [List.Perm.sum_eq ((moneyEmplace_perm worth item l).map Prod.fst)]
  simp

theorem mem_moneyEmplace (worth item : Nat) (l : List (Nat × Nat)) (e : Nat × Nat) :
    e ∈ moneyEmplace worth item l ↔ e = (worth, item) ∨ e ∈ l := by
  rw [(moneyEmplace_perm worth item l).mem_iff]
  exact List.mem_cons

theorem scanItem_ok (env : MoneyEnv) (w : World) (s : MoneyScan) (item : Nat)
    (h : ScanOk env w s) : ScanOk env w (scanItem env w s item) := by
  unfold scanItem
  split_ifs with c1 c2
  · exact h
  · refine ⟨?_, ?_⟩
    · simp only [mapWorth_emplace]
      rw [h.1]
      omega
    · intro e he
      rcases (mem_moneyEmplace _ _ _ e).mp he with e1 | e1
      · rw [e1]
        exact ⟨rfl, c2⟩
      · exact h.2 e e1
  · exact h

theorem scanItems_ok (env : MoneyEnv) (w : World) (l : List Nat) :
    ∀ s, ScanOk env w s → ScanOk env w (l.foldl (scanItem env w) s) := by
  induction l with
  | nil => intro s h; exact h
  | cons a t ih => intro s h; exact ih _ (scanItem_ok env w s a h)

theorem scanContainers_ok (env : MoneyEnv) (w : World) :
    ∀ (fuel i : Nat) (s s1 : MoneyScan), scanContainers env w fuel i s = some s1 →
      ScanOk env w s → ScanOk env w s1 := by
  intro fuel
  induction fuel with
  | zero =>
    intro i s s1 h hs
    unfold scanContainers at h
    split_ifs at h
    cases h
    exact hs
  | succ f ih =>
    intro i s s1 h hs
    unfold scanContainers at h
    split at h
    · cases h
      exact hs
    · exact ih _ _ _ h (scanItems_ok env w _ _ hs)

/-- The scan of `Game::removeMoney` over a holder, when it comes to its end,
has found entries whose keys are the worths of their items and has their total
in `moneyCount`. -/
theorem scan_ok (env : MoneyEnv) (w : World) (fuel : Nat) (cylinder : Cylinder) (s : MoneyScan)
    (h : scanContainers env w fuel 0
      ((w.contents cylinder).foldl (scanItem env w) ⟨[], [], 0⟩) = some s) :
    ScanOk env w s :=
  scanContainers_ok env w fuel 0 _ s h
    (scanItems_ok env w _ _ ⟨rfl, fun _ he => by cases he⟩)

/-- An item that is worth something is a stack of coins, and its worth is the
worth of the coin times its count, when the count is of 16 bits. -/
theorem getWorth_cases (env : MoneyEnv) (w : World) (item : Nat)
    (hc : (w.items item).count < 65536) (h : getWorth env w item ≠ 0) :
    ∃ coin : Coin, (w.items item).id = env.coinId coin ∧
      getWorth env w item = coin.worth * (w.items item).count := by
  unfold getWorth at h ⊢
  split_ifs at h ⊢ with c1 c2 c3
  · exact ⟨.GOLD, c1, by simp only [Coin.worth]; omega⟩
  · exact ⟨.PLATINUM, c2, by simp only [Coin.worth]; omega⟩
  · exact ⟨.CRYSTAL, c3, by simp only [Coin.worth]; omega⟩
  · exact absurd rfl h

theorem getWorth_congr (env : MoneyEnv) (w w1 : World) (item : Nat)
    (h1 : (w1.items item).id = (w.items item).id)
    (h2 : (w1.items item).count = (w.items item).count) :
    getWorth env w1 item = getWorth env w item := by
  unfold getWorth
  rw [h1, h2]

theorem change_arith_aux (cw q count money : Nat) (h1 : 1 ≤ q) (h2 : q ≤ count)
    (hc : count < 65536) (hp : cw * q < 4294967296) (h3 : money ≤ cw * q)
    (h4 : cw * q < money + cw) :
    1 ≤ q % 4294967296 ∧ q % 4294967296 ≤ count ∧
    (cw * (q % 4294967296) % 4294967296 + 18446744073709551616 - money)
        % 18446744073709551616 + money = cw * (q % 4294967296) ∧
    (cw * (q % 4294967296) % 4294967296 + 18446744073709551616 - money)
        % 18446744073709551616 < cw := by
  have e1 : q % 4294967296 = q := Nat.mod_eq_of_lt (by omega)
  rw [e1]
  generalize cw * q = p at *
  have e2 : p % 4294967296 = p := Nat.mod_eq_of_lt hp
  rw [e2]
  have e3 : (p + 18446744073709551616 - money) % 18446744073709551616 = p - money := by
    have : p + 18446744073709551616 - money = (p - money) + 18446744073709551616 := by omega
    rw [this, Nat.add_mod_right]
    exact Nat.mod_eq_of_lt (by omega)
  rw [e3]
  omega

/-- The arithmetic of the branch of `Game::removeMoney` that gives change, for
a stack of `count` coins of the worth `cw` each and `money` below the worth of
the stack. -/
theorem change_arith (cw count money : Nat) (hcw : cw = 1 ∨ cw = 100 ∨ cw = 10000)
    (hc : count < 65536) (hm0 : 0 < money) (hm : money < cw * count) :
    count ≠ 0 ∧ cw * count / count = cw ∧
    1 ≤ (money + cw - 1) / cw % 4294967296 ∧
    (money + cw - 1) / cw % 4294967296 ≤ count ∧
    (cw * ((money + cw - 1) / cw % 4294967296) % 4294967296 + 18446744073709551616 - money)
        % 18446744073709551616 + money = cw * ((money + cw - 1) / cw % 4294967296) ∧
    (cw * ((money + cw - 1) / cw % 4294967296) % 4294967296 + 18446744073709551616 - money)
        % 18446744073709551616 < cw := by
  have hcount : count ≠ 0 := by
    intro e
    rw [e] at hm
    simp at hm
  refine ⟨hcount, Nat.mul_div_cancel _ (Nat.pos_of_ne_zero hcount), ?_⟩
  rcases hcw with e | e | e <;> subst e <;>
    exact change_arith_aux _ _ _ _ (by omega) (by omega) hc (by omega) (by omega) (by omega)

theorem onRemoved_count_id (w : World) (item i : Nat) :
    ((onRemoved w item).items i).count = (w.items i).count ∧
    ((onRemoved w item).items i).id = (w.items i).id := by
  unfold onRemoved
  split
  · unfold removeDoor
    split_ifs
    · by_cases hi : i = item
      · subst hi
        simp [setHouse, setItem]
      · simp [setHouse, setItem, Function.update_noteq hi]
    · exact ⟨rfl, rfl⟩
  · exact ⟨rfl, rfl⟩

/-- The removal of a whole item changes neither the count nor the type of any
item. -/
theorem internalRemoveItem_whole_keeps (env : Env) (w : World) (item flags i : Nat)
    (hc : (w.items item).count < 4294967296) :
    ((internalRemoveItem env w item (-1) false flags).2.items i).count = (w.items i).count ∧
    ((internalRemoveItem env w item (-1) false flags).2.items i).id = (w.items i).id := by
  have hu : toUInt32 ((w.items item).count : Int) = (w.items item).count := by
    unfold toUInt32
    omega
  have hrm : ∀ c, ((removeThing w c item (w.items item).count).items i).count = (w.items i).count ∧
      ((removeThing w c item (w.items item).count).items i).id = (w.items i).id := by
    intro c
    unfold removeThing
    by_cases hi : i = item
    · subst hi
      split_ifs with c1 c2
      · exact absurd rfl c2.2
      · simp
      · exact ⟨rfl, rfl⟩
    · split_ifs with c1 c2
      · exact absurd rfl c2.2
      · simp [Function.update_noteq hi]
      · exact ⟨rfl, rfl⟩
  unfold internalRemoveItem
  split
  · exact ⟨rfl, rfl⟩
  · rename_i c hp
    simp only [if_true, hu]
    split_ifs
    · exact ⟨rfl, rfl⟩
    · exact ⟨rfl, rfl⟩
    · have h1 := onRemoved_count_id
        (emit (releaseIfRemoved (removeThing w c item (w.items item).count) item)
          (.postRemoveNotification c item none (getThingIndex w c item))) item i
      have h2 : (releaseIfRemoved (removeThing w c item (w.items item).count) item).items
          = (removeThing w c item (w.items item).count).items := by
        unfold releaseIfRemoved
        split_ifs <;> rfl
      simp only [emit_items, h2] at h1
      exact ⟨h1.1.trans (hrm c).1, h1.2.trans (hrm c).2⟩

theorem Payment.sound_mono (w w1 : World) (entries : List (Nat × Nat)) (e : Nat × Nat)
    (hc : ∀ i, (w1.items i).count = (w.items i).count) (p : Payment)
    (h : p.Sound w1 entries) : p.Sound w (e :: entries) := by
  cases p with
  | whole item worth => exact List.mem_cons_of_mem _ h
  | units item unit removeCount change =>
    obtain ⟨h1, h2, h3, h4⟩ := h
    rw [hc] at h1 h3
    exact ⟨List.mem_cons_of_mem _ h1, h2, h3, h4⟩

theorem Coin.worth_cases (c : Coin) : c.worth = 1 ∨ c.worth = 100 ∨ c.worth = 10000 := by
  cases c
  · exact Or.inl rfl
  · exact Or.inr (Or.inl rfl)
  · exact Or.inr (Or.inr rfl)

/-- The loop of `Game::removeMoney` over a map that is worth at least `money`
returns, and what it takes less what it hands back is `money`: the loop ends
in one of the two branches with `break`. -/
theorem payLoop_spec (env : MoneyEnv) (fuel : Nat) (cylinder : Cylinder) (flags : Nat)
    (hfuel : env.CreatesWithin fuel) :
    ∀ (entries : List (Nat × Nat)) (money : Nat) (g : Game),
      0 < money → money ≤ mapWorth entries →
      (∀ e ∈ entries, e.1 = getWorth env g.world e.2 ∧ e.1 ≠ 0) →
      (∀ i, (g.world.items i).count < 65536) →
      ∃ g1 taken, payLoop env fuel cylinder flags entries money g = some (g1, taken) ∧
        (taken.map Payment.paid).sum = money + (taken.map Payment.change).sum ∧
        taken ≠ [] ∧ ∀ p ∈ taken, p.Sound g.world entries := by
  intro entries
  induction entries with
  | nil =>
    intro money g h0 hw
    simp [mapWorth] at hw
    omega
  | cons e rest ih =>
    intro money g h0 hw hent hcount
    obtain ⟨first, item⟩ := e
    have hsum : mapWorth ((first, item) :: rest) = first + mapWorth rest := by
      simp [mapWorth]
    rw [hsum] at hw
    have hhead := hent (first, item) (List.mem_cons_self _ _)
    simp only [] at hhead
    unfold payLoop
    by_cases c1 : first < money
    · rw [if_pos c1]
      simp only []
      have hkeep := internalRemoveItem_whole_keeps env.toEnv g.world item 0
      have hc1 : (g.world.items item).count < 4294967296 :=
        Nat.lt_trans (hcount item) (by decide)
      obtain ⟨g2, taken, h1, h2, _, h4⟩ := ih (money - first)
        (g.withWorld (internalRemoveItem env.toEnv g.world item (-1) false 0).2)
        (by omega) (by omega)
        (fun e he => by
          rw [withWorld_world, getWorth_congr env g.world _ e.2 (hkeep _ hc1).2 (hkeep _ hc1).1]
          exact hent e (List.mem_cons_of_mem _ he))
        (fun i => by
          rw [withWorld_world, (hkeep i hc1).1]
          exact hcount i)
      rw [h1]
      refine ⟨g2, _, rfl, ?_, List.cons_ne_nil _ _, ?_⟩
      · simp only [List.map_cons, List.sum_cons, Payment.paid, Payment.change, h2]
        omega
      · intro p hp
        rcases List.mem_cons.mp hp with e1 | e1
        · rw [e1]
          exact List.mem_cons_self _ _
        · exact Payment.sound_mono g.world _ rest (first, item)
            (fun i => (hkeep i hc1).1) p (h4 p e1)
    · rw [if_neg c1]
      by_cases c2 : money < first
      · rw [if_pos c2]
        obtain ⟨coin, _, hwc⟩ := getWorth_cases env g.world item (hcount item)
          (by rw [← hhead.1]; exact hhead.2)
        have hf : first = coin.worth * (g.world.items item).count := hhead.1.trans hwc
        obtain ⟨a1, a2, a3, a4, a5, a6⟩ := change_arith coin.worth (g.world.items item).count
          money coin.worth_cases (hcount item) h0 (by rw [← hf]; exact c2)
        rw [if_neg a1]
        simp only []
        rw [hf, a2]
        have hcw : coin.worth ≠ 0 := by
          rcases coin.worth_cases with e | e | e <;> rw [e] <;> decide
        rw [if_neg hcw]
        obtain ⟨g1, change, b1, b2, b3⟩ := addMoney_conserves_below env fuel g cylinder
          ((coin.worth * ((money + coin.worth - 1) / coin.worth % 4294967296) % 4294967296
            + 18446744073709551616 - money) % 18446744073709551616) flags hfuel
          (by
            rcases coin.worth_cases with e | e | e <;> rw [e] at a6 ⊢ <;> omega)
        rw [b1]
        refine ⟨_, _, rfl, ?_, List.cons_ne_nil _ _, ?_⟩
        · simp only [List.map_cons, List.map_nil, List.sum_cons, List.sum_nil, Payment.paid,
            Payment.change, b2]
          omega
        · intro p hp
          rw [List.mem_singleton.mp hp]
          exact ⟨List.mem_cons_self _ _, a3, a4, by rw [b2]; exact a6, b3⟩
      · rw [if_neg c2]
        have e1 : first = money := by omega
        refine ⟨_, _, rfl, ?_, List.cons_ne_nil _ _, ?_⟩
        · simp [Payment.paid, Payment.change, e1]
        · intro p hp
          rw [List.mem_singleton.mp hp]
          exact List.mem_cons_self _ _

/-! ## `Game::removeMoney`: what the loop does to the items -/

theorem updateThing_same_id (w : World) (c : Cylinder) (t k i : Nat) :
    ((updateThing w c t (w.items t).id k).items i).id = (w.items i).id ∧
    ((updateThing w c t (w.items t).id k).items i).parent = (w.items i).parent := by
  unfold updateThing
  split_ifs
  · by_cases hi : i = t
    · subst hi
      simp
    · simp [Function.update_noteq hi]
  · exact ⟨rfl, rfl⟩

theorem plainAdd_items_of_ne (w : World) (c : Cylinder) (k : Int) (item i : Nat) (h : i ≠ item) :
    (plainAdd w c k item).items i = w.items i := by
  unfold plainAdd
  simp only [emitIf_items]
  unfold addThing
  simp [Function.update_noteq h]

theorem plainAdd_mem (w : World) (c d : Cylinder) (k : Int) (item i : Nat)
    (h : i ∈ w.contents d) : i ∈ (plainAdd w c k item).contents d := by
  unfold plainAdd
  simp only [emitIf_contents]
  unfold addThing
  by_cases hd : d = c
  · subst hd
    simp [h]
  · simp [Function.update_noteq hd, h]

/-- `Game::internalAddItem` keeps of every other item that exists the holder
and the sequences it is in, and the item itself when it is not of the type of
the added item. -/
theorem internalAddItem_keeps (env : Env) :
    ∀ (fuel : Nat) (w : World) (toCylinder : Option Cylinder) (it : Nat) (index : Int)
      (flags : Nat) (test : Bool) (ret : ReturnValue) (w1 : World) (rem : Nat),
      internalAddItem env fuel w toCylinder (some it) index flags test = some (ret, w1, rem) →
      w.nextItem ≤ w1.nextItem ∧
      ∀ i, i < w.nextItem → i ≠ it →
        (w1.items i).parent = (w.items i).parent ∧
        (∀ c, i ∈ w.contents c → i ∈ w1.contents c) ∧
        ((w.items i).id ≠ (w.items it).id → w1.items i = w.items i) := by
  intro fuel
  induction fuel using Nat.strong_induction_on with
  | _ fuel ih =>
    intro w toCylinder it index flags test ret w1 rem h
    unfold internalAddItem at h
    cases toCylinder with
    | none =>
      simp only [Option.some.injEq, Prod.mk.injEq] at h
      rw [← h.2.1]
      exact ⟨Nat.le_refl _, fun _ _ _ => ⟨rfl, fun _ hc => hc, fun _ => rfl⟩⟩
    | some d =>
      simp only [] at h
      have hrefl : ∀ (r : ReturnValue) (k : Nat), some (r, w, k) = some (ret, w1, rem) →
          w.nextItem ≤ w1.nextItem ∧ ∀ i, i < w.nextItem → i ≠ it →
            (w1.items i).parent = (w.items i).parent ∧
            (∀ c, i ∈ w.contents c → i ∈ w1.contents c) ∧
            ((w.items i).id ≠ (w.items it).id → w1.items i = w.items i) := by
        intro r k e
        simp only [Option.some.injEq, Prod.mk.injEq] at e
        rw [← e.2.1]
        exact ⟨Nat.le_refl _, fun _ _ _ => ⟨rfl, fun _ hc => hc, fun _ => rfl⟩⟩
      have hplain : ∀ (r : ReturnValue) (k : Nat) (c : Cylinder) (j : Int),
          some (r, plainAdd w c j it, k) = some (ret, w1, rem) →
          w.nextItem ≤ w1.nextItem ∧ ∀ i, i < w.nextItem → i ≠ it →
            (w1.items i).parent = (w.items i).parent ∧
            (∀ c, i ∈ w.contents c → i ∈ w1.contents c) ∧
            ((w.items i).id ≠ (w.items it).id → w1.items i = w.items i) := by
        intro r k c j e
        simp only [Option.some.injEq, Prod.mk.injEq] at e
        rw [← e.2.1]
        refine ⟨by rw [plainAdd_nextItem], fun i _ hi => ?_⟩
        rw [plainAdd_items_of_ne _ _ _ _ _ hi]
        exact ⟨rfl, fun _ hc => plainAdd_mem _ _ _ _ _ _ hc, fun _ => rfl⟩
      split_ifs at h with c1 c2 c3
      · exact hrefl _ _ h
      · exact hrefl _ _ h
      · exact hrefl _ _ h
      · split at h
        · rename_i t ht
          split_ifs at h with c4 c5 c6
          · -- the merge leaves a remainder: a clone is added
            have hidt : (w.items it).id = (w.items t).id := by
              have := c4.2
              simpa [Item.equals] using this
            cases fuel with
            | zero => cases h
            | succ f =>
              simp only [] at h
              split at h
              · cases h
              · rename_i ret3 w3 snd heq
                obtain ⟨k1, k2⟩ := ih f (Nat.lt_succ_self f) _ _ _ _ _ _ _ _ _ heq
                have hfin : w.nextItem ≤ w3.nextItem ∧ ∀ i, i < w.nextItem → i ≠ it →
                    (w3.items i).parent = (w.items i).parent ∧
                    (∀ c, i ∈ w.contents c → i ∈ w3.contents c) ∧
                    ((w.items i).id ≠ (w.items it).id → w3.items i = w.items i) := by
                  simp only [cloneWithCount, updateThing_nextItem] at k1 k2
                  refine ⟨by omega, fun i hi hne => ?_⟩
                  have hnx : i ≠ w.nextItem := Nat.ne_of_lt hi
                  obtain ⟨a1, a2, a3⟩ := k2 i (by omega) hnx
                  simp only [Function.update_noteq hnx, Function.update_same,
                    updateThing_contents] at a1 a2 a3
                  refine ⟨a1.trans (updateThing_same_id _ _ _ _ _).2, a2, fun hid => ?_⟩
                  have hit : i ≠ t := by
                    intro e
                    rw [e] at hid
                    exact hid hidt.symm
                  rw [a3 (by
                    rw [(updateThing_same_id _ _ _ _ _).1, (updateThing_same_id _ _ _ _ _).1]
                    exact hid)]
                  exact updateThing_items_of_ne _ _ _ _ _ _ hit
                split_ifs at h
                · simp only [Option.some.injEq, Prod.mk.injEq] at h
                  rw [← h.2.1]
                  exact hfin
                · simp only [Option.some.injEq, Prod.mk.injEq] at h
                  rw [← h.2.1]
                  exact hfin
          · -- the merge leaves a remainder that is the item itself
            have hidt : (w.items it).id = (w.items t).id := by
              have := c4.2
              simpa [Item.equals] using this
            simp only [Option.some.injEq, Prod.mk.injEq] at h
            rw [← h.2.1]
            refine ⟨by rw [plainAdd_nextItem, updateThing_nextItem], fun i _ hi => ?_⟩
            rw [plainAdd_items_of_ne _ _ _ _ _ hi]
            refine ⟨(updateThing_same_id _ _ _ _ _).2, fun c hc => plainAdd_mem _ _ _ _ _ _ (by
              rw [updateThing_contents]; exact hc), fun hid => ?_⟩
            exact updateThing_items_of_ne _ _ _ _ _ _ (by
              intro e
              rw [e] at hid
              exact hid hidt.symm)
          · -- the item is merged whole
            have hidt : (w.items it).id = (w.items t).id := by
              have := c4.2
              simpa [Item.equals] using this
            simp only [Option.some.injEq, Prod.mk.injEq] at h
            rw [← h.2.1]
            refine ⟨by simp [ReleaseItem, updateThing_nextItem], fun i _ hi => ?_⟩
            simp only [emitIf_items, emitIf_contents, ReleaseItem_items, ReleaseItem_contents,
              onRemoved_contents, updateThing_contents]
            rw [onRemoved_items_of_ne _ _ _ hi]
            refine ⟨(updateThing_same_id _ _ _ _ _).2, fun c hc => hc, fun hid => ?_⟩
            exact updateThing_items_of_ne _ _ _ _ _ _ (by
              intro e
              rw [e] at hid
              exact hid hidt.symm)
          · exact hplain _ _ _ _ h
        · exact hplain _ _ _ _ h

theorem AddKeeps_refl (P : Nat → Prop) (w : World) : AddKeeps P w w :=
  ⟨Nat.le_refl _, fun _ _ => ⟨rfl, fun _ hc => hc, fun _ => rfl⟩⟩

theorem AddKeeps.add_trans (P : Nat → Prop) (w w1 w2 : World) (h1 : AddKeeps P w w1)
    (h2 : AddKeeps P w1 w2) : AddKeeps P w w2 := by
  refine ⟨Nat.le_trans h1.1 h2.1, fun i hi => ?_⟩
  obtain ⟨a1, a2, a3⟩ := h1.2 i hi
  obtain ⟨b1, b2, b3⟩ := h2.2 i (Nat.lt_of_lt_of_le hi h1.1)
  refine ⟨b1.trans a1, fun c hc => b2 c (a2 c hc), fun hp => ?_⟩
  rw [b3 (by rw [a3 hp]; exact hp), a3 hp]

theorem AddKeeps.add_mono (P Q : Nat → Prop) (w w1 : World) (hpq : ∀ id, Q id → P id)
    (h : AddKeeps P w w1) : AddKeeps Q w w1 :=
  ⟨h.1, fun i hi => ⟨(h.2 i hi).1, (h.2 i hi).2.1, fun hq => (h.2 i hi).2.2 (hpq _ hq)⟩⟩

theorem internalAddItem_nothing (env : Env) (fuel : Nat) (w : World) (c : Option Cylinder)
    (k : Int) (f : Nat) :
    internalAddItem env fuel w c none k f false = some (.RETURNVALUE_NOTPOSSIBLE, w, 0) := by
  unfold internalAddItem
  cases c <;> rfl

/-- The statements of `Game::addMoney` for one stack keep of the items that
exist the holder and the sequences they are in, and the items that are not of
the type of the coin. -/
theorem addCoins_keeps (env : MoneyEnv) (fuel : Nat) (g g1 : Game) (cylinder : Cylinder)
    (coin : Coin) (count flags : Nat)
    (hty : ∀ type count r, env.CreateItem type count = some r → r.1.id = type)
    (h : addCoins env fuel g cylinder coin count flags = some g1) :
    AddKeeps (fun id => id ≠ env.coinId coin) g.world g1.world := by
  unfold addCoins at h
  cases hci : env.CreateItem (env.coinId coin) count with
  | none =>
    rw [hci] at h
    simp only [internalAddItem_nothing] at h
    rw [if_pos (by decide)] at h
    simp only [Option.some.injEq] at h
    rw [← h]
    exact AddKeeps_refl _ _
  | some r =>
    rw [hci] at h
    simp only [] at h
    have hid : r.1.id = env.coinId coin := hty _ _ r hci
    have key : ∀ (c : Option Cylinder) (k : Int) (f : Nat) (ret : ReturnValue) (w1 : World)
        (rem : Nat),
        internalAddItem env.toEnv fuel (g.allocate r).2.world c (some (g.allocate r).1) k f false
          = some (ret, w1, rem) →
        AddKeeps (fun id => id ≠ env.coinId coin) g.world w1 := by
      intro c k f ret w1 rem e
      obtain ⟨k1, k2⟩ := internalAddItem_keeps env.toEnv fuel _ c _ k f false ret w1 rem e
      simp only [Game.allocate] at k1 k2
      refine ⟨by omega, fun i hi => ?_⟩
      have hne : i ≠ g.world.nextItem := Nat.ne_of_lt hi
      obtain ⟨a1, a2, a3⟩ := k2 i (by omega) hne
      simp only [Function.update_noteq hne, Function.update_same] at a1 a2 a3
      exact ⟨a1, a2, fun hp => a3 (by rw [hid]; exact hp)⟩
    split at h
    · cases h
    · rename_i ret w1 rem heq
      split_ifs at h with hret
      · have hw : w1 = (g.allocate r).2.world :=
          internalAddItem_failed _ _ _ _ _ _ _ _ _ _ _ heq hret
        split at h
        · cases h
        · rename_i ret2 w2 rem2 heq2
          simp only [Option.some.injEq] at h
          rw [← h, withWorld_world]
          rw [hw] at heq2
          exact key _ _ _ _ _ _ heq2
      · simp only [Option.some.injEq] at h
        rw [← h, withWorld_world]
        exact key _ _ _ _ _ _ heq

theorem crystalStacks_keeps (env : MoneyEnv) (fuel : Nat) (cylinder : Cylinder) (flags : Nat)
    (hty : ∀ type count r, env.CreateItem type count = some r → r.1.id = type) :
    ∀ (steps crystalCoins : Nat) (g g1 : Game) (l : List (Coin × Nat)),
      crystalStacks env fuel cylinder flags steps crystalCoins g = some (g1, l) →
      (crystalCoins = 0 → g1 = g) ∧
      AddKeeps (fun id => id ≠ env.coinId .CRYSTAL) g.world g1.world := by
  intro steps
  induction steps with
  | zero =>
    intro crystalCoins g g1 l h
    cases crystalCoins with
    | zero =>
      unfold crystalStacks at h
      simp only [Option.some.injEq, Prod.mk.injEq] at h
      rw [← h.1]
      exact ⟨fun _ => rfl, AddKeeps_refl _ _⟩
    | succ c =>
      unfold crystalStacks at h
      cases h
  | succ n ih =>
    intro crystalCoins g g1 l h
    cases crystalCoins with
    | zero =>
      unfold crystalStacks at h
      simp only [Option.some.injEq, Prod.mk.injEq] at h
      rw [← h.1]
      exact ⟨fun _ => rfl, AddKeeps_refl _ _⟩
    | succ c =>
      unfold crystalStacks at h
      simp only [] at h
      split at h
      · cases h
      · rename_i g2 h2
        split at h
        · cases h
        · rename_i g3 coins h3
          simp only [Option.some.injEq, Prod.mk.injEq] at h
          rw [← h.1]
          exact ⟨fun e => by omega, AddKeeps.add_trans _ _ _ _
            (addCoins_keeps env fuel g g2 cylinder .CRYSTAL _ flags hty h2)
            (ih _ _ _ _ h3).2⟩

/-- `Game::addMoney` keeps of the items that exist the holder and the
sequences they are in, and the items that are not coins of a worth up to
`money`. -/
theorem addMoney_keeps (env : MoneyEnv) (fuel : Nat) (g g1 : Game) (cylinder : Cylinder)
    (money flags : Nat) (l : List (Coin × Nat))
    (hty : ∀ type count r, env.CreateItem type count = some r → r.1.id = type)
    (h : addMoney env fuel g cylinder money flags = some (g1, l)) :
    AddKeeps (fun id => ∀ coin : Coin, coin.worth ≤ money → id ≠ env.coinId coin)
      g.world g1.world := by
  unfold addMoney at h
  by_cases hm : money = 0
  · rw [if_pos hm] at h
    simp only [Option.some.injEq, Prod.mk.injEq] at h
    rw [← h.1]
    exact AddKeeps_refl _ _
  · rw [if_neg hm] at h
    simp only [] at h
    split at h
    · cases h
    · rename_i ga crystal hcr
      have hA : AddKeeps (fun id => ∀ coin : Coin, coin.worth ≤ money → id ≠ env.coinId coin)
          g.world ga.world := by
        obtain ⟨z1, z2⟩ := crystalStacks_keeps env fuel cylinder flags hty _ _ _ _ _ hcr
        by_cases hz : money / 10000 % 4294967296 = 0
        · rw [z1 hz]
          exact AddKeeps_refl _ _
        · exact AddKeeps.add_mono _ _ _ _ (fun id hq => hq .CRYSTAL (by
            simp only [Coin.worth]
            omega)) z2
      have hG : ∀ (gb gc : Game) (n : Nat), addCoins env fuel gb cylinder .GOLD n flags = some gc →
          AddKeeps (fun id => ∀ coin : Coin, coin.worth ≤ money → id ≠ env.coinId coin)
            gb.world gc.world := by
        intro gb gc n e
        exact AddKeeps.add_mono _ _ _ _ (fun id hq => hq .GOLD (by
          simp only [Coin.worth]
          omega)) (addCoins_keeps env fuel gb gc cylinder .GOLD n flags hty e)
      by_cases hp : (money - money / 10000 % 4294967296 * 10000 % 4294967296) / 100 % 65536 ≠ 0
      · rw [if_pos hp] at h
        split at h
        · cases h
        · rename_i gb money2 platinum hpl
          split at hpl
          · cases hpl
          · rename_i gb1 hb
            simp only [Option.some.injEq, Prod.mk.injEq] at hpl
            have hB : AddKeeps
                (fun id => ∀ coin : Coin, coin.worth ≤ money → id ≠ env.coinId coin)
                ga.world gb.world := by
              rw [← hpl.1]
              exact AddKeeps.add_mono _ _ _ _ (fun id hq => hq .PLATINUM (by
                simp only [Coin.worth]
                omega)) (addCoins_keeps env fuel ga gb1 cylinder .PLATINUM _ flags hty hb)
            split_ifs at h with hg
            · split at h
              · cases h
              · rename_i gc hc
                simp only [Option.some.injEq, Prod.mk.injEq] at h
                rw [← h.1]
                exact AddKeeps.add_trans _ _ _ _ (AddKeeps.add_trans _ _ _ _ hA hB)
                  (hG _ _ _ hc)
            · simp only [Option.some.injEq, Prod.mk.injEq] at h
              rw [← h.1]
              exact AddKeeps.add_trans _ _ _ _ hA hB
      · rw [if_neg hp] at h
        simp only [] at h
        split_ifs at h with hg
        · split at h
          · cases h
          · rename_i gc hc
            simp only [Option.some.injEq, Prod.mk.injEq] at h
            rw [← h.1]
            exact AddKeeps.add_trans _ _ _ _ hA (hG _ _ _ hc)
        · simp only [Option.some.injEq, Prod.mk.injEq] at h
          rw [← h.1]
          exact hA

theorem internalRemoveItem_keeps_detached (env : Env) (w : World) (item : Nat) (count : Int)
    (flags i : Nat) (h : (w.items i).parent = none) :
    ((internalRemoveItem env w item count false flags).2.items i).parent = none := by
  by_cases hi : i = item
  · subst hi
    unfold internalRemoveItem
    simp only [h]
  · rw [internalRemoveItem_items_of_ne _ _ _ _ _ _ _ hi]
    exact h

theorem internalRemoveItem_mem_of_ne (env : Env) (w : World) (item : Nat) (count : Int)
    (flags i : Nat) (c : Cylinder) (hi : i ≠ item) (h : i ∈ w.contents c) :
    i ∈ (internalRemoveItem env w item count false flags).2.contents c := by
  unfold internalRemoveItem
  split
  · exact h
  · simp only [if_true]
    split_ifs <;>
      first
      | exact h
      | (simp only [onRemoved_contents, emit_contents, releaseIfRemoved_contents]
         exact removeThing_mem_of_ne _ _ _ _ _ _ hi h)

/-- What `Game::internalRemoveItem` does to an item that its holder holds and
lets go: a part of a stackable item is taken off its count, anything else is
detached. -/
theorem internalRemoveItem_takes (env : Env) (w : World) (item : Nat) (count : Int)
    (flags n : Nat) (c : Cylinder) (hp : (w.items item).parent = some c)
    (hin : item ∈ w.contents c)
    (hn : toUInt32 (if count = -1 then ((w.items item).count : Int) else count) = n)
    (hq : env.queryRemove w c item n (flags ||| env.FLAG_IGNORENOTMOVEABLE)
      = .RETURNVALUE_NOERROR)
    (hr : (w.items item).removable = true) :
    if (w.items item).stackable = true ∧ n ≠ (w.items item).count then
      ((internalRemoveItem env w item count false flags).2.items item).count
        = (w.items item).count - n ∧
      ((internalRemoveItem env w item count false flags).2.items item).parent = some c
    else ((internalRemoveItem env w item count false flags).2.items item).parent = none := by
  have e : (internalRemoveItem env w item count false flags).2
      = onRemoved (emit (releaseIfRemoved (removeThing w c item n) item)
          (.postRemoveNotification c item none (getThingIndex w c item))) item := by
    unfold internalRemoveItem
    simp only [hp, hn, hq, hr, if_true, ne_eq, not_true_eq_false, if_false]
    simp
  rw [e]
  have hc := onRemoved_count_id
    (emit (releaseIfRemoved (removeThing w c item n) item)
      (.postRemoveNotification c item none (getThingIndex w c item))) item item
  rw [onRemoved_parent, hc.1]
  simp only [emit_items, releaseIfRemoved_items]
  unfold removeThing
  rw [if_pos hin]
  split_ifs with hs
  · simp [hp]
  · simp

theorem coinId_ne (env : MoneyEnv) (h : env.CoinsTyped) (a b : Coin) (hab : a ≠ b) :
    env.coinId a ≠ env.coinId b := by
  obtain ⟨_, h1, h2, h3⟩ := h
  cases a <;> cases b <;> simp only [MoneyEnv.coinId] <;>
    first
    | exact absurd rfl hab
    | exact h1
    | exact h2
    | exact h3
    | exact fun e => h1 e.symm
    | exact fun e => h2 e.symm
    | exact fun e => h3 e.symm

theorem Payment.done_congr (w v w1 : World) (p : Payment)
    (h : v.items p.item = w.items p.item) (hd : p.Done v w1) : p.Done w w1 := by
  cases p with
  | whole item worth => exact hd
  | units item unit removeCount change =>
    simp only [Payment.item] at h
    simp only [Payment.Done] at hd ⊢
    rw [← h]
    exact hd

/-- An item that has no holder has none after the loop of `Game::removeMoney`
over the map. -/
theorem payLoop_detached (env : MoneyEnv) (fuel : Nat) (cylinder : Cylinder) (flags : Nat)
    (hty : ∀ type count r, env.CreateItem type count = some r → r.1.id = type) :
    ∀ (entries : List (Nat × Nat)) (money : Nat) (g g1 : Game) (taken : List Payment),
      payLoop env fuel cylinder flags entries money g = some (g1, taken) →
      ∀ i, i < g.world.nextItem → (g.world.items i).parent = none →
        (g1.world.items i).parent = none := by
  intro entries
  induction entries with
  | nil =>
    intro money g g1 taken h i _ hp
    unfold payLoop at h
    simp only [Option.some.injEq, Prod.mk.injEq] at h
    rw [← h.1]
    exact hp
  | cons e rest ih =>
    intro money g g1 taken h i hi hp
    obtain ⟨first, item⟩ := e
    unfold payLoop at h
    split_ifs at h with c1 c2 c3
    · simp only [] at h
      split at h
      · cases h
      · rename_i g2 taken2 h2
        simp only [Option.some.injEq, Prod.mk.injEq] at h
        rw [← h.1]
        exact ih _ _ _ _ h2 i (by rw [withWorld_world, internalRemoveItem_nextItem]; exact hi)
          (by
            rw [withWorld_world]
            exact internalRemoveItem_keeps_detached _ _ _ _ _ _ hp)
    · simp only [] at h
      split_ifs at h
      split at h
      · cases h
      · rename_i ga change ha
        simp only [Option.some.injEq, Prod.mk.injEq] at h
        rw [← h.1, withWorld_world]
        refine internalRemoveItem_keeps_detached _ _ _ _ _ _ ?_
        rw [((addMoney_keeps env fuel g ga cylinder _ flags change hty ha).2 i hi).1]
        exact hp
    · simp only [Option.some.injEq, Prod.mk.injEq] at h
      rw [← h.1, withWorld_world]
      exact internalRemoveItem_keeps_detached _ _ _ _ _ _ hp

theorem removeWhole_detaches (env : MoneyEnv) (g : Game) (entries : List (Nat × Nat))
    (first item : Nat) (hmem : (first, item) ∈ entries)
    (hent : ∀ e ∈ entries, e.1 = getWorth env g.world e.2 ∧ e.1 ≠ 0)
    (hcount : ∀ i, (g.world.items i).count < 65536)
    (hheld : MoneyHeld g.world entries) (hgr : env.GrantsRemoval g.world entries) :
    ((internalRemoveItem env.toEnv g.world item (-1) false 0).2.items item).parent = none := by
  have hhead := hent _ hmem
  obtain ⟨_, c, hp, hin⟩ := hheld.2 _ hmem
  obtain ⟨hr, hq⟩ := hgr _ hmem
  simp only [] at hhead hp hin hr hq
  obtain ⟨coin, _, hwc⟩ := getWorth_cases env g.world item (hcount item)
    (by rw [← hhead.1]; exact hhead.2)
  have hpos : 1 ≤ (g.world.items item).count := by
    rcases Nat.eq_zero_or_pos (g.world.items item).count with e | e
    · rw [e, Nat.mul_zero] at hwc
      exact absurd (hhead.1.trans hwc) hhead.2
    · exact e
  have hn : toUInt32 (if (-1 : Int) = -1 then ((g.world.items item).count : Int) else -1)
      = (g.world.items item).count := by
    rw [if_pos rfl]
    exact toUInt32_natCast _ (Nat.lt_trans (hcount item) (by decide))
  have ht := internalRemoveItem_takes env.toEnv g.world item (-1) 0 (g.world.items item).count c
    hp hin hn (hq g.world c _ _ hin hpos (Nat.le_refl _)) hr
  rw [if_neg (fun hx => hx.2 rfl)] at ht
  exact ht

/-- The loop of `Game::removeMoney` does to the items what its turns ask for,
when the holders hold the stacks of the map and let them go: the turns are on
stacks of the map, in the order of the map, and each has detached its stack or
taken the units off its count. -/
theorem payLoop_done (env : MoneyEnv) (fuel : Nat) (cylinder : Cylinder) (flags : Nat)
    (hcoins : env.CoinsTyped) :
    ∀ (entries : List (Nat × Nat)) (money : Nat) (g g1 : Game) (taken : List Payment),
      payLoop env fuel cylinder flags entries money g = some (g1, taken) →
      0 < money →
      (∀ e ∈ entries, e.1 = getWorth env g.world e.2 ∧ e.1 ≠ 0) →
      (∀ i, (g.world.items i).count < 65536) →
      MoneyHeld g.world entries → env.GrantsRemoval g.world entries →
      List.Sublist (taken.map Payment.item) (entries.map Prod.snd) ∧
      ∀ p ∈ taken, p.Done g.world g1.world := by
  intro entries
  induction entries with
  | nil =>
    intro money g g1 taken h _ _ _ _ _
    unfold payLoop at h
    simp only [Option.some.injEq, Prod.mk.injEq] at h
    rw [← h.2]
    exact ⟨List.Sublist.refl _, fun p hp => by cases hp⟩
  | cons e rest ih =>
    intro money g g1 taken h h0 hent hcount hheld hgr
    obtain ⟨first, item⟩ := e
    have hmem : (first, item) ∈ (first, item) :: rest := List.mem_cons_self _ _
    have hwhole := removeWhole_detaches env g _ first item hmem hent hcount hheld hgr
    have hhead := hent _ hmem
    obtain ⟨hlt, c, hp, hin⟩ := hheld.2 _ hmem
    obtain ⟨hr, hq⟩ := hgr _ hmem
    simp only [] at hhead hlt hp hin hr hq
    have hnd : item ∉ rest.map Prod.snd ∧ (rest.map Prod.snd).Nodup := by
      have := hheld.1
      simp only [List.map_cons, List.nodup_cons] at this
      exact this
    unfold payLoop at h
    split_ifs at h with c1 c2 c3
    · simp only [] at h
      split at h
      · cases h
      · rename_i g2 taken2 h2
        simp only [Option.some.injEq, Prod.mk.injEq] at h
        have hkeep := internalRemoveItem_whole_keeps env.toEnv g.world item 0
        have hc1 : (g.world.items item).count < 4294967296 :=
          Nat.lt_trans (hcount item) (by decide)
        have hother : ∀ e ∈ rest, e.2 ≠ item := by
          intro e he e1
          exact hnd.1 (by rw [← e1]; exact List.mem_map_of_mem _ he)
        have hrec := ih (money - first)
          (g.withWorld (internalRemoveItem env.toEnv g.world item (-1) false 0).2) g2 taken2 h2
          (by omega)
          (fun e he => by
            rw [withWorld_world, getWorth_congr env g.world _ e.2 (hkeep _ hc1).2 (hkeep _ hc1).1]
            exact hent e (List.mem_cons_of_mem _ he))
          (fun i => by
            rw [withWorld_world, (hkeep i hc1).1]
            exact hcount i)
          ⟨hnd.2, fun e he => by
            obtain ⟨b1, d, b2, b3⟩ := hheld.2 e (List.mem_cons_of_mem _ he)
            rw [withWorld_world, internalRemoveItem_nextItem,
              internalRemoveItem_items_of_ne _ _ _ _ _ _ _ (hother e he)]
            exact ⟨b1, d, b2, internalRemoveItem_mem_of_ne _ _ _ _ _ _ _ (hother e he) b3⟩⟩
          (fun e he => by
            rw [withWorld_world, internalRemoveItem_items_of_ne _ _ _ _ _ _ _ (hother e he)]
            exact hgr e (List.mem_cons_of_mem _ he))
        rw [← h.2, ← h.1]
        refine ⟨by
          simp only [List.map_cons, Payment.item]
          exact List.Sublist.cons₂ _ hrec.1, ?_⟩
        intro p hpm
        rcases List.mem_cons.mp hpm with e1 | e1
        · rw [e1]
          exact payLoop_detached env fuel cylinder flags hcoins.1 rest _ _ g2 taken2 h2 item
            (by rw [withWorld_world, internalRemoveItem_nextItem]; exact hlt)
            (by rw [withWorld_world]; exact hwhole)
        · have d1 : p.item ∈ rest.map Prod.snd :=
            hrec.1.subset (List.mem_map_of_mem _ e1)
          refine Payment.done_congr g.world _ g2.world p ?_ (hrec.2 p e1)
          rw [withWorld_world]
          exact internalRemoveItem_items_of_ne _ _ _ _ _ _ _ (by
            intro e2
            rw [e2] at d1
            exact hnd.1 d1)
    · obtain ⟨coin, hcid, hwc⟩ := getWorth_cases env g.world item (hcount item)
        (by rw [← hhead.1]; exact hhead.2)
      have hf : first = coin.worth * (g.world.items item).count := hhead.1.trans hwc
      obtain ⟨a1, a2, a3, a4, a5, a6⟩ := change_arith coin.worth (g.world.items item).count
        money coin.worth_cases (hcount item) h0 (by rw [← hf]; exact c2)
      have hcw : coin.worth ≠ 0 := by
        rcases coin.worth_cases with e | e | e <;> rw [e] <;> decide
      simp only [] at h
      rw [hf, a2, if_neg hcw] at h
      split at h
      · cases h
      · rename_i ga change ha
        simp only [Option.some.injEq, Prod.mk.injEq] at h
        obtain ⟨_, hk⟩ := addMoney_keeps env fuel g ga cylinder _ flags change hcoins.1 ha
        obtain ⟨_, k2, k3⟩ := hk item hlt
        have hsame : ga.world.items item = g.world.items item := by
          refine k3 ?_
          intro coin1 hle
          rw [hcid]
          refine coinId_ne env hcoins coin coin1 ?_
          intro e
          rw [← e] at hle
          omega
        have hrc : (money + coin.worth - 1) / coin.worth % 4294967296 < 2147483648 := by
          have := hcount item
          omega
        have hn : toUInt32 (if toInt32 ((money + coin.worth - 1) / coin.worth % 4294967296) = -1
            then ((ga.world.items item).count : Int)
            else toInt32 ((money + coin.worth - 1) / coin.worth % 4294967296))
            = (money + coin.worth - 1) / coin.worth % 4294967296 := by
          rw [toInt32_of_lt _ hrc, if_neg (by omega)]
          exact toUInt32_natCast _ (by omega)
        have ht := internalRemoveItem_takes env.toEnv ga.world item
          (toInt32 ((money + coin.worth - 1) / coin.worth % 4294967296)) 0
          ((money + coin.worth - 1) / coin.worth % 4294967296) c
          (by rw [hsame]; exact hp) (k2 c hin) hn
          (hq ga.world c _ _ (k2 c hin) a3 (by rw [hsame]; exact a4))
          (by rw [hsame]; exact hr)
        rw [← h.2, ← h.1]
        refine ⟨by
          simp only [List.map_cons, List.map_nil, Payment.item]
          exact List.Sublist.cons₂ _ (List.nil_sublist _), ?_⟩
        intro p hpm
        rw [List.mem_singleton.mp hpm]
        simp only [Payment.Done, withWorld_world]
        rw [hsame] at ht
        rw [hp]
        exact ht
    · simp only [Option.some.injEq, Prod.mk.injEq] at h
      rw [← h.2, ← h.1]
      refine ⟨by
        simp only [List.map_cons, List.map_nil, Payment.item]
        exact List.Sublist.cons₂ _ (List.nil_sublist _), ?_⟩
      intro p hpm
      rw [List.mem_singleton.mp hpm]
      simp only [Payment.Done, withWorld_world]
      exact hwhole

/-- Claim C27, amended. Let the scan of `Game::removeMoney` over the holder
come to its end with a map that is worth `W` in all, below 2^64, in a world
whose counts are of 16 bits, and let `money` be positive. Let the stacks of
the map be held by their holders, each entered once, and let the holders let
them go (`queryRemove` grants every count from one to the count of the stack,
`Item::canRemove` is true). Every entry of the map is a stack of coins at the
worth of the coin times its count. If `W < money` the call returns false and
changes nothing. If `W >= money` the call returns true; its turns are on
different stacks of the map; a stack that a turn takes whole is detached from
its holder in the state that the call leaves, and a stack that a turn takes
units of has `removeCount` units less there, or is detached when those are all
its units; what the turns take is `money` plus what `addMoney` hands back; the
loop ends in a branch with `break`, and a turn that takes units takes at least
one and at most the count of the stack. -/
theorem removeMoney_pays_exactly (env : MoneyEnv) (fuel : Nat) (g : Game) (cylinder : Cylinder)
    (money flags : Nat) (s : MoneyScan)
    (hfuel : env.CreatesWithin fuel) (hcoins : env.CoinsTyped) (hmoney : 0 < money)
    (hcount : ∀ i, (g.world.items i).count < 65536)
    (hscan : scanContainers env g.world fuel 0
      ((g.world.contents cylinder).foldl (scanItem env g.world) ⟨[], [], 0⟩) = some s)
    (hW : mapWorth s.moneyMap < 18446744073709551616)
    (hheld : MoneyHeld g.world s.moneyMap)
    (hgrant : env.GrantsRemoval g.world s.moneyMap) :
    (∀ e ∈ s.moneyMap, ∃ coin : Coin, (g.world.items e.2).id = env.coinId coin ∧
      e.1 = coin.worth * (g.world.items e.2).count) ∧
    (mapWorth s.moneyMap < money →
      removeMoney env fuel g (some cylinder) money flags = some (false, g, [])) ∧
    (money ≤ mapWorth s.moneyMap →
      ∃ g1 taken, removeMoney env fuel g (some cylinder) money flags = some (true, g1, taken) ∧
        (taken.map Payment.paid).sum = money + (taken.map Payment.change).sum ∧
        taken ≠ [] ∧ (taken.map Payment.item).Nodup ∧
        ∀ p ∈ taken, p.Sound g.world s.moneyMap ∧ p.Done g.world g1.world) := by
  have hok := scan_ok env g.world fuel cylinder s hscan
  have hcnt : s.moneyCount = mapWorth s.moneyMap := by
    rw [hok.1]
    exact Nat.mod_eq_of_lt hW
  have hm : money ≠ 0 := Nat.pos_iff_ne_zero.mp hmoney
  refine ⟨?_, ?_, ?_⟩
  · intro e he
    obtain ⟨coin, h1, h2⟩ := getWorth_cases env g.world e.2 (hcount _)
      (by rw [← (hok.2 e he).1]; exact (hok.2 e he).2)
    exact ⟨coin, h1, (hok.2 e he).1.trans h2⟩
  · intro hlt
    unfold removeMoney
    simp only [if_neg hm, hscan]
    rw [if_pos (by rw [hcnt]; exact hlt)]
  · intro hle
    obtain ⟨g1, taken, h1, h2, h3, h4⟩ := payLoop_spec env fuel cylinder flags hfuel s.moneyMap
      money g hmoney hle hok.2 hcount
    obtain ⟨d1, d2⟩ := payLoop_done env fuel cylinder flags hcoins s.moneyMap money g g1 taken h1
      hmoney hok.2 hcount hheld hgrant
    unfold removeMoney
    simp only [if_neg hm, hscan]
    rw [if_neg (by rw [hcnt]; omega), h1]
    exact ⟨g1, taken, rfl, h2, h3, d1.nodup hheld.1, fun p hp => ⟨h4 p hp, d2 p hp⟩⟩

theorem purseGame_counts : ∀ i, (purseGame.world.items i).count < 65536 := by
  intro i
  show (if i = 1 then (⟨2152, 3, true, some (.player 1), 1, .plain, true⟩ : Item)
    else if i = 2 then ⟨1987, 1, false, some (.player 1), 1, .plain, true⟩
    else if i = 3 then ⟨2148, 50, true, some (.container 2), 1, .plain, true⟩
    else blankItem).count < 65536
  split_ifs <;> decide

theorem moneyEnv_typed : moneyEnv.CoinsTyped := by
  refine ⟨?_, by decide, by decide, by decide⟩
  intro type count r h
  have e : r = (⟨type, count, true, none, 1, .plain, true⟩, 0, .DECAYING_FALSE) :=
    (Option.some.inj h).symm
  rw [e]

theorem purseGame_held : MoneyHeld purseGame.world [(50, 3), (300, 1)] := by
  refine ⟨by decide, ?_⟩
  intro e he
  simp only [List.mem_cons, List.mem_singleton, List.not_mem_nil, or_false] at he
  rcases he with e1 | e1
  · rw [e1]
    exact ⟨by decide, .container 2, by decide, by decide⟩
  · rw [e1]
    exact ⟨by decide, .player 1, by decide, by decide⟩

theorem moneyEnv_grants : moneyEnv.GrantsRemoval purseGame.world [(50, 3), (300, 1)] := by
  intro e he
  simp only [List.mem_cons, List.mem_singleton, List.not_mem_nil, or_false] at he
  rcases he with e1 | e1
  · rw [e1]
    exact ⟨by decide, fun _ _ _ _ _ _ _ => rfl⟩
  · rw [e1]
    exact ⟨by decide, fun _ _ _ _ _ _ _ => rfl⟩

/-- Counterexample to C27 as stated. No holder of `lockedEnv` lets an item go.
Player 1 of `purseGame` holds 3 platinum coins and a bag with 50 gold coins,
350 in all, and is asked for 120: `Game::removeMoney` returns true and its
turns are the 50 gold coins and one platinum coin, against 30 gold coins of
change; but both calls of `internalRemoveItem` are refused and their results
are not read (lines 1398-1413), so the gold coins stay in the bag and the
three platinum coins with the player, while `addMoney` has put the change
(item 4) into the hands of the player: nothing is removed, and the money of
the player is worth 380 afterwards. -/
theorem removeMoney_ignores_refusal :
    (scanContainers lockedEnv purseGame.world 65535 0
        ((purseGame.world.contents (.player 1)).foldl (scanItem lockedEnv purseGame.world)
          ⟨[], [], 0⟩)).map MoneyScan.moneyCount = some 350 ∧
    (removeMoney lockedEnv 65535 purseGame (some (.player 1)) 120 0).map
        (fun r => (r.1, r.2.2))
      = some (true, [.whole 3 50, .units 1 100 1 [(Coin.GOLD, 30)]]) ∧
    (removeMoney lockedEnv 65535 purseGame (some (.player 1)) 120 0).map
        (fun r => ((r.2.1.world.items 3).parent, (r.2.1.world.items 3).count,
          (r.2.1.world.items 1).parent, (r.2.1.world.items 1).count))
      = some (some (.container 2), 50, some (.player 1), 3) ∧
    (removeMoney lockedEnv 65535 purseGame (some (.player 1)) 120 0).map
        (fun r => (r.2.1.world.contents (.container 2), r.2.1.world.contents (.player 1),
          (r.2.1.world.items 4).id, (r.2.1.world.items 4).count))
      = some ([3], [4, 1, 2], 2148, 30) ∧
    (removeMoney lockedEnv 65535 purseGame (some (.player 1)) 120 0).bind
        (fun r => (scanContainers lockedEnv r.2.1.world 65535 0
          ((r.2.1.world.contents (.player 1)).foldl (scanItem lockedEnv r.2.1.world)
            ⟨[], [], 0⟩)).map MoneyScan.moneyCount)
      = some 380 := by
  refine ⟨by decide, by decide, by decide, by decide, by decide⟩

/-- Witness of C27: player 1 of `purseGame`, who holds 3 platinum coins and a
bag with 50 gold coins, pays 120. -/
theorem removeMoney_pays_exactly_witness :
    (∀ e ∈ [((50 : Nat), (3 : Nat)), (300, 1)], ∃ coin : Coin,
      (purseGame.world.items e.2).id = moneyEnv.coinId coin ∧
      e.1 = coin.worth * (purseGame.world.items e.2).count) ∧
    (mapWorth [((50 : Nat), (3 : Nat)), (300, 1)] < 120 →
      removeMoney moneyEnv 65535 purseGame (some (.player 1)) 120 0
        = some (false, purseGame, [])) ∧
    (120 ≤ mapWorth [((50 : Nat), (3 : Nat)), (300, 1)] →
      ∃ g1 taken, removeMoney moneyEnv 65535 purseGame (some (.player 1)) 120 0
          = some (true, g1, taken) ∧
        (taken.map Payment.paid).sum = 120 + (taken.map Payment.change).sum ∧
        taken ≠ [] ∧ (taken.map Payment.item).Nodup ∧
        ∀ p ∈ taken, p.Sound purseGame.world [(50, 3), (300, 1)] ∧
          p.Done purseGame.world g1.world) :=
  removeMoney_pays_exactly moneyEnv 65535 purseGame (.player 1) 120 0
    ⟨[2], [(50, 3), (300, 1)], 350⟩ moneyEnv_creates moneyEnv_typed (by decide) purseGame_counts
    (by decide) (by decide) purseGame_held moneyEnv_grants

/-- The payment of C27, evaluated: of the 350 that player 1 holds, 120 are
paid with the 50 gold coins of the bag and one of the three platinum coins,
and 30 gold coins come back as a new stack (item 4) in the hands of the
player: the gold coins have left the bag and have no holder, the platinum
coins are two, and the money of the player is worth 230 afterwards; 400 cannot
be paid. -/
theorem remove_money_example :
    (removeMoney moneyEnv 65535 purseGame (some (.player 1)) 120 0).map
        (fun r => (r.1, r.2.2))
      = some (true, [.whole 3 50, .units 1 100 1 [(Coin.GOLD, 30)]]) ∧
    (removeMoney moneyEnv 65535 purseGame (some (.player 1)) 120 0).map
        (fun r => (r.2.1.world.contents (.player 1), r.2.1.world.contents (.container 2),
          (r.2.1.world.items 1).count, (r.2.1.world.items 4).id, (r.2.1.world.items 4).count,
          r.2.1.world.ToReleaseItems))
      = some ([4, 1, 2], [], 2, 2148, 30, [3]) ∧
    (removeMoney moneyEnv 65535 purseGame (some (.player 1)) 120 0).map
        (fun r => ((r.2.1.world.items 3).parent, (r.2.1.world.items 1).parent))
      = some (none, some (.player 1)) ∧
    (removeMoney moneyEnv 65535 purseGame (some (.player 1)) 120 0).bind
        (fun r => (scanContainers moneyEnv r.2.1.world 65535 0
          ((r.2.1.world.contents (.player 1)).foldl (scanItem moneyEnv r.2.1.world)
            ⟨[], [], 0⟩)).map MoneyScan.moneyCount)
      = some 230 ∧
    (removeMoney moneyEnv 65535 purseGame (some (.player 1)) 400 0).map
        (fun r => (r.1, r.2.2, r.2.1.world.contents (.player 1),
          r.2.1.world.contents (.container 2)))
      = some (false, [], [1, 2], [3]) := by
  refine ⟨by decide, by decide, by decide, by decide, by decide⟩

end TibiaCore
